import Mathlib

/-!
# InputEventsTouchUI: the gesture engine `EventTouchScreen` and its companions

A shallow embedding of `src/src/EventTouchScreen.{h,cpp}` and of the
structs it uses, of `src/src/ui/Region.h`, of the container functions of
`src/src/ui/WidgetContainer.h` and `src/src/ui/WidgetRowContainer.h`, of
`src/src/ScreenManager/EventScreenManager.h` and of
`src/src/TouchKeypad/BaseTouchKeypadWidget.h`, followed by the properties
proved about them.

Conventions of the embedding

* Machine integers are natural numbers; every store into a `uint8_t`,
  `uint16_t` or `uint32_t` location is reduced with `u8`, `u16`, `u32`.
  `int` is taken to be 32 bits wide (ESP32 / ARM targets), so that the
  operands of `uint16_t` arithmetic are promoted to `int`.
* `millis()` is read once per call of `update()`: the parameter `now`.
* The touch adapter is the parameter `tp` of `update`: the sample that
  `touchAdapter->getTouchPoint()` returns if it is polled during the call.
  Whether it was polled is reported in the result.
* `invoke(et)` appends `et` to the list of events of the call, together
  with the engine state the subscriber can observe at that moment: a
  subscriber is set and `isInvokable(et)` of the base class holds.  The
  subscriber itself does not modify the engine.
* `resetIdleTimer()` and `EventInputBase::update()` belong to the base
  class of the InputEvents library (idle-timer bookkeeping, which emits
  none of the gesture events); they have no counterpart here.
* A division whose divisor is not a nonzero constant goes through `idiv`,
  which has no value for a zero divisor; a function that contains one
  returns an `Option`.
* A pointer is the address of the object it points to; a pointer that may
  be `nullptr` is an `Option` (in `WidgetContainer`, where the stored
  pointers are never followed, the address 0).  `std::string` is `String`.
* The calls that the screen manager makes on screens and routers are
  recorded in order (`EventScreenManager.calls`); a router answers as a
  function of the current id and the intent.
* The widgets of a row container are objects outside it: a function from
  addresses to regions stands for them.
* The nested loops of the keypad run on `uint8_t` counters against
  `size_t` bounds; they are modelled step by step (`gridLoop`), a run
  being cut after a given number of tests of a loop condition.  The keys
  passed to `drawKey` and `onTouchKeyEvent` are recorded in order; these
  two virtual functions do not modify the keypad.
-/

namespace input_events

/-! ## Machine integers -/

/-- Truncation to `uint8_t`. -/
def u8 (n : Nat) : Nat := n % 256

/-- Truncation to `uint16_t`. -/
def u16 (n : Nat) : Nat := n % 65536

/-- Truncation to `uint32_t`. -/
def u32 (n : Nat) : Nat := n % 4294967296

/-- Unsigned 32-bit subtraction `a - b` of two `uint32_t` values. -/
def sub32 (a b : Nat) : Nat := u32 (a + 4294967296 - b)

/-- The function `abs` applied to the `int` difference of two `uint16_t`
values (`abs(a - b)` after integer promotion). -/
def absDiff (a b : Nat) : Nat := if a ≥ b then a - b else b - a

/-! ## Data model -/

/-- The event kinds of `InputEventType` that `EventTouchScreen` invokes. -/
inductive InputEventType where
  | PRESSED
  | RELEASED
  | CLICKED
  | DOUBLE_CLICKED
  | MULTI_CLICKED
  | LONG_CLICKED
  | LONG_PRESS
  | DRAGGED
  | DRAGGED_RELEASED
  | DISABLED
  deriving DecidableEq, Repr

/-- The struct `TouchPoint_s` (`Coords_s` plus `z`); all three are
`uint16_t`, `z == 0` means not touched. -/
structure TouchPoint_s where
  x : Nat := 0
  y : Nat := 0
  z : Nat := 0
  deriving DecidableEq, Repr

/-- The data members of `EventTouchScreen` (with `_enabled` of its base
class), with the initial values of the header. -/
structure EventTouchScreen where
  enabled : Bool := true
  previousBounceState : Bool := false
  lastBounceCheck : Nat := 0
  bounceInterval : Nat := 15
  touched : Bool := false
  clickCounter : Nat := 0
  prevClickCount : Nat := 0
  clickFired : Bool := true
  dragging : Bool := false
  lastDragMs : Nat := 0
  lastStateChange : Nat := 0
  duration : Nat := 0
  prevDuration : Nat := 0
  touchPoint : TouchPoint_s := {}
  startTouchPoint : TouchPoint_s := {}
  previousTouchPoint : TouchPoint_s := {}
  lastTouchedPoint : TouchPoint_s := {}
  multiClickInterval : Nat := 300
  longClickDuration : Nat := 750
  repeatLongPress : Bool := true
  longPressInterval : Nat := 500
  longPressCounter : Nat := 0
  rateLimit : Nat := 10
  rateLimitCounter : Nat := 0
  dragEnabled : Bool := false
  dragThresholdPx : Nat := 20
  dragIntervalPx : Nat := 10
  dragThresholdMs : Nat := 200
  dragIntervalMs : Nat := 100
  postDragRateLimit : Nat := 500
  deriving DecidableEq, Repr

/-- The configuration members of the engine (what the setters and
`enable` store); `update()` never assigns them. -/
structure Config where
  enabled : Bool
  bounceInterval : Nat
  multiClickInterval : Nat
  longClickDuration : Nat
  repeatLongPress : Bool
  longPressInterval : Nat
  rateLimit : Nat
  dragEnabled : Bool
  dragThresholdPx : Nat
  dragIntervalPx : Nat
  dragThresholdMs : Nat
  dragIntervalMs : Nat
  postDragRateLimit : Nat
  deriving DecidableEq, Repr

/-- The configuration part of an engine state. -/
def EventTouchScreen.config (s : EventTouchScreen) : Config :=
  { enabled := s.enabled
    bounceInterval := s.bounceInterval
    multiClickInterval := s.multiClickInterval
    longClickDuration := s.longClickDuration
    repeatLongPress := s.repeatLongPress
    longPressInterval := s.longPressInterval
    rateLimit := s.rateLimit
    dragEnabled := s.dragEnabled
    dragThresholdPx := s.dragThresholdPx
    dragIntervalPx := s.dragIntervalPx
    dragThresholdMs := s.dragThresholdMs
    dragIntervalMs := s.dragIntervalMs
    postDragRateLimit := s.postDragRateLimit }

/-- A freshly constructed engine. -/
def fresh : EventTouchScreen := {}

/-- Every member holds a value of its C++ type. -/
structure WF (s : EventTouchScreen) : Prop where
  lastBounceCheck : s.lastBounceCheck < 4294967296
  bounceInterval : s.bounceInterval < 65536
  clickCounter : s.clickCounter < 256
  prevClickCount : s.prevClickCount < 256
  lastDragMs : s.lastDragMs < 4294967296
  lastStateChange : s.lastStateChange < 4294967296
  prevDuration : s.prevDuration < 65536
  multiClickInterval : s.multiClickInterval < 65536
  longClickDuration : s.longClickDuration < 65536
  longPressInterval : s.longPressInterval < 65536
  longPressCounter : s.longPressCounter < 65536
  rateLimit : s.rateLimit < 65536
  rateLimitCounter : s.rateLimitCounter < 4294967296
  dragThresholdPx : s.dragThresholdPx < 65536
  dragIntervalPx : s.dragIntervalPx < 65536
  dragThresholdMs : s.dragThresholdMs < 65536
  dragIntervalMs : s.dragIntervalMs < 65536
  postDragRateLimit : s.postDragRateLimit < 65536

/-- A touch point whose three members are `uint16_t` values. -/
def TouchPoint_s.WF (p : TouchPoint_s) : Prop :=
  p.x < 65536 ∧ p.y < 65536 ∧ p.z < 65536

/-! ## The member functions -/

/-- The result of a call that may invoke the subscriber: the engine after
the call, the events passed to `invoke` in order, and for each of them the
engine as it was when `invoke` was called. -/
structure Step where
  st : EventTouchScreen
  events : List InputEventType := []
  seen : List EventTouchScreen := []
  deriving DecidableEq

/-- The result of `update()`: a `Step`, whether the touch adapter was
polled, and whether `debounced()` reported a stable sample. -/
structure UpdateResult where
  st : EventTouchScreen
  events : List InputEventType := []
  seen : List EventTouchScreen := []
  polled : Bool := false
  stable : Bool := false
  deriving DecidableEq

/-- The call `invoke(et)` in state `s`. -/
def invoke (s : EventTouchScreen) (et : InputEventType) : Step :=
  { st := s, events := [et], seen := [s] }

/-- The member function `EventTouchScreen::currentDuration`: `millis() -
lastStateChange` returned as `uint16_t`. -/
def currentDuration (s : EventTouchScreen) (now : Nat) : Nat :=
  u16 (sub32 now s.lastStateChange)

/-- The member function `EventTouchScreen::previousDuration`. -/
def previousDuration (s : EventTouchScreen) : Nat := s.prevDuration

/-- The member function `EventTouchScreen::clickCount`. -/
def clickCount (s : EventTouchScreen) : Nat := s.prevClickCount

/-- The member function `EventTouchScreen::longPressCount` (returned as
`uint8_t`). -/
def longPressCount (s : EventTouchScreen) : Nat := u8 s.longPressCounter

/-- The member function `EventTouchScreen::isDragging`. -/
def isDragging (s : EventTouchScreen) : Bool := s.dragging

/-- The member function `EventTouchScreen::changeState`. -/
def changeState (s : EventTouchScreen) (now : Nat) (t : Bool) : EventTouchScreen :=
  let s1 := { s with touched := t }
  let s2 := { s1 with prevDuration := currentDuration s1 now }
  { s2 with lastStateChange := now }

/-- The time gate of `haveDragged`: `dMs < millis() - lastDragMs`. -/
def dragTimeGate (s : EventTouchScreen) (now : Nat) : Bool :=
  let dMs := if s.dragging then s.dragIntervalMs else s.dragThresholdMs
  decide (dMs < sub32 now s.lastDragMs)

/-- The local `distance` of `haveDragged`: `dx * dx + dy * dy` stored in a
`uint16_t`, that is, the low 16 bits of the sum computed in `int`. -/
def dragDistance (s : EventTouchScreen) : Nat :=
  let dx := u16 (absDiff s.touchPoint.x s.startTouchPoint.x)
  let dy := u16 (absDiff s.touchPoint.y s.startTouchPoint.y)
  u16 (dx * dx + dy * dy)

/-- The local `dPx` of `haveDragged`. -/
def dragPx (s : EventTouchScreen) : Nat :=
  if s.dragging then s.dragIntervalPx else s.dragThresholdPx

/-- The member function `EventTouchScreen::haveDragged`: the engine
afterwards and the value returned.  The right-hand side `dPx * dPx` is an
`int` product; the setters take a `uint8_t`, so it is at most `255 * 255`
and exact. -/
def haveDragged (s : EventTouchScreen) (now : Nat) : EventTouchScreen × Bool :=
  if dragTimeGate s now then
    let dPx := dragPx s
    if dragDistance s > dPx * dPx then
      ({ s with dragging := true, lastDragMs := now }, true)
    else (s, false)
  else (s, false)

/-- The bounce gate of `debounced`: `millis() < lastBounceCheck +
bounceInterval`. -/
def bounceGate (s : EventTouchScreen) (now : Nat) : Bool :=
  decide (now < u32 (s.lastBounceCheck + s.bounceInterval))

/-- The member function `EventTouchScreen::debounced`; `tp` is what the
adapter returns when polled.  The result carries the value returned in
`stable`. -/
def debounced (s : EventTouchScreen) (now : Nat) (tp : TouchPoint_s) : UpdateResult :=
  if bounceGate s now then { st := s }
  else
    let bounceState := decide (tp.z ≠ 0)
    if s.previousBounceState ≠ bounceState then
      { st := { s with previousBounceState := bounceState, lastBounceCheck := now },
        polled := true }
    else
      { st := { s with lastBounceCheck := now, touchPoint := tp },
        polled := true, stable := true }

/-- Lines 33-62 of `update()`: what is done when `debounced()` returned
true (last touched point, press edge, release edge). -/
def updateEdge (s : EventTouchScreen) (now : Nat) : Step :=
  let s1 := if s.touchPoint.z ≠ 0 then { s with lastTouchedPoint := s.touchPoint } else s
  if s1.touched = false ∧ s1.touchPoint.z ≠ 0 then
    let s2 := changeState s1 now true
    let s3 := { s2 with startTouchPoint := s2.touchPoint }
    let s4 := { s3 with previousTouchPoint := s3.touchPoint }
    let s5 := { s4 with lastDragMs := s4.lastStateChange }
    invoke s5 .PRESSED
  else if s1.touched = true ∧ s1.touchPoint.z = 0 then
    let s2 := changeState s1 now false
    if s2.dragging = false then
      let s3 := { s2 with clickFired := false }
      let s4 :=
        if s3.longPressCounter = 0 then
          let c := u8 (s3.clickCounter + 1)
          { s3 with clickCounter := c, prevClickCount := c }
        else s3
      invoke s4 .RELEASED
    else
      let s3 := { s2 with clickFired := true, dragging := false,
                          longPressCounter := 0, clickCounter := 0 }
      let s4 := { s3 with rateLimitCounter := u32 (now + s3.postDragRateLimit) }
      invoke s4 .DRAGGED_RELEASED
  else { st := s1 }

/-- Lines 66-71 of `update()`: the drag evaluation of a touched tick. -/
def updateDrag (s : EventTouchScreen) (now : Nat) : Step :=
  if s.dragEnabled then
    let r := haveDragged s now
    if r.2 then
      let i := invoke r.1 .DRAGGED
      { i with st := { i.st with previousTouchPoint := i.st.touchPoint } }
    else { st := r.1 }
  else { st := s }

/-- The threshold of line 72 of `update()`:
`(uint16_t)(longClickDuration + longPressCounter * longPressInterval)`. -/
def longPressThreshold (s : EventTouchScreen) : Nat :=
  u16 (s.longClickDuration + s.longPressCounter * s.longPressInterval)

/-- Lines 72-77 of `update()`: the long-press evaluation of a touched tick. -/
def updateLongPress (s : EventTouchScreen) (now : Nat) : Step :=
  if currentDuration s now > longPressThreshold s then
    let s1 := { s with longPressCounter := u16 (s.longPressCounter + 1) }
    if s1.dragEnabled = false ∧ (s1.repeatLongPress = true ∨ s1.longPressCounter = 1) then
      invoke s1 .LONG_PRESS
    else { st := s1 }
  else { st := s }

/-- Lines 64-78 of `update()`: drag and long-press evaluation, run while
`touched && touchPoint.z != 0`. -/
def updateHeld (s : EventTouchScreen) (now : Nat) : Step :=
  if s.touched = true ∧ s.touchPoint.z ≠ 0 then
    let d := updateDrag s now
    let l := updateLongPress d.st now
    { st := l.st, events := d.events ++ l.events, seen := d.seen ++ l.seen }
  else { st := s }

/-- Lines 80-97 of `update()`: click finalization. -/
def updateClicks (s : EventTouchScreen) (now : Nat) : Step :=
  if s.clickFired = false ∧ s.touched = false ∧ currentDuration s now > s.multiClickInterval then
    let s1 := { s with clickFired := true }
    if previousDuration s1 > s1.longClickDuration ∨ s1.longPressCounter > 0 then
      let s2 := { s1 with clickCounter := 0, prevClickCount := 1 }
      let i := invoke s2 .LONG_CLICKED
      { i with st := { i.st with longPressCounter := 0 } }
    else
      let i :=
        if s1.clickCounter = 1 then invoke s1 .CLICKED
        else if s1.clickCounter = 2 then invoke s1 .DOUBLE_CLICKED
        else invoke s1 .MULTI_CLICKED
      { i with st := { i.st with clickCounter := 0 } }
  else { st := s }

/-- The rate-limit gate of `update()`: `millis() > rateLimitCounter +
rateLimit`. -/
def rateGate (s : EventTouchScreen) (now : Nat) : Bool :=
  decide (now > u32 (s.rateLimitCounter + s.rateLimit))

/-- Lines 31-98 of `update()`: a processed tick (the body behind the
enabled flag and the rate-limit gate). -/
def updateTick (s : EventTouchScreen) (now : Nat) (tp : TouchPoint_s) : UpdateResult :=
  let d := debounced { s with rateLimitCounter := now } now tp
  let e := if d.stable then updateEdge d.st now else { st := d.st }
  let h := updateHeld e.st now
  let c := updateClicks h.st now
  { st := c.st
    events := e.events ++ h.events ++ c.events
    seen := e.seen ++ h.seen ++ c.seen
    polled := d.polled
    stable := d.stable }

/-- The member function `EventTouchScreen::update` called at time `now`, the
adapter holding the sample `tp`. -/
def update (s : EventTouchScreen) (now : Nat) (tp : TouchPoint_s) : UpdateResult :=
  if s.enabled then
    if rateGate s now then updateTick s now tp
    else { st := s }
  else { st := s }

/-- The member function `EventTouchScreen::getTouchPoint`: the engine
afterwards and the point returned. -/
def getTouchPoint (s : EventTouchScreen) : EventTouchScreen × TouchPoint_s :=
  if s.touchPoint.z = 0 then
    let s1 := { s with touchPoint := s.lastTouchedPoint }
    let s2 := { s1 with touchPoint := { s1.touchPoint with z := 0 } }
    (s2, s2.touchPoint)
  else (s, s.touchPoint)

/-- The member function `EventTouchScreen::begin`: the adapter is started and
the first tick is deferred by 500 ms. -/
def EventTouchScreen.begin (s : EventTouchScreen) (now : Nat) : EventTouchScreen :=
  { s with rateLimitCounter := u32 (now + 500) }

/-- The member function `EventTouchScreen::onDisabled`. -/
def onDisabled (s : EventTouchScreen) : Step :=
  let s1 := { s with clickCounter := 0 }
  let s2 := { s1 with longPressCounter := 0 }
  invoke s2 .DISABLED

/-! ## Configuration setters -/

/-- The member function `EventTouchScreen::setMultiClickInterval` (`unsigned
int` stored in a `uint16_t`). -/
def setMultiClickInterval (s : EventTouchScreen) (intervalMs : Nat) : EventTouchScreen :=
  { s with multiClickInterval := u16 intervalMs }

/-- The member function `EventTouchScreen::setLongClickDuration`. -/
def setLongClickDuration (s : EventTouchScreen) (longDurationMs : Nat) : EventTouchScreen :=
  { s with longClickDuration := u16 longDurationMs }

/-- The member function `EventTouchScreen::enableLongPressRepeat`. -/
def enableLongPressRepeat (s : EventTouchScreen) (rep : Bool) : EventTouchScreen :=
  { s with repeatLongPress := rep }

/-- The member function `EventTouchScreen::setLongPressInterval`. -/
def setLongPressInterval (s : EventTouchScreen) (intervalMs : Nat) : EventTouchScreen :=
  { s with longPressInterval := u16 intervalMs }

/-- The member function `EventTouchScreen::enableDragging`. -/
def enableDragging (s : EventTouchScreen) (allow : Bool) : EventTouchScreen :=
  { s with dragEnabled := allow }

/-- The member function `EventTouchScreen::setDragThresholdPx` (the parameter
is a `uint8_t`). -/
def setDragThresholdPx (s : EventTouchScreen) (px : Nat) : EventTouchScreen :=
  { s with dragThresholdPx := u8 px }

/-- The member function `EventTouchScreen::setDragIntervalPx`. -/
def setDragIntervalPx (s : EventTouchScreen) (px : Nat) : EventTouchScreen :=
  { s with dragIntervalPx := u8 px }

/-- The member function `EventTouchScreen::setDragThresholdMs`. -/
def setDragThresholdMs (s : EventTouchScreen) (ms : Nat) : EventTouchScreen :=
  { s with dragThresholdMs := u8 ms }

/-- The member function `EventTouchScreen::setDragIntervalMs`. -/
def setDragIntervalMs (s : EventTouchScreen) (ms : Nat) : EventTouchScreen :=
  { s with dragIntervalMs := u8 ms }

/-- The member function `EventTouchScreen::setRateLimit`. -/
def setRateLimit (s : EventTouchScreen) (ms : Nat) : EventTouchScreen :=
  { s with rateLimit := u16 ms }

/-- The member function `EventTouchScreen::setDebounceInterval`. -/
def setDebounceInterval (s : EventTouchScreen) (ms : Nat) : EventTouchScreen :=
  { s with bounceInterval := u16 ms }

/-- Modelled from the spec: `EventInputBase::enable` is code of the
InputEvents library, which is not among the sources.  The enabled flag is
stored, and a transition to disabled runs `onDisabled()` (it "resets click
and long-press counters and emits a DISABLED event"). -/
def enable (s : EventTouchScreen) (e : Bool) : Step :=
  if e then { st := { s with enabled := true } }
  else onDisabled { s with enabled := false }

/-! ## Calls of the public interface -/

/-- A call a client can make on the engine. -/
inductive Action where
  | update (now : Nat) (tp : TouchPoint_s)
  | getTouchPoint
  | begin (now : Nat)
  | enable (e : Bool)
  | setMultiClickInterval (v : Nat)
  | setLongClickDuration (v : Nat)
  | enableLongPressRepeat (b : Bool)
  | setLongPressInterval (v : Nat)
  | enableDragging (b : Bool)
  | setDragThresholdPx (v : Nat)
  | setDragIntervalPx (v : Nat)
  | setDragThresholdMs (v : Nat)
  | setDragIntervalMs (v : Nat)
  | setRateLimit (v : Nat)
  | setDebounceInterval (v : Nat)
  deriving DecidableEq, Repr

/-- The engine after one call. -/
def applyAction (s : EventTouchScreen) : Action → EventTouchScreen
  | .update now tp => (update s now tp).st
  | .getTouchPoint => (getTouchPoint s).1
  | .begin now => s.begin now
  | .enable e => (enable s e).st
  | .setMultiClickInterval v => setMultiClickInterval s v
  | .setLongClickDuration v => setLongClickDuration s v
  | .enableLongPressRepeat b => enableLongPressRepeat s b
  | .setLongPressInterval v => setLongPressInterval s v
  | .enableDragging b => enableDragging s b
  | .setDragThresholdPx v => setDragThresholdPx s v
  | .setDragIntervalPx v => setDragIntervalPx s v
  | .setDragThresholdMs v => setDragThresholdMs s v
  | .setDragIntervalMs v => setDragIntervalMs s v
  | .setRateLimit v => setRateLimit s v
  | .setDebounceInterval v => setDebounceInterval s v

/-- The engine after a sequence of calls. -/
def runActions (s : EventTouchScreen) : List Action → EventTouchScreen
  | [] => s
  | a :: as => runActions (applyAction s a) as

/-- The last sample of a sequence of calls that `debounced()` accepted as
stable and that had nonzero pressure; `last` if there is none. -/
def lastTouchedSample (s : EventTouchScreen) (last : TouchPoint_s) :
    List Action → TouchPoint_s
  | [] => last
  | .update now tp :: as =>
    lastTouchedSample (update s now tp).st
      (if (update s now tp).stable = true ∧ tp.z ≠ 0 then tp else last) as
  | a :: as => lastTouchedSample (applyAction s a) last as

/-! ## Traces -/

/-- One call of `update()`: the value of `millis()` and the sample the
touch adapter holds at that moment. -/
structure Tick where
  now : Nat
  tp : TouchPoint_s
  deriving DecidableEq, Repr

/-- What an observer records of one call of `update()`. -/
structure TickLog where
  now : Nat
  processed : Bool
  polled : Bool
  events : List InputEventType
  deriving DecidableEq, Repr

/-- Whether a call of `update()` at `now` gets past the enabled flag and
the rate-limit gate (a processed tick). -/
def processed (s : EventTouchScreen) (now : Nat) : Bool :=
  s.enabled && rateGate s now

/-- The engine after the calls of `update()` of a trace. -/
def runState (s : EventTouchScreen) : List Tick → EventTouchScreen
  | [] => s
  | k :: ks => runState (update s k.now k.tp).st ks

/-- The events invoked during a trace, in order. -/
def runEvents (s : EventTouchScreen) : List Tick → List InputEventType
  | [] => []
  | k :: ks => (update s k.now k.tp).events ++ runEvents (update s k.now k.tp).st ks

/-- The events invoked during a trace, each with the time of its tick. -/
def runTimed (s : EventTouchScreen) : List Tick → List (Nat × InputEventType)
  | [] => []
  | k :: ks =>
    (update s k.now k.tp).events.map (fun e => (k.now, e))
      ++ runTimed (update s k.now k.tp).st ks

/-- The record of a trace, one entry per call of `update()`. -/
def runLog (s : EventTouchScreen) : List Tick → List TickLog
  | [] => []
  | k :: ks =>
    { now := k.now, processed := processed s k.now, polled := (update s k.now k.tp).polled,
      events := (update s k.now k.tp).events }
      :: runLog (update s k.now k.tp).st ks

/-- The classification event that lines 88-94 of `update()` choose for an
accumulated click count. -/
def classify (n : Nat) : InputEventType :=
  if n = 1 then .CLICKED else if n = 2 then .DOUBLE_CLICKED else .MULTI_CLICKED

/-- The engine after `rateLimitCounter = millis()` and a `debounced()` that
reported the stable sample `tp` (lines 31-32 of `update()`). -/
def afterStable (s : EventTouchScreen) (now : Nat) (tp : TouchPoint_s) : EventTouchScreen :=
  { s with rateLimitCounter := now, lastBounceCheck := now, touchPoint := tp }

/-- The engine after `rateLimitCounter = millis()` and a call of
`debounced()` (lines 31-32 of `update()`). -/
def afterUnstable (s : EventTouchScreen) (now : Nat) (tp : TouchPoint_s) : EventTouchScreen :=
  (debounced { s with rateLimitCounter := now } now tp).st

/-- The four events of click finalization (lines 80-97 of `update()`). -/
def InputEventType.isClassification : InputEventType → Bool
  | .CLICKED => true
  | .DOUBLE_CLICKED => true
  | .MULTI_CLICKED => true
  | .LONG_CLICKED => true
  | _ => false

/-- The claim of exact drag arithmetic, as the specification words it:
more than the applicable time threshold has elapsed and
`dx * dx + dy * dy > px * px` in exact integer arithmetic. -/
def exactDragged (s : EventTouchScreen) (now : Nat) : Bool :=
  let dx := absDiff s.touchPoint.x s.startTouchPoint.x
  let dy := absDiff s.touchPoint.y s.startTouchPoint.y
  dragTimeGate s now && decide (dx * dx + dy * dy > dragPx s * dragPx s)

/-- The rate-limit gate as it would decide on an unbounded clock: `stored`
and `now` are the true times, `now` not before `stored`. -/
def rateGateUnbounded (stored rateLimit now : Nat) : Bool :=
  decide (now > stored + rateLimit)

/-- The bounce gate as it would decide on an unbounded clock. -/
def bounceGateUnbounded (stored bounceInterval now : Nat) : Bool :=
  decide (now < stored + bounceInterval)

/-- The drag time gate as it would decide on an unbounded clock. -/
def dragTimeGateUnbounded (stored dMs now : Nat) : Bool :=
  decide (dMs < now - stored)

/-- The events on which `changeState` is called: an accepted change of the
touched state. -/
def InputEventType.isStateChange : InputEventType → Bool
  | .PRESSED => true
  | .RELEASED => true
  | .DRAGGED_RELEASED => true
  | _ => false

/-- The accepted touched-state changes of a timed event log. -/
def stateChanges (log : List (Nat × InputEventType)) : List (Nat × InputEventType) :=
  log.filter (fun p => p.2.isStateChange)

/-- The times of the accepted touched-state changes of a trace. -/
def changeTimes (s : EventTouchScreen) (tr : List Tick) : List Nat :=
  (stateChanges (runTimed s tr)).map Prod.fst

/-- Two facts about an engine state that every call preserves: the last
touched point is the last accepted sample with nonzero pressure, and the
touched flag agrees with the pressure of the working touch point. -/
structure TouchInv (s : EventTouchScreen) (last : TouchPoint_s) : Prop where
  lastTouched : s.lastTouchedPoint = last
  touched : s.touched = true ↔ s.touchPoint.z ≠ 0

/-! ## Notions used to state the gesture properties -/

/-- The engine after a processed tick that accepted a press: lines 31-41 of
`update()` with a stable sample `tp`, `tp.z != 0`, the engine untouched. -/
def pressedState (s : EventTouchScreen) (now : Nat) (tp : TouchPoint_s) : EventTouchScreen :=
  { s with rateLimitCounter := now, lastBounceCheck := now, touchPoint := tp,
           lastTouchedPoint := tp, touched := true,
           prevDuration := currentDuration s now, lastStateChange := now,
           startTouchPoint := tp, previousTouchPoint := tp, lastDragMs := now }

/-- The engine after a processed tick that accepted a release while not
dragging: lines 31-51 of `update()` with a stable sample `tp`, `tp.z == 0`,
the engine touched. -/
def releasedState (s : EventTouchScreen) (now : Nat) (tp : TouchPoint_s) : EventTouchScreen :=
  { s with rateLimitCounter := now, lastBounceCheck := now, touchPoint := tp,
           touched := false, prevDuration := currentDuration s now, lastStateChange := now,
           clickFired := false,
           clickCounter := if s.longPressCounter = 0 then u8 (s.clickCounter + 1)
             else s.clickCounter,
           prevClickCount := if s.longPressCounter = 0 then u8 (s.clickCounter + 1)
             else s.prevClickCount }

/-- Two engine states that agree on everything the gesture logic reads or
writes after `debounced()`, apart from the working touch point, the last
touched point and the rate-limit and bounce bookkeeping. -/
structure SameGesture (a s : EventTouchScreen) : Prop where
  config : a.config = s.config
  touched : a.touched = s.touched
  clickCounter : a.clickCounter = s.clickCounter
  prevClickCount : a.prevClickCount = s.prevClickCount
  clickFired : a.clickFired = s.clickFired
  dragging : a.dragging = s.dragging
  lastDragMs : a.lastDragMs = s.lastDragMs
  lastStateChange : a.lastStateChange = s.lastStateChange
  prevDuration : a.prevDuration = s.prevDuration
  longPressCounter : a.longPressCounter = s.longPressCounter
  startTouchPoint : a.startTouchPoint = s.startTouchPoint
  previousTouchPoint : a.previousTouchPoint = s.previousTouchPoint

/-- An enabled engine at rest: untouched, no classification pending, both
counters zero, no drag engaged. -/
structure Quiet (s : EventTouchScreen) : Prop where
  enabled : s.enabled = true
  touched : s.touched = false
  clickFired : s.clickFired = true
  clickCounter : s.clickCounter = 0
  longPressCounter : s.longPressCounter = 0
  dragging : s.dragging = false

/-- An enabled engine holding a press accepted at time `t`, after `n`
counted clicks of the current burst, with no long press counted and no drag
engaged. -/
structure Held (s : EventTouchScreen) (n t : Nat) : Prop where
  enabled : s.enabled = true
  touched : s.touched = true
  pressure : s.touchPoint.z ≠ 0
  clickCounter : s.clickCounter = u8 n
  longPressCounter : s.longPressCounter = 0
  dragging : s.dragging = false
  lastStateChange : s.lastStateChange = t

/-- An enabled engine after a release accepted at time `r`, with `n`
counted clicks waiting for their classification, the last press not longer
than `longClickDuration`, and every tick processed since the release not
later than `multiClickInterval` after it. -/
structure Pending (s : EventTouchScreen) (n r : Nat) : Prop where
  enabled : s.enabled = true
  touched : s.touched = false
  clickFired : s.clickFired = false
  clickCounter : s.clickCounter = u8 n
  longPressCounter : s.longPressCounter = 0
  dragging : s.dragging = false
  lastStateChange : s.lastStateChange = r
  prevDuration : s.prevDuration ≤ s.longClickDuration
  since : r ≤ s.rateLimitCounter
  early : s.rateLimitCounter ≤ r + s.multiClickInterval

/-- The accepted state changes of `ps.length` press/release pairs, the
`i`-th press accepted at time `ps[i].1` and released at time `ps[i].2`. -/
def burst : List (Nat × Nat) → List (Nat × InputEventType)
  | [] => []
  | pr :: ps => (pr.1, .PRESSED) :: (pr.2, .RELEASED) :: burst ps

/-- The events PRESSED, RELEASED repeated `n` times. -/
def pairs : Nat → List InputEventType
  | 0 => []
  | n + 1 => .PRESSED :: .RELEASED :: pairs n

/-- Two successive calls of `update()`: the clock does not run backwards
and the second call comes at most `gap` ms after the first. -/
def Cadence (gap : Nat) (a b : Nat) : Prop := a ≤ b ∧ b ≤ a + gap

instance (gap a b : Nat) : Decidable (Cadence gap a b) :=
  inferInstanceAs (Decidable (a ≤ b ∧ b ≤ a + gap))

/-- The press/release pairs that follow a release at time `r` each start
less than `M` ms after the release before them. -/
def gapsFrom (M : Nat) : Nat → List (Nat × Nat) → Prop
  | _, [] => True
  | r, pr :: ps => pr.1 - r < M ∧ gapsFrom M pr.2 ps

/-- A processed tick more than `M` ms after the time `r`. -/
def lateTick (M r : Nat) (e : TickLog) : Bool :=
  e.processed && decide (r + M < e.now)

/-- The timing configuration of an engine: multi-click interval, long-click
duration and rate limit. -/
structure Timing (s : EventTouchScreen) (M L RL : Nat) : Prop where
  multiClickInterval : s.multiClickInterval = M
  longClickDuration : s.longClickDuration = L
  rateLimit : s.rateLimit = RL

/-- What is assumed of the calls of a trace: `c` is the time of the call
before the trace, successive calls keep the cadence `gap`, the millisecond
counter stays away from its wrap-around, and no DRAGGED is emitted. -/
structure Paced (gap c : Nat) (s : EventTouchScreen) (tr : List Tick) : Prop where
  cadence : List.Chain (Cadence gap) c (tr.map Tick.now)
  bound : ∀ k ∈ tr, k.now < 4294836224
  noDrag : InputEventType.DRAGGED ∉ runEvents s tr

/-- A held touch with an engaged drag: pressed at (50, 50), dragging. -/
def exDragging : EventTouchScreen :=
  { fresh with dragEnabled := true, touched := true, dragging := true,
               previousBounceState := false, touchPoint := ⟨50, 50, 1⟩,
               startTouchPoint := ⟨10, 10, 1⟩, lastTouchedPoint := ⟨50, 50, 1⟩ }

/-- A held touch, drag enabled but not yet engaged, pressed at (0, 0) at
time 0, the finger now at (256, 0). -/
def exFarMove : EventTouchScreen :=
  { fresh with dragEnabled := true, touched := true, previousBounceState := true,
               touchPoint := ⟨256, 0, 1⟩, startTouchPoint := ⟨0, 0, 1⟩,
               lastTouchedPoint := ⟨256, 0, 1⟩ }

/-- An idle engine whose last processed tick and last bounce check were at
the true time `2^32 - 20`. -/
def exNearWrap : EventTouchScreen :=
  { fresh with rateLimitCounter := 4294967276, lastBounceCheck := 4294967276 }

/-- A trace with one call of `update()` every 15 ms: `n` taps (the panel
reports a touch for two calls, then no touch for two calls), then 22 more
calls without a touch. -/
def taps (n : Nat) : List Tick :=
  (List.range (4 * n + 22)).map fun k =>
    ⟨15 * (k + 1), if k < 4 * n ∧ k % 4 < 2 then ⟨10, 10, 1⟩ else ⟨10, 10, 0⟩⟩

/-- The times at which the presses and releases of `taps n` are accepted. -/
def tapTimes (n : Nat) : List (Nat × Nat) :=
  (List.range n).map fun i => (60 * i + 30, 60 * i + 60)

/-- A trace with one call of `update()` every 15 ms: the panel reports a
touch until 900 ms and no touch from then on. -/
def longerHold : List Tick :=
  (List.range 84).map fun k =>
    ⟨15 * (k + 1), if 15 * (k + 1) < 900 then ⟨10, 10, 1⟩ else ⟨10, 10, 0⟩⟩

/-- A trace with one call of `update()` every 15 ms for 600 ms: the panel
reports a touch at (0, 0) for four calls and at (`x`, 0) from then on. -/
def farDrag (x : Nat) : List Tick :=
  (List.range 40).map fun k =>
    ⟨15 * (k + 1), if k < 4 then ⟨0, 0, 1⟩ else ⟨x, 0, 1⟩⟩

/-! ## Further notions, example states and traces -/

/-- Two calls of `update()` with the panel touched at (10, 10): the press
is accepted on the second, at 30 ms. -/
def pressAt30 : List Tick := [⟨15, ⟨10, 10, 1⟩⟩, ⟨30, ⟨10, 10, 1⟩⟩]

/-- An engine that has accepted a press and whose enabled flag is false. -/
def exDisabled : EventTouchScreen := { runState fresh pressAt30 with enabled := false }

/-- One poll of the touch adapter by `debounced()`: the time, the touched
boolean of the sample (`tp.z != 0`), and the value `debounced()` returned. -/
structure Poll where
  now : Nat
  touched : Bool
  stable : Bool
  deriving DecidableEq, Repr

/-- The polls of the touch adapter during a trace, in order. -/
def runPolls (s : EventTouchScreen) : List Tick → List Poll
  | [] => []
  | k :: ks =>
    (if (update s k.now k.tp).polled = true then
        [⟨k.now, decide (k.tp.z ≠ 0), (update s k.now k.tp).stable⟩] else [])
      ++ runPolls (update s k.now k.tp).st ks

/-- The poll `b` directly follows the poll `a`: if `b` was reported stable,
`a` observed the same boolean and happened at least `bi` ms earlier. -/
def Persisted (bi : Nat) (a b : Poll) : Prop :=
  b.stable = true → a.touched = b.touched ∧ a.now + bi ≤ b.now

/-- The bookkeeping of `changeState` replayed over the times of the accepted
state changes: from `lastStateChange = lsc` and `prevDuration = pd`, a change
at time `t` stores `prevDuration = (uint16_t)(t - lastStateChange)` and then
`lastStateChange = t`.  The result is the pair of the two members. -/
def replayChanges (lsc pd : Nat) : List Nat → Nat × Nat
  | [] => (lsc, pd)
  | t :: ts => replayChanges t (u16 (sub32 t lsc)) ts

/-- A press accepted at 30 ms and held for 70 s: the release is accepted
at 70020 ms. -/
def holdSeventySeconds : List Tick :=
  [⟨15, ⟨10, 10, 1⟩⟩, ⟨30, ⟨10, 10, 1⟩⟩, ⟨70000, ⟨10, 10, 0⟩⟩, ⟨70020, ⟨10, 10, 0⟩⟩]

/-- One click on a fresh engine (press accepted at 30 ms, release at 60 ms),
then the engine is disabled and enabled again before the click has been
classified. -/
def disableBeforeFinalization : List Action :=
  [.update 15 ⟨10, 10, 1⟩, .update 30 ⟨10, 10, 1⟩, .update 45 ⟨10, 10, 0⟩,
   .update 60 ⟨10, 10, 0⟩, .enable false, .enable true]

/-- A fresh engine after two clicks (releases accepted at 60 ms and 120 ms)
and calls of `update()` every 15 ms up to 420 ms: the clicks are not yet
classified. -/
def exTwoClicks : EventTouchScreen := runState fresh ((taps 2).take 28)

/-- The invocations of the subscriber during a trace, in order: each event
with the engine as the subscriber sees it at that moment. -/
def runInvoked (s : EventTouchScreen) : List Tick → List (InputEventType × EventTouchScreen)
  | [] => []
  | k :: ks =>
    (update s k.now k.tp).events.zip (update s k.now k.tp).seen
      ++ runInvoked (update s k.now k.tp).st ks

/-- Where an event log stands with respect to click finalization: no
release accepted yet; a press accepted and not yet released; a release
accepted and no classification event since; a release accepted and one
classification event emitted since. -/
inductive GapPhase where
  | unreleased
  | touched
  | idle
  | classified
  deriving DecidableEq, Repr

/-- An event log, read from the phase `ph`, has every classification event
(CLICKED, DOUBLE_CLICKED, MULTI_CLICKED, LONG_CLICKED) after an accepted
release (RELEASED or DRAGGED_RELEASED), with no accepted press and no other
classification event between that release and it. -/
def finalizedOnce : GapPhase → List InputEventType → Bool
  | _, [] => true
  | ph, e :: es =>
    match e with
    | .PRESSED => finalizedOnce .touched es
    | .RELEASED => finalizedOnce .idle es
    | .DRAGGED_RELEASED => finalizedOnce .idle es
    | .CLICKED => decide (ph = .idle) && finalizedOnce .classified es
    | .DOUBLE_CLICKED => decide (ph = .idle) && finalizedOnce .classified es
    | .MULTI_CLICKED => decide (ph = .idle) && finalizedOnce .classified es
    | .LONG_CLICKED => decide (ph = .idle) && finalizedOnce .classified es
    | .LONG_PRESS => finalizedOnce ph es
    | .DRAGGED => finalizedOnce ph es
    | .DISABLED => finalizedOnce ph es

/-- What the engine state has to satisfy in each phase of the event log. -/
def GapInv : GapPhase → EventTouchScreen → Prop
  | .unreleased, s => s.touched = false ∧ s.clickFired = true
  | .touched, s => s.touched = true
  | .idle, s => s.touched = false
  | .classified, s => s.touched = false ∧ s.clickFired = true

/-- A fresh engine after `enableDragging(true)`, a press accepted at 30 ms
and the finger held still at (10, 10), `update()` called every 15 ms up to
780 ms: the press has lasted 750 ms and no drag is engaged. -/
def exHeldDragEnabled : EventTouchScreen :=
  runState (enableDragging fresh true) (longerHold.take 52)

/-- The latch of the click count: while the click counter is not 0 the
latched count `prevClickCount` equals it. -/
def Latch (s : EventTouchScreen) : Prop :=
  s.clickCounter ≠ 0 → s.prevClickCount = s.clickCounter

/-- A fresh engine after `enableDragging(true)`. -/
def exDragEnabled : EventTouchScreen := enableDragging fresh true

/-- A press accepted at 30 ms and held still, with calls of `update()` at
15 ms, 30 ms, and then every 11 ms from 800 ms to 3605 ms (256 calls). -/
def rapidHold : List Tick :=
  pressAt30 ++ (List.range 256).map fun k => ⟨800 + 11 * k, ⟨10, 10, 1⟩⟩

/-- The invocations of `n` taps in a row with what `clickCount()` returns at
each, as long as the clicks are counted: at the press of tap `i` (from 0)
the latched count is `i`, at its release `i + 1`, both as `uint8_t`. -/
def tapInvocations (n : Nat) : List (InputEventType × Nat) :=
  (List.range n).flatMap fun i => [(.PRESSED, u8 i), (.RELEASED, u8 (i + 1))]

/-! ## Region -/

/-- The struct `Coords_s`: a pair of `uint16_t` display coordinates. -/
structure Coords_s where
  x : Nat
  y : Nat
deriving DecidableEq, Repr

/-- The class `Region`: the members `_x`, `_y`, `_w`, `_h` (all `uint16_t`),
which the getters `x()`, `y()`, `w()`, `h()` return unchanged. The default
constructor leaves all four at 0. -/
structure Region where
  x : Nat := 0
  y : Nat := 0
  w : Nat := 0
  h : Nat := 0
deriving DecidableEq, Repr

/-- The members of a `Region` are `uint16_t` values. -/
def Region.IsU16 (R : Region) : Prop :=
  R.x < 65536 ∧ R.y < 65536 ∧ R.w < 65536 ∧ R.h < 65536

instance (R : Region) : Decidable R.IsU16 := by
  unfold Region.IsU16; infer_instance

/-- The constructor `Region(x, y, w, h)`: a width or height of 0 is
stored as 1. -/
def Region.make (x y w h : Nat) : Region :=
  { x := x, y := y, w := if w = 0 then 1 else w, h := if h = 0 then 1 else h }

/-- The function `Region::setW`: a width of 0 is ignored. -/
def Region.setW (R : Region) (w : Nat) : Region :=
  if w = 0 then R else { R with w := w }

/-- The function `Region::setH`: a height of 0 is ignored. -/
def Region.setH (R : Region) (h : Nat) : Region :=
  if h = 0 then R else { R with h := h }

/-- The function `Region::r`: `_x + _w - 1` is computed in `int` and
converted to `uint16_t`, that is, reduced modulo 65536 (the added 65536
keeps the value of `0 + 0 - 1` in the naturals). -/
def Region.r (R : Region) : Nat := u16 (R.x + R.w + 65536 - 1)

/-- The function `Region::b`. -/
def Region.b (R : Region) : Nat := u16 (R.y + R.h + 65536 - 1)

/-- The function `Region::tl`: the top left corner. -/
def Region.tl (R : Region) : Coords_s := { x := R.x, y := R.y }

/-- The function `Region::br`: the bottom right corner. -/
def Region.br (R : Region) : Coords_s := { x := R.r, y := R.b }

/-- The function `Region::contains(uint16_t posX, uint16_t posY)`. -/
def Region.contains (R : Region) (posX posY : Nat) : Bool :=
  decide (R.x ≤ posX) && decide (posX ≤ R.r) && decide (R.y ≤ posY) && decide (posY ≤ R.b)

/-- The overload `Region::contains(const Coords_s&)`. -/
def Region.containsCoords (R : Region) (coords : Coords_s) : Bool :=
  R.contains coords.x coords.y

/-- The overload `Region::contains(const Region&)`. -/
def Region.containsRegion (R : Region) (o : Region) : Bool :=
  R.contains o.x o.y && R.contains o.r o.b

/-- Integer division as C++ defines it: a zero divisor has no result. -/
def idiv (a b : Nat) : Option Nat := if b = 0 then none else some (a / b)

/-- The function `Region::wDiv(uint8_t div = 2)`:
`_w / (div == 0 ? 1 : div)`, returned as `uint16_t`. -/
def Region.wDiv (R : Region) (div : Nat) : Option Nat :=
  (idiv R.w (if div = 0 then 1 else div)).map u16

/-- The function `Region::hDiv(uint8_t div = 2)`. -/
def Region.hDiv (R : Region) (div : Nat) : Option Nat :=
  (idiv R.h (if div = 0 then 1 else div)).map u16

/-- The function `Region::xDiv(uint8_t div = 2, uint8_t nth = 0)`:
`_x + nth * wDiv(div)`, returned as `uint16_t`. -/
def Region.xDiv (R : Region) (div nth : Nat) : Option Nat :=
  (R.wDiv div).map (fun q => u16 (R.x + nth * q))

/-- The function `Region::yDiv(uint8_t div = 2, uint8_t nth = 0)`. -/
def Region.yDiv (R : Region) (div nth : Nat) : Option Nat :=
  (R.hDiv div).map (fun q => u16 (R.y + nth * q))

/-- The function `Region::rDiv(uint8_t div = 2, uint8_t nth = 0)`:
`xDiv(div, nth) + wDiv(div)`. -/
def Region.rDiv (R : Region) (div nth : Nat) : Option Nat :=
  (R.xDiv div nth).bind (fun a => (R.wDiv div).map (fun q => u16 (a + q)))

/-- The function `Region::bDiv(uint8_t div = 2, uint8_t nth = 0)`. -/
def Region.bDiv (R : Region) (div nth : Nat) : Option Nat :=
  (R.yDiv div nth).bind (fun a => (R.hDiv div).map (fun q => u16 (a + q)))

/-- The function `Region::xCl(uint8_t div = 1, uint8_t nth = 0)`:
`xDiv(div, nth) + wDiv(div) / 2`. -/
def Region.xCl (R : Region) (div nth : Nat) : Option Nat :=
  (R.xDiv div nth).bind (fun a =>
    (R.wDiv div).bind (fun q => (idiv q 2).map (fun half => u16 (a + half))))

/-- The function `Region::yCl(uint8_t div = 1, uint8_t nth = 0)`. -/
def Region.yCl (R : Region) (div nth : Nat) : Option Nat :=
  (R.yDiv div nth).bind (fun a =>
    (R.hDiv div).bind (fun q => (idiv q 2).map (fun half => u16 (a + half))))

/-- A region of 100 by 50 pixels at (10, 20). -/
def exRegion : Region := Region.make 10 20 100 50

/-! ## WidgetContainer -/

/-- The class template `WidgetContainer<maxWidgets>`: the array
`BaseWidget* widgets[maxWidgets]` (a pointer is a number, 0 is `nullptr`)
and `count`. The template argument `maxWidgets` is passed to the member
functions that use it. -/
structure WidgetContainer where
  widgets : List Nat
  count : Nat := 0
deriving DecidableEq, Repr

/-- The constant `InvalidIndex`, `static_cast<size_t>(-1)`, for a `size_t`
of `bits` bits. -/
def InvalidIndex (bits : Nat) : Nat := 2 ^ bits - 1

/-- The array of a `WidgetContainer<maxWidgets>` has `maxWidgets` cells and
`count` does not exceed it. -/
def WidgetContainer.Wf (maxWidgets : Nat) (c : WidgetContainer) : Prop :=
  c.widgets.length = maxWidgets ∧ c.count ≤ maxWidgets

instance (maxWidgets : Nat) (c : WidgetContainer) : Decidable (c.Wf maxWidgets) := by
  unfold WidgetContainer.Wf; infer_instance

/-- A newly constructed container: `count = 0`; the array is not
initialised, `ws` is what it happens to hold. -/
def WidgetContainer.init (ws : List Nat) : WidgetContainer := { widgets := ws, count := 0 }

/-- The function `WidgetContainer::size`. -/
def WidgetContainer.size (c : WidgetContainer) : Nat := c.count

/-- The function `WidgetContainer::addWidget`: the new container and the
returned index. -/
def WidgetContainer.addWidget (bits maxWidgets : Nat) (c : WidgetContainer) (widget : Nat) :
    WidgetContainer × Nat :=
  if c.count ≥ maxWidgets then (c, InvalidIndex bits)
  else ({ widgets := c.widgets.set c.count widget, count := c.count + 1 }, c.count)

/-- The function `WidgetContainer::removeWidget(size_t index)`: the cells
from `index` to `count - 2` take the value of their successor, then the
last used cell is cleared. -/
def WidgetContainer.removeWidgetAt (c : WidgetContainer) (index : Nat) : WidgetContainer :=
  if index ≥ c.count then c
  else
    let ws := (List.range' index (c.count - 1 - index)).foldl
      (fun ws i => ws.set i (ws.getD (i + 1) 0)) c.widgets
    { widgets := ws.set (c.count - 1) 0, count := c.count - 1 }

/-- The search loop of `removeWidget(BaseWidget*)` and of
`replaceWidget(BaseWidget*, BaseWidget*)`: the first index below `count`
that holds `widget`. -/
def WidgetContainer.indexOfWidget (c : WidgetContainer) (widget : Nat) : Option Nat :=
  (List.range c.count).find? (fun i => c.widgets.getD i 0 == widget)

/-- The function `WidgetContainer::removeWidget(BaseWidget* widget)`. -/
def WidgetContainer.removeWidget (c : WidgetContainer) (widget : Nat) : WidgetContainer :=
  match c.indexOfWidget widget with
  | some i => c.removeWidgetAt i
  | none => c

/-- The function `WidgetContainer::removeAllWidgets`. -/
def WidgetContainer.removeAllWidgets (c : WidgetContainer) : WidgetContainer :=
  { widgets := (List.range c.count).foldl (fun ws i => ws.set i 0) c.widgets, count := 0 }

/-- The function `WidgetContainer::replaceWidget(size_t index, BaseWidget*)`. -/
def WidgetContainer.replaceWidgetAt (c : WidgetContainer) (index newWidget : Nat) :
    WidgetContainer × Bool :=
  if index ≥ c.count then (c, false)
  else ({ c with widgets := c.widgets.set index newWidget }, true)

/-- The function `WidgetContainer::replaceWidget(BaseWidget*, BaseWidget*)`. -/
def WidgetContainer.replaceWidget (c : WidgetContainer) (oldWidget newWidget : Nat) :
    WidgetContainer × Bool :=
  match c.indexOfWidget oldWidget with
  | some i => ({ c with widgets := c.widgets.set i newWidget }, true)
  | none => (c, false)

/-- A call of one of the functions that change a `WidgetContainer`. -/
inductive WidgetCall where
  | addWidget (widget : Nat)
  | removeWidgetAt (index : Nat)
  | removeWidget (widget : Nat)
  | removeAllWidgets
  | replaceWidgetAt (index newWidget : Nat)
  | replaceWidget (oldWidget newWidget : Nat)
deriving DecidableEq, Repr

/-- The container after one call. -/
def WidgetContainer.call (bits maxWidgets : Nat) (c : WidgetContainer) :
    WidgetCall → WidgetContainer
  | .addWidget widget => (c.addWidget bits maxWidgets widget).1
  | .removeWidgetAt index => c.removeWidgetAt index
  | .removeWidget widget => c.removeWidget widget
  | .removeAllWidgets => c.removeAllWidgets
  | .replaceWidgetAt index newWidget => (c.replaceWidgetAt index newWidget).1
  | .replaceWidget oldWidget newWidget => (c.replaceWidget oldWidget newWidget).1

/-- The container after a sequence of calls. -/
def WidgetContainer.run (bits maxWidgets : Nat) (c : WidgetContainer)
    (calls : List WidgetCall) : WidgetContainer :=
  calls.foldl (WidgetContainer.call bits maxWidgets) c

/-- A container for two widgets that holds the widgets 11 and 12. -/
def exFull : WidgetContainer := { widgets := [11, 12], count := 2 }

/-- A container for two widgets that holds the widget 11. -/
def exHalf : WidgetContainer := { widgets := [11, 0], count := 1 }

/-! ## EventScreenManager -/

/-- The enum `TransitionIntentType`. -/
inductive TransitionIntentType where
  | None
  | Auto
  | Next
  | Back
  | Init
deriving DecidableEq, Repr

/-- The struct `TransitionIntent`; `std::string` is `String`, and
`empty()` is equality with `""`. -/
structure TransitionIntent where
  type : TransitionIntentType := .None
  requested : String := ""
deriving DecidableEq, Repr

/-- An object behind a pointer `IManagedScreen*`: its address and what its
`name()` returns. What its `id()` returns is the member `alias_` of
`BaseScreen`, which `setId` assigns; it is kept in `EventScreenManager.alias_`. -/
structure IManagedScreen where
  addr : Nat
  name : String
deriving DecidableEq, Repr

/-- An object behind a pointer `IScreenRouter*`: its address and its
`resolveScreen`, taken as a function of its two arguments. -/
structure IScreenRouter where
  addr : Nat
  resolveScreen : String → TransitionIntent → String

/-- A call that the manager makes on a screen or on a router. -/
inductive ScreenCall where
  | setId (screen : Nat) (id : String)
  | begin (screen : Nat)
  | start (screen : Nat)
  | draw (screen : Nat)
  | end_ (screen : Nat)
  | resolveScreen (router : Nat) (current : String) (intent : TransitionIntent)
deriving DecidableEq, Repr

/-- The class `EventScreenManager`. The map `screens` is a list of pairs
with distinct keys; a pointer to a screen is its address, `none` is
`nullptr`. The last two fields are not members: `alias_` is the `id()` of
every screen object and `calls` records, in order, the calls made on
screens and routers. -/
structure EventScreenManager where
  screens : List (String × Nat) := []
  routers : List IScreenRouter := []
  current : Option Nat := none
  previous : Option Nat := none
  pendingIntent : TransitionIntent := {}
  displayRefreshMs : Nat := 100
  now : Nat := 0
  lastDisplayRefresh : Nat := 0
  initialScreen : String := ""
  alias_ : Nat → String := fun _ => ""
  calls : List ScreenCall := []

namespace EventScreenManager

/-- The function `EventScreenManager::begin`. -/
def begin (m : EventScreenManager) : EventScreenManager :=
  { m with pendingIntent := { type := .Init } }

/-- The function `EventScreenManager::registerScreen`. -/
def registerScreen (m : EventScreenManager) (screen : IManagedScreen) (id : String) :
    EventScreenManager × Bool :=
  let id := if id = "" then screen.name else id
  if id = "" then (m, false)
  else
    let m := if m.screens.isEmpty then { m with initialScreen := id } else m
    match m.screens.lookup id with
    | some _ => (m, false)
    | none =>
      ({ m with
          screens := m.screens ++ [(id, screen.addr)]
          alias_ := Function.update m.alias_ screen.addr id
          calls := m.calls ++ [.setId screen.addr id, .begin screen.addr] }, true)

/-- The assignment `screens[id] = screen` of `std::unordered_map`. -/
def mapSet (screens : List (String × Nat)) (id : String) (screen : Nat) :
    List (String × Nat) :=
  match screens.lookup id with
  | some _ => screens.map (fun e => if e.1 = id then (id, screen) else e)
  | none => screens ++ [(id, screen)]

/-- The function `EventScreenManager::overwriteScreen`. -/
def overwriteScreen (m : EventScreenManager) (screen : IManagedScreen) (id : String) :
    EventScreenManager × Bool :=
  let id := if id = "" then screen.name else id
  if id = "" then (m, false)
  else
    ({ m with
        screens := mapSet m.screens id screen.addr
        alias_ := Function.update m.alias_ screen.addr id
        calls := m.calls ++ [.setId screen.addr id, .begin screen.addr] }, true)

/-- The function `EventScreenManager::addRouter`. -/
def addRouter (m : EventScreenManager) (router : IScreenRouter) : EventScreenManager :=
  { m with routers := m.routers ++ [router] }

/-- The function `EventScreenManager::requestScreen(const TransitionIntent&)`. -/
def requestScreen (m : EventScreenManager) (intent : TransitionIntent) : EventScreenManager :=
  { m with pendingIntent := intent }

/-- The function `EventScreenManager::requestScreen(const std::string&)`. -/
def requestScreenNamed (m : EventScreenManager) (nextScreen : String) : EventScreenManager :=
  m.requestScreen { type := .Next, requested := nextScreen }

/-- The function `EventScreenManager::setFps`: `1000/fps` has no value for
`fps = 0`. -/
def setFps (m : EventScreenManager) (fps : Nat) : Option EventScreenManager :=
  (idiv 1000 fps).map (fun q => { m with displayRefreshMs := u16 q })

/-- The function `EventScreenManager::getFps`. -/
def getFps (m : EventScreenManager) : Nat := u8 (m.displayRefreshMs / 1000)

/-- The expression `current ? current->id() : std::string{}`. -/
def currentId (m : EventScreenManager) : String :=
  match m.current with
  | some c => m.alias_ c
  | none => ""

/-- The loop over the routers in `resolveTransition`: the value of
`resolved` when the loop is left and the calls of `resolveScreen` made.
`initial` is the value of `screens.empty() ? "" : initialScreen`. -/
def askRouters (cur : String) (intent : TransitionIntent) (initial : String)
    (resolved : String) : List IScreenRouter → String × List ScreenCall
  | [] => (resolved, [])
  | router :: rest =>
    let resolved := router.resolveScreen cur intent
    let call := ScreenCall.resolveScreen router.addr cur intent
    if resolved ≠ "" then (resolved, [call])
    else if intent.type = .Init then (initial, [call])
    else
      let r := askRouters cur intent initial resolved rest
      (r.1, call :: r.2)

/-- The first part of `resolveTransition` after the test of
`screens.empty()`: the value of `resolved` before the requested id is
considered, and the calls of `resolveScreen` made. -/
def consult (m : EventScreenManager) (intent : TransitionIntent) : String × List ScreenCall :=
  let initial := if m.screens.isEmpty then "" else m.initialScreen
  if m.routers.isEmpty then
    (if intent.type = .Init then initial else "", [])
  else askRouters m.currentId intent initial "" m.routers

/-- The value of `resolved` in `resolveTransition` when the map is
searched: the requested id stands in for an empty answer. -/
def resolvedId (m : EventScreenManager) (intent : TransitionIntent) : String :=
  let resolved := (consult m intent).1
  if resolved = "" ∧ intent.requested ≠ "" then intent.requested else resolved

/-- The last part of `resolveTransition`: the switch to the screen
registered as `resolved`, if there is one and it is not the current
screen. -/
def switchTo (m : EventScreenManager) (resolved : String) : EventScreenManager :=
  if resolved = "" then m
  else
    match m.screens.lookup resolved with
    | none => m
    | some nextScreen =>
      match m.current with
      | some c =>
        if nextScreen = c then m
        else
          { m with
              previous := some c
              current := some nextScreen
              calls := m.calls ++ [.end_ c, .start nextScreen] }
      | none => { m with current := some nextScreen, calls := m.calls ++ [.start nextScreen] }

/-- The function `EventScreenManager::resolveTransition`. -/
def resolveTransition (m : EventScreenManager) (intent : TransitionIntent) :
    EventScreenManager :=
  if m.screens.isEmpty then m
  else switchTo { m with calls := m.calls ++ (consult m intent).2 } (resolvedId m intent)

/-- The second part of `update()`: `draw()` of the current screen when the
refresh interval has passed; `millis` is the value that `millis()` returns. -/
def refresh (m : EventScreenManager) (millis : Nat) : EventScreenManager :=
  let m := { m with now := millis }
  if sub32 m.now m.lastDisplayRefresh < m.displayRefreshMs then m
  else
    let m := { m with lastDisplayRefresh := m.now }
    match m.current with
    | some c => { m with calls := m.calls ++ [.draw c] }
    | none => m

/-- The function `EventScreenManager::update`. -/
def update (m : EventScreenManager) (millis : Nat) : EventScreenManager :=
  let m :=
    if m.pendingIntent.type ≠ .None then
      { resolveTransition m m.pendingIntent with pendingIntent := {} }
    else m
  refresh m millis

end EventScreenManager

/-! ## Notions used to state the screen manager properties -/

namespace EventScreenManager

/-- The calls made between the state `before` and the later state `after`. -/
def newCalls (before after : EventScreenManager) : List ScreenCall :=
  after.calls.drop before.calls.length

/-- The router answers the intent with an empty string. -/
def silent (cur : String) (intent : TransitionIntent) (router : IScreenRouter) : Bool :=
  decide (router.resolveScreen cur intent = "")

/-- The call of `resolveScreen` on a router. -/
def callOf (cur : String) (intent : TransitionIntent) (router : IScreenRouter) : ScreenCall :=
  .resolveScreen router.addr cur intent

/-- The manager never has a previous screen without a current one. -/
def Inv (m : EventScreenManager) : Prop := m.current = none → m.previous = none

/-- One addition of a screen. -/
inductive Addition where
  | registerScreen (screen : IManagedScreen) (id : String)
  | overwriteScreen (screen : IManagedScreen) (id : String)
deriving DecidableEq, Repr

/-- The id under which an addition stores its screen. -/
def Addition.key : Addition → String
  | .registerScreen screen id => if id = "" then screen.name else id
  | .overwriteScreen screen id => if id = "" then screen.name else id

/-- The manager after one addition, and whether the addition succeeded. -/
def add (m : EventScreenManager) : Addition → EventScreenManager × Bool
  | .registerScreen screen id => m.registerScreen screen id
  | .overwriteScreen screen id => m.overwriteScreen screen id

/-- The manager after a sequence of additions, and whether all of them
succeeded. -/
def addAll (m : EventScreenManager) : List Addition → EventScreenManager × Bool
  | [] => (m, true)
  | a :: rest =>
    let r := m.add a
    let q := addAll r.1 rest
    (q.1, r.2 && q.2)

end EventScreenManager

/-- The call is `end()` or `start()` of a screen. -/
def ScreenCall.isEndOrStart : ScreenCall → Bool
  | .end_ _ => true
  | .start _ => true
  | _ => false

/-- The call is `resolveScreen` of a router. -/
def ScreenCall.isResolveScreen : ScreenCall → Bool
  | .resolveScreen _ _ _ => true
  | _ => false

/-- The call is `draw()` of a screen. -/
def ScreenCall.isDraw : ScreenCall → Bool
  | .draw _ => true
  | _ => false

/-! ## Example screens, routers and managers -/

/-- A screen named `home`. -/
def exHome : IManagedScreen := { addr := 1, name := "home" }

/-- A screen named `menu`. -/
def exMenu : IManagedScreen := { addr := 2, name := "menu" }

/-- A screen named `login`. -/
def exLogin : IManagedScreen := { addr := 3, name := "login" }

/-- A router that never objects. -/
def routerSilent : IScreenRouter := { addr := 101, resolveScreen := fun _ _ => "" }

/-- A router that sends every request for `menu` to `login`. -/
def routerLogin : IScreenRouter :=
  { addr := 102, resolveScreen := fun _ intent => if intent.requested = "menu" then "login" else "" }

/-- A router that sends everything to `home`. -/
def routerHome : IScreenRouter := { addr := 103, resolveScreen := fun _ _ => "home" }

/-- A manager with three routers and no screen. -/
def exNoScreens : EventScreenManager := { routers := [routerSilent, routerLogin, routerHome] }

/-- The three example screens registered under their names, with three
routers. -/
def exThreeScreens : EventScreenManager :=
  (exNoScreens.addAll [.registerScreen exHome "", .registerScreen exMenu "",
    .registerScreen exLogin ""]).1

/-- The manager `exThreeScreens` after `begin()` and one `update()`: it
shows `home`. -/
def exShowingHome : EventScreenManager := exThreeScreens.begin.update 0

/-- A request for the screen `menu`. -/
def exToMenu : TransitionIntent := { type := .Next, requested := "menu" }

/-- The overwrite-only setup: `home` and `menu` are added with
`overwriteScreen`. -/
def exOverwriteOnly : List EventScreenManager.Addition :=
  [.overwriteScreen exHome "", .overwriteScreen exMenu ""]

/-- The manager `exShowingHome` with a request for `menu` pending. -/
def exMenuPending : EventScreenManager := exShowingHome.requestScreen exToMenu

/-! ## Notions used to state the drag properties -/

/-- The member function `EventTouchScreen::getPreviousTouchPoint`. -/
def getPreviousTouchPoint (s : EventTouchScreen) : TouchPoint_s := s.previousTouchPoint

/-- The member function `EventTouchScreen::getStartTouchPoint`. -/
def getStartTouchPoint (s : EventTouchScreen) : TouchPoint_s := s.startTouchPoint

/-- The members that the press edge, the release edge and the drag
evaluation assign or read. -/
structure DragView where
  touched : Bool
  dragging : Bool
  lastDragMs : Nat
  touchPoint : TouchPoint_s
  startTouchPoint : TouchPoint_s
  previousTouchPoint : TouchPoint_s
  dragEnabled : Bool
  dragThresholdMs : Nat
  dragIntervalMs : Nat
  deriving DecidableEq

/-- The drag view of an engine. -/
def dragView (s : EventTouchScreen) : DragView :=
  { touched := s.touched, dragging := s.dragging, lastDragMs := s.lastDragMs,
    touchPoint := s.touchPoint, startTouchPoint := s.startTouchPoint,
    previousTouchPoint := s.previousTouchPoint, dragEnabled := s.dragEnabled,
    dragThresholdMs := s.dragThresholdMs, dragIntervalMs := s.dragIntervalMs }

/-- The drag view once `debounced()` has run: a stable sample has become
the working touch point. -/
def sampledView (s : EventTouchScreen) (tp : TouchPoint_s) (stable : Bool) : DragView :=
  { dragView s with touchPoint := if stable then tp else s.touchPoint }

/-- The events that neither begin nor end a press and are not DRAGGED. -/
def InputEventType.isDragNeutral : InputEventType → Bool
  | .PRESSED => false
  | .RELEASED => false
  | .DRAGGED_RELEASED => false
  | .DRAGGED => false
  | _ => true

/-- What a processed tick does to the drag view `v` it starts from (the
view once the sample is taken), given its events, the engine seen at each
of them and the engine afterwards. One of four: nothing that concerns a
drag (no event, or LONG_PRESS or a click event, the view unchanged); a
press is accepted; a release is accepted; DRAGGED is emitted. -/
def DragStepOn (v : DragView) (now : Nat) (events : List InputEventType)
    (seen : List EventTouchScreen) (st : EventTouchScreen) : Prop :=
  (((events = [] ∧ seen = [])
      ∨ ∃ e x, events = [e] ∧ e.isDragNeutral = true ∧ seen = [x] ∧ dragView x = v)
    ∧ dragView st = v)
  ∨ (events = [.PRESSED] ∧ seen = [st] ∧ v.touched = false ∧ v.touchPoint.z ≠ 0
    ∧ dragView st = { v with touched := true, lastDragMs := now,
                             startTouchPoint := v.touchPoint,
                             previousTouchPoint := v.touchPoint })
  ∨ ((events = [.RELEASED] ∨ events = [.DRAGGED_RELEASED]) ∧ seen = [st] ∧ v.touched = true
    ∧ dragView st = { v with touched := false, dragging := false })
  ∨ (events = [.DRAGGED] ∧ v.touched = true ∧ v.touchPoint.z ≠ 0 ∧ v.dragEnabled = true
    ∧ (if v.dragging then v.dragIntervalMs else v.dragThresholdMs) < sub32 now v.lastDragMs
    ∧ (∃ x, seen = [x] ∧ dragView x = { v with dragging := true, lastDragMs := now })
    ∧ dragView st = { v with dragging := true, lastDragMs := now,
                             previousTouchPoint := v.touchPoint })

/-- The calls of `update()` of a trace, each with its result. -/
def runResults (s : EventTouchScreen) : List Tick → List (Tick × UpdateResult)
  | [] => []
  | k :: ks => (k, update s k.now k.tp) :: runResults (update s k.now k.tp).st ks

/-! ## The observers of the drag timing and of the drag points -/

/-- What an observer of the events keeps to check the drag timing: the time
of the accepted press or of the last DRAGGED of the press in progress, and
whether a DRAGGED has been emitted since that press was accepted. -/
structure DragClock where
  last : Option Nat := none
  dragged : Bool := false
  deriving DecidableEq, Repr

/-- One invocation read by the observer of the drag timing, for an engine
configured with `enabled`, `thresholdMs` and `intervalMs`: the check it
makes and what it keeps. At DRAGGED: dragging is enabled, `isDragging()` is
true, and more than `thresholdMs` (first DRAGGED of the press) or
`intervalMs` (later ones) have passed, on the 32-bit clock, since the press
or the DRAGGED before. At any other event of a press that has emitted
DRAGGED: `isDragging()` is true. -/
def dragTimingEvent (enabled : Bool) (thresholdMs intervalMs : Nat) (g : DragClock)
    (now : Nat) (e : InputEventType) (x : EventTouchScreen) : Bool × DragClock :=
  match e with
  | .PRESSED => (true, { last := some now, dragged := false })
  | .DRAGGED =>
    (enabled && isDragging x &&
      (match g.last with
       | some t => decide ((if g.dragged then intervalMs else thresholdMs) < sub32 now t)
       | none => false),
     { last := some now, dragged := true })
  | .RELEASED => (true, {})
  | .DRAGGED_RELEASED => (true, {})
  | _ => (!g.dragged || isDragging x, g)

/-- The invocations of one call of `update()` read by the observer of the
drag timing. -/
def dragTimingEvents (enabled : Bool) (thresholdMs intervalMs : Nat) (g : DragClock)
    (now : Nat) : List (InputEventType × EventTouchScreen) → Bool × DragClock
  | [] => (true, g)
  | x :: rest =>
    let q := dragTimingEvent enabled thresholdMs intervalMs g now x.1 x.2
    let r := dragTimingEvents enabled thresholdMs intervalMs q.2 now rest
    (q.1 && r.1, r.2)

/-- The drag timing of a trace: every invocation passes the check of
`dragTimingEvent`, and after every call of `update()` of a press that has
emitted DRAGGED and is not released, `isDragging()` is true. -/
def dragTiming (enabled : Bool) (thresholdMs intervalMs : Nat) (g : DragClock) :
    List (Tick × UpdateResult) → Bool
  | [] => true
  | x :: rest =>
    let q := dragTimingEvents enabled thresholdMs intervalMs g x.1.now (x.2.events.zip x.2.seen)
    q.1 && (!q.2.dragged || isDragging x.2.st)
      && dragTiming enabled thresholdMs intervalMs q.2 rest

/-- The observer of the drag timing agrees with the engine: the
configuration is the one it was given; while touched, its time is
`lastDragMs` and its flag is `dragging`; while untouched, no drag is
engaged. -/
def DragClock.Agrees (enabled : Bool) (thresholdMs intervalMs : Nat) (g : DragClock)
    (v : DragView) : Prop :=
  v.dragEnabled = enabled ∧ v.dragThresholdMs = thresholdMs ∧ v.dragIntervalMs = intervalMs
  ∧ (v.touched = true → g.last = some v.lastDragMs ∧ g.dragged = v.dragging)
  ∧ (v.touched = false → v.dragging = false ∧ g.dragged = false)

/-- What an observer of the events keeps to check the drag points: the
start point of the press in progress, the point of its last DRAGGED (the
start point before the first), and the last sample that `debounced()`
accepted. -/
structure DragPoints where
  start : Option TouchPoint_s := none
  previous : Option TouchPoint_s := none
  current : Option TouchPoint_s := none
  deriving DecidableEq, Repr

/-- One invocation read by the observer of the drag points: the check it
makes and what it keeps. At PRESSED: `getTouchPoint()` is the accepted
sample and `getStartTouchPoint()` equals it. At DRAGGED:
`getPreviousTouchPoint()` is the point kept from the DRAGGED before (or the
start point), `getTouchPoint()` is the accepted sample, and
`getStartTouchPoint()` is the start point of the press. At any other
event: `getStartTouchPoint()` is the start point of the last press. -/
def dragDeltaEvent (g : DragPoints) (e : InputEventType) (x : EventTouchScreen) :
    Bool × DragPoints :=
  match e with
  | .PRESSED =>
    (decide (some (getTouchPoint x).2 = g.current)
      && decide (getStartTouchPoint x = (getTouchPoint x).2),
     { g with start := some (getStartTouchPoint x), previous := some (getStartTouchPoint x) })
  | .DRAGGED =>
    (decide (some (getPreviousTouchPoint x) = g.previous)
      && decide (some (getTouchPoint x).2 = g.current)
      && decide (some (getStartTouchPoint x) = g.start),
     { g with previous := some (getTouchPoint x).2 })
  | _ => (decide (g.start = none ∨ g.start = some (getStartTouchPoint x)), g)

/-- The invocations of one call of `update()` read by the observer of the
drag points. -/
def dragDeltaEvents (g : DragPoints) : List (InputEventType × EventTouchScreen) →
    Bool × DragPoints
  | [] => (true, g)
  | x :: rest =>
    let q := dragDeltaEvent g x.1 x.2
    let r := dragDeltaEvents q.2 rest
    (q.1 && r.1, r.2)

/-- The drag points of a trace: every invocation passes the check of
`dragDeltaEvent`; after a call of `update()` that emitted DRAGGED,
`getPreviousTouchPoint()` equals `getTouchPoint()`; and after every call
`getStartTouchPoint()` is the start point of the last press. -/
def dragDeltas (g : DragPoints) : List (Tick × UpdateResult) → Bool
  | [] => true
  | x :: rest =>
    let g1 := if x.2.stable then { g with current := some x.1.tp } else g
    let q := dragDeltaEvents g1 (x.2.events.zip x.2.seen)
    q.1
      && decide (InputEventType.DRAGGED ∈ x.2.events →
          getPreviousTouchPoint x.2.st = (getTouchPoint x.2.st).2)
      && decide (q.2.start = none ∨ q.2.start = some (getStartTouchPoint x.2.st))
      && dragDeltas q.2 rest

/-- The observer of the drag points agrees with the engine. -/
def DragPoints.Agrees (g : DragPoints) (v : DragView) : Prop :=
  (∀ p, g.start = some p → v.startTouchPoint = p)
  ∧ (v.touched = true → g.start = some v.startTouchPoint
      ∧ g.previous = some v.previousTouchPoint ∧ g.current = some v.touchPoint)

/-- A trace with one call of `update()` every 15 ms for 600 ms: the panel
reports a touch at (0, 0) for four calls, at (40, 0) for the next twenty
and at (80, 30) from then on. -/
def slowDrag : List Tick :=
  (List.range 40).map fun k =>
    ⟨15 * (k + 1), if k < 4 then ⟨0, 0, 1⟩ else if k < 24 then ⟨40, 0, 1⟩ else ⟨80, 30, 1⟩⟩

/-! ## Calls of the screen manager -/

/-- A call of one of the public functions of `EventScreenManager` that
change it. -/
inductive ManagerCall where
  | begin
  | update (millis : Nat)
  | registerScreen (screen : IManagedScreen) (id : String)
  | overwriteScreen (screen : IManagedScreen) (id : String)
  | addRouter (router : IScreenRouter)
  | requestScreen (intent : TransitionIntent)
  | setFps (fps : Nat)

/-- The manager after one call; `none` when the call has no defined
result. -/
def EventScreenManager.call (m : EventScreenManager) : ManagerCall → Option EventScreenManager
  | .begin => some m.begin
  | .update millis => some (m.update millis)
  | .registerScreen screen id => some (m.registerScreen screen id).1
  | .overwriteScreen screen id => some (m.overwriteScreen screen id).1
  | .addRouter router => some (m.addRouter router)
  | .requestScreen intent => some (m.requestScreen intent)
  | .setFps fps => m.setFps fps

/-- The manager after a sequence of calls. -/
def EventScreenManager.run (m : EventScreenManager) : List ManagerCall → Option EventScreenManager
  | [] => some m
  | c :: rest => (m.call c).bind (fun n => n.run rest)

/-- An observer of the drag points that keeps (10, 10) as start point,
(20, 20) as previous point and (50, 50) as accepted sample. -/
def exKept : DragPoints := ⟨some ⟨10, 10, 1⟩, some ⟨20, 20, 1⟩, some ⟨50, 50, 1⟩⟩

/-! ## Region: intersection -/

/-- The function `Region::setX`. -/
def Region.setX (R : Region) (x : Nat) : Region := { R with x := x }

/-- The function `Region::setY`. -/
def Region.setY (R : Region) (y : Nat) : Region := { R with y := y }

/-- The function `Region::intersects(const Region& other, bool inclusive = true)`. -/
def Region.intersects (R other : Region) (inclusive : Bool) : Bool :=
  if inclusive then
    !(decide (other.r < R.x) || decide (other.x > R.r)
      || decide (other.b < R.y) || decide (other.y > R.b))
  else
    !(decide (other.r ≤ R.x) || decide (other.x ≥ R.r)
      || decide (other.b ≤ R.y) || decide (other.y ≥ R.b))

/-- A region with `w >= 1`, `h >= 1`, `x + w <= 65536` and `y + h <= 65536`:
`r()` and `b()` do not wrap. -/
def Region.Fits (R : Region) : Prop :=
  1 ≤ R.w ∧ 1 ≤ R.h ∧ R.x + R.w ≤ 65536 ∧ R.y + R.h ≤ 65536

instance (R : Region) : Decidable R.Fits := by
  unfold Region.Fits; infer_instance

/-! ## WidgetRowContainer -/

/-- The class template `WidgetRowContainer<maxWidgets>`: the members of its
base `WidgetContainer<maxWidgets>`, the `Region` it is as a `BaseWidget`,
and `widenLast`. -/
structure WidgetRowContainer where
  base : WidgetContainer
  region : Region
  widenLast : Bool := true
  deriving DecidableEq, Repr

/-- The function `WidgetRowContainer::setWidgetRegion(BaseWidget* widget,
uint8_t position)`. The widgets are objects outside the container:
`regions` gives the `Region` of the widget at each address, and the result
is `regions` after the call. `xDiv` and `wDiv` take their divisor as a
`uint8_t`, so `maxWidgets` is reduced with `u8`; `(r() - widget->x()) + 1`
is computed in `int` and passed as a `uint16_t`. -/
def WidgetRowContainer.setWidgetRegionPtr (maxWidgets : Nat) (c : WidgetRowContainer)
    (regions : Nat → Region) (widget position : Nat) : Option (Nat → Region) :=
  if widget = 0 then some regions
  else if position ≥ maxWidgets then some regions
  else
    (c.region.xDiv (u8 maxWidgets) position).bind fun x =>
      let w1 := ((regions widget).setX x).setY c.region.y
      let w2 : Option Region :=
        if c.widenLast = true ∧ position = maxWidgets - 1 then
          some (w1.setW (u16 (c.region.r + 65536 + 1 - w1.x)))
        else (c.region.wDiv (u8 maxWidgets)).map fun w => w1.setW w
      w2.map fun w3 => Function.update regions widget (w3.setH c.region.h)

/-- The function `WidgetRowContainer::setWidgetRegion(size_t index, uint8_t
position)`. -/
def WidgetRowContainer.setWidgetRegion (maxWidgets : Nat) (c : WidgetRowContainer)
    (regions : Nat → Region) (index position : Nat) : Option (Nat → Region) :=
  if index ≥ c.base.count then some regions
  else if position ≥ maxWidgets then some regions
  else if c.base.widgets.getD position 0 = 0 then some regions
  else c.setWidgetRegionPtr maxWidgets regions (c.base.widgets.getD index 0) position

/-- The function `WidgetRowContainer::add`: the container, the regions of
the widgets and the returned index. -/
def WidgetRowContainer.add (bits maxWidgets : Nat) (c : WidgetRowContainer)
    (regions : Nat → Region) (widget position : Nat) :
    Option (WidgetRowContainer × (Nat → Region) × Nat) :=
  let r := c.base.addWidget bits maxWidgets widget
  if r.2 = InvalidIndex bits then some ({ c with base := r.1 }, regions, InvalidIndex bits)
  else
    (WidgetRowContainer.setWidgetRegionPtr maxWidgets { c with base := r.1 } regions widget
      position).map fun g => ({ c with base := r.1 }, g, r.2)

/-- The region that the claim computes for a position of a row container:
`x = xDiv(maxWidgets, position)`, the `y` and `h` of the container, and
`w = wDiv(maxWidgets)`, or for the last position with `widenLast` the rest
of the row, `r() - x + 1`. -/
def WidgetRowContainer.slot (maxWidgets : Nat) (c : WidgetRowContainer) (position : Nat) :
    Option Region :=
  (c.region.xDiv (u8 maxWidgets) position).bind fun x =>
    (c.region.wDiv (u8 maxWidgets)).map fun w =>
      { x := x, y := c.region.y,
        w := if c.widenLast = true ∧ position = maxWidgets - 1
          then u16 (c.region.r + 65536 + 1 - x) else w,
        h := c.region.h }

/-- A row of three positions, 300 wide and 40 high at (0, 100), that holds
the widgets at the addresses 11 and 12: a third widget has been removed
with `removeWidget(2)`, which leaves `nullptr` in the cell 2. -/
def exRow : WidgetRowContainer :=
  { base := (({ widgets := [11, 12, 13], count := 3 } : WidgetContainer).removeWidgetAt 2),
    region := Region.make 0 100 300 40 }

/-- The regions of the widgets of `exRow`: 11 in position 0 and 12 in
position 1. -/
def exRowRegions : Nat → Region := fun a =>
  if a = 11 then Region.make 0 100 100 40
  else if a = 12 then Region.make 100 100 100 40
  else {}

/-! ## BaseTouchKeypadWidget -/

/-- The enum `WidgetDisplayState`. -/
inductive WidgetDisplayState where
  | NONE
  | ENABLED
  | PRESSED
  | FOCUSSED
  | IDLE
  | DISABLED
  | HIDDEN
  | ERROR
  deriving DecidableEq, Repr

/-- The class `TouchKeypadKey`: the `Region` and the state members of its
base `BaseWidget` that the keypad uses, and its row and column. -/
structure TouchKeypadKey where
  region : Region
  widgetState : WidgetDisplayState := .NONE
  previousState : WidgetDisplayState := .NONE
  requiresRedraw : Bool := true
  keyRow : Nat := 0
  keyCol : Nat := 0
  deriving DecidableEq, Repr

/-- The function `BaseWidget::setState` on a key; `onStateChanged()` of
`TouchKeypadKey` calls `redrawRequired()`. -/
def TouchKeypadKey.setState (k : TouchKeypadKey) (newState : WidgetDisplayState) :
    TouchKeypadKey :=
  if newState = k.widgetState then k
  else { k with previousState := k.widgetState, widgetState := newState, requiresRedraw := true }

/-- The class template `BaseTouchKeypadWidget<NumRows, NumCols>`: its
`Region`, the arrays `touchKey` and `keyRemoved` (indexed by row and
column) and `requiresRedraw` of its base `BaseWidget`. The template
arguments are passed to the member functions. -/
structure BaseTouchKeypadWidget where
  region : Region
  touchKey : Nat → Nat → TouchKeypadKey
  keyRemoved : Nat → Nat → Bool
  requiresRedraw : Bool := true

/-- The assignment `grid[row][col] = v` of a two-dimensional array. -/
def setCell {α : Type} (grid : Nat → Nat → α) (row col : Nat) (v : α) : Nat → Nat → α :=
  fun r c => if r = row ∧ c = col then v else grid r c

/-- What the keypad has done when a call returns or is interrupted: the
keypad, the keys passed to `drawKey` or to `onTouchKeyEvent` (each by its
place in `touchKey`), in order, and the value returned: `none` while the
loops are still running, `some none` when `draw` has returned. -/
structure KeypadRun (ρ : Type) where
  keypad : BaseTouchKeypadWidget
  passed : List (Nat × Nat) := []
  result : Option ρ := none

/-- The loops `for (uint8_t r = 0; r < NumRows; r++) for (uint8_t c = 0;
c < NumCols; c++)` of `draw` and `onTouchEvent`, from the counters `r` and
`c`, for at most `fuel` tests of a loop condition. The body returns the
keypad, the key it passed on (if any) and the value it returned from the
function (if it did); `done` is what follows the loops. The counters are
`uint8_t`, the bounds `size_t`. -/
def gridLoop {ρ : Type} (NumRows NumCols : Nat)
    (body : Nat → Nat → BaseTouchKeypadWidget →
      BaseTouchKeypadWidget × Option (Nat × Nat) × Option ρ)
    (done : BaseTouchKeypadWidget → BaseTouchKeypadWidget × ρ) :
    Nat → Nat → Nat → KeypadRun ρ → KeypadRun ρ
  | 0, _, _, s => s
  | fuel + 1, r, c, s =>
    if r < NumRows then
      if c < NumCols then
        let b := body r c s.keypad
        let s1 : KeypadRun ρ :=
          { keypad := b.1, passed := s.passed ++ b.2.1.toList, result := b.2.2 }
        if b.2.2.isSome then s1
        else gridLoop NumRows NumCols body done fuel r (u8 (c + 1)) s1
      else gridLoop NumRows NumCols body done fuel (u8 (r + 1)) 0 s
    else
      { keypad := (done s.keypad).1, passed := s.passed, result := some (done s.keypad).2 }

namespace BaseTouchKeypadWidget

/-- The body of the loops of `draw`. -/
def drawBody (r c : Nat) (k : BaseTouchKeypadWidget) :
    BaseTouchKeypadWidget × Option (Nat × Nat) × Option Unit :=
  if k.keyRemoved r c = false ∧ (k.touchKey r c).requiresRedraw = true then
    ({ k with touchKey := setCell k.touchKey r c { k.touchKey r c with requiresRedraw := false } },
      some (r, c), none)
  else (k, none, none)

/-- The function `BaseTouchKeypadWidget::draw`, run for at most `fuel` tests
of a loop condition; `drawKey` is taken to leave the keypad alone. -/
def draw (NumRows NumCols : Nat) (k : BaseTouchKeypadWidget) (fuel : Nat) : KeypadRun Unit :=
  gridLoop NumRows NumCols drawBody (fun k => ({ k with requiresRedraw := false }, ()))
    fuel 0 0 { keypad := k }

/-- The body of the loops of `onTouchEvent`; `start` is what
`touchPanel.getStartTouchPoint()` returns and `onTouchKeyEvent` is the
value that the virtual function returns for a key. -/
def touchBody (et : InputEventType) (start : TouchPoint_s)
    (onTouchKeyEvent : Nat → Nat → InputEventType → Bool) (r c : Nat)
    (k : BaseTouchKeypadWidget) : BaseTouchKeypadWidget × Option (Nat × Nat) × Option Bool :=
  if k.keyRemoved r c = false then
    let k1 :=
      if et = .PRESSED ∧ (k.touchKey r c).region.contains start.x start.y = true then
        { k with touchKey := setCell k.touchKey r c ((k.touchKey r c).setState .PRESSED) }
      else k
    let k2 :=
      if et = .RELEASED ∧ (k1.touchKey r c).widgetState = .PRESSED then
        { k1 with touchKey :=
            setCell k1.touchKey r c ((k1.touchKey r c).setState (k1.touchKey r c).previousState) }
      else k1
    if (k2.touchKey r c).region.contains start.x start.y = true then
      (k2, some (r, c), some (onTouchKeyEvent r c et))
    else (k2, none, none)
  else (k, none, none)

/-- The function `BaseTouchKeypadWidget::onTouchEvent`, run for at most
`fuel` tests of a loop condition. -/
def onTouchEvent (NumRows NumCols : Nat) (k : BaseTouchKeypadWidget) (et : InputEventType)
    (start : TouchPoint_s) (onTouchKeyEvent : Nat → Nat → InputEventType → Bool)
    (fuel : Nat) : KeypadRun Bool :=
  if k.region.contains start.x start.y = false then { keypad := k, result := some false }
  else
    gridLoop NumRows NumCols (touchBody et start onTouchKeyEvent) (fun k => (k, false))
      fuel 0 0 { keypad := k }

/-- The function `BaseTouchKeypadWidget::getKey`: the place of the key in
`touchKey` that the returned pointer points to, `none` for `nullptr`. -/
def getKey (NumRows NumCols : Nat) (k : BaseTouchKeypadWidget) (row col : Nat) :
    Option (Nat × Nat) :=
  if row ≥ NumRows ∨ col ≥ NumCols then none
  else if k.keyRemoved row col = true then none
  else some (row, col)

/-- The function `BaseTouchKeypadWidget::removeKey`. -/
def removeKey (NumRows NumCols : Nat) (k : BaseTouchKeypadWidget) (row col : Nat)
    (remove : Bool) : BaseTouchKeypadWidget :=
  if row ≥ NumRows ∨ col ≥ NumCols then k
  else { k with keyRemoved := setCell k.keyRemoved row col remove }

/-- The function `BaseTouchKeypadWidget::initKeys`, after its loops: every
key at its place in the grid of the keypad region, none removed. The
divisions of `xDiv`, `yDiv`, `wDiv` and `hDiv` have a result
(`Region.wDiv_eq`). -/
def initKeys (NumRows NumCols : Nat) (region : Region) : BaseTouchKeypadWidget :=
  { region := region
    touchKey := fun r c =>
      { region := Region.make ((region.xDiv (u8 NumCols) c).getD 0)
          ((region.yDiv (u8 NumRows) r).getD 0) ((region.wDiv (u8 NumCols)).getD 0)
          ((region.hDiv (u8 NumRows)).getD 0)
        keyRow := r, keyCol := c }
    keyRemoved := fun _ _ => false }

end BaseTouchKeypadWidget

/-- A keypad of two rows and three columns, 300 wide and 100 high at
(0, 0), after `removeKey(0, 1)`. -/
def exKeypad : BaseTouchKeypadWidget :=
  (BaseTouchKeypadWidget.initKeys 2 3 (Region.make 0 0 300 100)).removeKey 2 3 0 1 true

/-! ## The state on which the held guard is evaluated -/

/-- Lines 31-63 of `update()` on a processed tick: `rateLimitCounter =
millis()`, `debounced()` and, if it returned true, the edge stage.  The
guard `touched && touchPoint.z != 0` of line 64 is evaluated on the state
of this step. -/
def edgeStep (s : EventTouchScreen) (now : Nat) (tp : TouchPoint_s) : Step :=
  let d := debounced { s with rateLimitCounter := now } now tp
  if d.stable then updateEdge d.st now else { st := d.st }

/-- A press held over three processed ticks, with a read of the touch
point, a disable and an enable in between. -/
def exPressActions : List Action :=
  [.update 20 ⟨5, 5, 1⟩, .update 40 ⟨5, 5, 1⟩, .getTouchPoint, .enable false, .enable true,
    .setRateLimit 5, .update 60 ⟨6, 6, 1⟩]

/-! ## Notions used to state the long-press properties -/

/-- A trace with one call of `update()` every 15 ms up to 2250 ms: the
panel reports a touch until 810 ms, no touch from then until 900 ms, and a
touch again from 900 ms on. -/
def pressAgain : List Tick :=
  (List.range 150).map fun k =>
    ⟨15 * (k + 1),
      if 15 * (k + 1) < 810 ∨ 900 ≤ 15 * (k + 1) then ⟨10, 10, 1⟩ else ⟨10, 10, 0⟩⟩

/-- A fresh engine after a press accepted at 30 ms, a call of `update()` at
800 ms that emitted LONG_PRESS, the release accepted at 830 ms, and a call
at 900 ms with the panel touched again. -/
def exReleasedLong : EventTouchScreen :=
  runState fresh [⟨15, ⟨10, 10, 1⟩⟩, ⟨30, ⟨10, 10, 1⟩⟩, ⟨800, ⟨10, 10, 1⟩⟩,
    ⟨815, ⟨10, 10, 0⟩⟩, ⟨830, ⟨10, 10, 0⟩⟩, ⟨900, ⟨10, 10, 1⟩⟩]

/-- A trace with one call of `update()` every 15 ms up to 2100 ms: the
panel reports a touch until 1900 ms and no touch from then on. -/
def repeatHold : List Tick :=
  (List.range 140).map fun k =>
    ⟨15 * (k + 1), if 15 * (k + 1) < 1900 then ⟨10, 10, 1⟩ else ⟨10, 10, 0⟩⟩

/-- A fresh engine after `setLongPressInterval(0)`. -/
def exNoInterval : EventTouchScreen := setLongPressInterval fresh 0

/-- The members of the engine that the long-press evaluation of a hold
depends on and changes. -/
structure HoldView where
  touched : Bool
  lastStateChange : Nat
  longPressCounter : Nat
  deriving DecidableEq

/-- The hold view of an engine. -/
def holdView (s : EventTouchScreen) : HoldView :=
  { touched := s.touched, lastStateChange := s.lastStateChange,
    longPressCounter := s.longPressCounter }

/-- What a call of `update()` does to the hold view `v` of an engine with
dragging disabled and long-press repeat enabled, whose `longClickDuration`
is `L` and `longPressInterval` is `I`, given its events, the engine seen at
each of them and the engine afterwards. One of four: no event or a click
event, and the view of a touched engine is unchanged; a press is accepted,
the counter kept; a release is accepted; LONG_PRESS is emitted, on a touched
engine whose `currentDuration()` exceeds the threshold of line 72, the
counter incremented before the invocation. -/
def HoldStepOn (L I : Nat) (v : HoldView) (now : Nat) (events : List InputEventType)
    (seen : List EventTouchScreen) (st : EventTouchScreen) : Prop :=
  (((events = [] ∧ seen = [])
      ∨ ∃ e x, events = [e] ∧ e.isClassification = true ∧ seen = [x])
    ∧ (v.touched = true → holdView st = v))
  ∨ (events = [.PRESSED] ∧ seen = [st]
    ∧ holdView st = { v with touched := true, lastStateChange := now })
  ∨ ((events = [.RELEASED] ∨ events = [.DRAGGED_RELEASED]) ∧ seen = [st])
  ∨ (events = [.LONG_PRESS] ∧ seen = [st] ∧ v.touched = true
    ∧ u16 (L + v.longPressCounter * I) < u16 (sub32 now v.lastStateChange)
    ∧ holdView st = { v with longPressCounter := u16 (v.longPressCounter + 1) })

/-! ## The observer of the long-press repeat -/

/-- What an observer of the events keeps to check the long-press repeat:
the time at which the press in progress was accepted, if it was accepted
with the long-press counter at 0, and the number of LONG_PRESS events of
that press so far. -/
structure HoldClock where
  start : Option Nat := none
  fired : Nat := 0
  deriving DecidableEq, Repr

/-- The value that `longPressCount()` is to return at the `k`-th LONG_PRESS
of a hold: `k` itself, or `k` as a `uint8_t`. -/
def expectedCount (wrap : Bool) (k : Nat) : Nat := if wrap then u8 k else k

/-- One invocation read by the observer of the long-press repeat, for an
engine whose `longClickDuration` is `L` and `longPressInterval` is `I`: the
check it makes and what it keeps. At the `k`-th LONG_PRESS of a press
accepted at time `p` with the counter at 0: if the threshold
`L + (k - 1) * I` is below 65536, the press has lasted more than that, on
the 32-bit clock; and `longPressCount()` returns the expected count of
`k`. -/
def longPressEvent (wrap : Bool) (L I : Nat) (g : HoldClock) (now : Nat)
    (e : InputEventType) (x : EventTouchScreen) : Bool × HoldClock :=
  match e with
  | .PRESSED => (true, if x.longPressCounter = 0 then { start := some now, fired := 0 } else {})
  | .LONG_PRESS =>
    match g.start with
    | some p =>
      (decide (L + g.fired * I < 65536 → L + g.fired * I < sub32 now p)
        && decide (longPressCount x = expectedCount wrap (g.fired + 1)),
       { g with fired := g.fired + 1 })
    | none => (true, g)
  | .RELEASED => (true, {})
  | .DRAGGED_RELEASED => (true, {})
  | _ => (true, g)

/-- The invocations of one call of `update()` read by the observer of the
long-press repeat. -/
def longPressEvents (wrap : Bool) (L I : Nat) (g : HoldClock) (now : Nat) :
    List (InputEventType × EventTouchScreen) → Bool × HoldClock
  | [] => (true, g)
  | x :: rest =>
    let q := longPressEvent wrap L I g now x.1 x.2
    let r := longPressEvents wrap L I q.2 now rest
    (q.1 && r.1, r.2)

/-- The long-press repeat of a trace: every invocation passes the check of
`longPressEvent`, and no call of `update()` emits more than one
LONG_PRESS. -/
def longPressTiming (wrap : Bool) (L I : Nat) (g : HoldClock) :
    List (Tick × UpdateResult) → Bool
  | [] => true
  | x :: rest =>
    let q := longPressEvents wrap L I g x.1.now (x.2.events.zip x.2.seen)
    q.1 && decide (x.2.events.count .LONG_PRESS ≤ 1) && longPressTiming wrap L I q.2 rest

/-- The observer of the long-press repeat agrees with the engine: while it
follows a press, the engine is touched, the press was accepted at the time
it keeps, and the long-press counter is the number of LONG_PRESS events it
has read, as a `uint16_t`. -/
def HoldClock.Agrees (g : HoldClock) (v : HoldView) : Prop :=
  ∀ p, g.start = some p →
    v.touched = true ∧ v.lastStateChange = p ∧ v.longPressCounter = u16 g.fired

/-! ## Traces near the top of the millisecond counter, and long holds -/

/-- Four calls of `update()` shortly before the millisecond counter wraps
(at `2^32 - 30`, `2^32 - 15`, `2^32 - 4` and `2^32 - 3`): the panel reports
a touch at the first two and no touch at the last two. -/
def bounceNearWrap : List Tick :=
  [⟨4294967266, ⟨5, 5, 1⟩⟩, ⟨4294967281, ⟨5, 5, 1⟩⟩, ⟨4294967292, ⟨5, 5, 0⟩⟩,
    ⟨4294967293, ⟨5, 5, 0⟩⟩]

/-- Four calls of `update()` from 20 ms to 80 ms after the time
`2^32 - 505`: the panel reports a touch at the first two and no touch at
the last two. -/
def cooldownNearWrap : List Tick :=
  [⟨4294966811, ⟨5, 5, 1⟩⟩, ⟨4294966831, ⟨5, 5, 1⟩⟩, ⟨4294966851, ⟨5, 5, 0⟩⟩,
    ⟨4294966871, ⟨5, 5, 0⟩⟩]

/-- The screen `home` is registered, then `menu` is stored under the id
`home` with `overwriteScreen`. -/
def exRegisterOverwrite : List EventScreenManager.Addition :=
  [.registerScreen exHome "", .overwriteScreen exMenu "home"]

/-- The screens `home` and `menu` are registered, in this order. -/
def exRegisterTwo : List EventScreenManager.Addition :=
  [.registerScreen exHome "", .registerScreen exMenu ""]

/-! # Properties -/

/-! ## Machine arithmetic -/

theorem sub32_self (n : Nat) : sub32 n n = 0 := by
  simp [sub32, u32]

theorem currentDuration_self (s : EventTouchScreen) (now : Nat)
    (h : s.lastStateChange = now) : currentDuration s now = 0 := by
  simp [currentDuration, h, sub32_self, u16]

/-! ## Frame: the configuration is never assigned by `update()` -/

theorem debounced_config (s : EventTouchScreen) (now : Nat) (tp : TouchPoint_s) :
    (debounced s now tp).st.config = s.config := by
  simp only [debounced]
  split_ifs <;> rfl

theorem updateEdge_config (s : EventTouchScreen) (now : Nat) :
    (updateEdge s now).st.config = s.config := by
  simp only [updateEdge, changeState, invoke]
  split_ifs <;> rfl

theorem updateDrag_config (s : EventTouchScreen) (now : Nat) :
    (updateDrag s now).st.config = s.config := by
  simp only [updateDrag, haveDragged, invoke]
  split_ifs <;> rfl

theorem updateLongPress_config (s : EventTouchScreen) (now : Nat) :
    (updateLongPress s now).st.config = s.config := by
  simp only [updateLongPress, invoke]
  split_ifs <;> rfl

theorem updateHeld_config (s : EventTouchScreen) (now : Nat) :
    (updateHeld s now).st.config = s.config := by
  by_cases h : s.touched = true ∧ s.touchPoint.z ≠ 0
  · simp only [updateHeld, if_pos h, updateLongPress_config, updateDrag_config]
  · simp only [updateHeld, if_neg h]

theorem updateClicks_config (s : EventTouchScreen) (now : Nat) :
    (updateClicks s now).st.config = s.config := by
  simp only [updateClicks, invoke]
  split_ifs <;> rfl

theorem updateTick_config (s : EventTouchScreen) (now : Nat) (tp : TouchPoint_s) :
    (updateTick s now tp).st.config = s.config := by
  have hd := debounced_config { s with rateLimitCounter := now } now tp
  unfold updateTick
  generalize debounced { s with rateLimitCounter := now } now tp = d at hd ⊢
  have hs : ({ s with rateLimitCounter := now } : EventTouchScreen).config = s.config := rfl
  by_cases h : d.stable = true
  · simp only [if_pos h, updateClicks_config, updateHeld_config, updateEdge_config, hd, hs]
  · simp only [if_neg h, updateClicks_config, updateHeld_config, hd, hs]

theorem update_config (s : EventTouchScreen) (now : Nat) (tp : TouchPoint_s) :
    (update s now tp).st.config = s.config := by
  unfold update
  split_ifs
  · exact updateTick_config s now tp
  · rfl
  · rfl

/-! ## The stages of a processed tick -/

/-! ### debounced -/

theorem debounced_unstable (s : EventTouchScreen) (now : Nat) (tp : TouchPoint_s)
    (h : (debounced s now tp).stable = false) :
    (debounced s now tp).st =
      { s with previousBounceState := (debounced s now tp).st.previousBounceState,
               lastBounceCheck := (debounced s now tp).st.lastBounceCheck } := by
  simp only [debounced] at h ⊢
  split_ifs at h ⊢
  · rfl
  · rfl

theorem debounced_stable (s : EventTouchScreen) (now : Nat) (tp : TouchPoint_s)
    (h : (debounced s now tp).stable = true) :
    (debounced s now tp).st = { s with lastBounceCheck := now, touchPoint := tp }
      ∧ (debounced s now tp).polled = true ∧ bounceGate s now = false := by
  simp only [debounced] at h ⊢
  split_ifs at h ⊢ with h1 h2
  exact ⟨rfl, rfl, by simpa using h1⟩

/-! ### updateEdge -/

theorem updateEdge_press (s : EventTouchScreen) (now : Nat)
    (ht : s.touched = false) (hz : s.touchPoint.z ≠ 0) :
    updateEdge s now = invoke
      { s with lastTouchedPoint := s.touchPoint, touched := true,
               prevDuration := currentDuration s now, lastStateChange := now,
               startTouchPoint := s.touchPoint, previousTouchPoint := s.touchPoint,
               lastDragMs := now } .PRESSED := by
  simp [updateEdge, changeState, ht, hz, currentDuration]

theorem updateEdge_release (s : EventTouchScreen) (now : Nat)
    (ht : s.touched = true) (hz : s.touchPoint.z = 0) (hd : s.dragging = false) :
    updateEdge s now = invoke
      { s with touched := false, prevDuration := currentDuration s now, lastStateChange := now,
               clickFired := false,
               clickCounter := if s.longPressCounter = 0 then u8 (s.clickCounter + 1)
                 else s.clickCounter,
               prevClickCount := if s.longPressCounter = 0 then u8 (s.clickCounter + 1)
                 else s.prevClickCount } .RELEASED := by
  by_cases hl : s.longPressCounter = 0 <;>
    simp [updateEdge, changeState, hz, ht, hd, hl, currentDuration]

theorem updateEdge_dragRelease (s : EventTouchScreen) (now : Nat)
    (ht : s.touched = true) (hz : s.touchPoint.z = 0) (hd : s.dragging = true) :
    updateEdge s now = invoke
      { s with touched := false, prevDuration := currentDuration s now, lastStateChange := now,
               clickFired := true, dragging := false, longPressCounter := 0, clickCounter := 0,
               rateLimitCounter := u32 (now + s.postDragRateLimit) } .DRAGGED_RELEASED := by
  simp [updateEdge, changeState, hz, ht, hd, currentDuration]

theorem updateEdge_touched (s : EventTouchScreen) (now : Nat)
    (ht : s.touched = true) (hz : s.touchPoint.z ≠ 0) :
    updateEdge s now = { st := { s with lastTouchedPoint := s.touchPoint } } := by
  simp [updateEdge, hz, ht]

theorem updateEdge_untouched (s : EventTouchScreen) (now : Nat)
    (ht : s.touched = false) (hz : s.touchPoint.z = 0) :
    updateEdge s now = { st := s } := by
  simp [updateEdge, hz, ht]

/-! ### updateHeld -/

theorem haveDragged_false (s : EventTouchScreen) (now : Nat)
    (h : (haveDragged s now).2 = false) : (haveDragged s now).1 = s := by
  simp only [haveDragged] at h ⊢
  split_ifs at h ⊢ <;> rfl

theorem haveDragged_true (s : EventTouchScreen) (now : Nat)
    (h : (haveDragged s now).2 = true) :
    (haveDragged s now).1 = { s with dragging := true, lastDragMs := now } := by
  simp only [haveDragged] at h ⊢
  split_ifs at h ⊢
  rfl

theorem haveDragged_at_press (s : EventTouchScreen) (now : Nat)
    (h : s.lastDragMs = now) : haveDragged s now = (s, false) := by
  simp [haveDragged, dragTimeGate, h, sub32_self]

theorem updateDrag_disabled (s : EventTouchScreen) (now : Nat)
    (h : s.dragEnabled = false) : updateDrag s now = { st := s } := by
  simp [updateDrag, h]

theorem updateDrag_at_press (s : EventTouchScreen) (now : Nat)
    (h : s.lastDragMs = now) : updateDrag s now = { st := s } := by
  by_cases he : s.dragEnabled = true
  · simp [updateDrag, he, haveDragged_at_press s now h]
  · simp [updateDrag, he]

/-- The drag evaluation either does nothing or emits DRAGGED. -/
theorem updateDrag_cases (s : EventTouchScreen) (now : Nat) :
    updateDrag s now = { st := s } ∨
    (s.dragEnabled = true ∧ (haveDragged s now).2 = true ∧
      updateDrag s now =
        { st := { s with dragging := true, lastDragMs := now, previousTouchPoint := s.touchPoint }
          events := [.DRAGGED]
          seen := [{ s with dragging := true, lastDragMs := now }] }) := by
  by_cases he : s.dragEnabled = true
  · by_cases hr : (haveDragged s now).2 = true
    · right
      refine ⟨he, hr, ?_⟩
      simp [updateDrag, he, hr, haveDragged_true s now hr, invoke]
    · left
      have hr' : (haveDragged s now).2 = false := by simpa using hr
      simp [updateDrag, he, hr', haveDragged_false s now hr']
  · left
    simp [updateDrag, he]

theorem updateLongPress_early (s : EventTouchScreen) (now : Nat)
    (h : ¬ currentDuration s now > longPressThreshold s) :
    updateLongPress s now = { st := s } := by
  simp only [updateLongPress, if_neg h]

theorem updateLongPress_late (s : EventTouchScreen) (now : Nat)
    (h : currentDuration s now > longPressThreshold s) :
    updateLongPress s now =
      if s.dragEnabled = false ∧ (s.repeatLongPress = true ∨ u16 (s.longPressCounter + 1) = 1)
      then invoke { s with longPressCounter := u16 (s.longPressCounter + 1) } .LONG_PRESS
      else { st := { s with longPressCounter := u16 (s.longPressCounter + 1) } } := by
  simp only [updateLongPress, if_pos h]

theorem updateHeld_untouched (s : EventTouchScreen) (now : Nat)
    (h : s.touched = false) : updateHeld s now = { st := s } := by
  simp [updateHeld, h]

theorem updateHeld_noSample (s : EventTouchScreen) (now : Nat)
    (h : s.touchPoint.z = 0) : updateHeld s now = { st := s } := by
  simp [updateHeld, h]

theorem updateHeld_at_press (s : EventTouchScreen) (now : Nat)
    (h1 : s.lastStateChange = now) (h2 : s.lastDragMs = now) :
    updateHeld s now = { st := s } := by
  have h3 : ¬ currentDuration s now > longPressThreshold s := by
    simp [currentDuration_self s now h1]
  by_cases h : s.touched = true ∧ s.touchPoint.z ≠ 0
  · simp only [updateHeld, if_pos h, updateDrag_at_press s now h2, updateLongPress_early s now h3]
    rfl
  · simp only [updateHeld, if_neg h]

theorem updateHeld_touched (s : EventTouchScreen) (now : Nat)
    (ht : s.touched = true) (hz : s.touchPoint.z ≠ 0) :
    updateHeld s now =
      { st := (updateLongPress (updateDrag s now).st now).st
        events := (updateDrag s now).events ++ (updateLongPress (updateDrag s now).st now).events
        seen := (updateDrag s now).seen ++ (updateLongPress (updateDrag s now).st now).seen } := by
  simp [updateHeld, ht, hz]

/-! ### updateClicks -/

theorem updateClicks_none (s : EventTouchScreen) (now : Nat)
    (h : s.touched = true ∨ s.clickFired = true ∨ ¬ currentDuration s now > s.multiClickInterval) :
    updateClicks s now = { st := s } := by
  have : ¬ (s.clickFired = false ∧ s.touched = false ∧
      currentDuration s now > s.multiClickInterval) := by
    rcases h with h | h | h
    · simp [h]
    · simp [h]
    · exact fun h' => h h'.2.2
  simp only [updateClicks, if_neg this]

theorem updateClicks_at_change (s : EventTouchScreen) (now : Nat)
    (h : s.lastStateChange = now) : updateClicks s now = { st := s } :=
  updateClicks_none s now (Or.inr (Or.inr (by simp [currentDuration_self s now h])))

theorem updateClicks_long (s : EventTouchScreen) (now : Nat)
    (h : s.clickFired = false ∧ s.touched = false ∧ currentDuration s now > s.multiClickInterval)
    (hl : s.prevDuration > s.longClickDuration ∨ s.longPressCounter > 0) :
    updateClicks s now =
      { st := { s with clickFired := true, clickCounter := 0, prevClickCount := 1,
                       longPressCounter := 0 }
        events := [.LONG_CLICKED]
        seen := [{ s with clickFired := true, clickCounter := 0, prevClickCount := 1 }] } := by
  simp [updateClicks, h, previousDuration, hl, invoke]

theorem updateClicks_short (s : EventTouchScreen) (now : Nat)
    (h : s.clickFired = false ∧ s.touched = false ∧ currentDuration s now > s.multiClickInterval)
    (hl : ¬ (s.prevDuration > s.longClickDuration ∨ s.longPressCounter > 0)) :
    updateClicks s now =
      { st := { s with clickFired := true, clickCounter := 0 }
        events := [classify s.clickCounter]
        seen := [{ s with clickFired := true }] } := by
  by_cases h1 : s.clickCounter = 1 <;> by_cases h2 : s.clickCounter = 2 <;>
    simp [updateClicks, h, previousDuration, hl, invoke, classify, h1, h2]

/-! ## A processed tick, case by case -/

theorem afterUnstable_eq (s : EventTouchScreen) (now : Nat) (tp : TouchPoint_s)
    (h : (debounced { s with rateLimitCounter := now } now tp).stable = false) :
    afterUnstable s now tp =
      { s with rateLimitCounter := now,
               previousBounceState := (afterUnstable s now tp).previousBounceState,
               lastBounceCheck := (afterUnstable s now tp).lastBounceCheck } := by
  unfold afterUnstable
  exact debounced_unstable _ now tp h

theorem updateTick_stable (s : EventTouchScreen) (now : Nat) (tp : TouchPoint_s)
    (h : (debounced { s with rateLimitCounter := now } now tp).stable = true) :
    updateTick s now tp =
      { st := (updateClicks (updateHeld (updateEdge (afterStable s now tp) now).st now).st now).st
        events := (updateEdge (afterStable s now tp) now).events
          ++ (updateHeld (updateEdge (afterStable s now tp) now).st now).events
          ++ (updateClicks (updateHeld (updateEdge (afterStable s now tp) now).st now).st now).events
        seen := (updateEdge (afterStable s now tp) now).seen
          ++ (updateHeld (updateEdge (afterStable s now tp) now).st now).seen
          ++ (updateClicks (updateHeld (updateEdge (afterStable s now tp) now).st now).st now).seen
        polled := true
        stable := true } := by
  have hd := debounced_stable _ now tp h
  simp only [updateTick, h, if_true, hd.1, hd.2.1]
  rfl

theorem updateTick_unstable (s : EventTouchScreen) (now : Nat) (tp : TouchPoint_s)
    (h : (debounced { s with rateLimitCounter := now } now tp).stable = false) :
    updateTick s now tp =
      { st := (updateClicks (updateHeld (afterUnstable s now tp) now).st now).st
        events := (updateHeld (afterUnstable s now tp) now).events
          ++ (updateClicks (updateHeld (afterUnstable s now tp) now).st now).events
        seen := (updateHeld (afterUnstable s now tp) now).seen
          ++ (updateClicks (updateHeld (afterUnstable s now tp) now).st now).seen
        polled := (debounced { s with rateLimitCounter := now } now tp).polled
        stable := false } := by
  simp [updateTick, h, afterUnstable]

/-! ## The rate limiter -/

theorem debounced_rateLimitCounter (s : EventTouchScreen) (now : Nat) (tp : TouchPoint_s) :
    (debounced s now tp).st.rateLimitCounter = s.rateLimitCounter := by
  simp only [debounced]
  split_ifs <;> rfl

theorem updateEdge_rateLimitCounter (s : EventTouchScreen) (now : Nat) :
    (updateEdge s now).st.rateLimitCounter = s.rateLimitCounter ∨
    (updateEdge s now).st.rateLimitCounter = u32 (now + s.postDragRateLimit) := by
  simp only [updateEdge, changeState, invoke]
  split_ifs <;> first | exact Or.inl rfl | exact Or.inr rfl

theorem updateHeld_rateLimitCounter (s : EventTouchScreen) (now : Nat) :
    (updateHeld s now).st.rateLimitCounter = s.rateLimitCounter := by
  simp only [updateHeld, updateDrag, updateLongPress, haveDragged, invoke]
  split_ifs <;> rfl

theorem updateClicks_rateLimitCounter (s : EventTouchScreen) (now : Nat) :
    (updateClicks s now).st.rateLimitCounter = s.rateLimitCounter := by
  simp only [updateClicks, invoke]
  split_ifs <;> rfl

theorem updateTick_rateLimitCounter (s : EventTouchScreen) (now : Nat) (tp : TouchPoint_s) :
    (updateTick s now tp).st.rateLimitCounter = now ∨
    (updateTick s now tp).st.rateLimitCounter = u32 (now + s.postDragRateLimit) := by
  have hd := debounced_rateLimitCounter { s with rateLimitCounter := now } now tp
  have hc := debounced_config { s with rateLimitCounter := now } now tp
  unfold updateTick
  generalize debounced { s with rateLimitCounter := now } now tp = d at hd hc ⊢
  have hp : d.st.postDragRateLimit = s.postDragRateLimit :=
    congrArg Config.postDragRateLimit hc
  by_cases h : d.stable = true
  · simp only [if_pos h, updateClicks_rateLimitCounter, updateHeld_rateLimitCounter]
    rcases updateEdge_rateLimitCounter d.st now with h1 | h1
    · left; rw [h1, hd]
    · right; rw [h1, hp]
  · simp only [if_neg h, updateClicks_rateLimitCounter, updateHeld_rateLimitCounter]
    left; rw [hd]

/-- Between a processed tick and the end of its rate-limit window every call
of `update()` is ignored. -/
theorem update_ignored_after (s : EventTouchScreen) (t0 t1 : Nat) (tp0 tp1 : TouchPoint_s)
    (hwf : WF s) (hproc : processed s t0 = true)
    (h0 : t0 < 4294836224) (h01 : t0 ≤ t1) (hlt : t1 - t0 < s.rateLimit) :
    update (update s t0 tp0).st t1 tp1 = { st := (update s t0 tp0).st } := by
  simp only [processed, Bool.and_eq_true] at hproc
  have hu : update s t0 tp0 = updateTick s t0 tp0 := by
    simp [update, hproc.1, hproc.2]
  have hc := updateTick_config s t0 tp0
  have hrl : (updateTick s t0 tp0).st.rateLimit = s.rateLimit := congrArg Config.rateLimit hc
  have h1 := hwf.rateLimit
  have h2 := hwf.postDragRateLimit
  have hg : rateGate (updateTick s t0 tp0).st t1 = false := by
    simp only [rateGate, hrl, decide_eq_false_iff_not, not_lt, gt_iff_lt, u32]
    rcases updateTick_rateLimitCounter s t0 tp0 with h | h
    · rw [h]; omega
    · rw [h]; simp only [u32]; omega
  rw [hu]
  simp [update, hg]

/-! ## Which events a stage can emit, and what it leaves alone -/

theorem updateEdge_cases (s : EventTouchScreen) (now : Nat) :
    ((updateEdge s now).events = [] ∧ (updateEdge s now).st.touched = s.touched
        ∧ (updateEdge s now).st.clickFired = s.clickFired
        ∧ (updateEdge s now).st.lastStateChange = s.lastStateChange)
    ∨ ((updateEdge s now).events = [.PRESSED] ∧ s.touched = false
        ∧ (updateEdge s now).st.touched = true
        ∧ (updateEdge s now).st.clickFired = s.clickFired
        ∧ (updateEdge s now).st.lastStateChange = now
        ∧ (updateEdge s now).st.lastDragMs = now)
    ∨ ((updateEdge s now).events = [.RELEASED] ∧ s.touched = true ∧ s.dragging = false
        ∧ (updateEdge s now).st.touched = false
        ∧ (updateEdge s now).st.lastStateChange = now)
    ∨ ((updateEdge s now).events = [.DRAGGED_RELEASED] ∧ s.touched = true ∧ s.dragging = true
        ∧ (updateEdge s now).st.touched = false
        ∧ (updateEdge s now).st.clickFired = true
        ∧ (updateEdge s now).st.lastStateChange = now
        ∧ (updateEdge s now).st.dragging = false
        ∧ (updateEdge s now).st.clickCounter = 0
        ∧ (updateEdge s now).st.longPressCounter = 0) := by
  by_cases hz : s.touchPoint.z = 0 <;> by_cases ht : s.touched = true <;>
    by_cases hd : s.dragging = true <;> by_cases hl : s.longPressCounter = 0 <;>
    simp [updateEdge, hz, ht, hd, hl, changeState, invoke]

theorem updateHeld_frame (s : EventTouchScreen) (now : Nat) :
    (updateHeld s now).st.touched = s.touched
    ∧ (updateHeld s now).st.lastStateChange = s.lastStateChange
    ∧ (updateHeld s now).st.clickFired = s.clickFired := by
  simp only [updateHeld, updateDrag, updateLongPress, haveDragged, invoke]
  split_ifs <;> exact ⟨rfl, rfl, rfl⟩

theorem updateHeld_events (s : EventTouchScreen) (now : Nat) :
    (updateHeld s now).events = [] ∨ (updateHeld s now).events = [.DRAGGED]
      ∨ (updateHeld s now).events = [.LONG_PRESS] := by
  simp only [updateHeld, updateDrag, updateLongPress, haveDragged, invoke]
  split_ifs <;> simp_all

theorem updateClicks_events (s : EventTouchScreen) (now : Nat) :
    (updateClicks s now).events = [] ∨
      ∃ e, (updateClicks s now).events = [e] ∧ e.isClassification = true
        ∧ s.clickFired = false ∧ s.touched = false := by
  simp only [updateClicks, invoke]
  split_ifs with h <;> simp_all [InputEventType.isClassification]

theorem updateClicks_frame (s : EventTouchScreen) (now : Nat) :
    (updateClicks s now).st.touched = s.touched
    ∧ (updateClicks s now).st.lastStateChange = s.lastStateChange
    ∧ (s.clickFired = true → (updateClicks s now).st.clickFired = true) := by
  simp only [updateClicks, invoke]
  split_ifs <;> simp_all

/-! ## One call of `update()` -/

theorem update_not_processed (s : EventTouchScreen) (now : Nat) (tp : TouchPoint_s)
    (h : processed s now = false) : update s now tp = { st := s } := by
  simp only [processed, Bool.and_eq_false_iff] at h
  rcases h with h | h <;> simp [update, h]

theorem update_processed (s : EventTouchScreen) (now : Nat) (tp : TouchPoint_s)
    (h : processed s now = true) : update s now tp = updateTick s now tp := by
  simp only [processed, Bool.and_eq_true] at h
  simp [update, h.1, h.2]

theorem afterUnstable_frame (s : EventTouchScreen) (now : Nat) (tp : TouchPoint_s) :
    (afterUnstable s now tp).touched = s.touched
    ∧ (afterUnstable s now tp).clickFired = s.clickFired
    ∧ (afterUnstable s now tp).lastStateChange = s.lastStateChange := by
  simp only [afterUnstable, debounced]
  split_ifs <;> exact ⟨rfl, rfl, rfl⟩

/-- What a processed tick can emit, with the touched flag and the click-fired
flag afterwards. -/
theorem updateTick_outcome (s : EventTouchScreen) (now : Nat) (tp : TouchPoint_s) :
    ((updateTick s now tp).events = [.PRESSED] ∧ s.touched = false
        ∧ (updateTick s now tp).st.touched = true
        ∧ (updateTick s now tp).st.clickFired = s.clickFired)
    ∨ ((updateTick s now tp).events = [.RELEASED] ∧ s.touched = true ∧ s.dragging = false
        ∧ (updateTick s now tp).st.touched = false)
    ∨ ((updateTick s now tp).events = [.DRAGGED_RELEASED] ∧ s.touched = true ∧ s.dragging = true
        ∧ (updateTick s now tp).st.touched = false
        ∧ (updateTick s now tp).st.clickFired = true
        ∧ (updateTick s now tp).st.dragging = false
        ∧ (updateTick s now tp).st.clickCounter = 0
        ∧ (updateTick s now tp).st.longPressCounter = 0)
    ∨ (((updateTick s now tp).events = [] ∨ (updateTick s now tp).events = [.DRAGGED]
          ∨ (updateTick s now tp).events = [.LONG_PRESS]) ∧ s.touched = true
        ∧ (updateTick s now tp).st.touched = true
        ∧ (updateTick s now tp).st.clickFired = s.clickFired)
    ∨ ((updateTick s now tp).events = [] ∧ s.touched = false
        ∧ (updateTick s now tp).st.touched = false
        ∧ (updateTick s now tp).st.clickFired = s.clickFired)
    ∨ ((∃ e, (updateTick s now tp).events = [e] ∧ e.isClassification = true)
        ∧ s.touched = false ∧ s.clickFired = false
        ∧ (updateTick s now tp).st.touched = false) := by
  -- the tail of the tick, from a state `b` reached without an edge event
  have tail : ∀ b : EventTouchScreen, b.touched = s.touched → b.clickFired = s.clickFired →
      (((updateHeld b now).events ++ (updateClicks (updateHeld b now).st now).events = []
          ∨ (updateHeld b now).events ++ (updateClicks (updateHeld b now).st now).events
              = [.DRAGGED]
          ∨ (updateHeld b now).events ++ (updateClicks (updateHeld b now).st now).events
              = [.LONG_PRESS]) ∧ s.touched = true
        ∧ (updateClicks (updateHeld b now).st now).st.touched = true
        ∧ (updateClicks (updateHeld b now).st now).st.clickFired = s.clickFired)
      ∨ ((updateHeld b now).events ++ (updateClicks (updateHeld b now).st now).events = []
        ∧ s.touched = false
        ∧ (updateClicks (updateHeld b now).st now).st.touched = false
        ∧ (updateClicks (updateHeld b now).st now).st.clickFired = s.clickFired)
      ∨ ((∃ e, (updateHeld b now).events ++ (updateClicks (updateHeld b now).st now).events = [e]
            ∧ e.isClassification = true)
        ∧ s.touched = false ∧ s.clickFired = false
        ∧ (updateClicks (updateHeld b now).st now).st.touched = false) := by
    intro b hbt hbc
    have hf := updateHeld_frame b now
    have hcf := updateClicks_frame (updateHeld b now).st now
    by_cases ht : s.touched = true
    · left
      have hn : updateClicks (updateHeld b now).st now = { st := (updateHeld b now).st } :=
        updateClicks_none _ _ (Or.inl (by rw [hf.1, hbt, ht]))
      rw [hn]
      refine ⟨?_, ht, by simp [hf.1, hbt, ht], by simp [hf.2.2, hbc]⟩
      simpa using updateHeld_events b now
    · have ht' : s.touched = false := by simpa using ht
      have hh : updateHeld b now = { st := b } := updateHeld_untouched b now (by rw [hbt, ht'])
      rw [hh]
      rcases updateClicks_events b now with he | ⟨e, he, hcl, hcf', _⟩
      · right; left
        have hst : (updateClicks b now).st = b := by
          simp only [updateClicks, invoke] at he ⊢
          split_ifs at he ⊢
          rfl
        simp [he, ht', hst, hbt, hbc]
      · right; right
        refine ⟨⟨e, by simp [he], hcl⟩, ht', by rw [← hbc]; exact hcf', ?_⟩
        have := (updateClicks_frame b now).1
        simp [this, hbt, ht']
  by_cases hs : (debounced { s with rateLimitCounter := now } now tp).stable = true
  · rw [updateTick_stable s now tp hs]
    have ha : (afterStable s now tp).touched = s.touched := rfl
    have hac : (afterStable s now tp).clickFired = s.clickFired := rfl
    have had : (afterStable s now tp).dragging = s.dragging := rfl
    have hf := updateHeld_frame (updateEdge (afterStable s now tp) now).st now
    rcases updateEdge_cases (afterStable s now tp) now with h | h | h | h
    · have := tail (updateEdge (afterStable s now tp) now).st (by rw [h.2.1, ha])
        (by rw [h.2.2.1, hac])
      simp only [h.1, List.nil_append]
      rcases this with t | t | t
      · right; right; right; left; exact t
      · right; right; right; right; left; exact t
      · right; right; right; right; right; exact t
    · left
      obtain ⟨h1, h2, h3, h4, h5, h6⟩ := h
      rw [updateHeld_at_press _ _ h5 h6]
      rw [updateClicks_none _ _ (Or.inl h3)]
      simp [h1, h3, h4, ← ha, h2, ← hac]
    · right; left
      obtain ⟨h1, h2, h3, h4, h5⟩ := h
      rw [updateHeld_untouched _ _ h4]
      rw [updateClicks_at_change _ _ h5]
      simp [h1, h4, ← ha, h2, ← had, h3]
    · right; right; left
      obtain ⟨h1, h2, h3, h4, h5, h6, h7, h8, h9⟩ := h
      rw [updateHeld_untouched _ _ h4]
      rw [updateClicks_at_change _ _ h6]
      simp [h1, h4, h5, ← ha, h2, ← had, h3, h7, h8, h9]
  · have hs' : (debounced { s with rateLimitCounter := now } now tp).stable = false := by
      simpa using hs
    rw [updateTick_unstable s now tp hs']
    have hu := afterUnstable_frame s now tp
    rcases tail (afterUnstable s now tp) hu.1 hu.2.1 with t | t | t
    · right; right; right; left; exact t
    · right; right; right; right; left; exact t
    · right; right; right; right; right; exact t

theorem updateTick_events_length (s : EventTouchScreen) (now : Nat) (tp : TouchPoint_s) :
    (updateTick s now tp).events.length ≤ 1 := by
  rcases updateTick_outcome s now tp with h | h | h | h | h | h
  · simp [h.1]
  · simp [h.1]
  · simp [h.1]
  · rcases h.1 with h1 | h1 | h1 <;> simp [h1]
  · simp [h.1]
  · obtain ⟨⟨e, he, _⟩, _⟩ := h
    simp [he]

theorem update_events_length (s : EventTouchScreen) (now : Nat) (tp : TouchPoint_s) :
    (update s now tp).events.length ≤ 1 := by
  by_cases h : processed s now = true
  · rw [update_processed s now tp h]
    exact updateTick_events_length s now tp
  · rw [update_not_processed s now tp (by simpa using h)]
    simp

/-- Claim C8 (at most one event per tick).  One call of `update()`, in any
engine state, at any clock value and with any raw sample, invokes the
subscriber with at most one event. -/
theorem update_at_most_one_event (s : EventTouchScreen) (now : Nat) (tp : TouchPoint_s) :
    (update s now tp).events.length ≤ 1 :=
  update_events_length s now tp

/-! ## Release while dragging -/

/-- While the click-fired flag is set a call of `update()` emits no
classification event, and the flag stays set unless RELEASED is emitted. -/
theorem update_clickFired (s : EventTouchScreen) (now : Nat) (tp : TouchPoint_s)
    (h : s.clickFired = true) :
    (∀ e ∈ (update s now tp).events, e.isClassification = false)
    ∧ (.RELEASED ∉ (update s now tp).events → (update s now tp).st.clickFired = true) := by
  by_cases hp : processed s now = true
  · rw [update_processed s now tp hp]
    rcases updateTick_outcome s now tp with o | o | o | o | o | o
    · simp [o.1, InputEventType.isClassification, o.2.2.2, h]
    · simp [o.1, InputEventType.isClassification]
    · simp [o.1, InputEventType.isClassification, o.2.2.2.2]
    · rcases o.1 with h1 | h1 | h1 <;>
        simp [h1, InputEventType.isClassification, o.2.2.2, h]
    · simp [o.1, o.2.2.2, h]
    · rw [h] at o; simp at o
  · rw [update_not_processed s now tp (by simpa using hp)]
    simp [h]

/-- No classification event is emitted before a RELEASED once the
click-fired flag is set. -/
theorem runEvents_clickFired (tr : List Tick) :
    ∀ (s : EventTouchScreen), s.clickFired = true →
      ∀ (pre post : List InputEventType) (e : InputEventType),
        runEvents s tr = pre ++ e :: post → e.isClassification = true → .RELEASED ∈ pre := by
  induction tr with
  | nil =>
    intro s _ pre post e h
    simp [runEvents] at h
  | cons k ks ih =>
    intro s hs pre post e h hcl
    have hone := update_events_length s k.now k.tp
    have hcf := update_clickFired s k.now k.tp hs
    simp only [runEvents] at h
    match hev : (update s k.now k.tp).events with
    | [] =>
      rw [hev] at h hcf
      exact ih _ (hcf.2 (by simp)) pre post e (by simpa using h) hcl
    | [x] =>
      rw [hev] at h hcf
      cases pre with
      | nil =>
        simp only [List.singleton_append, List.nil_append, List.cons.injEq] at h
        have := hcf.1 x (by simp)
        rw [h.1, hcl] at this
        simp at this
      | cons y pre' =>
        simp only [List.singleton_append, List.cons_append, List.cons.injEq] at h
        by_cases hx : x = .RELEASED
        · simp [← h.1, hx]
        · have := ih _ (hcf.2 (by simpa using fun h' => hx h'.symm)) pre' post e h.2 hcl
          simp [this]
    | x :: y :: l =>
      rw [hev] at hone
      simp at hone

/-- Claim C4 (release while dragging).  In a state with `dragging` set, the
tick that accepts the release (the touched flag goes from true to false)
emits DRAGGED_RELEASED and nothing else, clears `dragging`, zeroes the click
counter and the long-press counter, and in every continuation each
classification event (CLICKED, DOUBLE_CLICKED, MULTI_CLICKED, LONG_CLICKED)
comes after a RELEASED of that continuation. -/
theorem release_while_dragging (s : EventTouchScreen) (now : Nat) (tp : TouchPoint_s)
    (ht : s.touched = true) (hd : s.dragging = true)
    (hrel : (update s now tp).st.touched = false) :
    (update s now tp).events = [.DRAGGED_RELEASED]
    ∧ (update s now tp).st.dragging = false
    ∧ (update s now tp).st.clickCounter = 0
    ∧ (update s now tp).st.longPressCounter = 0
    ∧ ∀ (tr : List Tick) (pre post : List InputEventType) (e : InputEventType),
        runEvents (update s now tp).st tr = pre ++ e :: post →
        e.isClassification = true → .RELEASED ∈ pre := by
  have hp : processed s now = true := by
    by_contra hp
    rw [update_not_processed s now tp (by simpa using hp)] at hrel
    simp [ht] at hrel
  rw [update_processed s now tp hp] at hrel ⊢
  rcases updateTick_outcome s now tp with o | o | o | o | o | o
  · rw [ht] at o; simp at o
  · rw [hd] at o; simp at o
  · obtain ⟨h1, _, _, _, h5, h6, h7, h8⟩ := o
    exact ⟨h1, h6, h7, h8, fun tr => runEvents_clickFired tr _ h5⟩
  · rw [o.2.2.1] at hrel; simp at hrel
  · rw [ht] at o; simp at o
  · rw [ht] at o; simp at o

theorem release_while_dragging_witness :
    exDragging.touched = true ∧ exDragging.dragging = true
    ∧ (update exDragging 100 ⟨0, 0, 0⟩).st.touched = false
    ∧ (update exDragging 100 ⟨0, 0, 0⟩).events = [.DRAGGED_RELEASED]
    ∧ (update exDragging 100 ⟨0, 0, 0⟩).st.clickCounter = 0 :=
  ⟨by decide, by decide, by decide,
    (release_while_dragging exDragging 100 ⟨0, 0, 0⟩ (by decide) (by decide) (by decide)).1,
    (release_while_dragging exDragging 100 ⟨0, 0, 0⟩ (by decide) (by decide) (by decide)).2.2.1⟩

/-! ## The rate limiter -/

theorem fresh_WF : WF fresh := by
  constructor <;> decide

theorem rateGate_after (s : EventTouchScreen) (t0 t1 : Nat) (tp0 : TouchPoint_s)
    (hwf : WF s) (hproc : processed s t0 = true)
    (h0 : t0 < 4294836224) (h01 : t0 ≤ t1) (hlt : t1 - t0 < s.rateLimit) :
    rateGate (update s t0 tp0).st t1 = false := by
  rw [update_processed s t0 tp0 hproc]
  have hc := updateTick_config s t0 tp0
  have hrl : (updateTick s t0 tp0).st.rateLimit = s.rateLimit := congrArg Config.rateLimit hc
  have h1 := hwf.rateLimit
  have h2 := hwf.postDragRateLimit
  simp only [rateGate, hrl, decide_eq_false_iff_not, not_lt, gt_iff_lt, u32]
  rcases updateTick_rateLimitCounter s t0 tp0 with h | h
  · rw [h]; omega
  · rw [h]; simp only [u32]; omega

/-- The rate limiter away from the top of the counter.  After a processed
tick at a time `t0` below `2^32 - 131072`, every call of `update()` made
while fewer than `rateLimit` ms have elapsed since `t0` is ignored: the
engine is left as it was, the touch adapter is not polled and no event is
emitted. -/
theorem rate_limiter (s : EventTouchScreen) (t0 : Nat) (tp0 : TouchPoint_s)
    (calls : List Tick) (hwf : WF s) (hproc : processed s t0 = true)
    (h0 : t0 < 4294836224)
    (hcalls : ∀ k ∈ calls, t0 ≤ k.now ∧ k.now - t0 < s.rateLimit) :
    runState (update s t0 tp0).st calls = (update s t0 tp0).st
    ∧ runEvents (update s t0 tp0).st calls = []
    ∧ runLog (update s t0 tp0).st calls =
        calls.map (fun k => { now := k.now, processed := false, polled := false, events := [] }) := by
  induction calls with
  | nil => exact ⟨rfl, rfl, rfl⟩
  | cons k ks ih =>
    have hk := hcalls k (by simp)
    have hg := rateGate_after s t0 k.now tp0 hwf hproc h0 hk.1 hk.2
    have hp : processed (update s t0 tp0).st k.now = false := by simp [processed, hg]
    have hu := update_not_processed (update s t0 tp0).st k.now k.tp hp
    have ih' := ih (fun k' hk' => hcalls k' (by simp [hk']))
    simp only [runState, runEvents, runLog, hu, hp, List.nil_append, List.map_cons]
    exact ⟨ih'.1, ih'.2.1, by rw [ih'.2.2]⟩

theorem rate_limiter_witness :
    processed fresh 11 = true
    ∧ (∀ k ∈ [(⟨12, ⟨5, 5, 1⟩⟩ : Tick), ⟨20, ⟨5, 5, 1⟩⟩], 11 ≤ k.now ∧ k.now - 11 < fresh.rateLimit)
    ∧ runState (update fresh 11 ⟨0, 0, 0⟩).st [⟨12, ⟨5, 5, 1⟩⟩, ⟨20, ⟨5, 5, 1⟩⟩]
        = (update fresh 11 ⟨0, 0, 0⟩).st :=
  ⟨by decide, by decide,
    (rate_limiter fresh 11 ⟨0, 0, 0⟩ [⟨12, ⟨5, 5, 1⟩⟩, ⟨20, ⟨5, 5, 1⟩⟩] fresh_WF (by decide)
      (by decide) (by decide)).1⟩

/-- Claim C9 fails on the code near the top of the counter.  A tick is
processed at `2^32 - 4`; the stored sum `rateLimitCounter + rateLimit`
wraps to 6, so the call 1 ms later, with the counter not wrapped and fewer
than `rateLimit` (10) ms elapsed, passes the rate-limit gate: it polls the
touch adapter, changes the engine and emits PRESSED.  On an unbounded clock
the gate would hold the call back. -/
theorem rate_limiter_near_wrap :
    processed fresh 4294967292 = true
    ∧ 4294967293 - 4294967292 < fresh.rateLimit
    ∧ 4294967293 < 4294967296
    ∧ (update fresh 4294967292 ⟨5, 5, 1⟩).st.rateLimitCounter = 4294967292
    ∧ u32 (4294967292 + fresh.rateLimit) = 6
    ∧ rateGate (update fresh 4294967292 ⟨5, 5, 1⟩).st 4294967293 = true
    ∧ rateGateUnbounded 4294967292 fresh.rateLimit 4294967293 = false
    ∧ (update (update fresh 4294967292 ⟨5, 5, 1⟩).st 4294967293 ⟨5, 5, 1⟩).polled = true
    ∧ (update (update fresh 4294967292 ⟨5, 5, 1⟩).st 4294967293 ⟨5, 5, 1⟩).events = [.PRESSED]
    ∧ (update (update fresh 4294967292 ⟨5, 5, 1⟩).st 4294967293 ⟨5, 5, 1⟩).st
        ≠ (update fresh 4294967292 ⟨5, 5, 1⟩).st := by
  decide

/-! ## Drag distance -/

/-- Claim C5 (drag detection), the failing input.  The finger has moved 256
pixels from the start point and 1000 ms have passed: in exact arithmetic
`256 * 256 + 0 > 20 * 20`, yet `haveDragged()` returns false, because
`distance` is a `uint16_t` and `65536` is stored as `0`.  Driven from a fresh
engine with dragging enabled, a move by 256 pixels emits no DRAGGED, while a
move by 255 or by 257 pixels does. -/
theorem haveDragged_truncates :
    (haveDragged exFarMove 1000).2 = false ∧ exactDragged exFarMove 1000 = true
    ∧ dragDistance exFarMove = 0
    ∧ runTimed (enableDragging fresh true) (farDrag 256) = [(30, .PRESSED)]
    ∧ (runTimed (enableDragging fresh true) (farDrag 255)).take 2
        = [(30, .PRESSED), (240, .DRAGGED)]
    ∧ (runTimed (enableDragging fresh true) (farDrag 257)).take 2
        = [(30, .PRESSED), (240, .DRAGGED)] := by
  decide

/-- Where the sum of squares fits into 16 bits, `haveDragged()` decides as
exact arithmetic does. -/
theorem haveDragged_exact_of_small (s : EventTouchScreen) (now : Nat)
    (hx : s.touchPoint.x < 65536) (hy : s.touchPoint.y < 65536)
    (hx0 : s.startTouchPoint.x < 65536) (hy0 : s.startTouchPoint.y < 65536)
    (hsmall : absDiff s.touchPoint.x s.startTouchPoint.x * absDiff s.touchPoint.x s.startTouchPoint.x
      + absDiff s.touchPoint.y s.startTouchPoint.y * absDiff s.touchPoint.y s.startTouchPoint.y
      < 65536) :
    (haveDragged s now).2 = exactDragged s now := by
  have hdx : u16 (absDiff s.touchPoint.x s.startTouchPoint.x)
      = absDiff s.touchPoint.x s.startTouchPoint.x := by
    unfold u16 absDiff; split_ifs <;> omega
  have hdy : u16 (absDiff s.touchPoint.y s.startTouchPoint.y)
      = absDiff s.touchPoint.y s.startTouchPoint.y := by
    unfold u16 absDiff; split_ifs <;> omega
  have hd : dragDistance s
      = absDiff s.touchPoint.x s.startTouchPoint.x * absDiff s.touchPoint.x s.startTouchPoint.x
      + absDiff s.touchPoint.y s.startTouchPoint.y * absDiff s.touchPoint.y s.startTouchPoint.y := by
    simp only [dragDistance, hdx, hdy]
    exact Nat.mod_eq_of_lt hsmall
  simp only [haveDragged, exactDragged, hd]
  by_cases hg : dragTimeGate s now = true
  · simp only [hg, if_true, Bool.true_and]
    split_ifs with h
    · simp [h]
    · simp [h]
  · simp [hg]

/-! ## Elapsed-time gates and counter overflow -/

/-- Claim C6 (counter overflow), the failing input.  The last processed tick
and the last bounce check were at the true time `2^32 - 20`; `update()` is
called 25 ms later, when `millis()` has wrapped to 5.  On an unbounded clock
the rate-limit gate lets the call through (25 > 10) and the bounce gate does
not hold it back (25 is not below 15); the engine's gates compare against
the stored sum instead of subtracting, so the call is ignored. -/
theorem gates_wrap_divergence :
    rateGateUnbounded 4294967276 exNearWrap.rateLimit 4294967301 = true
    ∧ rateGate exNearWrap (u32 4294967301) = false
    ∧ bounceGateUnbounded 4294967276 exNearWrap.bounceInterval 4294967301 = false
    ∧ bounceGate exNearWrap (u32 4294967301) = true
    ∧ update exNearWrap (u32 4294967301) ⟨7, 7, 1⟩ = { st := exNearWrap } := by
  decide

/-- The drag time gate subtracts, and decides as on an unbounded clock
whenever the true elapsed time is below `2^32`. -/
theorem dragTimeGate_wrap_safe (s : EventTouchScreen) (stored now : Nat)
    (h : stored ≤ now) (hlt : now - stored < 4294967296)
    (hs : s.lastDragMs = u32 stored) :
    dragTimeGate s (u32 now) =
      dragTimeGateUnbounded stored (if s.dragging then s.dragIntervalMs else s.dragThresholdMs)
        now := by
  simp only [dragTimeGate, dragTimeGateUnbounded, hs, sub32, u32]
  have : (now % 4294967296 + 4294967296 - stored % 4294967296) % 4294967296 = now - stored := by
    omega
  rw [this]

/-! ## Debounce spacing -/

theorem debounced_lastBounceCheck (s : EventTouchScreen) (now : Nat) (tp : TouchPoint_s) :
    ((debounced s now tp).st.lastBounceCheck = s.lastBounceCheck
        ∧ (debounced s now tp).stable = false)
    ∨ ((debounced s now tp).st.lastBounceCheck = now ∧ bounceGate s now = false) := by
  simp only [debounced]
  split_ifs with h1 h2
  · exact Or.inl ⟨rfl, rfl⟩
  · exact Or.inr ⟨rfl, by simpa using h1⟩
  · exact Or.inr ⟨rfl, by simpa using h1⟩

theorem updateEdge_lastBounceCheck (s : EventTouchScreen) (now : Nat) :
    (updateEdge s now).st.lastBounceCheck = s.lastBounceCheck := by
  simp only [updateEdge, changeState, invoke]
  split_ifs <;> rfl

theorem updateHeld_lastBounceCheck (s : EventTouchScreen) (now : Nat) :
    (updateHeld s now).st.lastBounceCheck = s.lastBounceCheck := by
  simp only [updateHeld, updateDrag, updateLongPress, haveDragged, invoke]
  split_ifs <;> rfl

theorem updateClicks_lastBounceCheck (s : EventTouchScreen) (now : Nat) :
    (updateClicks s now).st.lastBounceCheck = s.lastBounceCheck := by
  simp only [updateClicks, invoke]
  split_ifs <;> rfl

/-- A processed tick either leaves `lastBounceCheck` alone and accepts no
state change, or it got past the bounce gate and stored the time. -/
theorem updateTick_lastBounceCheck (s : EventTouchScreen) (now : Nat) (tp : TouchPoint_s) :
    ((updateTick s now tp).st.lastBounceCheck = s.lastBounceCheck
        ∧ ∀ e ∈ (updateTick s now tp).events, e.isStateChange = false)
    ∨ ((updateTick s now tp).st.lastBounceCheck = now ∧ bounceGate s now = false) := by
  have hb : bounceGate { s with rateLimitCounter := now } now = bounceGate s now := rfl
  by_cases hs : (debounced { s with rateLimitCounter := now } now tp).stable = true
  · right
    have hd := debounced_stable _ now tp hs
    rw [updateTick_stable s now tp hs]
    simp only [updateClicks_lastBounceCheck, updateHeld_lastBounceCheck,
      updateEdge_lastBounceCheck]
    exact ⟨rfl, hb ▸ hd.2.2⟩
  · have hs' : (debounced { s with rateLimitCounter := now } now tp).stable = false := by
      simpa using hs
    rw [updateTick_unstable s now tp hs']
    simp only [updateClicks_lastBounceCheck, updateHeld_lastBounceCheck]
    have hev : ∀ e ∈ (updateHeld (afterUnstable s now tp) now).events
        ++ (updateClicks (updateHeld (afterUnstable s now tp) now).st now).events,
        e.isStateChange = false := by
      intro e he
      rw [List.mem_append] at he
      rcases he with he | he
      · rcases updateHeld_events (afterUnstable s now tp) now with h | h | h <;>
          rw [h] at he <;> simp at he <;> simp [he, InputEventType.isStateChange]
      · rcases updateClicks_events (updateHeld (afterUnstable s now tp) now).st now with
          h | ⟨x, h, hx, _⟩
        · rw [h] at he; simp at he
        · rw [h] at he
          simp only [List.mem_singleton] at he
          subst he
          cases e <;> simp_all [InputEventType.isClassification, InputEventType.isStateChange]
    rcases debounced_lastBounceCheck { s with rateLimitCounter := now } now tp with h | h
    · left
      exact ⟨h.1, hev⟩
    · right
      exact ⟨h.1, hb ▸ h.2⟩

theorem update_lastBounceCheck (s : EventTouchScreen) (now : Nat) (tp : TouchPoint_s) :
    ((update s now tp).st.lastBounceCheck = s.lastBounceCheck
        ∧ ∀ e ∈ (update s now tp).events, e.isStateChange = false)
    ∨ ((update s now tp).st.lastBounceCheck = now ∧ bounceGate s now = false) := by
  by_cases hp : processed s now = true
  · rw [update_processed s now tp hp]
    exact updateTick_lastBounceCheck s now tp
  · rw [update_not_processed s now tp (by simpa using hp)]
    left
    simp

theorem update_bounceInterval (s : EventTouchScreen) (now : Nat) (tp : TouchPoint_s) :
    (update s now tp).st.bounceInterval = s.bounceInterval :=
  congrArg Config.bounceInterval (update_config s now tp)

theorem changeTimes_cons (s : EventTouchScreen) (k : Tick) (ks : List Tick) :
    changeTimes s (k :: ks) =
      (((update s k.now k.tp).events.filter (fun e => e.isStateChange)).map (fun _ => k.now))
        ++ changeTimes (update s k.now k.tp).st ks := by
  simp [changeTimes, stateChanges, runTimed, List.filter_map, Function.comp_def]

/-- No change is accepted before the bounce interval after the stored
bounce check has passed. -/
theorem changeTimes_ge (tr : List Tick) :
    ∀ (s : EventTouchScreen), s.bounceInterval < 65536 →
      s.lastBounceCheck < 4294836224 → (∀ k ∈ tr, k.now < 4294836224) →
      ∀ t ∈ changeTimes s tr, s.lastBounceCheck + s.bounceInterval ≤ t := by
  induction tr with
  | nil =>
    intro s _ _ _ t ht
    simp [changeTimes, stateChanges, runTimed] at ht
  | cons k ks ih =>
    intro s hb hl hk t ht
    have hkn := hk k (by simp)
    have hbi := update_bounceInterval s k.now k.tp
    rw [changeTimes_cons, List.mem_append] at ht
    rcases update_lastBounceCheck s k.now k.tp with ⟨h1, h2⟩ | ⟨h1, h2⟩
    · rcases ht with ht | ht
      · simp only [List.mem_map, List.mem_filter] at ht
        obtain ⟨e, ⟨he, hsc⟩, _⟩ := ht
        rw [h2 e he] at hsc
        simp at hsc
      · have := ih _ (by rw [hbi]; exact hb) (by rw [h1]; exact hl)
          (fun k' hk' => hk k' (by simp [hk'])) t ht
        rw [h1, hbi] at this
        exact this
    · have hge : s.lastBounceCheck + s.bounceInterval ≤ k.now := by
        simp only [bounceGate, decide_eq_false_iff_not, not_lt, u32] at h2
        omega
      rcases ht with ht | ht
      · simp only [List.mem_map] at ht
        obtain ⟨_, _, rfl⟩ := ht
        exact hge
      · have := ih _ (by rw [hbi]; exact hb) (by rw [h1]; exact hkn)
          (fun k' hk' => hk k' (by simp [hk'])) t ht
        rw [h1, hbi] at this
        omega

/-- Debounce spacing away from the top of the counter.  With a fixed
configuration and every call at a time below `2^32 - 131072`, any two
consecutive accepted touched-state changes (PRESSED, RELEASED,
DRAGGED_RELEASED) of a trace are at least `bounceInterval` ms apart,
whatever the raw samples and the times of the calls. -/
theorem debounce_spacing (tr : List Tick) :
    ∀ (s : EventTouchScreen), s.bounceInterval < 65536 →
      (∀ k ∈ tr, k.now < 4294836224) →
      List.Chain' (fun a b => a + s.bounceInterval ≤ b) (changeTimes s tr) := by
  induction tr with
  | nil =>
    intro s _ _
    simp [changeTimes, stateChanges, runTimed]
  | cons k ks ih =>
    intro s hb hk
    have hkn := hk k (by simp)
    have hbi := update_bounceInterval s k.now k.tp
    have hks : ∀ k' ∈ ks, k'.now < 4294836224 := fun k' hk' => hk k' (by simp [hk'])
    have ih' := ih (update s k.now k.tp).st (by rw [hbi]; exact hb) hks
    rw [hbi] at ih'
    rw [changeTimes_cons]
    have hone := update_events_length s k.now k.tp
    match hev : (update s k.now k.tp).events with
    | [] => simpa using ih'
    | [x] =>
      by_cases hx : x.isStateChange = true
      · simp only [List.filter_cons, hx, if_true, List.filter_nil, List.map_cons, List.map_nil,
          List.singleton_append]
        rw [List.chain'_cons']
        refine ⟨?_, ih'⟩
        intro y hy
        have hy' : y ∈ changeTimes (update s k.now k.tp).st ks := List.mem_of_mem_head? hy
        rcases update_lastBounceCheck s k.now k.tp with ⟨_, h2⟩ | ⟨h1, _⟩
        · have := h2 x (by rw [hev]; simp)
          rw [hx] at this
          simp at this
        · have := changeTimes_ge ks _ (by rw [hbi]; exact hb) (by rw [h1]; exact hkn) hks y hy'
          rw [h1, hbi] at this
          exact this
      · simpa [hx] using ih'
    | x :: y :: l =>
      rw [hev] at hone
      simp at hone

theorem debounce_spacing_witness :
    fresh.bounceInterval < 65536
    ∧ (∀ k ∈ [(⟨20, ⟨5, 5, 1⟩⟩ : Tick), ⟨40, ⟨5, 5, 1⟩⟩, ⟨60, ⟨0, 0, 0⟩⟩, ⟨80, ⟨0, 0, 0⟩⟩],
        k.now < 4294836224)
    ∧ changeTimes fresh [⟨20, ⟨5, 5, 1⟩⟩, ⟨40, ⟨5, 5, 1⟩⟩, ⟨60, ⟨0, 0, 0⟩⟩, ⟨80, ⟨0, 0, 0⟩⟩]
        = [40, 80]
    ∧ List.Chain' (fun a b => a + fresh.bounceInterval ≤ b)
        (changeTimes fresh [⟨20, ⟨5, 5, 1⟩⟩, ⟨40, ⟨5, 5, 1⟩⟩, ⟨60, ⟨0, 0, 0⟩⟩, ⟨80, ⟨0, 0, 0⟩⟩]) :=
  ⟨by decide, by decide, by decide,
    debounce_spacing [⟨20, ⟨5, 5, 1⟩⟩, ⟨40, ⟨5, 5, 1⟩⟩, ⟨60, ⟨0, 0, 0⟩⟩, ⟨80, ⟨0, 0, 0⟩⟩] fresh
      (by decide) (by decide)⟩

/-- Claim C7 fails on the code near the top of the counter.  On a fresh
engine (`bounceInterval` 15), four calls of `update()` before the counter
wraps: the press is accepted at `2^32 - 15`; the stored sum
`lastBounceCheck + bounceInterval` wraps to 0, so the bounce gate lets the
call 11 ms later poll, and the release is accepted at `2^32 - 3`, 12 ms
after the press.  The same with `setRateLimit(0)`, where the rate-limit
gate plays no part. -/
theorem debounce_spacing_near_wrap :
    (∀ k ∈ bounceNearWrap, k.now < 4294967296)
    ∧ bounceNearWrap.map Tick.now = [4294967266, 4294967281, 4294967292, 4294967293]
    ∧ fresh.bounceInterval = 15
    ∧ runTimed fresh bounceNearWrap = [(4294967281, .PRESSED), (4294967293, .RELEASED)]
    ∧ changeTimes fresh bounceNearWrap = [4294967281, 4294967293]
    ∧ ¬ List.Chain' (fun a b => a + fresh.bounceInterval ≤ b) (changeTimes fresh bounceNearWrap)
    ∧ (runState fresh (bounceNearWrap.take 2)).lastBounceCheck = 4294967281
    ∧ u32 (4294967281 + fresh.bounceInterval) = 0
    ∧ bounceGate (runState fresh (bounceNearWrap.take 2)) 4294967292 = false
    ∧ bounceGateUnbounded 4294967281 fresh.bounceInterval 4294967292 = true
    ∧ changeTimes (setRateLimit fresh 0) bounceNearWrap = [4294967281, 4294967293] := by
  have h : changeTimes fresh bounceNearWrap = [4294967281, 4294967293] := by decide
  refine ⟨by decide, by decide, by decide, by decide, h, ?_, by decide, by decide, by decide,
    by decide, by decide⟩
  rw [h]
  simp [fresh]

/-! ## getTouchPoint -/

theorem updateHeld_points (s : EventTouchScreen) (now : Nat) :
    (updateHeld s now).st.touchPoint = s.touchPoint
    ∧ (updateHeld s now).st.lastTouchedPoint = s.lastTouchedPoint := by
  simp only [updateHeld, updateDrag, updateLongPress, haveDragged, invoke]
  split_ifs <;> exact ⟨rfl, rfl⟩

theorem updateClicks_points (s : EventTouchScreen) (now : Nat) :
    (updateClicks s now).st.touchPoint = s.touchPoint
    ∧ (updateClicks s now).st.lastTouchedPoint = s.lastTouchedPoint := by
  simp only [updateClicks, invoke]
  split_ifs <;> exact ⟨rfl, rfl⟩

theorem updateEdge_points (s : EventTouchScreen) (now : Nat) :
    (updateEdge s now).st.touchPoint = s.touchPoint
    ∧ (updateEdge s now).st.lastTouchedPoint
        = (if s.touchPoint.z ≠ 0 then s.touchPoint else s.lastTouchedPoint)
    ∧ ((updateEdge s now).st.touched = true ↔ s.touchPoint.z ≠ 0) := by
  by_cases hz : s.touchPoint.z = 0 <;> by_cases ht : s.touched = true <;>
    by_cases hd : s.dragging = true <;> by_cases hl : s.longPressCounter = 0 <;>
    simp [updateEdge, hz, ht, hd, hl, changeState, invoke]

theorem afterUnstable_points (s : EventTouchScreen) (now : Nat) (tp : TouchPoint_s)
    (h : (debounced { s with rateLimitCounter := now } now tp).stable = false) :
    (afterUnstable s now tp).touchPoint = s.touchPoint
    ∧ (afterUnstable s now tp).lastTouchedPoint = s.lastTouchedPoint
    ∧ (afterUnstable s now tp).touched = s.touched := by
  rw [afterUnstable_eq s now tp h]
  exact ⟨rfl, rfl, rfl⟩

/-- What `update()` does to the working touch point, to the last touched
point, and to the agreement of the touched flag with the pressure. -/
theorem update_points (s : EventTouchScreen) (now : Nat) (tp : TouchPoint_s) :
    (update s now tp).st.lastTouchedPoint
        = (if (update s now tp).stable = true ∧ tp.z ≠ 0 then tp else s.lastTouchedPoint)
    ∧ ((s.touched = true ↔ s.touchPoint.z ≠ 0) →
        ((update s now tp).st.touched = true ↔ (update s now tp).st.touchPoint.z ≠ 0)) := by
  by_cases hp : processed s now = true
  · rw [update_processed s now tp hp]
    by_cases hs : (debounced { s with rateLimitCounter := now } now tp).stable = true
    · rw [updateTick_stable s now tp hs]
      have he := updateEdge_points (afterStable s now tp) now
      have hh := updateHeld_points (updateEdge (afterStable s now tp) now).st now
      have hhf := updateHeld_frame (updateEdge (afterStable s now tp) now).st now
      have hc := updateClicks_points
        (updateHeld (updateEdge (afterStable s now tp) now).st now).st now
      have hcf := updateClicks_frame
        (updateHeld (updateEdge (afterStable s now tp) now).st now).st now
      have ha : (afterStable s now tp).touchPoint = tp := rfl
      have hal : (afterStable s now tp).lastTouchedPoint = s.lastTouchedPoint := rfl
      simp only [hc.1, hc.2, hh.1, hh.2, he.1, he.2.1, ha, hal, hcf.1, hhf.1, he.2.2, true_and]
      simp
    · have hs' : (debounced { s with rateLimitCounter := now } now tp).stable = false := by
        simpa using hs
      rw [updateTick_unstable s now tp hs']
      have ha := afterUnstable_points s now tp hs'
      have hh := updateHeld_points (afterUnstable s now tp) now
      have hhf := updateHeld_frame (afterUnstable s now tp) now
      have hc := updateClicks_points (updateHeld (afterUnstable s now tp) now).st now
      have hcf := updateClicks_frame (updateHeld (afterUnstable s now tp) now).st now
      simp only [hc.1, hc.2, hh.1, hh.2, ha.1, ha.2.1, hcf.1, hhf.1, ha.2.2]
      simp
  · rw [update_not_processed s now tp (by simpa using hp)]
    simp

theorem getTouchPoint_frame (s : EventTouchScreen) :
    (getTouchPoint s).1.lastTouchedPoint = s.lastTouchedPoint
    ∧ (getTouchPoint s).1.touched = s.touched
    ∧ ((getTouchPoint s).1.touchPoint.z ≠ 0 ↔ s.touchPoint.z ≠ 0) := by
  by_cases h : s.touchPoint.z = 0 <;> simp [getTouchPoint, h]

theorem enable_frame (s : EventTouchScreen) (e : Bool) :
    (enable s e).st.lastTouchedPoint = s.lastTouchedPoint
    ∧ (enable s e).st.touched = s.touched
    ∧ (enable s e).st.touchPoint = s.touchPoint := by
  cases e <;> simp [enable, onDisabled, invoke]

theorem runActions_touchInv (acts : List Action) :
    ∀ (s : EventTouchScreen) (last : TouchPoint_s), TouchInv s last →
      TouchInv (runActions s acts) (lastTouchedSample s last acts) := by
  induction acts with
  | nil => intro s last h; exact h
  | cons a as ih =>
    intro s last h
    cases a with
    | update now tp =>
      have hu := update_points s now tp
      simp only [runActions, lastTouchedSample, applyAction]
      refine ih _ _ ⟨?_, hu.2 h.touched⟩
      rw [hu.1, h.lastTouched]
    | getTouchPoint =>
      have hg := getTouchPoint_frame s
      simp only [runActions, lastTouchedSample, applyAction]
      refine ih _ _ ⟨by rw [hg.1, h.lastTouched], ?_⟩
      rw [hg.2.1, hg.2.2]
      exact h.touched
    | enable e =>
      have he := enable_frame s e
      simp only [runActions, lastTouchedSample, applyAction]
      refine ih _ _ ⟨by rw [he.1, h.lastTouched], ?_⟩
      rw [he.2.1, he.2.2]
      exact h.touched
    | begin now =>
      simp only [runActions, lastTouchedSample, applyAction, EventTouchScreen.begin]
      exact ih _ _ ⟨h.lastTouched, h.touched⟩
    | setMultiClickInterval v =>
      simp only [runActions, lastTouchedSample, applyAction]
      exact ih _ _ ⟨h.lastTouched, h.touched⟩
    | setLongClickDuration v =>
      simp only [runActions, lastTouchedSample, applyAction]
      exact ih _ _ ⟨h.lastTouched, h.touched⟩
    | enableLongPressRepeat b =>
      simp only [runActions, lastTouchedSample, applyAction]
      exact ih _ _ ⟨h.lastTouched, h.touched⟩
    | setLongPressInterval v =>
      simp only [runActions, lastTouchedSample, applyAction]
      exact ih _ _ ⟨h.lastTouched, h.touched⟩
    | enableDragging b =>
      simp only [runActions, lastTouchedSample, applyAction]
      exact ih _ _ ⟨h.lastTouched, h.touched⟩
    | setDragThresholdPx v =>
      simp only [runActions, lastTouchedSample, applyAction]
      exact ih _ _ ⟨h.lastTouched, h.touched⟩
    | setDragIntervalPx v =>
      simp only [runActions, lastTouchedSample, applyAction]
      exact ih _ _ ⟨h.lastTouched, h.touched⟩
    | setDragThresholdMs v =>
      simp only [runActions, lastTouchedSample, applyAction]
      exact ih _ _ ⟨h.lastTouched, h.touched⟩
    | setDragIntervalMs v =>
      simp only [runActions, lastTouchedSample, applyAction]
      exact ih _ _ ⟨h.lastTouched, h.touched⟩
    | setRateLimit v =>
      simp only [runActions, lastTouchedSample, applyAction]
      exact ih _ _ ⟨h.lastTouched, h.touched⟩
    | setDebounceInterval v =>
      simp only [runActions, lastTouchedSample, applyAction]
      exact ih _ _ ⟨h.lastTouched, h.touched⟩

/-- Claim C10 (`getTouchPoint()` while untouched).  In every state reached
from a fresh engine by calls of `update()`, `getTouchPoint()`, `begin()`,
`enable()` and the setters: if the working touch point has pressure 0,
`getTouchPoint()` returns the x and y of the last accepted sample that had
nonzero pressure, with z = 0; whenever the engine is untouched the point
returned has z = 0; and a second call returns the same point. -/
theorem getTouchPoint_untouched (acts : List Action) :
    ((runActions fresh acts).touchPoint.z = 0 →
        (getTouchPoint (runActions fresh acts)).2
          = { x := (lastTouchedSample fresh {} acts).x
              y := (lastTouchedSample fresh {} acts).y
              z := 0 })
    ∧ ((runActions fresh acts).touched = false →
        (getTouchPoint (runActions fresh acts)).2.z = 0)
    ∧ (getTouchPoint (getTouchPoint (runActions fresh acts)).1).2
        = (getTouchPoint (runActions fresh acts)).2 := by
  have inv := runActions_touchInv acts fresh {} ⟨rfl, by decide⟩
  generalize runActions fresh acts = s at inv
  refine ⟨?_, ?_, ?_⟩
  · intro hz
    simp [getTouchPoint, hz, inv.lastTouched]
  · intro ht
    have hz : s.touchPoint.z = 0 := by
      by_contra hz
      have := inv.touched.2 hz
      rw [ht] at this
      simp at this
    simp [getTouchPoint, hz]
  · by_cases hz : s.touchPoint.z = 0 <;> simp [getTouchPoint, hz]

theorem getTouchPoint_untouched_witness :
    (runActions fresh [.update 20 ⟨5, 7, 3⟩, .update 40 ⟨5, 7, 3⟩, .update 60 ⟨9, 9, 0⟩,
        .update 80 ⟨9, 9, 0⟩]).touchPoint = ⟨9, 9, 0⟩
    ∧ (getTouchPoint (runActions fresh [.update 20 ⟨5, 7, 3⟩, .update 40 ⟨5, 7, 3⟩,
        .update 60 ⟨9, 9, 0⟩, .update 80 ⟨9, 9, 0⟩])).2 = ⟨5, 7, 0⟩ :=
  ⟨by decide,
    ((getTouchPoint_untouched [.update 20 ⟨5, 7, 3⟩, .update 40 ⟨5, 7, 3⟩, .update 60 ⟨9, 9, 0⟩,
        .update 80 ⟨9, 9, 0⟩]).1 (by decide)).trans (by decide)⟩

/-! ## A processed tick, case by case -/

theorem afterUnstable_sameGesture (s : EventTouchScreen) (now : Nat) (tp : TouchPoint_s)
    (h : (debounced { s with rateLimitCounter := now } now tp).stable = false) :
    SameGesture (afterUnstable s now tp) s
    ∧ (afterUnstable s now tp).rateLimitCounter = now
    ∧ (afterUnstable s now tp).touchPoint = s.touchPoint := by
  rw [afterUnstable_eq s now tp h]
  exact ⟨⟨rfl, rfl, rfl, rfl, rfl, rfl, rfl, rfl, rfl, rfl, rfl, rfl⟩, rfl, rfl⟩

/-- A processed tick that accepts a press. -/
theorem updateTick_press (s : EventTouchScreen) (now : Nat) (tp : TouchPoint_s)
    (hs : (debounced { s with rateLimitCounter := now } now tp).stable = true)
    (ht : s.touched = false) (hz : tp.z ≠ 0) :
    (updateTick s now tp).events = [.PRESSED]
    ∧ (updateTick s now tp).st = pressedState s now tp := by
  rw [updateTick_stable s now tp hs]
  have he := updateEdge_press (afterStable s now tp) now ht hz
  have hst : (updateEdge (afterStable s now tp) now).st = pressedState s now tp := by
    rw [he]; rfl
  have hev : (updateEdge (afterStable s now tp) now).events = [.PRESSED] := by
    rw [he]; rfl
  have hh : updateHeld (pressedState s now tp) now = { st := pressedState s now tp } :=
    updateHeld_at_press _ _ rfl rfl
  have hc : updateClicks (pressedState s now tp) now = { st := pressedState s now tp } :=
    updateClicks_none _ _ (Or.inl rfl)
  simp only [hst, hev, hh, hc]
  simp

/-- A processed tick that accepts a release while not dragging. -/
theorem updateTick_release (s : EventTouchScreen) (now : Nat) (tp : TouchPoint_s)
    (hs : (debounced { s with rateLimitCounter := now } now tp).stable = true)
    (ht : s.touched = true) (hz : tp.z = 0) (hd : s.dragging = false) :
    (updateTick s now tp).events = [.RELEASED]
    ∧ (updateTick s now tp).st = releasedState s now tp := by
  rw [updateTick_stable s now tp hs]
  have he := updateEdge_release (afterStable s now tp) now ht hz hd
  have hst : (updateEdge (afterStable s now tp) now).st = releasedState s now tp := by
    rw [he]; rfl
  have hev : (updateEdge (afterStable s now tp) now).events = [.RELEASED] := by
    rw [he]; rfl
  have hh : updateHeld (releasedState s now tp) now = { st := releasedState s now tp } :=
    updateHeld_untouched _ _ rfl
  have hc : updateClicks (releasedState s now tp) now = { st := releasedState s now tp } :=
    updateClicks_at_change _ _ rfl
  simp only [hst, hev, hh, hc]
  simp

/-- A processed tick of an untouched engine that accepts no press: only
click finalization runs. -/
theorem updateTick_idle (s : EventTouchScreen) (now : Nat) (tp : TouchPoint_s)
    (ht : s.touched = false)
    (hno : ¬ ((debounced { s with rateLimitCounter := now } now tp).stable = true ∧ tp.z ≠ 0)) :
    ∃ a, SameGesture a s ∧ a.rateLimitCounter = now
      ∧ (updateTick s now tp).st = (updateClicks a now).st
      ∧ (updateTick s now tp).events = (updateClicks a now).events := by
  by_cases hs : (debounced { s with rateLimitCounter := now } now tp).stable = true
  · have hz : tp.z = 0 := by
      by_contra hz
      exact hno ⟨hs, hz⟩
    refine ⟨afterStable s now tp, ⟨rfl, rfl, rfl, rfl, rfl, rfl, rfl, rfl, rfl, rfl, rfl, rfl⟩,
      rfl, ?_⟩
    rw [updateTick_stable s now tp hs]
    have he := updateEdge_untouched (afterStable s now tp) now ht hz
    have hh : updateHeld (afterStable s now tp) now = { st := afterStable s now tp } :=
      updateHeld_untouched _ _ ht
    simp only [he, hh]
    simp
  · have hs' : (debounced { s with rateLimitCounter := now } now tp).stable = false := by
      simpa using hs
    have ha := afterUnstable_sameGesture s now tp hs'
    refine ⟨afterUnstable s now tp, ha.1, ha.2.1, ?_⟩
    rw [updateTick_unstable s now tp hs']
    have hh : updateHeld (afterUnstable s now tp) now = { st := afterUnstable s now tp } :=
      updateHeld_untouched _ _ (by rw [ha.1.touched, ht])
    simp only [hh]
    simp

/-- A processed tick of a touched engine that accepts no release: only the
drag and long-press evaluation runs. -/
theorem updateTick_held (s : EventTouchScreen) (now : Nat) (tp : TouchPoint_s)
    (ht : s.touched = true) (hz : s.touchPoint.z ≠ 0)
    (hno : ¬ ((debounced { s with rateLimitCounter := now } now tp).stable = true ∧ tp.z = 0)) :
    ∃ a, SameGesture a s ∧ a.rateLimitCounter = now ∧ a.touchPoint.z ≠ 0
      ∧ (updateTick s now tp).st = (updateHeld a now).st
      ∧ (updateTick s now tp).events = (updateHeld a now).events := by
  by_cases hs : (debounced { s with rateLimitCounter := now } now tp).stable = true
  · have hz' : tp.z ≠ 0 := fun h => hno ⟨hs, h⟩
    refine ⟨{ afterStable s now tp with lastTouchedPoint := tp },
      ⟨rfl, rfl, rfl, rfl, rfl, rfl, rfl, rfl, rfl, rfl, rfl, rfl⟩, rfl, hz', ?_⟩
    rw [updateTick_stable s now tp hs]
    have he := updateEdge_touched (afterStable s now tp) now ht hz'
    have he' : updateEdge (afterStable s now tp) now
        = { st := { afterStable s now tp with lastTouchedPoint := tp } } := he
    have hf := updateHeld_frame { afterStable s now tp with lastTouchedPoint := tp } now
    have hc := updateClicks_none
      (updateHeld { afterStable s now tp with lastTouchedPoint := tp } now).st now
      (Or.inl (by rw [hf.1]; exact ht))
    simp only [he', hc]
    simp
  · have hs' : (debounced { s with rateLimitCounter := now } now tp).stable = false := by
      simpa using hs
    have ha := afterUnstable_sameGesture s now tp hs'
    refine ⟨afterUnstable s now tp, ha.1, ha.2.1, by rw [ha.2.2]; exact hz, ?_⟩
    rw [updateTick_unstable s now tp hs']
    have hf := updateHeld_frame (afterUnstable s now tp) now
    have hc := updateClicks_none (updateHeld (afterUnstable s now tp) now).st now
      (Or.inl (by rw [hf.1, ha.1.touched]; exact ht))
    simp only [hc]
    simp

/-! ## The phases of a burst of clicks -/

theorem currentDuration_eq (s : EventTouchScreen) (now t : Nat)
    (h : s.lastStateChange = t) (h1 : t ≤ now) (h3 : now - t < 65536) :
    currentDuration s now = now - t := by
  simp only [currentDuration, h, sub32, u32, u16]
  omega

theorem processed_of_enabled (s : EventTouchScreen) (now : Nat) (h : s.enabled = true) :
    processed s now = rateGate s now := by
  simp [processed, h]

/-- One call of `update()` on an engine at rest: nothing happens, or a press
is accepted. -/
theorem quiet_step (s : EventTouchScreen) (now : Nat) (tp : TouchPoint_s) (h : Quiet s) :
    ((update s now tp).events = [] ∧ Quiet (update s now tp).st)
    ∨ ((update s now tp).events = [.PRESSED] ∧ Held (update s now tp).st 0 now) := by
  by_cases hp : processed s now = true
  · rw [update_processed s now tp hp]
    by_cases hpr : (debounced { s with rateLimitCounter := now } now tp).stable = true ∧ tp.z ≠ 0
    · right
      obtain ⟨he, hst⟩ := updateTick_press s now tp hpr.1 h.touched hpr.2
      rw [he, hst]
      exact ⟨rfl, ⟨h.enabled, rfl, hpr.2, by simpa [u8] using h.clickCounter,
        h.longPressCounter, h.dragging, rfl⟩⟩
    · left
      obtain ⟨a, ha, _, hst, hev⟩ := updateTick_idle s now tp h.touched hpr
      have hc : updateClicks a now = { st := a } :=
        updateClicks_none a now (Or.inr (Or.inl (by rw [ha.clickFired, h.clickFired])))
      rw [hst, hev, hc]
      refine ⟨rfl, ⟨?_, ?_, ?_, ?_, ?_, ?_⟩⟩
      · have := congrArg Config.enabled ha.config
        simpa [EventTouchScreen.config, h.enabled] using this
      · rw [← h.touched]; exact ha.touched
      · rw [← h.clickFired]; exact ha.clickFired
      · rw [← h.clickCounter]; exact ha.clickCounter
      · rw [← h.longPressCounter]; exact ha.longPressCounter
      · rw [← h.dragging]; exact ha.dragging
  · rw [update_not_processed s now tp (by simpa using hp)]
    exact Or.inl ⟨rfl, h⟩

theorem sameGesture_enabled (a s : EventTouchScreen) (h : SameGesture a s) :
    a.enabled = s.enabled := congrArg Config.enabled h.config

theorem sameGesture_currentDuration (a s : EventTouchScreen) (h : SameGesture a s) (now : Nat) :
    currentDuration a now = currentDuration s now := by
  simp only [currentDuration, h.lastStateChange]

theorem sameGesture_longPressThreshold (a s : EventTouchScreen) (h : SameGesture a s) :
    longPressThreshold a = longPressThreshold s := by
  have h1 : a.longClickDuration = s.longClickDuration :=
    congrArg Config.longClickDuration h.config
  have h2 : a.longPressInterval = s.longPressInterval :=
    congrArg Config.longPressInterval h.config
  simp only [longPressThreshold, h1, h2, h.longPressCounter]

theorem held_sameGesture (a s : EventTouchScreen) (n t : Nat) (h : SameGesture a s)
    (hz : a.touchPoint.z ≠ 0) (hs : Held s n t) : Held a n t :=
  ⟨by rw [sameGesture_enabled a s h]; exact hs.enabled,
   by rw [h.touched]; exact hs.touched, hz,
   by rw [h.clickCounter]; exact hs.clickCounter,
   by rw [h.longPressCounter]; exact hs.longPressCounter,
   by rw [h.dragging]; exact hs.dragging,
   by rw [h.lastStateChange]; exact hs.lastStateChange⟩

/-- One call of `update()` during a press that has not yet lasted longer
than `longClickDuration`: nothing happens, the release is accepted, or a
drag is detected. -/
theorem held_step (s : EventTouchScreen) (now : Nat) (tp : TouchPoint_s) (n t : Nat)
    (h : Held s n t) (h1 : t ≤ now) (h2 : now - t ≤ s.longClickDuration)
    (hL : s.longClickDuration < 65536) :
    ((update s now tp).events = [] ∧ Held (update s now tp).st n t)
    ∨ ((update s now tp).events = [.RELEASED] ∧ Pending (update s now tp).st (n + 1) now)
    ∨ (update s now tp).events = [.DRAGGED] := by
  have hdur : currentDuration s now = now - t :=
    currentDuration_eq s now t h.lastStateChange h1 (by omega)
  have hthr : longPressThreshold s = s.longClickDuration := by
    simp only [longPressThreshold, h.longPressCounter, Nat.zero_mul, Nat.add_zero, u16]
    exact Nat.mod_eq_of_lt hL
  by_cases hp : processed s now = true
  · rw [update_processed s now tp hp]
    by_cases hrel : (debounced { s with rateLimitCounter := now } now tp).stable = true ∧ tp.z = 0
    · right; left
      obtain ⟨he, hst⟩ := updateTick_release s now tp hrel.1 h.touched hrel.2 h.dragging
      rw [he, hst]
      refine ⟨rfl, ⟨h.enabled, rfl, rfl, ?_, h.longPressCounter, h.dragging, rfl, ?_,
        Nat.le_refl _, Nat.le_add_right _ _⟩⟩
      · simp only [releasedState, h.longPressCounter, if_true, h.clickCounter, u8]
        omega
      · show currentDuration s now ≤ s.longClickDuration
        rw [hdur]; exact h2
    · obtain ⟨a, ha, _, hz, hst, hev⟩ := updateTick_held s now tp h.touched h.pressure hrel
      have hHa : Held a n t := held_sameGesture a s n t ha hz h
      have hearly : ∀ b : EventTouchScreen, b.lastStateChange = a.lastStateChange →
          longPressThreshold b = longPressThreshold a →
          updateLongPress b now = { st := b } := by
        intro b hb1 hb2
        apply updateLongPress_early
        have : currentDuration b now = currentDuration s now := by
          simp only [currentDuration, hb1, ha.lastStateChange]
        rw [this, hb2, sameGesture_longPressThreshold a s ha, hthr, hdur]
        omega
      have hH := updateHeld_touched a now hHa.touched hz
      rcases updateDrag_cases a now with hd | ⟨_, _, hd⟩
      · left
        rw [hst, hev, hH, hd, hearly a rfl rfl]
        exact ⟨rfl, hHa⟩
      · right; right
        have hb := hearly
          { a with dragging := true, lastDragMs := now, previousTouchPoint := a.touchPoint }
          rfl rfl
        rw [hev, hH, hd]
        dsimp only
        rw [hb]
        rfl
  · rw [update_not_processed s now tp (by simpa using hp)]
    exact Or.inl ⟨rfl, h⟩

/-- One call of `update()` while a burst waits for its classification. -/
theorem pending_step (s : EventTouchScreen) (now : Nat) (tp : TouchPoint_s) (n r : Nat)
    (h : Pending s n r) (h1 : r ≤ now) (h2 : now - r < 65536) :
    (processed s now = false ∧ update s now tp = { st := s })
    ∨ (processed s now = true ∧ (update s now tp).events = [.PRESSED]
        ∧ Held (update s now tp).st n now)
    ∨ (processed s now = true ∧ now ≤ r + s.multiClickInterval
        ∧ (update s now tp).events = [] ∧ Pending (update s now tp).st n r
        ∧ (update s now tp).st.rateLimitCounter = now)
    ∨ (processed s now = true ∧ r + s.multiClickInterval < now
        ∧ (update s now tp).events = [classify (u8 n)] ∧ Quiet (update s now tp).st) := by
  have hdur : currentDuration s now = now - r :=
    currentDuration_eq s now r h.lastStateChange h1 h2
  by_cases hp : processed s now = true
  · right
    rw [update_processed s now tp hp]
    by_cases hpr : (debounced { s with rateLimitCounter := now } now tp).stable = true ∧ tp.z ≠ 0
    · left
      obtain ⟨he, hst⟩ := updateTick_press s now tp hpr.1 h.touched hpr.2
      rw [he, hst]
      exact ⟨hp, rfl, ⟨h.enabled, rfl, hpr.2, h.clickCounter, h.longPressCounter,
        h.dragging, rfl⟩⟩
    · right
      obtain ⟨a, ha, harl, hst, hev⟩ := updateTick_idle s now tp h.touched hpr
      have hmci : a.multiClickInterval = s.multiClickInterval :=
        congrArg Config.multiClickInterval ha.config
      have hlcd : a.longClickDuration = s.longClickDuration :=
        congrArg Config.longClickDuration ha.config
      have hda : currentDuration a now = now - r := by
        rw [sameGesture_currentDuration a s ha, hdur]
      by_cases hlate : r + s.multiClickInterval < now
      · right
        have hg : a.clickFired = false ∧ a.touched = false
            ∧ currentDuration a now > a.multiClickInterval := by
          refine ⟨by rw [ha.clickFired, h.clickFired], by rw [ha.touched, h.touched], ?_⟩
          rw [hda, hmci]; omega
        have hsh : ¬ (a.prevDuration > a.longClickDuration ∨ a.longPressCounter > 0) := by
          rw [ha.prevDuration, hlcd, ha.longPressCounter, h.longPressCounter]
          have := h.prevDuration
          omega
        have hc := updateClicks_short a now hg hsh
        rw [hst, hev, hc]
        refine ⟨hp, hlate, by rw [ha.clickCounter, h.clickCounter], ⟨?_, ?_, rfl, rfl, ?_, ?_⟩⟩
        · show a.enabled = true
          rw [sameGesture_enabled a s ha]; exact h.enabled
        · show a.touched = false
          rw [ha.touched]; exact h.touched
        · show a.longPressCounter = 0
          rw [ha.longPressCounter]; exact h.longPressCounter
        · show a.dragging = false
          rw [ha.dragging]; exact h.dragging
      · left
        have hc : updateClicks a now = { st := a } := by
          apply updateClicks_none
          right; right
          rw [hda, hmci]; omega
        rw [hst, hev, hc]
        refine ⟨hp, by omega, rfl, ⟨?_, ?_, ?_, ?_, ?_, ?_, ?_, ?_, ?_, ?_⟩, harl⟩
        · show a.enabled = true
          rw [sameGesture_enabled a s ha]; exact h.enabled
        · show a.touched = false
          rw [ha.touched]; exact h.touched
        · show a.clickFired = false
          rw [ha.clickFired]; exact h.clickFired
        · show a.clickCounter = u8 n
          rw [ha.clickCounter]; exact h.clickCounter
        · show a.longPressCounter = 0
          rw [ha.longPressCounter]; exact h.longPressCounter
        · show a.dragging = false
          rw [ha.dragging]; exact h.dragging
        · show a.lastStateChange = r
          rw [ha.lastStateChange]; exact h.lastStateChange
        · show a.prevDuration ≤ a.longClickDuration
          rw [ha.prevDuration, hlcd]; exact h.prevDuration
        · show r ≤ a.rateLimitCounter
          rw [harl]; exact h1
        · show a.rateLimitCounter ≤ r + a.multiClickInterval
          rw [harl, hmci]; omega
  · left
    have hp' : processed s now = false := by simpa using hp
    exact ⟨hp', update_not_processed s now tp hp'⟩

/-! ## Traces: unfolding and elementary facts -/

theorem timing_update (s : EventTouchScreen) (now : Nat) (tp : TouchPoint_s) (M L RL : Nat)
    (h : Timing s M L RL) : Timing (update s now tp).st M L RL := by
  have hc := update_config s now tp
  exact ⟨by rw [← h.multiClickInterval]; exact congrArg Config.multiClickInterval hc,
    by rw [← h.longClickDuration]; exact congrArg Config.longClickDuration hc,
    by rw [← h.rateLimit]; exact congrArg Config.rateLimit hc⟩

theorem stateChanges_cons_nil (s : EventTouchScreen) (k : Tick) (ks : List Tick)
    (h : (update s k.now k.tp).events = []) :
    stateChanges (runTimed s (k :: ks)) = stateChanges (runTimed (update s k.now k.tp).st ks) := by
  simp [runTimed, h]

theorem stateChanges_cons_change (s : EventTouchScreen) (k : Tick) (ks : List Tick)
    (e : InputEventType) (h : (update s k.now k.tp).events = [e])
    (he : e.isStateChange = true) :
    stateChanges (runTimed s (k :: ks))
      = (k.now, e) :: stateChanges (runTimed (update s k.now k.tp).st ks) := by
  simp [runTimed, h, stateChanges, he]

theorem stateChanges_cons_other (s : EventTouchScreen) (k : Tick) (ks : List Tick)
    (e : InputEventType) (h : (update s k.now k.tp).events = [e])
    (he : e.isStateChange = false) :
    stateChanges (runTimed s (k :: ks))
      = stateChanges (runTimed (update s k.now k.tp).st ks) := by
  simp [runTimed, h, stateChanges, he]

/-- Every event of a trace carries the time of a call, none earlier than
the call before the trace. -/
theorem runTimed_ge (gap : Nat) (tr : List Tick) :
    ∀ (s : EventTouchScreen) (c : Nat), List.Chain (Cadence gap) c (tr.map Tick.now) →
      ∀ x ∈ runTimed s tr, c ≤ x.1 := by
  induction tr with
  | nil => intro s c _ x hx; simp [runTimed] at hx
  | cons k ks ih =>
    intro s c hc x hx
    simp only [List.map_cons, List.chain_cons] at hc
    simp only [runTimed, List.mem_append, List.mem_map] at hx
    rcases hx with ⟨e, _, rfl⟩ | hx
    · exact hc.1.1
    · exact Nat.le_trans hc.1.1 (ih _ _ hc.2 x hx)

theorem stateChanges_ge (gap : Nat) (tr : List Tick) (s : EventTouchScreen) (c : Nat)
    (hc : List.Chain (Cadence gap) c (tr.map Tick.now)) :
    ∀ x ∈ stateChanges (runTimed s tr), c ≤ x.1 := by
  intro x hx
  exact runTimed_ge gap tr s c hc x (List.mem_of_mem_filter hx)

theorem classify_isStateChange (n : Nat) : (classify n).isStateChange = false := by
  unfold classify
  split_ifs <;> rfl

/-- An engine at rest that accepts no press emits nothing. -/
theorem quiet_run_silent (tr : List Tick) :
    ∀ (s : EventTouchScreen), Quiet s → stateChanges (runTimed s tr) = [] →
      runEvents s tr = [] ∧ Quiet (runState s tr) := by
  induction tr with
  | nil => intro s h _; exact ⟨rfl, h⟩
  | cons k ks ih =>
    intro s h hsc
    rcases quiet_step s k.now k.tp h with ⟨he, hq⟩ | ⟨he, _⟩
    · rw [stateChanges_cons_nil s k ks he] at hsc
      have := ih _ hq hsc
      simp only [runEvents, runState, he, List.nil_append]
      exact this
    · rw [stateChanges_cons_change s k ks _ he rfl] at hsc
      simp at hsc

/-! ## A burst of clicks -/

theorem paced_cons (gap c : Nat) (s : EventTouchScreen) (k : Tick) (ks : List Tick)
    (h : Paced gap c s (k :: ks)) :
    Paced gap k.now (update s k.now k.tp).st ks ∧ c ≤ k.now ∧ k.now ≤ c + gap
      ∧ k.now < 4294836224 ∧ InputEventType.DRAGGED ∉ (update s k.now k.tp).events := by
  have hc := h.cadence
  simp only [List.map_cons, List.chain_cons] at hc
  have hn := h.noDrag
  simp only [runEvents, List.mem_append, not_or] at hn
  exact ⟨⟨hc.2, fun k' hk' => h.bound k' (by simp [hk']), hn.2⟩, hc.1.1, hc.1.2,
    h.bound k (by simp), hn.1⟩

theorem not_late_of_last (M rl now : Nat) (sc : List (Nat × InputEventType))
    (e : InputEventType) (hge : ∀ x ∈ sc, now ≤ x.1) (hl : sc.getLast? = some (rl, e)) :
    ¬ (rl + M < now) := by
  have := hge _ (List.mem_of_getLast?_eq_some hl)
  simp only at this
  omega

theorem not_late_of_last_add (M rl now : Nat) (sc : List (Nat × InputEventType))
    (e : InputEventType) (hge : ∀ x ∈ sc, now ≤ x.1 + M) (hl : sc.getLast? = some (rl, e)) :
    ¬ (rl + M < now) := by
  have := hge _ (List.mem_of_getLast?_eq_some hl)
  simp only at this
  omega

theorem runLog_find_skip (M rl : Nat) (s : EventTouchScreen) (k : Tick) (ks : List Tick)
    (h : ¬ (processed s k.now = true ∧ rl + M < k.now)) :
    (runLog s (k :: ks)).find? (lateTick M rl)
      = (runLog (update s k.now k.tp).st ks).find? (lateTick M rl) := by
  simp only [runLog]
  rw [List.find?_cons_of_neg]
  simpa [lateTick] using h

theorem runLog_find_hit (M rl : Nat) (s : EventTouchScreen) (k : Tick) (ks : List Tick)
    (h1 : processed s k.now = true) (h2 : rl + M < k.now) :
    (runLog s (k :: ks)).find? (lateTick M rl)
      = some { now := k.now, processed := processed s k.now,
               polled := (update s k.now k.tp).polled,
               events := (update s k.now k.tp).events } := by
  simp only [runLog]
  rw [List.find?_cons_of_pos]
  simp [lateTick, h1, h2]

theorem runLog_silence_tail (M rl : Nat) (s : EventTouchScreen) (k : Tick) (ks : List Tick)
    (h : ¬ (processed s k.now = true ∧ rl + M < k.now))
    (hs : ∃ e ∈ runLog s (k :: ks), lateTick M rl e = true) :
    ∃ e ∈ runLog (update s k.now k.tp).st ks, lateTick M rl e = true := by
  obtain ⟨e, he, hl⟩ := hs
  simp only [runLog, List.mem_cons] at he
  rcases he with rfl | he
  · exfalso
    apply h
    simpa [lateTick] using hl
  · exact ⟨e, he, hl⟩

theorem u8_succ (n : Nat) : u8 (u8 n + 1) = u8 (n + 1) := by
  simp only [u8]; omega

/-- The run of a burst of clicks, from each of its three phases.  `rl` is
the time of the last release of the trace. -/
theorem burst_run (M L RL gap : Nat) (hL : L < 65536)
    (hRL : RL < 65536) (hgap : M + RL + gap < 65536) (rl : Nat) (tr : List Tick) :
    (∀ (s : EventTouchScreen) (c : Nat) (pr : Nat × Nat) (ps : List (Nat × Nat)),
        Quiet s → Timing s M L RL → Paced gap c s tr →
        stateChanges (runTimed s tr) = burst (pr :: ps) →
        (∀ q ∈ pr :: ps, q.2 - q.1 ≤ L) → gapsFrom M pr.2 ps →
        (stateChanges (runTimed s tr)).getLast? = some (rl, .RELEASED) →
        (∃ e ∈ runLog s tr, lateTick M rl e = true) →
        runEvents s tr = pairs (ps.length + 1) ++ [classify (u8 (ps.length + 1))]
        ∧ ∃ e, (runLog s tr).find? (lateTick M rl) = some e
            ∧ e.events = [classify (u8 (ps.length + 1))])
    ∧ (∀ (s : EventTouchScreen) (c n t r : Nat) (ps : List (Nat × Nat)),
        Held s n t → Timing s M L RL → Paced gap c s tr → t ≤ c →
        stateChanges (runTimed s tr) = (r, .RELEASED) :: burst ps →
        r - t ≤ L → (∀ q ∈ ps, q.2 - q.1 ≤ L) → gapsFrom M r ps →
        (stateChanges (runTimed s tr)).getLast? = some (rl, .RELEASED) →
        (∃ e ∈ runLog s tr, lateTick M rl e = true) →
        runEvents s tr
          = .RELEASED :: (pairs ps.length ++ [classify (u8 (n + 1 + ps.length))])
        ∧ ∃ e, (runLog s tr).find? (lateTick M rl) = some e
            ∧ e.events = [classify (u8 (n + 1 + ps.length))])
    ∧ (∀ (s : EventTouchScreen) (c n r : Nat) (ps : List (Nat × Nat)),
        Pending s n r → Timing s M L RL → Paced gap c s tr → r ≤ c →
        c ≤ s.rateLimitCounter + RL →
        stateChanges (runTimed s tr) = burst ps →
        (∀ q ∈ ps, q.2 - q.1 ≤ L) → gapsFrom M r ps →
        ((r, InputEventType.RELEASED) :: stateChanges (runTimed s tr)).getLast?
          = some (rl, .RELEASED) →
        (∃ e ∈ runLog s tr, lateTick M rl e = true) →
        runEvents s tr = pairs ps.length ++ [classify (u8 (n + ps.length))]
        ∧ ∃ e, (runLog s tr).find? (lateTick M rl) = some e
            ∧ e.events = [classify (u8 (n + ps.length))]) := by
  induction tr with
  | nil =>
    refine ⟨?_, ?_, ?_⟩
    · intro s c pr ps _ _ _ _ _ _ _ hs
      simp [runLog] at hs
    · intro s c n t r ps _ _ _ _ _ _ _ _ _ hs
      simp [runLog] at hs
    · intro s c n r ps _ _ _ _ _ _ _ _ _ hs
      simp [runLog] at hs
  | cons k ks ih =>
    obtain ⟨ihQ, ihH, ihP⟩ := ih
    refine ⟨?_, ?_, ?_⟩
    · -- at rest, at least one pair to come
      intro s c pr ps hq ht hp hsc hshort hgaps hlast hsil
      obtain ⟨hp', hck, _, _, _⟩ := paced_cons gap c s k ks hp
      have ht' := timing_update s k.now k.tp M L RL ht
      have hge := stateChanges_ge gap ks (update s k.now k.tp).st k.now hp'.cadence
      rcases quiet_step s k.now k.tp hq with ⟨he, hq'⟩ | ⟨he, hh'⟩
      · have hsc' := stateChanges_cons_nil s k ks he
        rw [hsc'] at hsc hlast
        have hnl : ¬ (processed s k.now = true ∧ rl + M < k.now) :=
          fun h => not_late_of_last M rl k.now _ _ hge hlast h.2
        have := ihQ _ k.now pr ps hq' ht' hp' hsc hshort hgaps hlast
          (runLog_silence_tail M rl s k ks hnl hsil)
        rw [runLog_find_skip M rl s k ks hnl]
        simp only [runEvents, he, List.nil_append]
        exact this
      · have hsc' := stateChanges_cons_change s k ks _ he rfl
        rw [hsc'] at hsc hlast
        simp only [burst, List.cons.injEq, Prod.mk.injEq, and_true] at hsc
        obtain ⟨hk1, hsc2⟩ := hsc
        have hlast' : (stateChanges (runTimed (update s k.now k.tp).st ks)).getLast?
            = some (rl, .RELEASED) := by
          rw [hsc2] at hlast ⊢
          simpa using hlast
        have hnl : ¬ (processed s k.now = true ∧ rl + M < k.now) :=
          fun h => not_late_of_last M rl k.now _ _ hge hlast' h.2
        have hsh1 := hshort pr (by simp)
        have := ihH _ k.now 0 k.now pr.2 ps hh' ht' hp' (Nat.le_refl _) hsc2
          (by rw [hk1]; exact hsh1) (fun q hq => hshort q (by simp [hq])) hgaps hlast'
          (runLog_silence_tail M rl s k ks hnl hsil)
        rw [runLog_find_skip M rl s k ks hnl]
        simp only [runEvents, he, List.singleton_append, this.1, pairs, List.cons_append,
          Nat.zero_add]
        refine ⟨by simp [Nat.add_comm], ?_⟩
        obtain ⟨e, h1, h2⟩ := this.2
        exact ⟨e, h1, by rw [h2]; simp [Nat.add_comm]⟩
    · -- during a press
      intro s c n t r ps hh ht hp htc hsc hrt hshort hgaps hlast hsil
      obtain ⟨hp', hck, _, _, hnd⟩ := paced_cons gap c s k ks hp
      have ht' := timing_update s k.now k.tp M L RL ht
      have hge := stateChanges_ge gap ks (update s k.now k.tp).st k.now hp'.cadence
      have hge0 := stateChanges_ge gap (k :: ks) s c hp.cadence
      have hkr : k.now ≤ r := by
        have hc2 := hp.cadence
        simp only [List.map_cons, List.chain_cons] at hc2
        have hmem : (r, InputEventType.RELEASED) ∈ runTimed s (k :: ks) := by
          apply List.mem_of_mem_filter (p := fun p => p.2.isStateChange)
          show (r, InputEventType.RELEASED) ∈ stateChanges (runTimed s (k :: ks))
          rw [hsc]; simp
        simp only [runTimed, List.mem_append, List.mem_map] at hmem
        rcases hmem with ⟨e, _, he⟩ | hmem
        · simp only [Prod.mk.injEq] at he
          omega
        · exact runTimed_ge gap ks _ k.now hc2.2 _ hmem
      rcases held_step s k.now k.tp n t hh (by omega)
          (by rw [ht.longClickDuration]; omega) (by rw [ht.longClickDuration]; exact hL) with
        ⟨he, hh'⟩ | ⟨he, hpd⟩ | he
      · have hsc' := stateChanges_cons_nil s k ks he
        rw [hsc'] at hsc hlast
        have hnl : ¬ (processed s k.now = true ∧ rl + M < k.now) :=
          fun h => not_late_of_last M rl k.now _ _ hge hlast h.2
        have := ihH _ k.now n t r ps hh' ht' hp' (by omega) hsc hrt hshort hgaps hlast
          (runLog_silence_tail M rl s k ks hnl hsil)
        rw [runLog_find_skip M rl s k ks hnl]
        simp only [runEvents, he, List.nil_append]
        exact this
      · have hsc' := stateChanges_cons_change s k ks _ he rfl
        rw [hsc'] at hsc hlast
        simp only [List.cons.injEq, Prod.mk.injEq, and_true] at hsc
        obtain ⟨hk1, hsc2⟩ := hsc
        have hnl : ¬ (processed s k.now = true ∧ rl + M < k.now) := by
          intro h
          refine not_late_of_last M rl k.now
            ((k.now, .RELEASED) :: stateChanges (runTimed (update s k.now k.tp).st ks))
            _ ?_ hlast h.2
          intro x hx
          simp only [List.mem_cons] at hx
          rcases hx with rfl | hx
          · exact Nat.le_refl _
          · exact hge x hx
        have hrl := hpd.since
        have := ihP _ k.now (n + 1) k.now ps hpd ht' hp' (Nat.le_refl _) (by omega) hsc2
          hshort (by rw [hk1]; exact hgaps) hlast
          (runLog_silence_tail M rl s k ks hnl hsil)
        rw [runLog_find_skip M rl s k ks hnl]
        simp only [runEvents, he, List.singleton_append, this.1]
        exact ⟨trivial, this.2⟩
      · rw [he] at hnd
        simp at hnd
    · -- waiting for the classification
      intro s c n r ps hpd ht hp hrc hcr hsc hshort hgaps hlast hsil
      obtain ⟨hp', hck, hkc, hkb, _⟩ := paced_cons gap c s k ks hp
      have ht' := timing_update s k.now k.tp M L RL ht
      have hge := stateChanges_ge gap ks (update s k.now k.tp).st k.now hp'.cadence
      have hearly := hpd.early
      rw [ht.multiClickInterval] at hearly
      rcases pending_step s k.now k.tp n r hpd (by omega) (by omega) with
        ⟨hnp, hu⟩ | ⟨hpr, he, hh'⟩ | ⟨hpr, hle, he, hpd', hrl'⟩ | ⟨hpr, hlt, he, hq'⟩
      · -- ignored by the rate limiter
        have he : (update s k.now k.tp).events = [] := by rw [hu]
        have hst : (update s k.now k.tp).st = s := by rw [hu]
        have hsc' := stateChanges_cons_nil s k ks he
        rw [hsc'] at hsc hlast
        have hnl : ¬ (processed s k.now = true ∧ rl + M < k.now) := by
          rw [hnp]; simp
        have hk2 : k.now ≤ s.rateLimitCounter + RL := by
          have := hnp
          rw [processed_of_enabled s k.now hpd.enabled] at this
          simp only [rateGate, decide_eq_false_iff_not, not_lt, gt_iff_lt, u32,
            ht.rateLimit] at this
          omega
        have := ihP _ k.now n r ps (by rw [hst]; exact hpd) ht' hp' (by omega)
          (by rw [hst]; exact hk2)
          hsc hshort hgaps hlast (runLog_silence_tail M rl s k ks hnl hsil)
        rw [runLog_find_skip M rl s k ks hnl]
        simp only [runEvents, he, List.nil_append]
        exact this
      · -- the next press of the burst
        have hsc' := stateChanges_cons_change s k ks _ he rfl
        rw [hsc'] at hsc hlast
        cases ps with
        | nil => simp [burst] at hsc
        | cons pr ps' =>
          simp only [burst, List.cons.injEq, Prod.mk.injEq, and_true] at hsc
          obtain ⟨hk1, hsc2⟩ := hsc
          have hlast' : (stateChanges (runTimed (update s k.now k.tp).st ks)).getLast?
              = some (rl, .RELEASED) := by
            rw [hsc2] at hlast ⊢
            simpa using hlast
          have hnl : ¬ (processed s k.now = true ∧ rl + M < k.now) :=
            fun h => not_late_of_last M rl k.now _ _ hge hlast' h.2
          have hsh1 := hshort pr (by simp)
          have := ihH _ k.now n k.now pr.2 ps' hh' ht' hp' (Nat.le_refl _) hsc2
            (by rw [hk1]; exact hsh1) (fun q hq => hshort q (by simp [hq])) hgaps.2 hlast'
            (runLog_silence_tail M rl s k ks hnl hsil)
          rw [runLog_find_skip M rl s k ks hnl]
          simp only [runEvents, he, List.singleton_append, this.1, pairs, List.cons_append,
            List.length_cons]
          have harith : n + 1 + ps'.length = n + (ps'.length + 1) := by omega
          rw [harith]
          refine ⟨rfl, ?_⟩
          obtain ⟨e, h1, h2⟩ := this.2
          exact ⟨e, h1, by rw [h2, harith]⟩
      · -- a processed tick within the multi-click interval
        have hsc' := stateChanges_cons_nil s k ks he
        rw [hsc'] at hsc hlast
        have hnl : ¬ (processed s k.now = true ∧ rl + M < k.now) := by
          intro h
          rw [ht.multiClickInterval] at hle
          refine not_late_of_last_add M rl k.now
            ((r, .RELEASED) :: stateChanges (runTimed (update s k.now k.tp).st ks))
            _ ?_ hlast h.2
          intro x hx
          simp only [List.mem_cons] at hx
          rcases hx with rfl | hx
          · exact hle
          · exact Nat.le_trans (hge x hx) (Nat.le_add_right _ _)
        have := ihP _ k.now n r ps hpd' ht' hp' (by omega) (by rw [hrl']; omega)
          hsc hshort hgaps hlast (runLog_silence_tail M rl s k ks hnl hsil)
        rw [runLog_find_skip M rl s k ks hnl]
        simp only [runEvents, he, List.nil_append]
        exact this
      · -- the classification
        rw [ht.multiClickInterval] at hlt
        have hsc' := stateChanges_cons_other s k ks _ he (classify_isStateChange _)
        rw [hsc'] at hsc hlast
        cases ps with
        | cons pr ps' =>
          exfalso
          have hmem : (pr.1, InputEventType.PRESSED)
              ∈ stateChanges (runTimed (update s k.now k.tp).st ks) := by
            rw [hsc]; simp [burst]
          have := hge _ hmem
          have := hgaps.1
          simp only at *
          omega
        | nil =>
          simp only [burst] at hsc
          rw [hsc] at hlast
          simp only [List.getLast?_singleton, Option.some.injEq, Prod.mk.injEq, and_true]
            at hlast
          subst hlast
          have hrest := quiet_run_silent ks _ hq' hsc
          rw [runLog_find_hit M r s k ks hpr hlt]
          simp only [runEvents, he, hrest.1, List.append_nil, pairs, List.nil_append,
            List.length_nil, Nat.add_zero]
          exact ⟨trivial, _, rfl, rfl⟩

/-! ## Clicks -/

theorem chain_of_chain' (gap : Nat) (k : Tick) (ks : List Tick)
    (h : List.Chain' (Cadence gap) ((k :: ks).map Tick.now)) :
    List.Chain (Cadence gap) k.now ((k :: ks).map Tick.now) := by
  simp only [List.map_cons, List.chain_cons]
  exact ⟨⟨Nat.le_refl _, Nat.le_add_right _ _⟩, h⟩

theorem gapsFrom_of_chain (M : Nat) (ps : List (Nat × Nat)) :
    ∀ (a : Nat × Nat), List.Chain (fun a b : Nat × Nat => b.1 - a.2 < M) a ps →
      gapsFrom M a.2 ps := by
  induction ps with
  | nil => intro a _; trivial
  | cons pr ps ih =>
    intro a h
    simp only [List.chain_cons] at h
    exact ⟨h.1, ih pr h.2⟩

theorem burst_getLast (ps : List (Nat × Nat)) (hne : ps ≠ []) :
    (burst ps).getLast? = some ((ps.getLast hne).2, .RELEASED) := by
  induction ps with
  | nil => exact absurd rfl hne
  | cons pr ps ih =>
    cases ps with
    | nil => simp [burst]
    | cons q qs =>
      have := ih (by simp)
      simp only [burst, List.getLast?_cons_cons, List.getLast_cons_cons] at this ⊢
      exact this

/-- A burst of `ps.length ≥ 1` clicks from an engine at rest: the events are
the press/release pairs followed by the one classification event of the
counted clicks, emitted on the first processed tick more than
`multiClickInterval` after the last release. -/
theorem clicks_run (s : EventTouchScreen) (tr : List Tick) (ps : List (Nat × Nat))
    (gap : Nat) (hne : ps ≠ []) (hq : Quiet s)
    (hL : s.longClickDuration < 65536) (hRL : s.rateLimit < 65536)
    (hgap : s.multiClickInterval + s.rateLimit + gap < 65536)
    (hcad : List.Chain' (Cadence gap) (tr.map Tick.now))
    (hbound : ∀ k ∈ tr, k.now < 4294836224)
    (hnodrag : InputEventType.DRAGGED ∉ runEvents s tr)
    (hacc : stateChanges (runTimed s tr) = burst ps)
    (hshort : ∀ q ∈ ps, q.2 - q.1 ≤ s.longClickDuration)
    (hgaps : List.Chain' (fun a b : Nat × Nat => b.1 - a.2 < s.multiClickInterval) ps)
    (hsil : ∃ e ∈ runLog s tr, lateTick s.multiClickInterval (ps.getLast hne).2 e = true) :
    runEvents s tr = pairs ps.length ++ [classify (u8 ps.length)]
    ∧ ∃ e, (runLog s tr).find? (lateTick s.multiClickInterval (ps.getLast hne).2) = some e
        ∧ e.events = [classify (u8 ps.length)] := by
  cases tr with
  | nil => simp [runLog] at hsil
  | cons k ks =>
    cases ps with
    | nil => exact absurd rfl hne
    | cons pr ps' =>
      have hB := (burst_run s.multiClickInterval s.longClickDuration s.rateLimit gap hL hRL hgap
        (((pr :: ps').getLast hne).2) (k :: ks)).1
      have hlast : (stateChanges (runTimed s (k :: ks))).getLast?
          = some (((pr :: ps').getLast hne).2, .RELEASED) := by
        rw [hacc]; exact burst_getLast _ hne
      exact hB s k.now pr ps' hq ⟨rfl, rfl, rfl⟩
        ⟨chain_of_chain' gap k ks hcad, hbound, hnodrag⟩ hacc hshort
        (gapsFrom_of_chain _ ps' pr hgaps) hlast hsil

theorem taps_cadence (n : Nat) : List.Chain' (Cadence 15) ((taps n).map Tick.now) := by
  simp only [taps, List.map_map, List.chain'_map]
  cases h : 4 * n + 22 with
  | zero => omega
  | succ m =>
    rw [List.chain'_range_succ]
    intro i _
    simp only [Function.comp, Cadence]
    omega

theorem tapTimes_gaps (n M : Nat) (hM : 30 < M) :
    List.Chain' (fun a b : Nat × Nat => b.1 - a.2 < M) (tapTimes n) := by
  simp only [tapTimes, List.chain'_map]
  cases n with
  | zero => simp
  | succ m =>
    rw [List.chain'_range_succ]
    intro i _
    omega

theorem rateGate_le (s : EventTouchScreen) (now : Nat) (h : rateGate s now = false)
    (hw : s.rateLimitCounter + s.rateLimit < 4294967296) :
    now ≤ s.rateLimitCounter + s.rateLimit := by
  simp only [rateGate, decide_eq_false_iff_not, gt_iff_lt, u32, not_lt] at h
  rw [Nat.mod_eq_of_lt hw] at h
  exact h

theorem updateHeld_events_ne (s : EventTouchScreen) (now : Nat) :
    InputEventType.DRAGGED_RELEASED ∉ (updateHeld s now).events := by
  rcases updateHeld_events s now with h | h | h <;> rw [h] <;> simp

theorem updateClicks_events_ne (s : EventTouchScreen) (now : Nat) :
    InputEventType.DRAGGED_RELEASED ∉ (updateClicks s now).events := by
  rcases updateClicks_events s now with h | ⟨e, h, hc, _⟩
  · rw [h]; simp
  · rw [h]
    intro hm
    simp only [List.mem_singleton] at hm
    rw [← hm] at hc
    simp [InputEventType.isClassification] at hc

/-- The tick that emits DRAGGED_RELEASED leaves `rateLimitCounter` at
`millis() + postDragRateLimit`. -/
theorem update_dragRelease_rateLimitCounter (s : EventTouchScreen) (now : Nat)
    (tp : TouchPoint_s) (h : InputEventType.DRAGGED_RELEASED ∈ (update s now tp).events) :
    (update s now tp).st.rateLimitCounter = u32 (now + s.postDragRateLimit) := by
  have hp : processed s now = true := by
    by_contra hp
    rw [update_not_processed s now tp (by simpa using hp)] at h
    simp at h
  rw [update_processed s now tp hp] at h ⊢
  by_cases hs : (debounced { s with rateLimitCounter := now } now tp).stable = true
  · rw [updateTick_stable s now tp hs] at h ⊢
    simp only [List.mem_append] at h
    simp only [updateClicks_rateLimitCounter, updateHeld_rateLimitCounter]
    rcases h with (h | h) | h
    · by_cases ht : (afterStable s now tp).touched = true
      · by_cases hz : (afterStable s now tp).touchPoint.z = 0
        · by_cases hd : (afterStable s now tp).dragging = true
          · rw [updateEdge_dragRelease _ now ht hz hd]
            rfl
          · rw [updateEdge_release _ now ht hz (by simpa using hd)] at h
            simp [invoke] at h
        · rw [updateEdge_touched _ now ht hz] at h
          simp at h
      · rcases updateEdge_cases (afterStable s now tp) now with o | o | o | o
        · rw [o.1] at h; simp at h
        · rw [o.1] at h; simp at h
        · exact absurd o.2.1 ht
        · exact absurd o.2.1 ht
    · exact absurd h (updateHeld_events_ne _ now)
    · exact absurd h (updateClicks_events_ne _ now)
  · have hs' : (debounced { s with rateLimitCounter := now } now tp).stable = false := by
      simpa using hs
    rw [updateTick_unstable s now tp hs'] at h
    simp only [List.mem_append] at h
    rcases h with h | h
    · exact absurd h (updateHeld_events_ne _ now)
    · exact absurd h (updateClicks_events_ne _ now)

/-- The post-drag cooldown away from the top of the counter.  If the call
of `update()` at a time `t` below `2^32 - 131072` emits DRAGGED_RELEASED,
every later call at a time no later than `t + postDragRateLimit` is
ignored: the engine is left as it was, the touch adapter is not polled and
no event is emitted, whatever the samples, so no PRESSED or RELEASED comes
out of the cooldown. -/
theorem post_drag_cooldown (s : EventTouchScreen) (t : Nat) (tp : TouchPoint_s)
    (calls : List Tick) (hwf : WF s)
    (hev : InputEventType.DRAGGED_RELEASED ∈ (update s t tp).events)
    (h0 : t < 4294836224)
    (hcalls : ∀ k ∈ calls, k.now ≤ t + s.postDragRateLimit) :
    runState (update s t tp).st calls = (update s t tp).st
    ∧ runEvents (update s t tp).st calls = []
    ∧ runLog (update s t tp).st calls =
        calls.map (fun k => (⟨k.now, false, false, []⟩ : TickLog)) := by
  have hrl := update_dragRelease_rateLimitCounter s t tp hev
  have hcfg : (update s t tp).st.rateLimit = s.rateLimit :=
    congrArg Config.rateLimit (update_config s t tp)
  have h1 := hwf.rateLimit
  have h2 := hwf.postDragRateLimit
  induction calls with
  | nil => exact ⟨rfl, rfl, rfl⟩
  | cons k ks ih =>
    have hk := hcalls k (by simp)
    have hg : rateGate (update s t tp).st k.now = false := by
      simp only [rateGate, hrl, hcfg, decide_eq_false_iff_not, not_lt, gt_iff_lt, u32]
      omega
    have hp : processed (update s t tp).st k.now = false := by simp [processed, hg]
    have hu := update_not_processed (update s t tp).st k.now k.tp hp
    have ih' := ih (fun k' hk' => hcalls k' (by simp [hk']))
    simp only [runState, runEvents, runLog, hu, hp, List.nil_append, List.map_cons]
    exact ⟨ih'.1, ih'.2.1, by rw [ih'.2.2]⟩

theorem post_drag_cooldown_witness :
    InputEventType.DRAGGED_RELEASED ∈ (update exDragging 100 ⟨0, 0, 0⟩).events
    ∧ (∀ k ∈ [(⟨150, ⟨5, 5, 1⟩⟩ : Tick), ⟨400, ⟨5, 5, 1⟩⟩, ⟨600, ⟨5, 5, 0⟩⟩],
        k.now ≤ 100 + exDragging.postDragRateLimit)
    ∧ runEvents (update exDragging 100 ⟨0, 0, 0⟩).st
        [⟨150, ⟨5, 5, 1⟩⟩, ⟨400, ⟨5, 5, 1⟩⟩, ⟨600, ⟨5, 5, 0⟩⟩] = [] :=
  ⟨by decide, by decide,
    (post_drag_cooldown exDragging 100 ⟨0, 0, 0⟩
      [⟨150, ⟨5, 5, 1⟩⟩, ⟨400, ⟨5, 5, 1⟩⟩, ⟨600, ⟨5, 5, 0⟩⟩]
      (by constructor <;> decide) (by decide) (by decide) (by decide)).2.1⟩

/-- Claim C16 fails on the code near the top of the counter.  The call at
`t = 2^32 - 505` emits DRAGGED_RELEASED and stores
`rateLimitCounter = t + postDragRateLimit = 2^32 - 5`, which does not wrap;
but the sum `rateLimitCounter + rateLimit` that the rate-limit gate compares
with wraps to 5, so the calls 20, 40, 60 and 80 ms later, all within the
cooldown and before the counter wraps, are processed and poll the adapter:
a press and its release inside the cooldown emit PRESSED and RELEASED. -/
theorem post_drag_cooldown_near_wrap :
    (update exDragging 4294966791 ⟨0, 0, 0⟩).events = [.DRAGGED_RELEASED]
    ∧ 4294966791 + exDragging.postDragRateLimit = 4294967291
    ∧ (update exDragging 4294966791 ⟨0, 0, 0⟩).st.rateLimitCounter = 4294967291
    ∧ u32 (4294967291 + exDragging.rateLimit) = 5
    ∧ (∀ k ∈ cooldownNearWrap,
        4294966791 < k.now ∧ k.now ≤ 4294966791 + exDragging.postDragRateLimit
          ∧ k.now < 4294967296)
    ∧ runLog (update exDragging 4294966791 ⟨0, 0, 0⟩).st cooldownNearWrap
      = [⟨4294966811, true, true, []⟩, ⟨4294966831, true, true, [.PRESSED]⟩,
         ⟨4294966851, true, true, []⟩, ⟨4294966871, true, true, [.RELEASED]⟩]
    ∧ runState (update exDragging 4294966791 ⟨0, 0, 0⟩).st cooldownNearWrap
        ≠ (update exDragging 4294966791 ⟨0, 0, 0⟩).st := by
  decide

/-! ## A disabled engine -/

/-- Claim C17 (disabled engine).  With the enabled flag false a call of
`update()`, at any clock value and with any raw sample, leaves every member
of the engine as it was, does not poll the touch adapter and emits no event;
each configuration setter still stores its argument (an argument that fits
the member's type is stored as it is) and leaves the flag false. -/
theorem disabled_engine (s : EventTouchScreen) (now : Nat) (tp : TouchPoint_s)
    (h : s.enabled = false) :
    update s now tp = { st := s, events := [], seen := [], polled := false, stable := false }
    ∧ (∀ v, v < 65536 →
        (setRateLimit s v).rateLimit = v ∧ (setRateLimit s v).enabled = false
        ∧ (setDebounceInterval s v).bounceInterval = v
        ∧ (setDebounceInterval s v).enabled = false
        ∧ (setMultiClickInterval s v).multiClickInterval = v
        ∧ (setMultiClickInterval s v).enabled = false
        ∧ (setLongClickDuration s v).longClickDuration = v
        ∧ (setLongClickDuration s v).enabled = false
        ∧ (setLongPressInterval s v).longPressInterval = v
        ∧ (setLongPressInterval s v).enabled = false)
    ∧ (∀ v, v < 256 →
        (setDragThresholdPx s v).dragThresholdPx = v ∧ (setDragThresholdPx s v).enabled = false
        ∧ (setDragIntervalPx s v).dragIntervalPx = v ∧ (setDragIntervalPx s v).enabled = false
        ∧ (setDragThresholdMs s v).dragThresholdMs = v
        ∧ (setDragThresholdMs s v).enabled = false
        ∧ (setDragIntervalMs s v).dragIntervalMs = v ∧ (setDragIntervalMs s v).enabled = false)
    ∧ (∀ b, (enableDragging s b).dragEnabled = b ∧ (enableDragging s b).enabled = false
        ∧ (enableLongPressRepeat s b).repeatLongPress = b
        ∧ (enableLongPressRepeat s b).enabled = false) := by
  refine ⟨by simp [update, h], ?_, ?_, ?_⟩
  · intro v hv
    have : v % 65536 = v := Nat.mod_eq_of_lt hv
    simp [setRateLimit, setDebounceInterval, setMultiClickInterval, setLongClickDuration,
      setLongPressInterval, u16, this, h]
  · intro v hv
    have : v % 256 = v := Nat.mod_eq_of_lt hv
    simp [setDragThresholdPx, setDragIntervalPx, setDragThresholdMs, setDragIntervalMs, u8,
      this, h]
  · intro b
    simp [enableDragging, enableLongPressRepeat, h]

theorem disabled_engine_witness :
    exDisabled.enabled = false
    ∧ update exDisabled 500 ⟨10, 10, 0⟩ = { st := exDisabled }
    ∧ (setRateLimit exDisabled 25).rateLimit = 25 :=
  ⟨by decide, (disabled_engine exDisabled 500 ⟨10, 10, 0⟩ (by decide)).1,
    ((disabled_engine exDisabled 500 ⟨10, 10, 0⟩ (by decide)).2.1 25 (by decide)).1⟩

/-! ## Disabling -/

/-- Claim C18 as amended (disabling).  The call `onDisabled()` sets the click
counter and the long-press counter to 0, invokes DISABLED (the subscriber
sees the counters already at 0), and leaves every other member as it was: the
touched flag, `dragging`, `clickFired`, the latched click count, the touch
points, the timestamps and the configuration.  In particular the state
machine is idle afterwards exactly when it was idle before. -/
theorem onDisabled_effect (s : EventTouchScreen) :
    (onDisabled s).st = { s with clickCounter := 0, longPressCounter := 0 }
    ∧ (onDisabled s).events = [.DISABLED]
    ∧ (onDisabled s).seen = [(onDisabled s).st]
    ∧ (onDisabled s).st.clickCounter = 0 ∧ (onDisabled s).st.longPressCounter = 0
    ∧ (onDisabled s).st.touched = s.touched ∧ (onDisabled s).st.dragging = s.dragging
    ∧ (onDisabled s).st.clickFired = s.clickFired
    ∧ clickCount (onDisabled s).st = clickCount s
    ∧ (onDisabled s).st.config = s.config :=
  ⟨rfl, rfl, rfl, rfl, rfl, rfl, rfl, rfl, rfl, rfl⟩

/-- Claim C18, the counterexample.  A fresh engine accepts a press at 30 ms
and `onDisabled()` is called while the finger is down: the counters are 0 and
DISABLED is invoked, but the touched flag is still set, so the state machine
is not in its idle state. -/
theorem onDisabled_while_touched :
    (runState fresh pressAt30).touched = true
    ∧ (onDisabled (runState fresh pressAt30)).events = [.DISABLED]
    ∧ (onDisabled (runState fresh pressAt30)).st.touched = true := by
  decide

/-! ## Debounce persistence -/

theorem updateEdge_bounce (s : EventTouchScreen) (now : Nat) :
    (updateEdge s now).st.previousBounceState = s.previousBounceState := by
  simp only [updateEdge, changeState, invoke]
  split_ifs <;> rfl

theorem updateHeld_bounce (s : EventTouchScreen) (now : Nat) :
    (updateHeld s now).st.previousBounceState = s.previousBounceState := by
  simp only [updateHeld, updateDrag, updateLongPress, haveDragged, invoke]
  split_ifs <;> rfl

theorem updateClicks_bounce (s : EventTouchScreen) (now : Nat) :
    (updateClicks s now).st.previousBounceState = s.previousBounceState := by
  simp only [updateClicks, invoke]
  split_ifs <;> rfl

/-- What `debounced()` does, by whether it polls the adapter. -/
theorem debounced_poll (s : EventTouchScreen) (now : Nat) (tp : TouchPoint_s) :
    ((debounced s now tp).polled = false ∧ (debounced s now tp).stable = false
        ∧ (debounced s now tp).st = s)
    ∨ ((debounced s now tp).polled = true
        ∧ (debounced s now tp).st.previousBounceState = decide (tp.z ≠ 0)
        ∧ (debounced s now tp).st.lastBounceCheck = now
        ∧ bounceGate s now = false
        ∧ ((debounced s now tp).stable = true ↔ s.previousBounceState = decide (tp.z ≠ 0))) := by
  simp only [debounced]
  split_ifs with h1 h2
  · exact Or.inl ⟨rfl, rfl, rfl⟩
  · right
    refine ⟨rfl, rfl, rfl, by simpa using h1, ?_⟩
    constructor
    · intro h; cases h
    · intro h; exact absurd h h2
  · right
    have h2' : s.previousBounceState = decide (tp.z ≠ 0) := by
      by_contra h; exact h2 h
    exact ⟨rfl, h2', rfl, by simpa using h1, ⟨fun _ => h2', fun _ => rfl⟩⟩

/-- What `update()` does to the debounce bookkeeping, by whether it polls
the adapter. -/
theorem update_poll (s : EventTouchScreen) (now : Nat) (tp : TouchPoint_s) :
    ((update s now tp).polled = false ∧ (update s now tp).stable = false
        ∧ (update s now tp).st.previousBounceState = s.previousBounceState
        ∧ (update s now tp).st.lastBounceCheck = s.lastBounceCheck)
    ∨ ((update s now tp).polled = true
        ∧ (update s now tp).st.previousBounceState = decide (tp.z ≠ 0)
        ∧ (update s now tp).st.lastBounceCheck = now
        ∧ bounceGate s now = false
        ∧ ((update s now tp).stable = true ↔ s.previousBounceState = decide (tp.z ≠ 0))) := by
  by_cases hp : processed s now = true
  · rw [update_processed s now tp hp]
    have hd := debounced_poll { s with rateLimitCounter := now } now tp
    have hb : bounceGate { s with rateLimitCounter := now } now = bounceGate s now := rfl
    have key : (updateTick s now tp).polled
          = (debounced { s with rateLimitCounter := now } now tp).polled
        ∧ (updateTick s now tp).stable
          = (debounced { s with rateLimitCounter := now } now tp).stable
        ∧ (updateTick s now tp).st.previousBounceState
          = (debounced { s with rateLimitCounter := now } now tp).st.previousBounceState
        ∧ (updateTick s now tp).st.lastBounceCheck
          = (debounced { s with rateLimitCounter := now } now tp).st.lastBounceCheck := by
      unfold updateTick
      generalize debounced { s with rateLimitCounter := now } now tp = d
      by_cases h : d.stable = true
      · simp only [if_pos h, updateClicks_bounce, updateHeld_bounce, updateEdge_bounce,
          updateClicks_lastBounceCheck, updateHeld_lastBounceCheck, updateEdge_lastBounceCheck,
          and_self]
      · simp only [if_neg h, updateClicks_bounce, updateHeld_bounce,
          updateClicks_lastBounceCheck, updateHeld_lastBounceCheck, and_self]
    rw [key.1, key.2.1, key.2.2.1, key.2.2.2]
    rcases hd with ⟨h1, h2, h3⟩ | ⟨h1, h2, h3, h4, h5⟩
    · left
      rw [h3]
      exact ⟨h1, h2, rfl, rfl⟩
    · right
      exact ⟨h1, h2, h3, hb ▸ h4, h5⟩
  · rw [update_not_processed s now tp (by simpa using hp)]
    exact Or.inl ⟨rfl, rfl, rfl, rfl⟩

/-- The first poll of a trace, if reported stable, observed the boolean
stored in the engine, no earlier than `bounceInterval` after the stored
bounce check; and each later poll stands in `Persisted` to the poll before
it. -/
theorem runPolls_persisted (tr : List Tick) :
    ∀ (s : EventTouchScreen), s.bounceInterval < 65536 →
      s.lastBounceCheck < 4294836224 → (∀ k ∈ tr, k.now < 4294836224) →
      (∀ a, (runPolls s tr).head? = some a → a.stable = true →
          s.previousBounceState = a.touched ∧ s.lastBounceCheck + s.bounceInterval ≤ a.now)
      ∧ List.Chain' (Persisted s.bounceInterval) (runPolls s tr) := by
  induction tr with
  | nil =>
    intro s _ _ _
    simp [runPolls]
  | cons k ks ih =>
    intro s hb hl hk
    have hkn := hk k (by simp)
    have hbi := update_bounceInterval s k.now k.tp
    have hks : ∀ k' ∈ ks, k'.now < 4294836224 := fun k' hk' => hk k' (by simp [hk'])
    rcases update_poll s k.now k.tp with ⟨h1, _, h3, h4⟩ | ⟨h1, h2, h3, h4, h5⟩
    · have ih' := ih (update s k.now k.tp).st (by rw [hbi]; exact hb) (by rw [h4]; exact hl) hks
      rw [hbi, h3, h4] at ih'
      simp only [runPolls, h1, Bool.false_eq_true, if_false, List.nil_append]
      exact ih'
    · have ih' := ih (update s k.now k.tp).st (by rw [hbi]; exact hb) (by rw [h3]; exact hkn) hks
      rw [hbi, h2, h3] at ih'
      simp only [runPolls, h1, if_true, List.singleton_append, List.head?_cons,
        Option.some.injEq]
      refine ⟨?_, ?_⟩
      · intro a ha hst
        subst ha
        refine ⟨h5.1 hst, ?_⟩
        simp only [bounceGate, decide_eq_false_iff_not, not_lt, u32] at h4
        show s.lastBounceCheck + s.bounceInterval ≤ k.now
        omega
      · rw [List.chain'_cons']
        refine ⟨?_, ih'.2⟩
        intro b hbm hst
        have := ih'.1 b hbm hst
        exact ⟨this.1, this.2⟩

/-- Debounce persistence away from the top of the counter.  Over any trace
(fixed configuration, every time below `2^32 - 131072`): whenever
`debounced()` reports a polled sample stable, the poll before it observed the same touched boolean and happened at
least `bounceInterval` ms earlier; a stable first poll observed the boolean
the engine started with (untouched for a fresh engine).  And whenever the
polled boolean differs from the stored one, `debounced()` returns false,
stores the new boolean and the time, and leaves the working touch point as
it was. -/
theorem debounce_persistence (s : EventTouchScreen) (tr : List Tick)
    (hb : s.bounceInterval < 65536) (hl : s.lastBounceCheck < 4294836224)
    (hk : ∀ k ∈ tr, k.now < 4294836224) :
    List.Chain' (Persisted s.bounceInterval) (runPolls s tr)
    ∧ (∀ a, (runPolls s tr).head? = some a → a.stable = true →
        a.touched = s.previousBounceState)
    ∧ (∀ (now : Nat) (tp : TouchPoint_s), (debounced s now tp).polled = true →
        s.previousBounceState ≠ decide (tp.z ≠ 0) →
        (debounced s now tp).stable = false
        ∧ (debounced s now tp).st.previousBounceState = decide (tp.z ≠ 0)
        ∧ (debounced s now tp).st.lastBounceCheck = now
        ∧ (debounced s now tp).st.touchPoint = s.touchPoint) := by
  have h := runPolls_persisted tr s hb hl hk
  refine ⟨h.2, fun a ha hst => (h.1 a ha hst).1.symm, ?_⟩
  intro now tp hp hne
  rcases debounced_poll s now tp with ⟨h1, _, _⟩ | ⟨_, h2, h3, _, h5⟩
  · rw [h1] at hp; cases hp
  · have hns : (debounced s now tp).stable = false := by
      by_contra hs
      exact hne (h5.1 (by simpa using hs))
    refine ⟨hns, h2, h3, ?_⟩
    rw [debounced_unstable s now tp hns]

theorem debounce_persistence_witness :
    runPolls fresh [⟨20, ⟨5, 5, 1⟩⟩, ⟨30, ⟨5, 5, 1⟩⟩, ⟨40, ⟨5, 5, 1⟩⟩, ⟨60, ⟨0, 0, 0⟩⟩,
        ⟨80, ⟨0, 0, 0⟩⟩]
      = [⟨20, true, false⟩, ⟨40, true, true⟩, ⟨60, false, false⟩, ⟨80, false, true⟩]
    ∧ List.Chain' (Persisted fresh.bounceInterval)
        (runPolls fresh [⟨20, ⟨5, 5, 1⟩⟩, ⟨30, ⟨5, 5, 1⟩⟩, ⟨40, ⟨5, 5, 1⟩⟩, ⟨60, ⟨0, 0, 0⟩⟩,
          ⟨80, ⟨0, 0, 0⟩⟩]) :=
  ⟨by decide,
    (debounce_persistence fresh [⟨20, ⟨5, 5, 1⟩⟩, ⟨30, ⟨5, 5, 1⟩⟩, ⟨40, ⟨5, 5, 1⟩⟩,
      ⟨60, ⟨0, 0, 0⟩⟩, ⟨80, ⟨0, 0, 0⟩⟩] (by decide) (by decide) (by decide)).1⟩

/-- Claim C19 fails on the code near the top of the counter.  On a fresh
engine (`bounceInterval` 15), four calls of `update()` before the counter
wraps: the poll at `2^32 - 4` observes no touch and is reported not
stable; the stored sum `lastBounceCheck + bounceInterval` wraps to 11, so
the call 1 ms later polls again and `debounced()` reports the sample
stable, although the poll before it was only 1 ms earlier. -/
theorem debounce_persistence_near_wrap :
    (∀ k ∈ bounceNearWrap, k.now < 4294967296)
    ∧ runPolls fresh bounceNearWrap
      = [⟨4294967266, true, false⟩, ⟨4294967281, true, true⟩, ⟨4294967292, false, false⟩,
         ⟨4294967293, false, true⟩]
    ∧ fresh.bounceInterval = 15
    ∧ ¬ Persisted fresh.bounceInterval ⟨4294967292, false, false⟩ ⟨4294967293, false, true⟩
    ∧ ¬ List.Chain' (Persisted fresh.bounceInterval) (runPolls fresh bounceNearWrap) := by
  have h : runPolls fresh bounceNearWrap
      = [⟨4294967266, true, false⟩, ⟨4294967281, true, true⟩, ⟨4294967292, false, false⟩,
         ⟨4294967293, false, true⟩] := by decide
  refine ⟨by decide, h, by decide, ?_, ?_⟩
  · simp [Persisted, fresh]
  · rw [h]
    simp [Persisted, fresh]

/-! ## Durations -/

theorem updateHeld_prevDuration (s : EventTouchScreen) (now : Nat) :
    (updateHeld s now).st.prevDuration = s.prevDuration := by
  simp only [updateHeld, updateDrag, updateLongPress, haveDragged, invoke]
  split_ifs <;> rfl

theorem updateClicks_prevDuration (s : EventTouchScreen) (now : Nat) :
    (updateClicks s now).st.prevDuration = s.prevDuration := by
  simp only [updateClicks, invoke]
  split_ifs <;> rfl

/-- What the edge detection does to the two duration members. -/
theorem updateEdge_durations (s : EventTouchScreen) (now : Nat) :
    ((updateEdge s now).events = []
        ∧ (updateEdge s now).st.lastStateChange = s.lastStateChange
        ∧ (updateEdge s now).st.prevDuration = s.prevDuration)
    ∨ ((∃ e, (updateEdge s now).events = [e] ∧ e.isStateChange = true)
        ∧ (updateEdge s now).st.lastStateChange = now
        ∧ (updateEdge s now).st.prevDuration = currentDuration s now) := by
  by_cases hz : s.touchPoint.z = 0 <;> by_cases ht : s.touched = true <;>
    by_cases hd : s.dragging = true <;> by_cases hl : s.longPressCounter = 0 <;>
    simp [updateEdge, hz, ht, hd, hl, changeState, invoke, currentDuration,
      InputEventType.isStateChange]

theorem tail_not_stateChange (b : EventTouchScreen) (now : Nat) :
    ∀ e ∈ (updateHeld b now).events ++ (updateClicks (updateHeld b now).st now).events,
      e.isStateChange = false := by
  intro e he
  rw [List.mem_append] at he
  rcases he with he | he
  · rcases updateHeld_events b now with h | h | h <;>
      rw [h] at he <;> simp at he <;> simp [he, InputEventType.isStateChange]
  · rcases updateClicks_events (updateHeld b now).st now with h | ⟨x, h, hx, _⟩
    · rw [h] at he; simp at he
    · rw [h] at he
      simp only [List.mem_singleton] at he
      subst he
      cases e <;> simp_all [InputEventType.isClassification, InputEventType.isStateChange]

theorem filter_stateChange_nil (l : List InputEventType)
    (h : ∀ e ∈ l, e.isStateChange = false) :
    l.filter (fun e => e.isStateChange) = [] := by
  rw [List.filter_eq_nil_iff]
  intro e he
  simp [h e he]

/-- One call of `update()` accepts no state change and leaves the two
duration members alone, or accepts one and stores the duration of the state
that ended. -/
theorem update_durations (s : EventTouchScreen) (now : Nat) (tp : TouchPoint_s) :
    ((update s now tp).events.filter (fun e => e.isStateChange) = []
        ∧ (update s now tp).st.lastStateChange = s.lastStateChange
        ∧ (update s now tp).st.prevDuration = s.prevDuration)
    ∨ ((∃ e, (update s now tp).events.filter (fun e => e.isStateChange) = [e])
        ∧ (update s now tp).st.lastStateChange = now
        ∧ (update s now tp).st.prevDuration = currentDuration s now) := by
  by_cases hp : processed s now = true
  · have hone := update_events_length s now tp
    rw [update_processed s now tp hp] at hone ⊢
    by_cases hs : (debounced { s with rateLimitCounter := now } now tp).stable = true
    · rw [updateTick_stable s now tp hs] at hone ⊢
      simp only [(updateClicks_frame _ now).2.1, (updateHeld_frame _ now).2.1,
        updateClicks_prevDuration, updateHeld_prevDuration]
      have hcd : currentDuration (afterStable s now tp) now = currentDuration s now := rfl
      rcases updateEdge_durations (afterStable s now tp) now with
        ⟨h1, h2, h3⟩ | ⟨⟨e, h1, he⟩, h2, h3⟩
      · left
        rw [h1, h2, h3, List.nil_append]
        exact ⟨filter_stateChange_nil _ (tail_not_stateChange _ now), rfl, rfl⟩
      · right
        rw [h1] at hone ⊢
        rw [h2, h3, hcd]
        have hnil : (updateHeld (updateEdge (afterStable s now tp) now).st now).events
            ++ (updateClicks (updateHeld (updateEdge (afterStable s now tp) now).st now).st
              now).events = [] := by
          simp only [List.append_assoc, List.length_append, List.length_singleton] at hone
          apply List.eq_nil_of_length_eq_zero
          simp only [List.length_append]
          omega
        rw [List.append_assoc, hnil]
        exact ⟨⟨e, by simp [he]⟩, rfl, rfl⟩
    · have hs' : (debounced { s with rateLimitCounter := now } now tp).stable = false := by
        simpa using hs
      rw [updateTick_unstable s now tp hs']
      simp only [(updateClicks_frame _ now).2.1, (updateHeld_frame _ now).2.1,
        updateClicks_prevDuration, updateHeld_prevDuration]
      left
      have hu := afterUnstable_eq s now tp hs'
      refine ⟨filter_stateChange_nil _ (tail_not_stateChange _ now), ?_, ?_⟩
      · rw [hu]
      · rw [hu]
  · rw [update_not_processed s now tp (by simpa using hp)]
    exact Or.inl ⟨rfl, rfl, rfl⟩

/-- The two duration members after a trace are what `changeState` stores at
the accepted state changes, and nothing else assigns them. -/
theorem runState_durations (tr : List Tick) :
    ∀ (s : EventTouchScreen),
      ((runState s tr).lastStateChange, (runState s tr).prevDuration)
        = replayChanges s.lastStateChange s.prevDuration (changeTimes s tr) := by
  induction tr with
  | nil => intro s; simp [runState, changeTimes, stateChanges, runTimed, replayChanges]
  | cons k ks ih =>
    intro s
    rw [changeTimes_cons]
    simp only [runState]
    rw [ih]
    rcases update_durations s k.now k.tp with ⟨h1, h2, h3⟩ | ⟨⟨e, h1⟩, h2, h3⟩
    · rw [h1, h2, h3]
      rfl
    · rw [h1, h2, h3]
      simp only [List.map_cons, List.map_nil, List.singleton_append, replayChanges,
        currentDuration]
      rfl

theorem replayChanges_snoc (ts : List Nat) :
    ∀ (lsc pd t : Nat), replayChanges lsc pd (ts ++ [t])
      = (t, u16 (sub32 t (ts.getLast?.getD lsc))) := by
  induction ts with
  | nil => intro lsc pd t; simp [replayChanges]
  | cons a as ih =>
    intro lsc pd t
    show replayChanges a (u16 (sub32 a lsc)) (as ++ [t]) = _
    rw [ih]
    cases as with
    | nil => simp
    | cons b bs =>
      rw [List.getLast?_cons_cons]
      cases hg : (b :: bs).getLast? with
      | none => simp at hg
      | some x => rfl

/-- Claim C20 as amended (durations).  Let `t` be the time of the last
accepted state change of a trace (the counter not wrapping).  At any later
time `now`, `currentDuration()` returns the elapsed time `now - t` reduced
modulo 65536 (its return type is `uint16_t`), hence the elapsed time itself
while that is below 65536 ms; and `previousDuration()` returns the time
between the last two accepted state changes reduced modulo 65536, hence the
full duration of the state that just ended when that lasted less than
65536 ms. -/
theorem durations (s : EventTouchScreen) (tr : List Tick) (ts : List Nat) (t : Nat)
    (h : changeTimes s tr = ts ++ [t]) :
    (∀ now, t ≤ now → now < 4294967296 →
        currentDuration (runState s tr) now = (now - t) % 65536)
    ∧ (∀ now, t ≤ now → now < 4294967296 → now - t < 65536 →
        currentDuration (runState s tr) now = now - t)
    ∧ (∀ t0, ts.getLast? = some t0 → t0 ≤ t →
        previousDuration (runState s tr) = (t - t0) % 65536)
    ∧ (∀ t0, ts.getLast? = some t0 → t0 ≤ t → t - t0 < 65536 →
        previousDuration (runState s tr) = t - t0) := by
  have hr := runState_durations tr s
  rw [h, replayChanges_snoc] at hr
  simp only [Prod.mk.injEq] at hr
  obtain ⟨h1, h2⟩ := hr
  have hcur : ∀ now, t ≤ now → now < 4294967296 →
      currentDuration (runState s tr) now = (now - t) % 65536 := by
    intro now hn hb
    simp only [currentDuration, h1, sub32, u32, u16]
    omega
  have hprev : ∀ t0, ts.getLast? = some t0 → t0 ≤ t →
      previousDuration (runState s tr) = (t - t0) % 65536 := by
    intro t0 h0 hle
    simp only [previousDuration, h2, h0, Option.getD_some, sub32, u32, u16]
    omega
  refine ⟨hcur, ?_, hprev, ?_⟩
  · intro now hn hb hlt
    rw [hcur now hn hb, Nat.mod_eq_of_lt hlt]
  · intro t0 h0 hle hlt
    rw [hprev t0 h0 hle, Nat.mod_eq_of_lt hlt]

theorem durations_witness :
    changeTimes fresh (taps 1) = [30] ++ [60]
    ∧ currentDuration (runState fresh (taps 1)) 1000 = 940
    ∧ previousDuration (runState fresh (taps 1)) = 30 :=
  ⟨by decide,
    (durations fresh (taps 1) [30] 60 (by decide)).2.1 1000 (by decide)
      (by decide) (by decide),
    (durations fresh (taps 1) [30] 60 (by decide)).2.2.2 30 (by decide)
      (by decide) (by decide)⟩

/-- Claim C20, the counterexample.  A fresh engine accepts a press at 30 ms.
At 65636 ms the press has lasted 65606 ms and `currentDuration()` returns
70.  When the release is accepted at 70020 ms the press has lasted 69990 ms
and `previousDuration()` returns 4454. -/
theorem durations_wrap :
    changeTimes fresh pressAt30 = [30]
    ∧ 65636 - 30 = 65606
    ∧ currentDuration (runState fresh pressAt30) 65636 = 70
    ∧ changeTimes fresh holdSeventySeconds = [30, 70020]
    ∧ 70020 - 30 = 69990
    ∧ previousDuration (runState fresh holdSeventySeconds) = 4454 := by
  decide

/-! ## Click finalization -/

/-- A processed tick of an untouched engine that accepts no press, with
what the subscriber sees: only click finalization runs. -/
theorem updateTick_idle_seen (s : EventTouchScreen) (now : Nat) (tp : TouchPoint_s)
    (ht : s.touched = false)
    (hno : ¬ ((debounced { s with rateLimitCounter := now } now tp).stable = true ∧ tp.z ≠ 0)) :
    ∃ a, SameGesture a s ∧ a.rateLimitCounter = now
      ∧ (updateTick s now tp).st = (updateClicks a now).st
      ∧ (updateTick s now tp).events = (updateClicks a now).events
      ∧ (updateTick s now tp).seen = (updateClicks a now).seen := by
  by_cases hs : (debounced { s with rateLimitCounter := now } now tp).stable = true
  · have hz : tp.z = 0 := by
      by_contra hz
      exact hno ⟨hs, hz⟩
    refine ⟨afterStable s now tp, ⟨rfl, rfl, rfl, rfl, rfl, rfl, rfl, rfl, rfl, rfl, rfl, rfl⟩,
      rfl, ?_⟩
    rw [updateTick_stable s now tp hs]
    have he := updateEdge_untouched (afterStable s now tp) now ht hz
    have hh : updateHeld (afterStable s now tp) now = { st := afterStable s now tp } :=
      updateHeld_untouched _ _ ht
    simp only [he, hh]
    simp
  · have hs' : (debounced { s with rateLimitCounter := now } now tp).stable = false := by
      simpa using hs
    have ha := afterUnstable_sameGesture s now tp hs'
    refine ⟨afterUnstable s now tp, ha.1, ha.2.1, ?_⟩
    rw [updateTick_unstable s now tp hs']
    have hh : updateHeld (afterUnstable s now tp) now = { st := afterUnstable s now tp } :=
      updateHeld_untouched _ _ (by rw [ha.1.touched, ht])
    simp only [hh]
    simp

theorem classify_isClassification (n : Nat) :
    (classify n).isClassification = true ∧ classify n ≠ .LONG_CLICKED := by
  unfold classify
  split_ifs <;> simp [InputEventType.isClassification]

/-- The tick on which a classification event is emitted: the engine was
untouched with the click-fired flag clear, the event is the only one of the
tick, and it is LONG_CLICKED (latched count forced to 1) or the event that
the click counter selects. -/
theorem update_classified (s : EventTouchScreen) (now : Nat) (tp : TouchPoint_s)
    (e : InputEventType) (he : e ∈ (update s now tp).events)
    (hc : e.isClassification = true) :
    s.touched = false ∧ s.clickFired = false
    ∧ ∃ a, SameGesture a s
      ∧ ((e = .LONG_CLICKED
          ∧ (a.prevDuration > a.longClickDuration ∨ a.longPressCounter > 0)
          ∧ (update s now tp).events = [.LONG_CLICKED]
          ∧ (update s now tp).seen
              = [{ a with clickFired := true, clickCounter := 0, prevClickCount := 1 }]
          ∧ (update s now tp).st
              = { a with clickFired := true, clickCounter := 0, prevClickCount := 1,
                         longPressCounter := 0 })
        ∨ (e = classify a.clickCounter
          ∧ ¬ (a.prevDuration > a.longClickDuration ∨ a.longPressCounter > 0)
          ∧ (update s now tp).events = [classify a.clickCounter]
          ∧ (update s now tp).seen = [{ a with clickFired := true }]
          ∧ (update s now tp).st = { a with clickFired := true, clickCounter := 0 })) := by
  have hp : processed s now = true := by
    by_contra hp
    rw [update_not_processed s now tp (by simpa using hp)] at he
    simp at he
  rw [update_processed s now tp hp] at he ⊢
  have hnot : ∀ l : List InputEventType, (∀ x ∈ l, x.isClassification = false) → e ∉ l := by
    intro l hl hm
    rw [hl e hm] at hc
    cases hc
  have hts : s.touched = false ∧ s.clickFired = false := by
    rcases updateTick_outcome s now tp with o | o | o | o | o | o
    · exact absurd he (hnot _ (by rw [o.1]; simp [InputEventType.isClassification]))
    · exact absurd he (hnot _ (by rw [o.1]; simp [InputEventType.isClassification]))
    · exact absurd he (hnot _ (by rw [o.1]; simp [InputEventType.isClassification]))
    · refine absurd he (hnot _ ?_)
      rcases o.1 with h | h | h <;> rw [h] <;> simp [InputEventType.isClassification]
    · exact absurd he (hnot _ (by rw [o.1]; simp))
    · exact ⟨o.2.1, o.2.2.1⟩
  have hno : ¬ ((debounced { s with rateLimitCounter := now } now tp).stable = true
      ∧ tp.z ≠ 0) := by
    intro h
    have := (updateTick_press s now tp h.1 hts.1 h.2).1
    exact absurd he (hnot _ (by rw [this]; simp [InputEventType.isClassification]))
  obtain ⟨a, ha, _, hst, hev, hsn⟩ := updateTick_idle_seen s now tp hts.1 hno
  refine ⟨hts.1, hts.2, a, ha, ?_⟩
  rw [hst, hev, hsn]
  rw [hev] at he
  by_cases hg : a.clickFired = false ∧ a.touched = false
      ∧ currentDuration a now > a.multiClickInterval
  · by_cases hl : a.prevDuration > a.longClickDuration ∨ a.longPressCounter > 0
    · left
      rw [updateClicks_long a now hg hl] at he ⊢
      simp only [List.mem_singleton] at he
      exact ⟨he, hl, rfl, rfl, rfl⟩
    · right
      rw [updateClicks_short a now hg hl] at he ⊢
      simp only [List.mem_singleton] at he
      exact ⟨he, hl, rfl, rfl, rfl⟩
  · have : updateClicks a now = { st := a } := by
      simp only [updateClicks, if_neg hg]
    rw [this] at he
    simp at he

/-- The classification by the click counter, in any engine state.  In any
engine state, when a call of `update()` invokes the subscriber with CLICKED,
DOUBLE_CLICKED or MULTI_CLICKED, the click counter the subscriber sees is
the counter the call started with, and the event is CLICKED exactly when
that counter is 1, DOUBLE_CLICKED exactly when it is 2, and MULTI_CLICKED
exactly when it is 0 or at least 3. -/
theorem classification_by_count (s : EventTouchScreen) (now : Nat) (tp : TouchPoint_s)
    (e : InputEventType) (x : EventTouchScreen)
    (hx : (e, x) ∈ (update s now tp).events.zip (update s now tp).seen)
    (hs : e = .CLICKED ∨ e = .DOUBLE_CLICKED ∨ e = .MULTI_CLICKED) :
    x.clickCounter = s.clickCounter
    ∧ (e = .CLICKED ↔ x.clickCounter = 1)
    ∧ (e = .DOUBLE_CLICKED ↔ x.clickCounter = 2)
    ∧ (e = .MULTI_CLICKED ↔ x.clickCounter = 0 ∨ 3 ≤ x.clickCounter) := by
  have he : e ∈ (update s now tp).events := (List.of_mem_zip hx).1
  have hc : e.isClassification = true := by
    rcases hs with h | h | h <;> rw [h] <;> rfl
  obtain ⟨_, _, a, ha, h | h⟩ := update_classified s now tp e he hc
  · rcases hs with h' | h' | h' <;> rw [h'] at h <;> exact absurd h.1 (by decide)
  · obtain ⟨h1, _, h3, h4, _⟩ := h
    rw [h3, h4] at hx
    simp only [List.zip_cons_cons, List.zip_nil_right, List.mem_singleton, Prod.mk.injEq] at hx
    obtain ⟨_, hxa⟩ := hx
    have hcc : x.clickCounter = a.clickCounter := by rw [hxa]
    rw [hcc, h1]
    refine ⟨ha.clickCounter, ?_, ?_, ?_⟩
    all_goals
      by_cases c1 : a.clickCounter = 1
      · simp [classify, c1]
      · by_cases c2 : a.clickCounter = 2
        · simp [classify, c2]
        · simp only [classify, c1, c2, if_false]
          simp
          try omega

theorem classification_by_count_witness :
    (InputEventType.DOUBLE_CLICKED,
        { exTwoClicks with rateLimitCounter := 435, lastBounceCheck := 435, clickFired := true })
      ∈ (update exTwoClicks 435 ⟨10, 10, 0⟩).events.zip (update exTwoClicks 435 ⟨10, 10, 0⟩).seen
    ∧ exTwoClicks.clickCounter = 2 :=
  ⟨by decide,
    ((classification_by_count exTwoClicks 435 ⟨10, 10, 0⟩ .DOUBLE_CLICKED
      { exTwoClicks with rateLimitCounter := 435, lastBounceCheck := 435, clickFired := true }
      (by decide) (by decide)).2.2.1).1 rfl⟩

/-- Claim C13 fails on the code.  One click on a fresh engine, then the
engine is disabled (which runs `onDisabled()`) and enabled again before the
click is classified.  `onDisabled()` has set the click counter to 0 but has
left `clickFired` clear, so the finalization is still pending: the next
processed tick more than `multiClickInterval` after the release invokes
MULTI_CLICKED with the click counter at 0, while `clickCount()` returns
1. -/
theorem multi_clicked_with_count_zero :
    runActions fresh disableBeforeFinalization = (onDisabled (runState fresh ((taps 1).take 4))).st
    ∧ (runActions fresh disableBeforeFinalization).clickCounter = 0
    ∧ (runActions fresh disableBeforeFinalization).clickFired = false
    ∧ (update (runActions fresh disableBeforeFinalization) 375 ⟨10, 10, 0⟩).events
        = [.MULTI_CLICKED]
    ∧ (update (runActions fresh disableBeforeFinalization) 375 ⟨10, 10, 0⟩).seen.map
        (fun x => x.clickCounter) = [0]
    ∧ (update (runActions fresh disableBeforeFinalization) 375 ⟨10, 10, 0⟩).seen.map
        clickCount = [1] := by
  decide

/-! ## Finalization once per idle gap -/

theorem gapInv_touched (ph : GapPhase) (s : EventTouchScreen) (h : GapInv ph s)
    (ht : s.touched = true) : ph = .touched := by
  cases ph <;> simp_all [GapInv]

theorem gapInv_untouched (ph : GapPhase) (s : EventTouchScreen) (h : GapInv ph s)
    (ht : s.touched = false) (hc : s.clickFired = false) : ph = .idle := by
  cases ph <;> simp_all [GapInv]

/-- One call of `update()` keeps the event log within `finalizedOnce`. -/
theorem gap_step (ph : GapPhase) (s : EventTouchScreen) (now : Nat) (tp : TouchPoint_s)
    (h : GapInv ph s) :
    ∃ ph', GapInv ph' (update s now tp).st
      ∧ ∀ rest, finalizedOnce ph' rest = true →
          finalizedOnce ph ((update s now tp).events ++ rest) = true := by
  by_cases hp : processed s now = true
  · rcases updateTick_outcome s now tp with o | o | o | o | o | o
    · refine ⟨.touched, ?_, ?_⟩
      · rw [update_processed s now tp hp]; exact o.2.2.1
      · intro rest hr
        rw [update_processed s now tp hp, o.1]
        simpa [finalizedOnce] using hr
    · refine ⟨.idle, ?_, ?_⟩
      · rw [update_processed s now tp hp]; exact o.2.2.2
      · intro rest hr
        rw [update_processed s now tp hp, o.1]
        simpa [finalizedOnce] using hr
    · refine ⟨.idle, ?_, ?_⟩
      · rw [update_processed s now tp hp]; exact o.2.2.2.1
      · intro rest hr
        rw [update_processed s now tp hp, o.1]
        simpa [finalizedOnce] using hr
    · have hph := gapInv_touched ph s h o.2.1
      subst hph
      refine ⟨.touched, ?_, ?_⟩
      · rw [update_processed s now tp hp]; exact o.2.2.1
      · intro rest hr
        rw [update_processed s now tp hp]
        rcases o.1 with h1 | h1 | h1 <;> rw [h1] <;> simpa [finalizedOnce] using hr
    · refine ⟨ph, ?_, ?_⟩
      · rw [update_processed s now tp hp]
        cases ph
        · exact ⟨o.2.2.1, by rw [o.2.2.2]; exact h.2⟩
        · rw [h] at o; simp at o
        · exact o.2.2.1
        · exact ⟨o.2.2.1, by rw [o.2.2.2]; exact h.2⟩
      · intro rest hr
        rw [update_processed s now tp hp, o.1]
        simpa using hr
    · obtain ⟨⟨e, he, hcl⟩, ht, hcf, _⟩ := o
      have hph := gapInv_untouched ph s h ht hcf
      subst hph
      have hmem : e ∈ (update s now tp).events := by
        rw [update_processed s now tp hp, he]; simp
      obtain ⟨_, _, a, ha, hc⟩ := update_classified s now tp e hmem hcl
      refine ⟨.classified, ?_, ?_⟩
      · rcases hc with ⟨_, _, _, _, hst⟩ | ⟨_, _, _, _, hst⟩
        · rw [hst]
          exact ⟨by show a.touched = false; rw [ha.touched]; exact ht, rfl⟩
        · rw [hst]
          exact ⟨by show a.touched = false; rw [ha.touched]; exact ht, rfl⟩
      · intro rest hr
        rw [update_processed s now tp hp, he]
        cases e <;> simp_all [finalizedOnce, InputEventType.isClassification]
  · rw [update_not_processed s now tp (by simpa using hp)]
    exact ⟨ph, h, fun rest hr => by simpa using hr⟩

theorem gap_run (tr : List Tick) :
    ∀ (ph : GapPhase) (s : EventTouchScreen), GapInv ph s →
      finalizedOnce ph (runEvents s tr) = true := by
  induction tr with
  | nil => intro ph s _; cases ph <;> rfl
  | cons k ks ih =>
    intro ph s h
    obtain ⟨ph', hinv, hstep⟩ := gap_step ph s k.now k.tp h
    simp only [runEvents]
    exact hstep _ (ih ph' _ hinv)

/-- The subscriber is never invoked with a classification event while the
touched flag is set. -/
theorem runInvoked_classified (tr : List Tick) :
    ∀ (s : EventTouchScreen), ∀ x ∈ runInvoked s tr,
      x.1.isClassification = true → x.2.touched = false := by
  induction tr with
  | nil => intro s x hx; simp [runInvoked] at hx
  | cons k ks ih =>
    intro s x hx hc
    simp only [runInvoked, List.mem_append] at hx
    rcases hx with hx | hx
    · have he : x.1 ∈ (update s k.now k.tp).events := (List.of_mem_zip hx).1
      obtain ⟨ht, _, a, ha, h | h⟩ := update_classified s k.now k.tp x.1 he hc
      · obtain ⟨_, _, h3, h4, _⟩ := h
        rw [h3, h4] at hx
        simp only [List.zip_cons_cons, List.zip_nil_right, List.mem_singleton] at hx
        rw [hx]
        show a.touched = false
        rw [ha.touched]; exact ht
      · obtain ⟨_, _, h3, h4, _⟩ := h
        rw [h3, h4] at hx
        simp only [List.zip_cons_cons, List.zip_nil_right, List.mem_singleton] at hx
        rw [hx]
        show a.touched = false
        rw [ha.touched]; exact ht
    · exact ih _ x hx hc

/-- Claim C14 (finalization at most once per idle gap).  An engine that is
untouched with the click-fired flag set, as it is constructed, is driven by
any trace of calls of `update()`.  Every classification event (CLICKED,
DOUBLE_CLICKED, MULTI_CLICKED, LONG_CLICKED) of the event log comes after
an accepted release, with no accepted press and no other classification
event in between: none before the first release, none while touched, at
most one per idle gap.  And whenever the subscriber is invoked with one of
them the touched flag is clear. -/
theorem finalization_once (s : EventTouchScreen) (tr : List Tick)
    (ht : s.touched = false) (hc : s.clickFired = true) :
    finalizedOnce .unreleased (runEvents s tr) = true
    ∧ ∀ x ∈ runInvoked s tr, x.1.isClassification = true → x.2.touched = false :=
  ⟨gap_run tr .unreleased s ⟨ht, hc⟩, runInvoked_classified tr s⟩

theorem finalization_once_witness :
    runEvents fresh (taps 2) = [.PRESSED, .RELEASED, .PRESSED, .RELEASED, .DOUBLE_CLICKED]
    ∧ finalizedOnce .unreleased (runEvents fresh (taps 2)) = true :=
  ⟨by decide, (finalization_once fresh (taps 2) rfl rfl).1⟩

/-! ## The long-press rule -/

theorem finalizedOnce_rejects :
    finalizedOnce .unreleased [.CLICKED] = false
    ∧ finalizedOnce .unreleased [.PRESSED, .LONG_CLICKED] = false
    ∧ finalizedOnce .unreleased [.PRESSED, .RELEASED, .CLICKED, .CLICKED] = false
    ∧ finalizedOnce .unreleased [.PRESSED, .RELEASED, .PRESSED, .DOUBLE_CLICKED] = false := by
  decide

/-- The long-press evaluation of a touched tick. -/
theorem updateLongPress_rule (d : EventTouchScreen) (now : Nat) :
    (currentDuration d now > longPressThreshold d →
        (updateLongPress d now).st.longPressCounter = u16 (d.longPressCounter + 1)
        ∧ (InputEventType.LONG_PRESS ∈ (updateLongPress d now).events ↔
            d.dragEnabled = false
              ∧ (d.repeatLongPress = true ∨ u16 (d.longPressCounter + 1) = 1)))
    ∧ (¬ currentDuration d now > longPressThreshold d →
        (updateLongPress d now).st.longPressCounter = d.longPressCounter
        ∧ InputEventType.LONG_PRESS ∉ (updateLongPress d now).events)
    ∧ (updateLongPress d now).st.lastStateChange = d.lastStateChange
    ∧ (updateLongPress d now).st.touched = d.touched := by
  by_cases h : currentDuration d now > longPressThreshold d
  · rw [updateLongPress_late d now h]
    by_cases hc : d.dragEnabled = false
        ∧ (d.repeatLongPress = true ∨ u16 (d.longPressCounter + 1) = 1)
    · rw [if_pos hc]
      simp [invoke, h, hc]
    · rw [if_neg hc]
      simp [h, hc]
  · rw [updateLongPress_early d now h]
    simp [h]

/-- The drag evaluation leaves alone what the long-press evaluation reads. -/
theorem updateDrag_frame (s : EventTouchScreen) (now : Nat) :
    (updateDrag s now).st.lastStateChange = s.lastStateChange
    ∧ (updateDrag s now).st.longPressCounter = s.longPressCounter
    ∧ (updateDrag s now).st.touched = s.touched
    ∧ InputEventType.LONG_PRESS ∉ (updateDrag s now).events := by
  rcases updateDrag_cases s now with h | ⟨_, _, h⟩ <;> rw [h] <;> simp

/-- Claim C11 as amended (the LONG_PRESS rule).  Take a processed tick after
which the engine is touched, in a state whose touched flag agrees with the
pressure of the working touch point (as in every reachable state).  Let the
session duration be `currentDuration()` and the threshold
`(uint16_t)(longClickDuration + longPressCounter * longPressInterval)`.  If
the duration exceeds the threshold, the long-press counter is incremented by
one (as a `uint16_t`) and LONG_PRESS is emitted on that tick exactly when
dragging is not enabled and (long-press repeat is enabled or the counter has
just become 1).  Otherwise the counter is left alone and no LONG_PRESS is
emitted. -/
theorem long_press_rule (s : EventTouchScreen) (now : Nat) (tp : TouchPoint_s)
    (hp : processed s now = true) (hinv : s.touched = true ↔ s.touchPoint.z ≠ 0)
    (ht : (update s now tp).st.touched = true) :
    (currentDuration (update s now tp).st now > longPressThreshold s →
        (update s now tp).st.longPressCounter = u16 (s.longPressCounter + 1)
        ∧ (InputEventType.LONG_PRESS ∈ (update s now tp).events ↔
            s.dragEnabled = false
              ∧ (s.repeatLongPress = true ∨ (update s now tp).st.longPressCounter = 1)))
    ∧ (¬ currentDuration (update s now tp).st now > longPressThreshold s →
        (update s now tp).st.longPressCounter = s.longPressCounter
        ∧ InputEventType.LONG_PRESS ∉ (update s now tp).events) := by
  rw [update_processed s now tp hp] at ht ⊢
  by_cases ht0 : s.touched = true
  · have hz := hinv.1 ht0
    by_cases hrel : (debounced { s with rateLimitCounter := now } now tp).stable = true
        ∧ tp.z = 0
    · exfalso
      rw [updateTick_stable s now tp hrel.1] at ht
      simp only [(updateClicks_frame _ now).1, (updateHeld_frame _ now).1] at ht
      have := (updateEdge_points (afterStable s now tp) now).2.2.1 ht
      exact this hrel.2
    · obtain ⟨a, ha, _, hza, hst, hev⟩ := updateTick_held s now tp ht0 hz hrel
      have hta : a.touched = true := by rw [ha.touched]; exact ht0
      have hH := updateHeld_touched a now hta hza
      have hd := updateDrag_frame a now
      have hdc := updateDrag_config a now
      have hr := updateLongPress_rule (updateDrag a now).st now
      have hcd : currentDuration (updateDrag a now).st now = currentDuration s now := by
        simp only [currentDuration, hd.1, ha.lastStateChange]
      have hde : (updateDrag a now).st.dragEnabled = s.dragEnabled :=
        (congrArg Config.dragEnabled hdc).trans (congrArg Config.dragEnabled ha.config)
      have hrp : (updateDrag a now).st.repeatLongPress = s.repeatLongPress :=
        (congrArg Config.repeatLongPress hdc).trans (congrArg Config.repeatLongPress ha.config)
      have hlc : (updateDrag a now).st.longClickDuration = s.longClickDuration :=
        (congrArg Config.longClickDuration hdc).trans
          (congrArg Config.longClickDuration ha.config)
      have hli : (updateDrag a now).st.longPressInterval = s.longPressInterval :=
        (congrArg Config.longPressInterval hdc).trans
          (congrArg Config.longPressInterval ha.config)
      have hlp : (updateDrag a now).st.longPressCounter = s.longPressCounter :=
        hd.2.1.trans ha.longPressCounter
      have hth : longPressThreshold (updateDrag a now).st = longPressThreshold s := by
        simp only [longPressThreshold, hlc, hli, hlp]
      have hfin : currentDuration (updateTick s now tp).st now = currentDuration s now := by
        rw [hst, hH]
        simp only [currentDuration, hr.2.2.1, hd.1, ha.lastStateChange]
      rw [hfin]
      rw [hst, hev, hH]
      simp only [List.mem_append, hd.2.2.2, false_or]
      rw [hcd, hth, hde, hrp, hlp] at hr
      refine ⟨fun hlate => ?_, fun hearly => (hr.2.1 hearly)⟩
      have := hr.1 hlate
      rw [this.1]
      exact ⟨rfl, this.2⟩
  · have ht0' : s.touched = false := by simpa using ht0
    by_cases hpr : (debounced { s with rateLimitCounter := now } now tp).stable = true
        ∧ tp.z ≠ 0
    · obtain ⟨hev, hst⟩ := updateTick_press s now tp hpr.1 ht0' hpr.2
      rw [hst, hev]
      have h0 : currentDuration (pressedState s now tp) now = 0 :=
        currentDuration_self _ now rfl
      rw [h0]
      refine ⟨fun h => absurd h (by omega), fun _ => ⟨rfl, by simp⟩⟩
    · exfalso
      obtain ⟨a, ha, _, hst, _⟩ := updateTick_idle s now tp ht0' hpr
      rw [hst, (updateClicks_frame a now).1, ha.touched, ht0'] at ht
      cases ht

theorem long_press_rule_witness :
    processed (runState fresh pressAt30) 830 = true
    ∧ currentDuration (update (runState fresh pressAt30) 830 ⟨10, 10, 1⟩).st 830 = 800
    ∧ longPressThreshold (runState fresh pressAt30) = 750
    ∧ (update (runState fresh pressAt30) 830 ⟨10, 10, 1⟩).st.longPressCounter = 1
    ∧ InputEventType.LONG_PRESS ∈ (update (runState fresh pressAt30) 830 ⟨10, 10, 1⟩).events :=
  ⟨by decide, by decide, by decide,
    ((long_press_rule (runState fresh pressAt30) 830 ⟨10, 10, 1⟩ (by decide) (by decide)
      (by decide)).1 (by decide)).1,
    ((long_press_rule (runState fresh pressAt30) 830 ⟨10, 10, 1⟩ (by decide) (by decide)
      (by decide)).1 (by decide)).2.2 ⟨rfl, Or.inl rfl⟩⟩

/-- Claim C11, the counterexample.  Dragging is enabled and the finger is
held still, so no drag is engaged (`isDragging()` is false).  On the tick at
795 ms the press has lasted 765 ms, more than `longClickDuration` (750 ms);
the long-press counter goes from 0 to 1 and long-press repeat is enabled,
but no LONG_PRESS is emitted, on this tick or anywhere in the hold. -/
theorem long_press_suppressed_without_drag :
    processed exHeldDragEnabled 795 = true
    ∧ exHeldDragEnabled.touched = true
    ∧ isDragging exHeldDragEnabled = false
    ∧ currentDuration exHeldDragEnabled 795 = 765
    ∧ exHeldDragEnabled.longClickDuration
        + exHeldDragEnabled.longPressCounter * exHeldDragEnabled.longPressInterval = 750
    ∧ exHeldDragEnabled.repeatLongPress = true
    ∧ (update exHeldDragEnabled 795 ⟨10, 10, 1⟩).st.longPressCounter = 1
    ∧ isDragging (update exHeldDragEnabled 795 ⟨10, 10, 1⟩).st = false
    ∧ (update exHeldDragEnabled 795 ⟨10, 10, 1⟩).events = []
    ∧ runEvents (enableDragging fresh true) longerHold = [.PRESSED, .RELEASED, .LONG_CLICKED] := by
  decide!

/-! ## The latched click count -/

theorem debounced_clicks (s : EventTouchScreen) (now : Nat) (tp : TouchPoint_s) :
    (debounced s now tp).st.clickCounter = s.clickCounter
    ∧ (debounced s now tp).st.prevClickCount = s.prevClickCount := by
  simp only [debounced]
  split_ifs <;> exact ⟨rfl, rfl⟩

theorem updateHeld_clicks (s : EventTouchScreen) (now : Nat) :
    (updateHeld s now).st.clickCounter = s.clickCounter
    ∧ (updateHeld s now).st.prevClickCount = s.prevClickCount := by
  simp only [updateHeld, updateDrag, updateLongPress, haveDragged, invoke]
  split_ifs <;> exact ⟨rfl, rfl⟩

theorem updateEdge_latch (s : EventTouchScreen) (now : Nat) (h : Latch s) :
    Latch (updateEdge s now).st
    ∧ ((updateEdge s now).events = [] →
        (updateEdge s now).st.clickCounter = s.clickCounter
        ∧ (updateEdge s now).st.prevClickCount = s.prevClickCount) := by
  unfold Latch at h ⊢
  by_cases hz : s.touchPoint.z = 0 <;> by_cases ht : s.touched = true <;>
    by_cases hd : s.dragging = true <;> by_cases hl : s.longPressCounter = 0 <;>
    simp [updateEdge, hz, ht, hd, hl, changeState, invoke] <;> exact h

theorem updateClicks_latch (s : EventTouchScreen) (now : Nat) (h : Latch s) :
    Latch (updateClicks s now).st
    ∧ ((updateClicks s now).events = [] → (updateClicks s now).st = s) := by
  unfold Latch at h ⊢
  simp only [updateClicks, invoke]
  split_ifs <;> simp_all

/-- A call of `update()` keeps the latch, and a call that emits nothing
leaves the click counter and the latched count alone. -/
theorem update_latch (s : EventTouchScreen) (now : Nat) (tp : TouchPoint_s) (h : Latch s) :
    Latch (update s now tp).st
    ∧ ((update s now tp).events = [] →
        (update s now tp).st.clickCounter = s.clickCounter
        ∧ (update s now tp).st.prevClickCount = s.prevClickCount) := by
  by_cases hp : processed s now = true
  · rw [update_processed s now tp hp]
    have hd := debounced_clicks { s with rateLimitCounter := now } now tp
    have hd1 : (debounced { s with rateLimitCounter := now } now tp).st.clickCounter
        = s.clickCounter := hd.1
    have hd2 : (debounced { s with rateLimitCounter := now } now tp).st.prevClickCount
        = s.prevClickCount := hd.2
    unfold updateTick
    generalize debounced { s with rateLimitCounter := now } now tp = d at hd1 hd2 ⊢
    have hLd : Latch d.st := by
      unfold Latch at h ⊢
      rw [hd1, hd2]; exact h
    by_cases hs : d.stable = true
    · simp only [if_pos hs]
      have he := updateEdge_latch d.st now hLd
      have hh := updateHeld_clicks (updateEdge d.st now).st now
      have hLh : Latch (updateHeld (updateEdge d.st now).st now).st := by
        have := he.1
        unfold Latch at this ⊢
        rw [hh.1, hh.2]; exact this
      have hc := updateClicks_latch (updateHeld (updateEdge d.st now).st now).st now hLh
      refine ⟨hc.1, ?_⟩
      intro hev
      simp only [List.append_eq_nil] at hev
      rw [hc.2 hev.2, hh.1, hh.2, (he.2 hev.1.1).1, (he.2 hev.1.1).2]
      exact ⟨hd1, hd2⟩
    · simp only [if_neg hs]
      have hh := updateHeld_clicks d.st now
      have hLh : Latch (updateHeld d.st now).st := by
        unfold Latch at hLd ⊢
        rw [hh.1, hh.2]; exact hLd
      have hc := updateClicks_latch (updateHeld d.st now).st now hLh
      refine ⟨hc.1, ?_⟩
      intro hev
      simp only [List.append_eq_nil] at hev
      rw [hc.2 hev.2, hh.1, hh.2]
      exact ⟨hd1, hd2⟩
  · rw [update_not_processed s now tp (by simpa using hp)]
    exact ⟨h, fun _ => ⟨rfl, rfl⟩⟩

/-- A trace that emits nothing leaves the click counter and the latched
count alone. -/
theorem run_silent_clicks (tr : List Tick) :
    ∀ (s : EventTouchScreen), Latch s → runEvents s tr = [] →
      (runState s tr).clickCounter = s.clickCounter
      ∧ (runState s tr).prevClickCount = s.prevClickCount := by
  induction tr with
  | nil => intro s _ _; exact ⟨rfl, rfl⟩
  | cons k ks ih =>
    intro s hL h
    simp only [runEvents, List.append_eq_nil] at h
    have hu := update_latch s k.now k.tp hL
    have := ih _ hu.1 h.2
    simp only [runState]
    rw [this.1, this.2]
    exact hu.2 h.1

theorem runInvoked_mem_events (tr : List Tick) :
    ∀ (s : EventTouchScreen), ∀ x ∈ runInvoked s tr, x.1 ∈ runEvents s tr := by
  induction tr with
  | nil => intro s x hx; simp [runInvoked] at hx
  | cons k ks ih =>
    intro s x hx
    simp only [runInvoked, List.mem_append] at hx
    simp only [runEvents, List.mem_append]
    rcases hx with hx | hx
    · exact Or.inl (List.of_mem_zip hx).1
    · exact Or.inr (ih _ x hx)

theorem runInvoked_latch (tr : List Tick) :
    ∀ (s : EventTouchScreen), Latch s → ∀ x ∈ runInvoked s tr,
      x.1.isClassification = true → x.1 ≠ .LONG_CLICKED → x.2.clickCounter ≠ 0 →
      x.2.prevClickCount = x.2.clickCounter := by
  induction tr with
  | nil => intro s _ x hx; simp [runInvoked] at hx
  | cons k ks ih =>
    intro s hL x hx hc hnl hne
    simp only [runInvoked, List.mem_append] at hx
    rcases hx with hx | hx
    · have he : x.1 ∈ (update s k.now k.tp).events := (List.of_mem_zip hx).1
      obtain ⟨_, _, a, ha, h | h⟩ := update_classified s k.now k.tp x.1 he hc
      · exact absurd h.1 hnl
      · obtain ⟨_, _, h3, h4, _⟩ := h
        rw [h3, h4] at hx
        simp only [List.zip_cons_cons, List.zip_nil_right, List.mem_singleton] at hx
        rw [hx] at hne ⊢
        show a.prevClickCount = a.clickCounter
        rw [ha.prevClickCount, ha.clickCounter]
        apply hL
        rw [← ha.clickCounter]
        exact hne
    · exact ih _ (update_latch s k.now k.tp hL).1 x hx hc hnl hne

/-- The tick on which a classification event is emitted: the subscriber is
invoked once, and after the tick the latched count is what the subscriber
saw and the click counter is 0. -/
theorem update_classified_seen (s : EventTouchScreen) (now : Nat) (tp : TouchPoint_s)
    (e : InputEventType) (he : e ∈ (update s now tp).events)
    (hc : e.isClassification = true) :
    ∃ x, (update s now tp).events = [e] ∧ (update s now tp).seen = [x]
      ∧ (update s now tp).st.prevClickCount = x.prevClickCount
      ∧ (update s now tp).st.clickCounter = 0 := by
  obtain ⟨_, _, a, _, h | h⟩ := update_classified s now tp e he hc
  · obtain ⟨h1, _, h3, h4, h5⟩ := h
    exact ⟨_, by rw [h3, h1], h4, by rw [h5], by rw [h5]⟩
  · obtain ⟨h1, _, h3, h4, h5⟩ := h
    exact ⟨_, by rw [h3, h1], h4, by rw [h5], by rw [h5]⟩

/-- A trace whose last event is a classification event: the subscriber's
last invocation is that event, and afterwards the latched count is what the
subscriber saw and the click counter is 0. -/
theorem classified_last (tr : List Tick) :
    ∀ (s : EventTouchScreen) (pre : List InputEventType) (e : InputEventType),
      runEvents s tr = pre ++ [e] → e.isClassification = true →
      ∃ x, (runInvoked s tr).getLast? = some (e, x)
        ∧ (runState s tr).prevClickCount = x.prevClickCount
        ∧ (runState s tr).clickCounter = 0 := by
  induction tr with
  | nil => intro s pre e h; simp [runEvents] at h
  | cons k ks ih =>
    intro s pre e h hc
    simp only [runEvents] at h
    by_cases hrest : runEvents (update s k.now k.tp).st ks = []
    · rw [hrest, List.append_nil] at h
      have hone := update_events_length s k.now k.tp
      rw [h] at hone
      have hpre : pre = [] := by
        cases pre with
        | nil => rfl
        | cons y ys => simp at hone
      subst hpre
      simp only [List.nil_append] at h
      have hmem : e ∈ (update s k.now k.tp).events := by rw [h]; simp
      have hinv : runInvoked (update s k.now k.tp).st ks = [] := by
        cases hri : runInvoked (update s k.now k.tp).st ks with
        | nil => rfl
        | cons y ys =>
          have := runInvoked_mem_events ks _ y (by rw [hri]; simp)
          rw [hrest] at this
          simp at this
      obtain ⟨x, _, h4, h5, h6⟩ := update_classified_seen s k.now k.tp e hmem hc
      have hLst : Latch (update s k.now k.tp).st := fun hne => absurd h6 hne
      have hs := run_silent_clicks ks _ hLst hrest
      refine ⟨x, ?_, ?_, ?_⟩
      · simp only [runInvoked, hinv, List.append_nil, h4]
        rw [h]
        rfl
      · simp only [runState]
        rw [hs.2, h5]
      · simp only [runState]
        rw [hs.1, h6]
    · obtain ⟨pre', hpre'⟩ : ∃ pre', runEvents (update s k.now k.tp).st ks = pre' ++ [e] := by
        have hne := hrest
        rcases List.eq_nil_or_concat (runEvents (update s k.now k.tp).st ks) with h0 | ⟨l, b, hb⟩
        · exact absurd h0 hne
        · rw [hb, List.concat_eq_append, ← List.append_assoc] at h
          have := List.append_inj' h rfl
          refine ⟨l, ?_⟩
          rw [hb, List.concat_eq_append]
          simp only [List.cons.injEq, and_true] at this
          rw [this.2]
      obtain ⟨x, h1, h2, h3⟩ := ih _ pre' e hpre' hc
      refine ⟨x, ?_, h2, h3⟩
      simp only [runInvoked]
      rw [List.getLast?_append, h1]
      rfl

theorem zip_not_classification (s : EventTouchScreen) (now : Nat) (tp : TouchPoint_s)
    (e : InputEventType) (he : (update s now tp).events = [e]) (hc : e.isClassification = false)
    (x : InputEventType × EventTouchScreen)
    (hx : x ∈ (update s now tp).events.zip (update s now tp).seen) :
    x.1.isClassification = false := by
  have := (List.of_mem_zip hx).1
  rw [he, List.mem_singleton] at this
  rw [this]; exact hc

theorem zip_nil_events (s : EventTouchScreen) (now : Nat) (tp : TouchPoint_s)
    (he : (update s now tp).events = [])
    (x : InputEventType × EventTouchScreen)
    (hx : x ∈ (update s now tp).events.zip (update s now tp).seen) : False := by
  rw [he] at hx
  simp at hx

/-- The click counter that the subscriber sees at the classification of a
burst of clicks, from each of the three phases of the burst. -/
theorem burst_counter (M L RL gap : Nat) (hL : L < 65536)
    (hgap : M + RL + gap < 65536) (tr : List Tick) :
    (∀ (s : EventTouchScreen) (c : Nat) (pr : Nat × Nat) (ps : List (Nat × Nat)),
        Quiet s → Timing s M L RL → Paced gap c s tr →
        stateChanges (runTimed s tr) = burst (pr :: ps) →
        (∀ q ∈ pr :: ps, q.2 - q.1 ≤ L) → gapsFrom M pr.2 ps →
        ∀ x ∈ runInvoked s tr, x.1.isClassification = true →
          x.2.clickCounter = u8 (ps.length + 1))
    ∧ (∀ (s : EventTouchScreen) (c n t r : Nat) (ps : List (Nat × Nat)),
        Held s n t → Timing s M L RL → Paced gap c s tr → t ≤ c →
        stateChanges (runTimed s tr) = (r, .RELEASED) :: burst ps →
        r - t ≤ L → (∀ q ∈ ps, q.2 - q.1 ≤ L) → gapsFrom M r ps →
        ∀ x ∈ runInvoked s tr, x.1.isClassification = true →
          x.2.clickCounter = u8 (n + 1 + ps.length))
    ∧ (∀ (s : EventTouchScreen) (c n r : Nat) (ps : List (Nat × Nat)),
        Pending s n r → Timing s M L RL → Paced gap c s tr → r ≤ c →
        c ≤ s.rateLimitCounter + RL →
        stateChanges (runTimed s tr) = burst ps →
        (∀ q ∈ ps, q.2 - q.1 ≤ L) → gapsFrom M r ps →
        ∀ x ∈ runInvoked s tr, x.1.isClassification = true →
          x.2.clickCounter = u8 (n + ps.length)) := by
  induction tr with
  | nil =>
    refine ⟨?_, ?_, ?_⟩
    · intro s c pr ps _ _ _ _ _ _ x hx
      simp [runInvoked] at hx
    · intro s c n t r ps _ _ _ _ _ _ _ _ x hx
      simp [runInvoked] at hx
    · intro s c n r ps _ _ _ _ _ _ _ _ x hx
      simp [runInvoked] at hx
  | cons k ks ih =>
    obtain ⟨ihQ, ihH, ihP⟩ := ih
    refine ⟨?_, ?_, ?_⟩
    · -- at rest, at least one pair to come
      intro s c pr ps hq ht hp hsc hshort hgaps x hx hxc
      obtain ⟨hp', hck, _, _, _⟩ := paced_cons gap c s k ks hp
      have ht' := timing_update s k.now k.tp M L RL ht
      simp only [runInvoked, List.mem_append] at hx
      rcases quiet_step s k.now k.tp hq with ⟨he, hq'⟩ | ⟨he, hh'⟩
      · rw [stateChanges_cons_nil s k ks he] at hsc
        rcases hx with hx | hx
        · exact (zip_nil_events s k.now k.tp he x hx).elim
        · exact ihQ _ k.now pr ps hq' ht' hp' hsc hshort hgaps x hx hxc
      · rw [stateChanges_cons_change s k ks _ he rfl] at hsc
        simp only [burst, List.cons.injEq, Prod.mk.injEq, and_true] at hsc
        obtain ⟨hk1, hsc2⟩ := hsc
        rcases hx with hx | hx
        · rw [zip_not_classification s k.now k.tp _ he rfl x hx] at hxc
          cases hxc
        · have hsh1 := hshort pr (by simp)
          have := ihH _ k.now 0 k.now pr.2 ps hh' ht' hp' (Nat.le_refl _) hsc2
            (by rw [hk1]; exact hsh1) (fun q hq => hshort q (by simp [hq])) hgaps x hx hxc
          rw [this]
          congr 1
          omega
    · -- during a press
      intro s c n t r ps hh ht hp htc hsc hrt hshort hgaps x hx hxc
      obtain ⟨hp', hck, _, _, hnd⟩ := paced_cons gap c s k ks hp
      have ht' := timing_update s k.now k.tp M L RL ht
      simp only [runInvoked, List.mem_append] at hx
      have hkr : k.now ≤ r := by
        have hc2 := hp.cadence
        simp only [List.map_cons, List.chain_cons] at hc2
        have hmem : (r, InputEventType.RELEASED) ∈ runTimed s (k :: ks) := by
          apply List.mem_of_mem_filter (p := fun p => p.2.isStateChange)
          show (r, InputEventType.RELEASED) ∈ stateChanges (runTimed s (k :: ks))
          rw [hsc]; simp
        simp only [runTimed, List.mem_append, List.mem_map] at hmem
        rcases hmem with ⟨e, _, he⟩ | hmem
        · simp only [Prod.mk.injEq] at he
          omega
        · exact runTimed_ge gap ks _ k.now hc2.2 _ hmem
      rcases held_step s k.now k.tp n t hh (by omega)
          (by rw [ht.longClickDuration]; omega) (by rw [ht.longClickDuration]; exact hL) with
        ⟨he, hh'⟩ | ⟨he, hpd⟩ | he
      · rw [stateChanges_cons_nil s k ks he] at hsc
        rcases hx with hx | hx
        · exact (zip_nil_events s k.now k.tp he x hx).elim
        · exact ihH _ k.now n t r ps hh' ht' hp' (by omega) hsc hrt hshort hgaps x hx hxc
      · rw [stateChanges_cons_change s k ks _ he rfl] at hsc
        simp only [List.cons.injEq, Prod.mk.injEq, and_true] at hsc
        obtain ⟨hk1, hsc2⟩ := hsc
        rcases hx with hx | hx
        · rw [zip_not_classification s k.now k.tp _ he rfl x hx] at hxc
          cases hxc
        · have hrl := hpd.since
          exact ihP _ k.now (n + 1) k.now ps hpd ht' hp' (Nat.le_refl _) (by omega) hsc2
            hshort (by rw [hk1]; exact hgaps) x hx hxc
      · rw [he] at hnd
        simp at hnd
    · -- between two clicks, or after the last
      intro s c n r ps hpd ht hp hrc hcr hsc hshort hgaps x hx hxc
      obtain ⟨hp', hck, hkc, _, _⟩ := paced_cons gap c s k ks hp
      have ht' := timing_update s k.now k.tp M L RL ht
      have hge := stateChanges_ge gap ks (update s k.now k.tp).st k.now hp'.cadence
      simp only [runInvoked, List.mem_append] at hx
      have hearly := hpd.early
      rw [ht.multiClickInterval] at hearly
      rcases pending_step s k.now k.tp n r hpd (by omega) (by omega) with
        ⟨hnp, hu⟩ | ⟨_, he, hh'⟩ | ⟨_, hle, he, hpd', hrl'⟩ | ⟨_, hlt, he, hq'⟩
      · have he : (update s k.now k.tp).events = [] := by rw [hu]
        have hst : (update s k.now k.tp).st = s := by rw [hu]
        rw [stateChanges_cons_nil s k ks he] at hsc
        have hk2 : k.now ≤ s.rateLimitCounter + RL := by
          have := hnp
          rw [processed_of_enabled s k.now hpd.enabled] at this
          have := rateGate_le s k.now this (by rw [ht.rateLimit]; omega)
          rw [ht.rateLimit] at this
          exact this
        rcases hx with hx | hx
        · exact (zip_nil_events s k.now k.tp he x hx).elim
        · exact ihP _ k.now n r ps (by rw [hst]; exact hpd) ht' hp' (by omega)
            (by rw [hst]; exact hk2) hsc hshort hgaps x hx hxc
      · rw [stateChanges_cons_change s k ks _ he rfl] at hsc
        rcases hx with hx | hx
        · rw [zip_not_classification s k.now k.tp _ he rfl x hx] at hxc
          cases hxc
        · cases ps with
          | nil => simp [burst] at hsc
          | cons pr ps' =>
            simp only [burst, List.cons.injEq, Prod.mk.injEq, and_true] at hsc
            obtain ⟨hk1, hsc2⟩ := hsc
            have := ihH _ k.now n k.now pr.2 ps' hh' ht' hp' (Nat.le_refl _) hsc2
              (by rw [hk1]; exact hshort pr (by simp))
              (fun q hq => hshort q (by simp [hq])) hgaps.2 x hx hxc
            rw [this]
            congr 1
            simp only [List.length_cons]
            omega
      · rw [stateChanges_cons_nil s k ks he] at hsc
        rcases hx with hx | hx
        · exact (zip_nil_events s k.now k.tp he x hx).elim
        · exact ihP _ k.now n r ps hpd' ht' hp' (by omega) (by rw [hrl']; omega) hsc hshort
            hgaps x hx hxc
      · rw [stateChanges_cons_other s k ks _ he (classify_isStateChange _)] at hsc
        rw [ht.multiClickInterval] at hlt
        cases ps with
        | cons pr ps' =>
          exfalso
          have hmem : (pr.1, InputEventType.PRESSED)
              ∈ stateChanges (runTimed (update s k.now k.tp).st ks) := by
            rw [hsc]; simp [burst]
          have h1 := hge _ hmem
          have h2 := hgaps.1
          simp only at h1
          omega
        | nil =>
          rcases hx with hx | hx
          · have hmem : x.1 ∈ (update s k.now k.tp).events := (List.of_mem_zip hx).1
            obtain ⟨_, _, a, ha, hcase⟩ := update_classified s k.now k.tp x.1 hmem hxc
            rcases hcase with ⟨h1, _, h3, _, _⟩ | ⟨_, _, h3, h4, _⟩
            · rw [he] at h3
              have := (classify_isClassification (u8 n)).2
              simp only [List.cons.injEq, and_true] at h3
              exact absurd h3 this
            · rw [h3, h4] at hx
              simp only [List.zip_cons_cons, List.zip_nil_right, List.mem_singleton] at hx
              rw [hx]
              show a.clickCounter = u8 (n + 0)
              rw [ha.clickCounter, hpd.clickCounter]
              rfl
          · exfalso
            have hsil := quiet_run_silent ks _ hq' (by rw [hsc]; rfl)
            have := runInvoked_mem_events ks _ x hx
            rw [hsil.1] at this
            simp at this

/-- Whenever the subscriber is invoked with LONG_CLICKED the latched click
count is 1. -/
theorem runInvoked_longClicked (tr : List Tick) :
    ∀ (s : EventTouchScreen), ∀ x ∈ runInvoked s tr,
      x.1 = .LONG_CLICKED → x.2.prevClickCount = 1 := by
  induction tr with
  | nil => intro s x hx; simp [runInvoked] at hx
  | cons k ks ih =>
    intro s x hx hl
    simp only [runInvoked, List.mem_append] at hx
    rcases hx with hx | hx
    · have he : x.1 ∈ (update s k.now k.tp).events := (List.of_mem_zip hx).1
      obtain ⟨_, _, a, _, h | h⟩ :=
        update_classified s k.now k.tp x.1 he (by rw [hl]; rfl)
      · obtain ⟨_, _, h3, h4, _⟩ := h
        rw [h3, h4] at hx
        simp only [List.zip_cons_cons, List.zip_nil_right, List.mem_singleton] at hx
        rw [hx]
      · rw [hl] at h
        exact absurd h.1.symm (classify_isClassification _).2
    · exact ih _ x hx hl

/-- Claim C15 as amended (latched click count).  A burst of `N` clicks with
`1 ≤ N ≤ 255` from an engine at rest (no press longer than
`longClickDuration`, each idle gap shorter than `multiClickInterval`, no
DRAGGED, `update()` called at least every `gap` ms, a tick processed more
than `multiClickInterval` after the last release): the last invocation of
the subscriber is the classification event of `N` (CLICKED, DOUBLE_CLICKED,
MULTI_CLICKED) and `clickCount()` returns `N` at that moment; after the
trace `clickCount()` still returns `N` while the click counter is 0.  And in
any trace from any state: whenever the subscriber is invoked with
LONG_CLICKED, `clickCount()` returns 1, and when LONG_CLICKED is the last
event of the trace, `clickCount()` returns 1 afterwards while the click
counter is 0. -/
theorem latched_click_count (s : EventTouchScreen) (tr : List Tick) (ps : List (Nat × Nat))
    (gap : Nat) (hne : ps ≠ []) (hN : ps.length ≤ 255) (hq : Quiet s)
    (hL : s.longClickDuration < 65536) (hRL : s.rateLimit < 65536)
    (hgap : s.multiClickInterval + s.rateLimit + gap < 65536)
    (hcad : List.Chain' (Cadence gap) (tr.map Tick.now))
    (hbound : ∀ k ∈ tr, k.now < 4294836224)
    (hnodrag : InputEventType.DRAGGED ∉ runEvents s tr)
    (hacc : stateChanges (runTimed s tr) = burst ps)
    (hshort : ∀ q ∈ ps, q.2 - q.1 ≤ s.longClickDuration)
    (hgaps : List.Chain' (fun a b : Nat × Nat => b.1 - a.2 < s.multiClickInterval) ps)
    (hsil : ∃ e ∈ runLog s tr, lateTick s.multiClickInterval (ps.getLast hne).2 e = true) :
    (∃ x, (runInvoked s tr).getLast? = some (classify ps.length, x)
        ∧ clickCount x = ps.length)
    ∧ clickCount (runState s tr) = ps.length
    ∧ (runState s tr).clickCounter = 0
    ∧ (∀ (s' : EventTouchScreen) (tr' : List Tick),
        (∀ x ∈ runInvoked s' tr', x.1 = .LONG_CLICKED → clickCount x.2 = 1)
        ∧ (∀ pre, runEvents s' tr' = pre ++ [.LONG_CLICKED] →
            clickCount (runState s' tr') = 1 ∧ (runState s' tr').clickCounter = 0)) := by
  have hu8 : u8 ps.length = ps.length := by
    simp only [u8]; omega
  have hpos : ps.length ≠ 0 := by
    intro h0
    exact hne (List.eq_nil_of_length_eq_zero h0)
  have hev := (clicks_run s tr ps gap hne hq hL hRL hgap hcad hbound hnodrag hacc hshort hgaps
    hsil).1
  rw [hu8] at hev
  obtain ⟨x, h1, h2, h3⟩ :=
    classified_last tr s _ _ hev (classify_isClassification _).1
  have hxm : (classify ps.length, x) ∈ runInvoked s tr := List.mem_of_getLast?_eq_some h1
  have hLs : Latch s := fun hne0 => absurd hq.clickCounter hne0
  have hcount : x.clickCounter = ps.length := by
    cases tr with
    | nil => simp [runInvoked] at hxm
    | cons k ks =>
      cases ps with
      | nil => exact absurd rfl hne
      | cons pr ps' =>
        have hB := (burst_counter s.multiClickInterval s.longClickDuration s.rateLimit gap hL
          hgap (k :: ks)).1
        have := hB s k.now pr ps' hq ⟨rfl, rfl, rfl⟩
          ⟨chain_of_chain' gap k ks hcad, hbound, hnodrag⟩ hacc hshort
          (gapsFrom_of_chain _ ps' pr hgaps) _ hxm (classify_isClassification _).1
        simp only at this
        rw [this]
        exact hu8
  have hprev : x.prevClickCount = ps.length := by
    have := runInvoked_latch tr s hLs _ hxm (classify_isClassification _).1
      (classify_isClassification _).2 (by simp only; rw [hcount]; exact hpos)
    simp only at this
    rw [this, hcount]
  refine ⟨⟨x, h1, hprev⟩, ?_, h3, ?_⟩
  · show (runState s tr).prevClickCount = ps.length
    rw [h2, hprev]
  · intro s' tr'
    refine ⟨fun y hy hl => runInvoked_longClicked tr' s' y hy hl, ?_⟩
    intro pre hpre
    obtain ⟨y, g1, g2, g3⟩ := classified_last tr' s' pre .LONG_CLICKED hpre rfl
    have hym := List.mem_of_getLast?_eq_some g1
    have := runInvoked_longClicked tr' s' _ hym rfl
    simp only at this
    exact ⟨by show (runState s' tr').prevClickCount = 1; rw [g2, this], g3⟩

theorem latched_click_count_witness :
    stateChanges (runTimed fresh (taps 3)) = burst (tapTimes 3)
    ∧ clickCount (runState fresh (taps 3)) = 3
    ∧ (runState fresh (taps 3)).clickCounter = 0 :=
  ⟨by decide,
    (latched_click_count fresh (taps 3) (tapTimes 3) 15 (by decide) (by decide)
      ⟨rfl, rfl, rfl, rfl, rfl, rfl⟩ (by decide) (by decide) (by decide) (taps_cadence 3)
      (by decide) (by decide) (by decide) (by decide) (tapTimes_gaps 3 300 (by decide))
      ⟨⟨495, true, true, [.MULTI_CLICKED]⟩, by decide, by decide⟩).2.1,
    (latched_click_count fresh (taps 3) (tapTimes 3) 15 (by decide) (by decide)
      ⟨rfl, rfl, rfl, rfl, rfl, rfl⟩ (by decide) (by decide) (by decide) (taps_cadence 3)
      (by decide) (by decide) (by decide) (by decide) (tapTimes_gaps 3 300 (by decide))
      ⟨⟨495, true, true, [.MULTI_CLICKED]⟩, by decide, by decide⟩).2.2.1⟩

/-- Claim C15, the counterexample.  256 taps on a fresh engine, each press
30 ms long and each idle gap 30 ms, then silence.  The log of the
invocations with what `clickCount()` returns at each: the 256 pairs PRESSED,
RELEASED, and then MULTI_CLICKED, at which `clickCount()` returns 0, not
256. -/
theorem latched_click_count_256 :
    (runInvoked fresh (taps 256)).map (fun x => (x.1, clickCount x.2))
      = tapInvocations 256 ++ [(.MULTI_CLICKED, 0)] := by
  decide!

/-! ## A long hold with dragging enabled -/

/-- With dragging enabled the long-press evaluation emits nothing. -/
theorem updateLongPress_dragEnabled (s : EventTouchScreen) (now : Nat)
    (h : s.dragEnabled = true) :
    updateLongPress s now =
      { st := if currentDuration s now > longPressThreshold s
          then { s with longPressCounter := u16 (s.longPressCounter + 1) } else s } := by
  by_cases hl : currentDuration s now > longPressThreshold s
  · rw [updateLongPress_late s now hl, if_pos hl]
    have : ¬ (s.dragEnabled = false
        ∧ (s.repeatLongPress = true ∨ u16 (s.longPressCounter + 1) = 1)) := by
      rw [h]; simp
    rw [if_neg this]
  · rw [updateLongPress_early s now hl, if_neg hl]

/-- Without wrap-around `r()` is the last column of the region. -/
theorem Region.r_eq (R : Region) (hw : 1 ≤ R.w) (hx : R.x + R.w ≤ 65536) :
    R.r = R.x + R.w - 1 := by
  unfold Region.r u16
  omega

/-- Without wrap-around `b()` is the last row of the region. -/
theorem Region.b_eq (R : Region) (hh : 1 ≤ R.h) (hy : R.y + R.h ≤ 65536) :
    R.b = R.y + R.h - 1 := by
  unfold Region.b u16
  omega

/-- The point test of `contains`, without wrap-around. -/
theorem Region.contains_iff (R : Region) (posX posY : Nat)
    (hw : 1 ≤ R.w) (hh : 1 ≤ R.h)
    (hx : R.x + R.w ≤ 65536) (hy : R.y + R.h ≤ 65536) :
    R.contains posX posY = true ↔
      R.x ≤ posX ∧ posX ≤ R.x + R.w - 1 ∧ R.y ≤ posY ∧ posY ≤ R.y + R.h - 1 := by
  simp only [Region.contains, Region.r_eq R hw hx, Region.b_eq R hh hy,
    Bool.and_eq_true, decide_eq_true_eq]
  tauto

/-- Claim C23. For a region with `w >= 1`, `h >= 1`, `x + w <= 65536` and
`y + h <= 65536`, `contains(posX, posY)` is true exactly when
`x <= posX <= x + w - 1` and `y <= posY <= y + h - 1`; the overload taking
a `Coords_s` agrees with it; and `contains(Region o)` is true exactly when
the top left corner `o.tl()` and the bottom right corner `o.br()` of `o`
are both contained. -/
theorem region_contains (R : Region) (posX posY : Nat)
    (hw : 1 ≤ R.w) (hh : 1 ≤ R.h)
    (hx : R.x + R.w ≤ 65536) (hy : R.y + R.h ≤ 65536) :
    (R.contains posX posY = true ↔
      R.x ≤ posX ∧ posX ≤ R.x + R.w - 1 ∧ R.y ≤ posY ∧ posY ≤ R.y + R.h - 1)
    ∧ (∀ c : Coords_s, R.containsCoords c = R.contains c.x c.y)
    ∧ (∀ o : Region, R.containsRegion o = true ↔
        (R.containsCoords o.tl = true ∧ R.containsCoords o.br = true)) := by
  refine ⟨Region.contains_iff R posX posY hw hh hx hy, fun _ => rfl, fun o => ?_⟩
  simp only [Region.containsRegion, Region.containsCoords, Region.tl, Region.br,
    Bool.and_eq_true]

/-- The region `exRegion` contains its last pixel (109, 69) by
`region_contains`. -/
theorem region_contains_witness :
    exRegion.contains 109 69 = true ∧ exRegion.containsRegion (Region.make 50 30 60 40) = true := by
  have h := region_contains exRegion 109 69 (by decide) (by decide) (by decide) (by decide)
  refine ⟨h.1.2 (by decide), (h.2.2 _).2 (by decide)⟩

/-- The divisions of `wDiv` and `hDiv` have a nonzero divisor. -/
theorem Region.wDiv_eq (R : Region) (div : Nat) (hw : R.w < 65536) :
    R.wDiv div = some (R.w / (if div = 0 then 1 else div)) := by
  have hd : (if div = 0 then 1 else div) ≠ 0 := by split_ifs <;> omega
  have hq : R.w / (if div = 0 then 1 else div) < 65536 :=
    lt_of_le_of_lt (Nat.div_le_self _ _) hw
  simp only [Region.wDiv, idiv, if_neg hd, Option.map_some', u16, Nat.mod_eq_of_lt hq]

/-- The same for the height. -/
theorem Region.hDiv_eq (R : Region) (div : Nat) (hh : R.h < 65536) :
    R.hDiv div = some (R.h / (if div = 0 then 1 else div)) := by
  have hd : (if div = 0 then 1 else div) ≠ 0 := by split_ifs <;> omega
  have hq : R.h / (if div = 0 then 1 else div) < 65536 :=
    lt_of_le_of_lt (Nat.div_le_self _ _) hh
  simp only [Region.hDiv, idiv, if_neg hd, Option.map_some', u16, Nat.mod_eq_of_lt hq]

/-- Claim C24. For every region (with `uint16_t` members), `wDiv(0) = w()`
and `hDiv(0) = h()`; for every `div >= 1`, `wDiv(div) = floor(w / div)` and
`hDiv(div) = floor(h / div)`; and every call of `wDiv`, `hDiv`, `xDiv`,
`yDiv`, `rDiv`, `bDiv`, `xCl` and `yCl` has a result, that is, none of them
divides by zero. -/
theorem region_div_zero (R : Region) (hw : R.w < 65536) (hh : R.h < 65536) :
    R.wDiv 0 = some R.w ∧ R.hDiv 0 = some R.h
    ∧ (∀ div, 1 ≤ div → R.wDiv div = some (R.w / div) ∧ R.hDiv div = some (R.h / div))
    ∧ (∀ div nth, (R.wDiv div).isSome ∧ (R.hDiv div).isSome
        ∧ (R.xDiv div nth).isSome ∧ (R.yDiv div nth).isSome
        ∧ (R.rDiv div nth).isSome ∧ (R.bDiv div nth).isSome
        ∧ (R.xCl div nth).isSome ∧ (R.yCl div nth).isSome) := by
  refine ⟨?_, ?_, ?_, ?_⟩
  · simp [Region.wDiv_eq R 0 hw]
  · simp [Region.hDiv_eq R 0 hh]
  · intro div hd
    have h0 : div ≠ 0 := by omega
    simp [Region.wDiv_eq R div hw, Region.hDiv_eq R div hh, h0]
  · intro div nth
    simp [Region.xDiv, Region.yDiv, Region.rDiv, Region.bDiv, Region.xCl, Region.yCl,
      Region.wDiv_eq R div hw, Region.hDiv_eq R div hh, idiv]

/-- The region `exRegion`, 100 wide and 50 high: `wDiv(0)` is 100 and
`hDiv(3)` is 16, by `region_div_zero`. -/
theorem region_div_zero_witness :
    exRegion.wDiv 0 = some 100 ∧ exRegion.hDiv 3 = some 16 ∧ (exRegion.xCl 0 2).isSome :=
  have h := region_div_zero exRegion (by decide) (by decide)
  ⟨h.1, (h.2.2.1 3 (by decide)).2, (h.2.2.2 0 2).2.2.2.2.2.2.1⟩

/-! ## WidgetContainer -/

/-- Writing cells of a list does not change its length. -/
theorem foldl_set_length {ι : Type} (f : List Nat → ι → Nat) (g : ι → Nat) (is : List ι)
    (ws : List Nat) :
    (is.foldl (fun ws i => ws.set (g i) (f ws i)) ws).length = ws.length := by
  induction is generalizing ws with
  | nil => rfl
  | cons i is ih => simp only [List.foldl_cons]; rw [ih]; simp

/-- The removal of one widget keeps the array length and lowers `count`. -/
theorem WidgetContainer.removeWidgetAt_wf (maxWidgets : Nat) (c : WidgetContainer)
    (index : Nat) (h : c.Wf maxWidgets) : (c.removeWidgetAt index).Wf maxWidgets := by
  unfold WidgetContainer.removeWidgetAt
  split_ifs with hi
  · exact h
  · refine ⟨?_, ?_⟩
    · simp only [List.length_set]
      rw [foldl_set_length (fun ws i => ws.getD (i + 1) 0) (fun i => i)]
      exact h.1
    · have := h.2
      simp only
      omega

/-- Every call keeps the array length and keeps `count` within it. -/
theorem WidgetContainer.call_wf (bits maxWidgets : Nat) (c : WidgetContainer)
    (k : WidgetCall) (h : c.Wf maxWidgets) : (c.call bits maxWidgets k).Wf maxWidgets := by
  cases k with
  | addWidget widget =>
    simp only [WidgetContainer.call, WidgetContainer.addWidget]
    split_ifs with hc
    · exact h
    · exact ⟨by simp only [List.length_set]; exact h.1, by simp only; omega⟩
  | removeWidgetAt index => exact WidgetContainer.removeWidgetAt_wf maxWidgets c index h
  | removeWidget widget =>
    simp only [WidgetContainer.call, WidgetContainer.removeWidget]
    cases c.indexOfWidget widget with
    | none => exact h
    | some i => exact WidgetContainer.removeWidgetAt_wf maxWidgets c i h
  | removeAllWidgets =>
    refine ⟨?_, Nat.zero_le _⟩
    simp only [WidgetContainer.call, WidgetContainer.removeAllWidgets]
    rw [foldl_set_length (fun _ _ => 0) (fun i => i)]
    exact h.1
  | replaceWidgetAt index newWidget =>
    simp only [WidgetContainer.call, WidgetContainer.replaceWidgetAt]
    split_ifs with hc
    · exact h
    · exact ⟨by simp only [List.length_set]; exact h.1, h.2⟩
  | replaceWidget oldWidget newWidget =>
    simp only [WidgetContainer.call, WidgetContainer.replaceWidget]
    cases c.indexOfWidget oldWidget with
    | none => exact h
    | some i => exact ⟨by simp only [List.length_set]; exact h.1, h.2⟩

/-- Every sequence of calls keeps the array length and keeps `count` within
it. -/
theorem WidgetContainer.run_wf (bits maxWidgets : Nat) (calls : List WidgetCall)
    (c : WidgetContainer) (h : c.Wf maxWidgets) : (c.run bits maxWidgets calls).Wf maxWidgets := by
  induction calls generalizing c with
  | nil => exact h
  | cons k ks ih => exact ih _ (WidgetContainer.call_wf bits maxWidgets c k h)

/-- A new container is well formed. -/
theorem WidgetContainer.init_wf (ws : List Nat) : (WidgetContainer.init ws).Wf ws.length :=
  ⟨rfl, Nat.zero_le _⟩

/-- Claim C30. In a `WidgetContainer<maxWidgets>` (an array of `maxWidgets`
cells, `count <= maxWidgets`): `addWidget` with `size() < maxWidgets` stores
the widget at index `size()`, leaves the cells below it as they were,
returns that index and increases `size()` by one; `addWidget` on a full
container returns `InvalidIndex` and leaves the container unchanged; and
after every sequence of `addWidget`, `removeWidget` (both overloads),
`removeAllWidgets` and `replaceWidget` (both overloads) `size()` is at most
`maxWidgets`. -/
theorem fixed_capacity (bits maxWidgets : Nat) (c : WidgetContainer) (widget : Nat)
    (h : c.Wf maxWidgets) :
    (c.size < maxWidgets →
      (c.addWidget bits maxWidgets widget).2 = c.size
      ∧ (c.addWidget bits maxWidgets widget).1.size = c.size + 1
      ∧ (c.addWidget bits maxWidgets widget).1.widgets.get? c.size = some widget
      ∧ ∀ i, i < c.size →
          (c.addWidget bits maxWidgets widget).1.widgets.get? i = c.widgets.get? i)
    ∧ (c.size = maxWidgets →
      (c.addWidget bits maxWidgets widget).2 = InvalidIndex bits
      ∧ (c.addWidget bits maxWidgets widget).1 = c)
    ∧ (∀ calls : List WidgetCall, (c.run bits maxWidgets calls).size ≤ maxWidgets) := by
  refine ⟨fun hlt => ?_, fun hfull => ?_, fun calls => ?_⟩
  · have hlt' : ¬ c.count ≥ maxWidgets := by
      simp only [WidgetContainer.size] at hlt; omega
    simp only [WidgetContainer.addWidget, if_neg hlt', WidgetContainer.size, true_and]
    refine ⟨?_, fun i hi => ?_⟩
    · have : c.count < c.widgets.length := by rw [h.1]; omega
      simp [List.getElem?_set, this]
    · have : c.count ≠ i := by omega
      simp [List.getElem?_set, this]
  · have hge : c.count ≥ maxWidgets := by
      simp only [WidgetContainer.size] at hfull; omega
    simp only [WidgetContainer.addWidget, if_pos hge, and_self]
  · exact (WidgetContainer.run_wf bits maxWidgets calls c h).2

/-- The container `exHalf` for two widgets takes the widget 12 at index 1;
by `fixed_capacity`. -/
theorem fixed_capacity_witness :
    (exHalf.addWidget 32 2 12).2 = 1 ∧ (exHalf.addWidget 32 2 12).1 = exFull
    ∧ (exFull.addWidget 32 2 13) = (exFull, 4294967295)
    ∧ (exHalf.run 32 2 [.addWidget 12, .addWidget 13, .removeWidget 11, .addWidget 14,
        .addWidget 15]).size ≤ 2 :=
  have h := fixed_capacity 32 2 exHalf 12 (by decide)
  ⟨(h.1 (by decide)).1, by decide, by decide, h.2.2 _⟩

/-! ## The frame rate of the screen manager -/

/-- Claim C25 fails on the code. `setFps(0)` divides 1000 by zero and has
no defined result: nothing clamps a zero frame rate. For every `fps` from 1
to 255 `setFps(fps)` is defined and leaves the refresh interval
`1000 / fps`, which is at least 3 ms. -/
theorem setFps_zero_undefined (m : EventScreenManager) :
    m.setFps 0 = none
    ∧ ∀ fps, 1 ≤ fps → fps ≤ 255 →
        ∃ n, m.setFps fps = some n ∧ n.displayRefreshMs = 1000 / fps
          ∧ 3 ≤ n.displayRefreshMs := by
  refine ⟨rfl, fun fps h1 h2 => ?_⟩
  have h0 : fps ≠ 0 := by omega
  have hq : 1000 / fps < 65536 := lt_of_le_of_lt (Nat.div_le_self _ _) (by decide)
  have h3 : 3 ≤ 1000 / fps := by
    rw [Nat.le_div_iff_mul_le (by omega)]
    omega
  refine ⟨{ m with displayRefreshMs := 1000 / fps }, ?_, rfl, h3⟩
  simp only [EventScreenManager.setFps, idiv, if_neg h0, Option.map_some', u16,
    Nat.mod_eq_of_lt hq]

/-- The frame rate 25 gives a refresh interval of 40 ms, by
`setFps_zero_undefined`. -/
theorem setFps_zero_undefined_witness :
    ∃ n, ({} : EventScreenManager).setFps 25 = some n ∧ n.displayRefreshMs = 40 := by
  obtain ⟨n, h1, h2, _⟩ := (setFps_zero_undefined {}).2 25 (by decide) (by decide)
  exact ⟨n, h1, h2⟩

/-- Claim C26 fails on the code. After `setFps(fps)` with `fps` from 2 to
255, `getFps()` returns 0, not `fps`: it divides the refresh interval
`1000 / fps`, which is below 1000, by 1000. Only `fps = 1` is returned
unchanged. -/
theorem getFps_after_setFps (m : EventScreenManager) :
    (m.setFps 1).map EventScreenManager.getFps = some 1
    ∧ ∀ fps, 2 ≤ fps → fps ≤ 255 →
        (m.setFps fps).map EventScreenManager.getFps = some 0 := by
  refine ⟨?_, fun fps h1 h2 => ?_⟩
  · simp [EventScreenManager.setFps, idiv, EventScreenManager.getFps, u16, u8]
  have h0 : fps ≠ 0 := by omega
  have hq : 1000 / fps < 1000 := Nat.div_lt_self (by decide) (by omega)
  have hq2 : 1000 / fps < 65536 := by omega
  simp only [EventScreenManager.setFps, idiv, if_neg h0, Option.map_some',
    EventScreenManager.getFps, u16, u8, Nat.mod_eq_of_lt hq2, Nat.div_eq_of_lt hq]

/-- After `setFps(30)` the function `getFps()` returns 0, by
`getFps_after_setFps`. -/
theorem getFps_after_setFps_witness :
    (({} : EventScreenManager).setFps 30).map EventScreenManager.getFps = some 0 :=
  (getFps_after_setFps {}).2 30 (by decide) (by decide)

/-! ## The routers of the screen manager -/

namespace EventScreenManager

/-- The loop over the routers for an intent that is not `Init`: the routers
up to the first one with an answer are called, and that answer is the
result. -/
theorem askRouters_spec (cur : String) (intent : TransitionIntent) (initial : String)
    (h : intent.type ≠ .Init) (rs : List IScreenRouter) :
    (askRouters cur intent initial "" rs).2
        = (rs.take ((rs.takeWhile (silent cur intent)).length + 1)).map (callOf cur intent)
    ∧ (askRouters cur intent initial "" rs).1
        = (match rs.find? (fun r => !silent cur intent r) with
          | some r => r.resolveScreen cur intent
          | none => "")
    ∧ ∀ r, rs.find? (fun r => !silent cur intent r) = some r → r.resolveScreen cur intent ≠ "" := by
  induction rs with
  | nil => exact ⟨rfl, rfl, fun r hr => by simp at hr⟩
  | cons r rs ih =>
    by_cases ha : r.resolveScreen cur intent = ""
    · have hs : silent cur intent r = true := by simp [silent, ha]
      simp only [askRouters, ha, ne_eq, not_true_eq_false, if_false, if_neg h,
        List.takeWhile_cons, hs, if_true, List.length_cons, List.take_succ_cons,
        List.map_cons, List.find?_cons, Bool.not_true]
      exact ⟨by rw [ih.1]; rfl, ih.2.1, ih.2.2⟩
    · have hs : silent cur intent r = false := by simp [silent, ha]
      simp only [askRouters, ha, ne_eq, not_false_eq_true, if_true,
        List.takeWhile_cons, hs, List.length_nil, List.find?_cons, Bool.not_false]
      refine ⟨rfl, trivial, fun q hq => ?_⟩
      cases hq
      exact ha

/-- The loop over the routers for an `Init` intent: only the first router
is called. -/
theorem askRouters_init (cur : String) (intent : TransitionIntent) (initial : String)
    (h : intent.type = .Init) (rs : List IScreenRouter) :
    (askRouters cur intent initial "" rs).2 = (rs.take 1).map (callOf cur intent) := by
  cases rs with
  | nil => rfl
  | cons r rs =>
    simp only [askRouters, h, if_true, List.take_succ_cons, List.take_zero, List.map_cons,
      List.map_nil]
    split_ifs <;> rfl

/-- The switch to a screen adds no call of `resolveScreen`. -/
theorem switchTo_calls (m : EventScreenManager) (resolved : String) :
    ∃ life, (switchTo m resolved).calls = m.calls ++ life
      ∧ life.filter ScreenCall.isResolveScreen = []
      ∧ life.filter ScreenCall.isDraw = [] := by
  unfold switchTo
  split_ifs with h0
  · exact ⟨[], by simp, rfl, rfl⟩
  · cases m.screens.lookup resolved with
    | none => exact ⟨[], by simp, rfl, rfl⟩
    | some n =>
      cases hc : m.current with
      | none => exact ⟨[.start n], rfl, rfl, rfl⟩
      | some c =>
        simp only
        split_ifs
        · exact ⟨[], by simp, rfl, rfl⟩
        · exact ⟨[.end_ c, .start n], rfl, rfl, rfl⟩

/-- The calls of `resolveScreen` are calls of `resolveScreen`. -/
theorem filter_callOf (cur : String) (intent : TransitionIntent) (rs : List IScreenRouter) :
    (rs.map (callOf cur intent)).filter ScreenCall.isResolveScreen = rs.map (callOf cur intent) := by
  induction rs with
  | nil => rfl
  | cons r rs ih => simp only [List.map_cons, List.filter_cons, callOf,
      ScreenCall.isResolveScreen, if_true]; rw [← ih]; simp [callOf, ih]

/-- The calls made by `consult` are calls of `resolveScreen` on a prefix of
the routers. -/
theorem consult_calls (m : EventScreenManager) (intent : TransitionIntent) :
    (consult m intent).2 =
      (m.routers.take (if intent.type = .Init then 1
        else (m.routers.takeWhile (silent m.currentId intent)).length + 1)).map
        (callOf m.currentId intent) := by
  unfold consult
  cases hr : m.routers with
  | nil => simp
  | cons r rs =>
    simp only [List.isEmpty_cons, Bool.false_eq_true, if_false]
    by_cases hi : intent.type = .Init
    · rw [if_pos hi]; exact askRouters_init _ _ _ hi _
    · rw [if_neg hi]; exact (askRouters_spec _ _ _ hi _).1

/-- With a screen registered, the calls of `resolveScreen` that
`resolveTransition` makes are those of `consult`. -/
theorem resolveTransition_consulted (m : EventScreenManager) (intent : TransitionIntent)
    (hs : m.screens ≠ []) :
    (newCalls m (resolveTransition m intent)).filter ScreenCall.isResolveScreen
      = (consult m intent).2 := by
  have he : m.screens.isEmpty = false := by
    cases h : m.screens with
    | nil => exact absurd h hs
    | cons a l => rfl
  unfold resolveTransition newCalls
  rw [he]
  simp only [Bool.false_eq_true, if_false]
  obtain ⟨life, hl, hf, _⟩ :=
    switchTo_calls { m with calls := m.calls ++ (consult m intent).2 } (resolvedId m intent)
  rw [hl]
  simp only [List.append_assoc, List.drop_left, List.filter_append, hf, List.append_nil]
  rw [consult_calls, filter_callOf]

/-- The resolved id for an intent that is not `Init`. -/
theorem resolvedId_spec (m : EventScreenManager) (intent : TransitionIntent)
    (h : intent.type ≠ .Init) :
    resolvedId m intent =
      match m.routers.find? (fun r => !silent m.currentId intent r) with
      | some r => r.resolveScreen m.currentId intent
      | none => intent.requested := by
  have hc : (consult m intent).1 =
      match m.routers.find? (fun r => !silent m.currentId intent r) with
      | some r => r.resolveScreen m.currentId intent
      | none => "" := by
    unfold consult
    cases hr : m.routers with
    | nil => simp [h]
    | cons r rs =>
      simp only [List.isEmpty_cons, Bool.false_eq_true, if_false]
      exact (askRouters_spec _ _ _ h _).2.1
  have hne := (askRouters_spec m.currentId intent "" h m.routers).2.2
  unfold resolvedId
  simp only [hc]
  cases hf : m.routers.find? (fun r => !silent m.currentId intent r) with
  | none =>
    simp only [true_and]
    split_ifs with hq
    · rfl
    · simp only [ne_eq, not_not] at hq; exact hq.symm
  | some r =>
    have := hne r hf
    simp only [this, false_and, if_false]

end EventScreenManager

/-- Claim C27, amended. With at least one screen registered: for an intent
of a type other than `Init`, `resolveTransition` calls `resolveScreen` on
the routers in the order they were added, up to and including the first
router with a non-empty answer and on no router after it; the resolved id
is that answer, or the requested id of the intent if every router answers
empty or there is no router; the transition is made to the resolved id. For
an `Init` intent only the first router is called. -/
theorem router_order (m : EventScreenManager) (intent : TransitionIntent)
    (hs : m.screens ≠ []) :
    (intent.type ≠ .Init →
      (EventScreenManager.newCalls m (m.resolveTransition intent)).filter
          ScreenCall.isResolveScreen
        = (m.routers.take
            ((m.routers.takeWhile (EventScreenManager.silent m.currentId intent)).length + 1)).map
            (EventScreenManager.callOf m.currentId intent)
      ∧ m.resolvedId intent =
          (match m.routers.find? (fun r => !EventScreenManager.silent m.currentId intent r) with
           | some r => r.resolveScreen m.currentId intent
           | none => intent.requested)
      ∧ (m.resolveTransition intent).current = (m.switchTo (m.resolvedId intent)).current)
    ∧ (intent.type = .Init →
      (EventScreenManager.newCalls m (m.resolveTransition intent)).filter
          ScreenCall.isResolveScreen
        = (m.routers.take 1).map (EventScreenManager.callOf m.currentId intent)) := by
  have he : m.screens.isEmpty = false := by
    cases h : m.screens with
    | nil => exact absurd h hs
    | cons a l => rfl
  have hcur : (m.resolveTransition intent).current = (m.switchTo (m.resolvedId intent)).current := by
    simp only [EventScreenManager.resolveTransition, he, Bool.false_eq_true, if_false,
      EventScreenManager.switchTo]
    split_ifs
    · rfl
    · cases m.screens.lookup (m.resolvedId intent) with
      | none => rfl
      | some n =>
        cases hc : m.current with
        | none => rfl
        | some c => simp only [hc]; split_ifs <;> simp [hc]
  refine ⟨fun h => ⟨?_, EventScreenManager.resolvedId_spec m intent h, hcur⟩, fun h => ?_⟩
  · rw [EventScreenManager.resolveTransition_consulted m intent hs,
      EventScreenManager.consult_calls, if_neg h]
  · rw [EventScreenManager.resolveTransition_consulted m intent hs,
      EventScreenManager.consult_calls, if_pos h]

/-- In `exShowingHome` a request for `menu` is put to the first two
routers, in that order, and resolves to `login`, the answer of the second;
by `router_order`. -/
theorem router_order_witness :
    exShowingHome.screens ≠ []
    ∧ (EventScreenManager.newCalls exShowingHome
        (exShowingHome.resolveTransition exToMenu)).filter ScreenCall.isResolveScreen
        = [.resolveScreen 101 "home" exToMenu, .resolveScreen 102 "home" exToMenu]
    ∧ exShowingHome.resolvedId exToMenu = "login"
    ∧ (exShowingHome.resolveTransition exToMenu).current = some 3 := by
  have h := (router_order exShowingHome exToMenu (by decide)).1 (by decide)
  refine ⟨by decide, ?_, ?_, ?_⟩
  · rw [h.1]; decide
  · rw [h.2.1]; decide
  · rw [h.2.2]; decide

/-- Claim C27 as stated fails without a registered screen: the manager
`exNoScreens` has three routers, the second answers a request for `menu`
with `login`, and `resolveTransition` (also through `update()`) calls no
router at all. -/
theorem router_not_consulted_without_screens :
    exNoScreens.routers.map (fun r => r.resolveScreen "" exToMenu) = ["", "login", "home"]
    ∧ (exNoScreens.resolveTransition exToMenu).calls = []
    ∧ ((exNoScreens.requestScreen exToMenu).update 0).calls = [] := by
  decide

/-! ## The initial screen -/

namespace EventScreenManager

/-- The assignment `screens[id] = screen` leaves a map that is not empty. -/
theorem mapSet_ne_nil (l : List (String × Nat)) (k : String) (v : Nat) : mapSet l k v ≠ [] := by
  unfold mapSet
  cases l with
  | nil => simp
  | cons a l =>
    cases List.lookup k (a :: l) with
    | none => simp
    | some _ => simp

/-- Overwriting the entries of `k` does not change what is stored under
another key. -/
theorem lookup_map_other (l : List (String × Nat)) (k k' : String) (v : Nat) (hk : k' ≠ k) :
    (l.map (fun e => if e.1 = k then (k, v) else e)).lookup k' = l.lookup k' := by
  induction l with
  | nil => rfl
  | cons a l ih =>
    obtain ⟨a1, a2⟩ := a
    by_cases ha : a1 = k
    · subst ha
      have h1 : (k' == a1) = false := by simpa using hk
      simp only [List.map_cons, if_true, List.lookup_cons, h1]
      exact ih
    · simp only [List.map_cons, if_neg ha, List.lookup_cons]
      rw [ih]

/-- Overwriting the entries of `k` stores the new value under `k`. -/
theorem lookup_map_self (l : List (String × Nat)) (k : String) (v w : Nat)
    (hl : l.lookup k = some w) :
    (l.map (fun e => if e.1 = k then (k, v) else e)).lookup k = some v := by
  induction l with
  | nil => simp at hl
  | cons a l ih =>
    obtain ⟨a1, a2⟩ := a
    by_cases ha : a1 = k
    · subst ha
      simp [List.lookup_cons]
    · have h1 : (k == a1) = false := by simpa using (Ne.symm ha)
      simp only [List.lookup_cons, h1] at hl
      simp only [List.map_cons, if_neg ha, List.lookup_cons, h1]
      exact ih hl

/-- The map after `screens[id] = screen`, looked up. -/
theorem lookup_mapSet (l : List (String × Nat)) (k k' : String) (v : Nat) :
    (mapSet l k v).lookup k' = if k' = k then some v else l.lookup k' := by
  unfold mapSet
  cases hl : l.lookup k with
  | none =>
    simp only [List.lookup_append, List.lookup_cons, List.lookup_nil]
    by_cases hk : k' = k
    · subst hk; simp [hl]
    · have : (k' == k) = false := by simpa using hk
      simp [hk, this]
  | some w =>
    simp only
    by_cases hk : k' = k
    · subst hk; rw [if_pos rfl]; exact lookup_map_self l k' v w hl
    · rw [if_neg hk]; exact lookup_map_other l k k' v hk

/-- The three outcomes of `registerScreen`. -/
theorem registerScreen_cases (m : EventScreenManager) (screen : IManagedScreen) (id : String) :
    ((if id = "" then screen.name else id) = "" ∧ m.registerScreen screen id = (m, false))
    ∨ ((if id = "" then screen.name else id) ≠ "" ∧ m.screens ≠ []
        ∧ (∃ v, m.screens.lookup (if id = "" then screen.name else id) = some v)
        ∧ m.registerScreen screen id = (m, false))
    ∨ ((if id = "" then screen.name else id) ≠ ""
        ∧ m.screens.lookup (if id = "" then screen.name else id) = none
        ∧ m.registerScreen screen id =
          ({ m with
              initialScreen :=
                if m.screens.isEmpty then (if id = "" then screen.name else id)
                else m.initialScreen
              screens := m.screens ++ [(if id = "" then screen.name else id, screen.addr)]
              alias_ := Function.update m.alias_ screen.addr
                (if id = "" then screen.name else id)
              calls := m.calls ++ [.setId screen.addr (if id = "" then screen.name else id),
                .begin screen.addr] }, true)) := by
  generalize hk : (if id = "" then screen.name else id) = k
  by_cases h0 : k = ""
  · left
    exact ⟨h0, by simp only [registerScreen, hk, h0, if_true]⟩
  · right
    cases hl : m.screens.lookup k with
    | some v =>
      left
      have hne : m.screens ≠ [] := by
        intro h; rw [h] at hl; simp at hl
      have he : m.screens.isEmpty = false := by
        cases h : m.screens with
        | nil => exact absurd h hne
        | cons a l => rfl
      refine ⟨h0, hne, ⟨v, rfl⟩, ?_⟩
      simp only [registerScreen, hk, h0, if_false, he, Bool.false_eq_true, hl]
    | none =>
      right
      refine ⟨h0, rfl, ?_⟩
      by_cases he : m.screens.isEmpty = true
      · simp only [registerScreen, hk, h0, if_false, he, if_true, hl]
      · have he' : m.screens.isEmpty = false := by simpa using he
        simp only [registerScreen, hk, h0, if_false, he', Bool.false_eq_true, hl]

/-- The two outcomes of `overwriteScreen`. -/
theorem overwriteScreen_cases (m : EventScreenManager) (screen : IManagedScreen) (id : String) :
    ((if id = "" then screen.name else id) = "" ∧ m.overwriteScreen screen id = (m, false))
    ∨ ((if id = "" then screen.name else id) ≠ ""
        ∧ m.overwriteScreen screen id =
          ({ m with
              screens := mapSet m.screens (if id = "" then screen.name else id) screen.addr
              alias_ := Function.update m.alias_ screen.addr
                (if id = "" then screen.name else id)
              calls := m.calls ++ [.setId screen.addr (if id = "" then screen.name else id),
                .begin screen.addr] }, true)) := by
  generalize hk : (if id = "" then screen.name else id) = k
  by_cases h0 : k = ""
  · left
    exact ⟨h0, by simp only [overwriteScreen, hk, h0, if_true]⟩
  · right
    exact ⟨h0, by simp only [overwriteScreen, hk, h0, if_false]⟩

/-- An addition leaves the routers, the current and the previous screen
alone. -/
theorem add_frame (m : EventScreenManager) (a : Addition) :
    (m.add a).1.routers = m.routers ∧ (m.add a).1.current = m.current
    ∧ (m.add a).1.previous = m.previous := by
  cases a with
  | registerScreen screen id =>
    have e : m.add (.registerScreen screen id) = m.registerScreen screen id := rfl
    rcases registerScreen_cases m screen id with ⟨_, h⟩ | ⟨_, _, _, h⟩ | ⟨_, _, h⟩ <;>
      rw [e, h] <;> exact ⟨rfl, rfl, rfl⟩
  | overwriteScreen screen id =>
    have e : m.add (.overwriteScreen screen id) = m.overwriteScreen screen id := rfl
    rcases overwriteScreen_cases m screen id with ⟨_, h⟩ | ⟨_, h⟩ <;>
      rw [e, h] <;> exact ⟨rfl, rfl, rfl⟩

/-- A sequence of additions leaves the routers, the current and the
previous screen alone. -/
theorem addAll_frame (adds : List Addition) (m : EventScreenManager) :
    (m.addAll adds).1.routers = m.routers ∧ (m.addAll adds).1.current = m.current
    ∧ (m.addAll adds).1.previous = m.previous := by
  induction adds generalizing m with
  | nil => exact ⟨rfl, rfl, rfl⟩
  | cons a rest ih =>
    have h1 := add_frame m a
    have h2 := ih (m.add a).1
    simp only [addAll]
    exact ⟨h2.1.trans h1.1, h2.2.1.trans h1.2.1, h2.2.2.trans h1.2.2⟩

/-- Once a screen is registered, an addition leaves `initialScreen` alone,
and a screen registered under `k` stays registered under `k` unless the
addition is an `overwriteScreen` of `k`. -/
theorem add_rooted (m : EventScreenManager) (a : Addition) (k : String) (v : Nat)
    (hs : m.screens ≠ []) (hk : m.screens.lookup k = some v) :
    (m.add a).1.screens ≠ [] ∧ (m.add a).1.initialScreen = m.initialScreen
    ∧ (∃ w, (m.add a).1.screens.lookup k = some w)
    ∧ ((∀ screen id, a = .overwriteScreen screen id → a.key ≠ k) →
        (m.add a).1.screens.lookup k = some v) := by
  have he : m.screens.isEmpty = false := by
    cases h : m.screens with
    | nil => exact absurd h hs
    | cons a l => rfl
  cases a with
  | registerScreen screen id =>
    have e : m.add (.registerScreen screen id) = m.registerScreen screen id := rfl
    rcases registerScreen_cases m screen id with ⟨_, h⟩ | ⟨_, _, _, h⟩ | ⟨_, _, h⟩
    · rw [e, h]; exact ⟨hs, rfl, ⟨v, hk⟩, fun _ => hk⟩
    · rw [e, h]; exact ⟨hs, rfl, ⟨v, hk⟩, fun _ => hk⟩
    · rw [e, h]
      refine ⟨by simp, by simp only [he, Bool.false_eq_true, if_false], ⟨v, ?_⟩, fun _ => ?_⟩ <;>
        simp [List.lookup_append, hk]
  | overwriteScreen screen id =>
    have e : m.add (.overwriteScreen screen id) = m.overwriteScreen screen id := rfl
    rcases overwriteScreen_cases m screen id with ⟨_, h⟩ | ⟨_, h⟩
    · rw [e, h]; exact ⟨hs, rfl, ⟨v, hk⟩, fun _ => hk⟩
    · rw [e, h]
      refine ⟨mapSet_ne_nil _ _ _, rfl, ?_, fun hno => ?_⟩
      · simp only [lookup_mapSet]
        by_cases hkk : k = (if id = "" then screen.name else id)
        · rw [if_pos hkk]; exact ⟨_, rfl⟩
        · rw [if_neg hkk]; exact ⟨v, hk⟩
      · have := hno screen id rfl
        simp only [Addition.key] at this
        simp only [lookup_mapSet]
        rw [if_neg (Ne.symm this)]
        exact hk

/-- Once a screen is registered, a sequence of additions leaves
`initialScreen` alone, and a screen registered under `k` stays registered
under `k` unless one of the additions is an `overwriteScreen` of `k`. -/
theorem addAll_rooted (adds : List Addition) (m : EventScreenManager) (k : String) (v : Nat)
    (hs : m.screens ≠ []) (hk : m.screens.lookup k = some v) :
    (m.addAll adds).1.screens ≠ [] ∧ (m.addAll adds).1.initialScreen = m.initialScreen
    ∧ (∃ w, (m.addAll adds).1.screens.lookup k = some w)
    ∧ ((∀ a ∈ adds, ∀ screen id, a = .overwriteScreen screen id → a.key ≠ k) →
        (m.addAll adds).1.screens.lookup k = some v) := by
  induction adds generalizing m v with
  | nil => exact ⟨hs, rfl, ⟨v, hk⟩, fun _ => hk⟩
  | cons a rest ih =>
    obtain ⟨h1, h2, ⟨w, h3⟩, h4⟩ := add_rooted m a k v hs hk
    simp only [addAll]
    obtain ⟨i1, i2, i3, _⟩ := ih (m.add a).1 w h1 h3
    refine ⟨i1, i2.trans h2, i3, fun hno => ?_⟩
    have h5 := h4 (hno a (List.mem_cons_self _ _))
    exact (ih (m.add a).1 v h1 h5).2.2.2 (fun b hb => hno b (List.mem_cons_of_mem _ hb))

/-- The refresh part of `update()` changes neither the screens shown nor
the pending intent, and only calls `draw()`. -/
theorem refresh_frame (m : EventScreenManager) (t : Nat) :
    (m.refresh t).current = m.current ∧ (m.refresh t).previous = m.previous
    ∧ (m.refresh t).pendingIntent = m.pendingIntent
    ∧ ∃ d, (m.refresh t).calls = m.calls ++ d ∧ d.filter ScreenCall.isEndOrStart = []
        ∧ d.filter (fun c => !c.isDraw) = [] := by
  unfold refresh
  simp only
  split_ifs
  · exact ⟨rfl, rfl, rfl, [], by simp, rfl, rfl⟩
  · cases hc : m.current with
    | none => exact ⟨rfl, rfl, rfl, [], by simp, rfl, rfl⟩
    | some c => exact ⟨rfl, rfl, rfl, [.draw c], rfl, rfl, rfl⟩

/-- The first `update()` after `begin()`, with no current screen, a screen
registered, and no router or a first router that leaves `Init` unanswered:
the current screen becomes the one registered as `initialScreen`, and
stays absent if `initialScreen` is empty. -/
theorem init_update (m : EventScreenManager) (t : Nat)
    (hs : m.screens ≠ []) (hc : m.current = none)
    (hr : ∀ r, m.routers.head? = some r → r.resolveScreen "" { type := .Init } = "") :
    (m.initialScreen = "" → (m.begin.update t).current = none)
    ∧ (m.initialScreen ≠ "" → (m.begin.update t).current = m.screens.lookup m.initialScreen) := by
  have he : m.screens.isEmpty = false := by
    cases h : m.screens with
    | nil => exact absurd h hs
    | cons a l => rfl
  have hcon : (consult m.begin { type := .Init }).1 = m.initialScreen := by
    simp only [consult, begin, he, Bool.false_eq_true, if_false, if_true]
    cases hrs : m.routers with
    | nil => simp
    | cons r rs =>
      have := hr r (by rw [hrs]; rfl)
      simp only [List.isEmpty_cons, Bool.false_eq_true, if_false, askRouters, currentId, hc,
        this, ne_eq, not_true_eq_false, if_true]
  have hid : resolvedId m.begin { type := .Init } = m.initialScreen := by
    simp only [resolvedId, hcon, ne_eq, not_true_eq_false, and_false, if_false]
  have hu : (m.begin.update t).current
      = (switchTo { m.begin with calls := m.begin.calls ++ (consult m.begin { type := .Init }).2 }
          m.initialScreen).current := by
    rw [update, (refresh_frame _ t).1]
    have hb : m.begin.pendingIntent = { type := .Init } := rfl
    have hty : ({ type := .Init } : TransitionIntent).type ≠ .None := by decide
    simp only [hb, hty, ne_eq, not_false_eq_true, if_true, resolveTransition]
    have : m.begin.screens.isEmpty = false := he
    simp only [this, Bool.false_eq_true, if_false, hid]
  rw [hu]
  refine ⟨fun h0 => ?_, fun h0 => ?_⟩
  · simp only [switchTo, h0, if_true]; exact hc
  · simp only [switchTo, h0, if_false, begin]
    cases hl : m.screens.lookup m.initialScreen with
    | none => exact hc
    | some n => simp only [hc]

/-- Claim C28, amended.  A sequence of successful additions that begins
with a `registerScreen` on a new manager: after `begin()` and one
`update()`, with no router or a first router that leaves `Init` unanswered,
the current screen is the one then registered under the id of that first
registration; it is the first screen added unless a later `overwriteScreen`
used the same id. -/
theorem initial_screen_register_first (rs : List IScreenRouter) (screen : IManagedScreen)
    (id : String) (rest : List Addition) (t : Nat)
    (hr : ∀ r, rs.head? = some r → r.resolveScreen "" { type := .Init } = "")
    (hok : (addAll { routers := rs } (.registerScreen screen id :: rest)).2 = true) :
    (((addAll { routers := rs } (.registerScreen screen id :: rest)).1.begin.update t).current
      = (addAll { routers := rs } (.registerScreen screen id :: rest)).1.screens.lookup
          (Addition.registerScreen screen id).key)
    ∧ ((∀ a ∈ rest, ∀ s i, a = .overwriteScreen s i →
          a.key ≠ (Addition.registerScreen screen id).key) →
        ((addAll { routers := rs } (.registerScreen screen id :: rest)).1.begin.update t).current
          = some screen.addr) := by
  have hkey : (Addition.registerScreen screen id).key ≠ "" := by
    intro h0
    simp only [Addition.key] at h0
    simp [addAll, add, registerScreen, h0] at hok
  generalize hk : (Addition.registerScreen screen id).key = k at hkey ⊢
  simp only [Addition.key] at hk
  have h1 : (({ routers := rs } : EventScreenManager).add (.registerScreen screen id)).1.screens
      = [(k, screen.addr)] := by
    simp only [add, registerScreen, hk, if_neg hkey]
    simp
  have h2 : (({ routers := rs } : EventScreenManager).add (.registerScreen screen id)).1.initialScreen
      = k := by
    simp only [add, registerScreen, hk, if_neg hkey]
    simp
  obtain ⟨f1, f2, f3⟩ := addAll_frame rest
    (({ routers := rs } : EventScreenManager).add (.registerScreen screen id)).1
  obtain ⟨g1, g2, g3⟩ := add_frame ({ routers := rs } : EventScreenManager)
    (.registerScreen screen id)
  obtain ⟨r1, r2, _, r4⟩ := addAll_rooted rest
    (({ routers := rs } : EventScreenManager).add (.registerScreen screen id)).1 k screen.addr
    (by rw [h1]; simp) (by rw [h1]; simp)
  have hinit := init_update
    (addAll { routers := rs } (.registerScreen screen id :: rest)).1 t
    (by simpa only [addAll] using r1)
    (by simp only [addAll]; rw [f2, g2])
    (by simp only [addAll]; rw [f1, g1]; exact hr)
  have hi : (addAll { routers := rs } (.registerScreen screen id :: rest)).1.initialScreen = k := by
    simp only [addAll]; rw [r2, h2]
  have hcur := hinit.2 (by rw [hi]; exact hkey)
  rw [hi] at hcur
  refine ⟨hcur, fun hno => ?_⟩
  rw [hcur]
  simpa only [addAll] using r4 hno

end EventScreenManager

/-- The screens `home` and `menu` registered in this order on a new manager:
after `begin()` and `update()` the current screen is `home`; and with
`menu` stored over `home` by `overwriteScreen`, the current screen is the
one found under the id `home`; by `initial_screen_register_first`. -/
theorem initial_screen_register_first_witness :
    (EventScreenManager.addAll {} exRegisterTwo).2 = true
    ∧ ((EventScreenManager.addAll {} exRegisterTwo).1.begin.update 0).current
        = some exHome.addr
    ∧ ((EventScreenManager.addAll {} exRegisterOverwrite).1.begin.update 0).current
        = (EventScreenManager.addAll {} exRegisterOverwrite).1.screens.lookup "home" :=
  ⟨by decide,
   (EventScreenManager.initial_screen_register_first [] exHome "" [.registerScreen exMenu ""] 0
      (fun r h => by simp at h) (by decide)).2 (fun a ha s i h => by
        simp only [List.mem_singleton] at ha
        rw [ha] at h
        cases h),
   (EventScreenManager.initial_screen_register_first [] exHome "" [.overwriteScreen exMenu "home"]
      0 (fun r h => by simp at h) (by decide)).1⟩

/-- Claim C28, the counterexamples.  The screens `home` and `menu` added
with `overwriteScreen` to a new manager: both additions succeed, and after
`begin()` and `update()` no screen is current.  The screen `home`
registered and then `menu` stored under the id `home` with
`overwriteScreen`: both additions succeed, and the current screen is
`menu`, not `home`, the first screen added. -/
theorem initial_screen_not_first_added :
    (EventScreenManager.addAll {} exOverwriteOnly).2 = true
    ∧ (EventScreenManager.addAll {} exOverwriteOnly).1.screens = [("home", 1), ("menu", 2)]
    ∧ ((EventScreenManager.addAll {} exOverwriteOnly).1.begin.update 0).current = none
    ∧ (EventScreenManager.addAll {} exRegisterOverwrite).2 = true
    ∧ (EventScreenManager.addAll {} exRegisterOverwrite).1.screens = [("home", 2)]
    ∧ ((EventScreenManager.addAll {} exRegisterOverwrite).1.begin.update 0).current
        = some exMenu.addr
    ∧ exHome.addr ≠ exMenu.addr := by
  decide

/-- When the first successful addition to a new manager is an
`overwriteScreen`, `initialScreen` stays empty whatever is added
afterwards, and after `begin()` and one `update()`, with no router or a
first router that leaves `Init` unanswered, there is no current screen. -/
theorem initial_screen_overwrite_first (rs : List IScreenRouter) (screen : IManagedScreen)
    (id : String) (rest : List EventScreenManager.Addition) (t : Nat)
    (hr : ∀ r, rs.head? = some r → r.resolveScreen "" { type := .Init } = "")
    (hok : (EventScreenManager.addAll { routers := rs }
      (.overwriteScreen screen id :: rest)).2 = true) :
    (EventScreenManager.addAll { routers := rs } (.overwriteScreen screen id :: rest)).1.screens ≠ []
    ∧ ((EventScreenManager.addAll { routers := rs }
        (.overwriteScreen screen id :: rest)).1.begin.update t).current = none := by
  have hkey : (if id = "" then screen.name else id) ≠ "" := by
    intro h0
    simp [EventScreenManager.addAll, EventScreenManager.add,
      EventScreenManager.overwriteScreen, h0] at hok
  have h1 : (({ routers := rs } : EventScreenManager).add (.overwriteScreen screen id)).1.screens
      = [(if id = "" then screen.name else id, screen.addr)] := by
    simp only [EventScreenManager.add, EventScreenManager.overwriteScreen, if_neg hkey]
    simp [EventScreenManager.mapSet]
  have h2 : (({ routers := rs } : EventScreenManager).add
      (.overwriteScreen screen id)).1.initialScreen = "" := by
    simp only [EventScreenManager.add, EventScreenManager.overwriteScreen, if_neg hkey]
  obtain ⟨f1, f2, f3⟩ := EventScreenManager.addAll_frame rest
    (({ routers := rs } : EventScreenManager).add (.overwriteScreen screen id)).1
  obtain ⟨g1, g2, g3⟩ := EventScreenManager.add_frame ({ routers := rs } : EventScreenManager)
    (.overwriteScreen screen id)
  obtain ⟨r1, r2, _, _⟩ := EventScreenManager.addAll_rooted rest
    (({ routers := rs } : EventScreenManager).add (.overwriteScreen screen id)).1
    (if id = "" then screen.name else id) screen.addr
    (by rw [h1]; simp) (by rw [h1]; simp)
  have hinit := EventScreenManager.init_update
    (EventScreenManager.addAll { routers := rs } (.overwriteScreen screen id :: rest)).1 t
    (by simpa only [EventScreenManager.addAll] using r1)
    (by simp only [EventScreenManager.addAll]; rw [f2, g2])
    (by simp only [EventScreenManager.addAll]; rw [f1, g1]; exact hr)
  refine ⟨by simpa only [EventScreenManager.addAll] using r1, hinit.1 ?_⟩
  simp only [EventScreenManager.addAll]
  rw [r2, h2]

/-- The screens `home` and `menu` added with `overwriteScreen` to a new
manager: after `begin()` and `update()` no screen is current, by
`initial_screen_overwrite_first`. -/
theorem initial_screen_overwrite_first_witness :
    (EventScreenManager.addAll {} exOverwriteOnly).1.screens = [("home", 1), ("menu", 2)]
    ∧ ((EventScreenManager.addAll {} exOverwriteOnly).1.begin.update 0).current = none :=
  ⟨by decide,
   (initial_screen_overwrite_first [] exHome "" [.overwriteScreen exMenu ""] 0
      (fun r h => by simp at h) (by decide)).2⟩

/-! ## The effect of a screen transition -/

namespace EventScreenManager

/-- The calls of `resolveScreen` are neither `end()` nor `start()`. -/
theorem consult_calls_filter (m : EventScreenManager) (intent : TransitionIntent) :
    (consult m intent).2.filter ScreenCall.isEndOrStart = [] := by
  rw [consult_calls]
  generalize m.routers.take _ = rs
  induction rs with
  | nil => rfl
  | cons r rs ih => simp [callOf, ScreenCall.isEndOrStart]

/-- The transition to a registered screen that is not the current one. -/
theorem resolveTransition_switch (m : EventScreenManager) (intent : TransitionIntent)
    (next : Nat) (hid : resolvedId m intent ≠ "")
    (hl : m.screens.lookup (resolvedId m intent) = some next) (hc : m.current ≠ some next) :
    resolveTransition m intent =
      { m with
          previous := if m.current = none then m.previous else m.current
          current := some next
          calls := m.calls ++ (consult m intent).2
            ++ (m.current.toList.map ScreenCall.end_ ++ [.start next]) } := by
  have hne : m.screens ≠ [] := by
    intro h; rw [h] at hl; simp at hl
  have he : m.screens.isEmpty = false := by
    cases h : m.screens with
    | nil => exact absurd h hne
    | cons a l => rfl
  simp only [resolveTransition, he, Bool.false_eq_true, if_false, switchTo, if_neg hid, hl]
  cases hcur : m.current with
  | none => simp
  | some c =>
    have hcn : next ≠ c := by
      intro h; apply hc; rw [hcur, h]
    simp [hcn]

/-- No transition: the intent resolves to nothing, to an id that is not
registered, or to the current screen. -/
theorem resolveTransition_stay (m : EventScreenManager) (intent : TransitionIntent)
    (h : resolvedId m intent = "" ∨ m.screens.lookup (resolvedId m intent) = none
          ∨ m.screens.lookup (resolvedId m intent) = m.current) :
    resolveTransition m intent =
      { m with calls := m.calls ++ (if m.screens.isEmpty then [] else (consult m intent).2) } := by
  by_cases he : m.screens.isEmpty = true
  · simp only [resolveTransition, he, if_true, List.append_nil]
  · have he' : m.screens.isEmpty = false := by simpa using he
    simp only [resolveTransition, he', Bool.false_eq_true, if_false, switchTo]
    by_cases hid : resolvedId m intent = ""
    · simp only [if_pos hid]
    · simp only [if_neg hid]
      cases hl : m.screens.lookup (resolvedId m intent) with
      | none => rfl
      | some n =>
        have hc : m.current = some n := by
          rcases h with h | h | h
          · exact absurd h hid
          · rw [hl] at h; simp at h
          · rw [hl] at h; exact h.symm
        simp only [hc, if_true]

/-- The outcome of `resolveTransition`, case by case. -/
theorem resolveTransition_effect (m : EventScreenManager) (intent : TransitionIntent) :
    (∀ next, resolvedId m intent ≠ "" → m.screens.lookup (resolvedId m intent) = some next →
        m.current ≠ some next →
        (resolveTransition m intent).current = some next
        ∧ (resolveTransition m intent).previous
            = (if m.current = none then m.previous else m.current)
        ∧ (resolveTransition m intent).calls
            = m.calls ++ (consult m intent).2
                ++ (m.current.toList.map ScreenCall.end_ ++ [.start next]))
    ∧ ((resolvedId m intent = "" ∨ m.screens.lookup (resolvedId m intent) = none
          ∨ m.screens.lookup (resolvedId m intent) = m.current) →
        (resolveTransition m intent).current = m.current
        ∧ (resolveTransition m intent).previous = m.previous
        ∧ ∃ cs, (resolveTransition m intent).calls = m.calls ++ cs
            ∧ cs.filter ScreenCall.isEndOrStart = []) := by
  refine ⟨fun next hid hl hc => ?_, fun h => ?_⟩
  · rw [resolveTransition_switch m intent next hid hl hc]
    exact ⟨rfl, rfl, rfl⟩
  · rw [resolveTransition_stay m intent h]
    refine ⟨rfl, rfl, _, rfl, ?_⟩
    split_ifs
    · rfl
    · exact consult_calls_filter m intent

/-- With an intent pending, `update()` is `resolveTransition`, the reset of
the pending intent and the refresh. -/
theorem update_pending (m : EventScreenManager) (t : Nat)
    (hp : m.pendingIntent.type ≠ .None) :
    (m.update t).current = (resolveTransition m m.pendingIntent).current
    ∧ (m.update t).previous = (resolveTransition m m.pendingIntent).previous
    ∧ (m.update t).pendingIntent = {}
    ∧ ∃ d, (m.update t).calls = (resolveTransition m m.pendingIntent).calls ++ d
        ∧ d.filter ScreenCall.isEndOrStart = []
        ∧ d.filter (fun c => !c.isDraw) = [] := by
  have hu : m.update t
      = refresh { resolveTransition m m.pendingIntent with pendingIntent := {} } t := by
    simp only [update, hp, ne_eq, not_false_eq_true, if_true]
  rw [hu]
  exact refresh_frame _ t

/-- Without a pending intent `update()` is the refresh. -/
theorem update_idle (m : EventScreenManager) (t : Nat)
    (hp : m.pendingIntent.type = .None) : m.update t = m.refresh t := by
  simp only [update, hp, ne_eq, not_true_eq_false, if_false]

/-- Registering screens, adding routers, requesting a screen and `update()`
never leave a previous screen without a current one. -/
theorem update_inv (m : EventScreenManager) (t : Nat) (h : m.Inv) : (m.update t).Inv := by
  have key : ∀ intent, (resolveTransition m intent).Inv := by
    intro intent
    unfold Inv resolveTransition switchTo
    split_ifs
    · exact h
    · exact h
    · cases m.screens.lookup (resolvedId m intent) with
      | none => exact h
      | some n =>
        cases hc : m.current with
        | none => simp
        | some c =>
          simp only
          split_ifs
          · simp [hc]
          · simp
  by_cases hp : m.pendingIntent.type = .None
  · rw [update_idle m t hp]
    unfold Inv
    rw [(refresh_frame _ t).1, (refresh_frame _ t).2.1]
    exact h
  · obtain ⟨f1, f2, _⟩ := update_pending m t hp
    unfold Inv
    rw [f1, f2]
    exact key _

/-- A new manager has neither a current nor a previous screen. -/
theorem inv_new : ({} : EventScreenManager).Inv := fun _ => rfl

end EventScreenManager

/-- Claim C29. Let an intent be pending (its type is not `None`) on a
manager that has no previous screen without a current one. When the intent
resolves to a registered screen other than the current one, `update()`
calls `end()` on the current screen, if there is one, and then `start()` on
the next, and no other `end()` or `start()`; the previous screen becomes
the old current one and the current screen the next one. When it resolves
to the current screen, to an id that is not registered, or to nothing,
current and previous are unchanged and neither `end()` nor `start()` is
called. In every case the pending intent is cleared, and a second
`update()` changes neither screen and makes no call other than `draw()`. -/
theorem screen_transition_effect (m : EventScreenManager) (t : Nat)
    (hp : m.pendingIntent.type ≠ .None) (hinv : m.Inv) :
    (∀ next, m.resolvedId m.pendingIntent ≠ "" →
        m.screens.lookup (m.resolvedId m.pendingIntent) = some next →
        m.current ≠ some next →
        (m.update t).current = some next ∧ (m.update t).previous = m.current
        ∧ (EventScreenManager.newCalls m (m.update t)).filter ScreenCall.isEndOrStart
            = m.current.toList.map ScreenCall.end_ ++ [.start next])
    ∧ ((m.resolvedId m.pendingIntent = ""
          ∨ m.screens.lookup (m.resolvedId m.pendingIntent) = none
          ∨ m.screens.lookup (m.resolvedId m.pendingIntent) = m.current) →
        (m.update t).current = m.current ∧ (m.update t).previous = m.previous
        ∧ (EventScreenManager.newCalls m (m.update t)).filter ScreenCall.isEndOrStart = [])
    ∧ (m.update t).pendingIntent = {}
    ∧ ∀ t2, ((m.update t).update t2).current = (m.update t).current
        ∧ ((m.update t).update t2).previous = (m.update t).previous
        ∧ (EventScreenManager.newCalls (m.update t) ((m.update t).update t2)).filter
            (fun c => !c.isDraw) = [] := by
  obtain ⟨f1, f2, hpend, d, f4, f5, _⟩ := EventScreenManager.update_pending m t hp
  obtain ⟨e1, e2⟩ := EventScreenManager.resolveTransition_effect m m.pendingIntent
  refine ⟨fun next hid hl hc => ?_, fun h => ?_, hpend, fun t2 => ?_⟩
  · obtain ⟨a1, a2, a3⟩ := e1 next hid hl hc
    refine ⟨f1.trans a1, ?_, ?_⟩
    · rw [f2, a2]
      split_ifs with hn
      · rw [hn]; exact hinv hn
      · rfl
    · unfold EventScreenManager.newCalls
      rw [f4, a3]
      simp only [List.append_assoc, List.drop_left, List.filter_append, f5, List.append_nil,
        EventScreenManager.consult_calls_filter, List.nil_append]
      cases m.current with
      | none => rfl
      | some c => rfl
  · obtain ⟨a1, a2, cs, a3, a4⟩ := e2 h
    refine ⟨f1.trans a1, f2.trans a2, ?_⟩
    unfold EventScreenManager.newCalls
    rw [f4, a3]
    simp only [List.append_assoc, List.drop_left, List.filter_append, f5, a4, List.append_nil]
  · have hn : (m.update t).pendingIntent.type = .None := by rw [hpend]
    rw [EventScreenManager.update_idle (m.update t) t2 hn]
    obtain ⟨g1, g2, _, d2, g4, _, g6⟩ := EventScreenManager.refresh_frame (m.update t) t2
    refine ⟨g1, g2, ?_⟩
    unfold EventScreenManager.newCalls
    rw [g4]
    simp only [List.drop_left, g6]

/-- The manager `exMenuPending` shows `home` (screen 1) and has a request
for `menu` pending, which the routers send to `login` (screen 3):
`update()` calls `end()` on 1, then `start()` on 3; by
`screen_transition_effect`. -/
theorem screen_transition_effect_witness :
    exMenuPending.current = some 1
    ∧ (exMenuPending.update 50).current = some 3
    ∧ (exMenuPending.update 50).previous = some 1
    ∧ (EventScreenManager.newCalls exMenuPending (exMenuPending.update 50)).filter
        ScreenCall.isEndOrStart = [.end_ 1, .start 3]
    ∧ (exMenuPending.update 50).pendingIntent = {} := by
  have h := screen_transition_effect exMenuPending 50 (by decide)
    (fun hc => absurd hc (by decide))
  obtain ⟨a1, a2, a3⟩ := h.1 3 (by decide) (by decide) (by decide)
  exact ⟨by decide, a1, by rw [a2]; decide, by rw [a3]; decide, h.2.2.1⟩

/-! ## The drag view of a tick -/

theorem updateLongPress_view (a : EventTouchScreen) (now : Nat) :
    dragView (updateLongPress a now).st = dragView a
    ∧ (((updateLongPress a now).events = [] ∧ (updateLongPress a now).seen = [])
      ∨ ∃ x, (updateLongPress a now).events = [.LONG_PRESS]
          ∧ (updateLongPress a now).seen = [x] ∧ dragView x = dragView a) := by
  by_cases h1 : currentDuration a now > longPressThreshold a
  · rw [updateLongPress_late a now h1]
    split_ifs
    · exact ⟨rfl, Or.inr ⟨_, rfl, rfl, rfl⟩⟩
    · exact ⟨rfl, Or.inl ⟨rfl, rfl⟩⟩
  · rw [updateLongPress_early a now h1]
    exact ⟨rfl, Or.inl ⟨rfl, rfl⟩⟩

theorem updateClicks_view (a : EventTouchScreen) (now : Nat) :
    dragView (updateClicks a now).st = dragView a
    ∧ (((updateClicks a now).events = [] ∧ (updateClicks a now).seen = [])
      ∨ ∃ e x, (updateClicks a now).events = [e] ∧ e.isDragNeutral = true
          ∧ (updateClicks a now).seen = [x] ∧ dragView x = dragView a) := by
  by_cases h : a.clickFired = false ∧ a.touched = false
      ∧ currentDuration a now > a.multiClickInterval
  · by_cases hl : a.prevDuration > a.longClickDuration ∨ a.longPressCounter > 0
    · rw [updateClicks_long a now h hl]
      exact ⟨rfl, Or.inr ⟨_, _, rfl, rfl, rfl, rfl⟩⟩
    · rw [updateClicks_short a now h hl]
      refine ⟨rfl, Or.inr ⟨_, _, rfl, ?_, rfl, rfl⟩⟩
      unfold classify
      split_ifs <;> rfl
  · have : updateClicks a now = { st := a } := by
      simp only [updateClicks, if_neg h]
    rw [this]
    exact ⟨rfl, Or.inl ⟨rfl, rfl⟩⟩

/-- The time gate of `haveDragged` when it returns true. -/
theorem haveDragged_gate (a : EventTouchScreen) (now : Nat) (h : (haveDragged a now).2 = true) :
    (if a.dragging then a.dragIntervalMs else a.dragThresholdMs) < sub32 now a.lastDragMs := by
  by_cases hg : dragTimeGate a now = true
  · simpa [dragTimeGate] using hg
  · simp [haveDragged, hg] at h

/-- The drag and long-press evaluation, in terms of the drag view. -/
theorem updateHeld_view (a : EventTouchScreen) (now : Nat) :
    ((((updateHeld a now).events = [] ∧ (updateHeld a now).seen = [])
        ∨ ∃ x, (updateHeld a now).events = [.LONG_PRESS]
            ∧ (updateHeld a now).seen = [x] ∧ dragView x = dragView a)
      ∧ dragView (updateHeld a now).st = dragView a)
    ∨ (a.touched = true ∧ a.touchPoint.z ≠ 0 ∧ a.dragEnabled = true
      ∧ (if a.dragging then a.dragIntervalMs else a.dragThresholdMs) < sub32 now a.lastDragMs
      ∧ (updateHeld a now).events = [.DRAGGED]
      ∧ (updateHeld a now).seen = [{ a with dragging := true, lastDragMs := now }]
      ∧ dragView (updateHeld a now).st
          = { dragView a with dragging := true, lastDragMs := now,
                              previousTouchPoint := a.touchPoint }) := by
  by_cases h : a.touched = true ∧ a.touchPoint.z ≠ 0
  · rw [updateHeld_touched a now h.1 h.2]
    rcases updateDrag_cases a now with hd | ⟨he, hr, hd⟩
    · left
      rw [hd]
      obtain ⟨l1, l2⟩ := updateLongPress_view a now
      simp only [List.nil_append]
      exact ⟨l2, l1⟩
    · right
      rw [hd]
      have hl := updateLongPress_dragEnabled
        { a with dragging := true, lastDragMs := now, previousTouchPoint := a.touchPoint } now he
      refine ⟨h.1, h.2, he, haveDragged_gate a now hr, ?_, ?_, ?_⟩
      · simp only [hl]; rfl
      · simp only [hl]; rfl
      · simp only [hl]
        split_ifs <;> rfl
  · left
    have : updateHeld a now = { st := a } := by
      simp only [updateHeld, if_neg h]
    rw [this]
    exact ⟨Or.inl ⟨rfl, rfl⟩, rfl⟩


/-- The drag and long-press evaluation followed by click finalization. -/
theorem heldClicks_dragStep (a : EventTouchScreen) (now : Nat) :
    DragStepOn (dragView a) now
      ((updateHeld a now).events ++ (updateClicks (updateHeld a now).st now).events)
      ((updateHeld a now).seen ++ (updateClicks (updateHeld a now).st now).seen)
      (updateClicks (updateHeld a now).st now).st := by
  by_cases ht : a.touched = true
  · have hc : ∀ b : EventTouchScreen, (dragView b).touched = true →
        updateClicks b now = { st := b } :=
      fun b hb => updateClicks_none b now (Or.inl hb)
    rcases updateHeld_view a now with ⟨hev, hst⟩ | ⟨h1, h2, h3, h4, h5, h6, h7⟩
    · have hb := hc (updateHeld a now).st (by rw [hst]; exact ht)
      left
      rw [hb]
      simp only [List.append_nil]
      refine ⟨?_, hst⟩
      rcases hev with h | ⟨x, hx1, hx2, hx3⟩
      · exact Or.inl h
      · exact Or.inr ⟨_, x, hx1, rfl, hx2, hx3⟩
    · have hb := hc (updateHeld a now).st (by rw [h7]; exact ht)
      right; right; right
      rw [hb]
      simp only [List.append_nil]
      exact ⟨h5, h1, h2, h3, h4, ⟨_, h6, rfl⟩, h7⟩
  · have ht' : a.touched = false := by simpa using ht
    rw [updateHeld_untouched a now ht']
    simp only [List.nil_append]
    obtain ⟨c1, c2⟩ := updateClicks_view a now
    left
    refine ⟨?_, c1⟩
    rcases c2 with h | ⟨e, x, hx1, hx2, hx3, hx4⟩
    · exact Or.inl h
    · exact Or.inr ⟨e, x, hx1, hx2, hx3, hx4⟩

/-- The three stages of a tick with a stable sample, from the engine `a`
that holds the sample. -/
theorem edgeHeldClicks_dragStep (a : EventTouchScreen) (now : Nat) :
    DragStepOn (dragView a) now
      ((updateEdge a now).events ++ (updateHeld (updateEdge a now).st now).events
        ++ (updateClicks (updateHeld (updateEdge a now).st now).st now).events)
      ((updateEdge a now).seen ++ (updateHeld (updateEdge a now).st now).seen
        ++ (updateClicks (updateHeld (updateEdge a now).st now).st now).seen)
      (updateClicks (updateHeld (updateEdge a now).st now).st now).st := by
  by_cases ht : a.touched = true
  · by_cases hz : a.touchPoint.z = 0
    · -- a release
      by_cases hd : a.dragging = true
      · have he := updateEdge_dragRelease a now ht hz hd
        rw [he]
        simp only [invoke]
        rw [updateHeld_untouched _ now rfl, updateClicks_at_change _ now rfl]
        right; right; left
        refine ⟨Or.inr rfl, rfl, ht, rfl⟩
      · have hd' : a.dragging = false := by simpa using hd
        have he := updateEdge_release a now ht hz hd'
        rw [he]
        simp only [invoke]
        rw [updateHeld_untouched _ now rfl, updateClicks_at_change _ now rfl]
        right; right; left
        refine ⟨Or.inl rfl, rfl, ht, ?_⟩
        simp only [dragView, hd']
    · -- held
      have he := updateEdge_touched a now ht hz
      rw [he]
      simp only [List.nil_append]
      exact heldClicks_dragStep { a with lastTouchedPoint := a.touchPoint } now
  · have ht' : a.touched = false := by simpa using ht
    by_cases hz : a.touchPoint.z = 0
    · have he := updateEdge_untouched a now ht' hz
      rw [he]
      simp only [List.nil_append]
      exact heldClicks_dragStep a now
    · -- a press
      have he := updateEdge_press a now ht' hz
      rw [he]
      simp only [invoke]
      rw [updateHeld_at_press _ now rfl rfl, updateClicks_none _ now (Or.inl rfl)]
      right; left
      exact ⟨rfl, rfl, ht', hz, rfl⟩

/-- What a call of `update()` does to the drag view of the engine. -/
theorem update_dragStep (s : EventTouchScreen) (now : Nat) (tp : TouchPoint_s) :
    DragStepOn (sampledView s tp (update s now tp).stable) now
      (update s now tp).events (update s now tp).seen (update s now tp).st
    ∧ ((update s now tp).events = [.PRESSED] → (update s now tp).stable = true) := by
  by_cases hp : processed s now = true
  · rw [update_processed s now tp hp]
    by_cases hs : (debounced { s with rateLimitCounter := now } now tp).stable = true
    · rw [updateTick_stable s now tp hs]
      exact ⟨edgeHeldClicks_dragStep (afterStable s now tp) now, fun _ => rfl⟩
    · have hs' : (debounced { s with rateLimitCounter := now } now tp).stable = false := by
        simpa using hs
      rw [updateTick_unstable s now tp hs']
      have hv : dragView (afterUnstable s now tp) = sampledView s tp false := by
        rw [afterUnstable_eq s now tp hs']
        rfl
      have h := heldClicks_dragStep (afterUnstable s now tp) now
      rw [hv] at h
      refine ⟨h, fun hev => ?_⟩
      exfalso
      have hm : InputEventType.PRESSED ∈ (updateHeld (afterUnstable s now tp) now).events
          ++ (updateClicks (updateHeld (afterUnstable s now tp) now).st now).events := by
        simp only at hev
        rw [hev]
        exact List.mem_singleton_self _
      rw [List.mem_append] at hm
      rcases hm with hm | hm
      · rcases updateHeld_events (afterUnstable s now tp) now with h | h | h <;>
          rw [h] at hm <;> simp at hm
      · rcases updateClicks_events (updateHeld (afterUnstable s now tp) now).st now
          with h | ⟨e, h, hc, _⟩
        · rw [h] at hm; simp at hm
        · rw [h] at hm
          simp only [List.mem_singleton] at hm
          rw [← hm] at hc
          cases hc
  · have hp' : processed s now = false := by simpa using hp
    rw [update_not_processed s now tp hp']
    exact ⟨Or.inl ⟨Or.inl ⟨rfl, rfl⟩, rfl⟩, fun h => by cases h⟩

/-! ## Drag timing -/

theorem dragTimingEvent_neutral (en : Bool) (thr ivl : Nat) (g : DragClock) (now : Nat)
    (e : InputEventType) (x : EventTouchScreen) (h : e.isDragNeutral = true) :
    dragTimingEvent en thr ivl g now e x = (!g.dragged || isDragging x, g) := by
  cases e <;> first | rfl | cases h

/-- One call of `update()` read by the observer of the drag timing. -/
theorem dragTiming_step (en : Bool) (thr ivl : Nat) (g : DragClock) (s : EventTouchScreen)
    (now : Nat) (tp : TouchPoint_s) (h : g.Agrees en thr ivl (dragView s)) :
    (dragTimingEvents en thr ivl g now
        ((update s now tp).events.zip (update s now tp).seen)).1 = true
    ∧ (!(dragTimingEvents en thr ivl g now
          ((update s now tp).events.zip (update s now tp).seen)).2.dragged
        || isDragging (update s now tp).st) = true
    ∧ (dragTimingEvents en thr ivl g now
        ((update s now tp).events.zip (update s now tp).seen)).2.Agrees en thr ivl
        (dragView (update s now tp).st) := by
  obtain ⟨h1, h2, h3, h4, h5⟩ := h
  have hview : ∀ st : EventTouchScreen, isDragging st = (dragView st).dragging := fun _ => rfl
  rcases (update_dragStep s now tp).1 with ⟨hev, hst⟩ | ⟨hev, hseen, ht, hz, hst⟩
      | ⟨hev, hseen, ht, hst⟩ | ⟨hev, ht, hz, hen, hgate, ⟨x, hseen, hx⟩, hst⟩
  · -- nothing that concerns a drag
    have hA : g.Agrees en thr ivl (dragView (update s now tp).st) := by
      rw [hst]; exact ⟨h1, h2, h3, h4, h5⟩
    have hD : (!g.dragged || isDragging (update s now tp).st) = true := by
      rw [hview, hst]
      show (!g.dragged || s.dragging) = true
      cases hts : s.touched with
      | true => rw [(h4 hts).2]; show (!s.dragging || s.dragging) = true; cases s.dragging <;> rfl
      | false => rw [(h5 hts).2]; rfl
    rcases hev with ⟨he, hs⟩ | ⟨e, x, he, hn, hs, hx⟩
    · rw [he, hs]
      exact ⟨rfl, hD, hA⟩
    · rw [he, hs]
      simp only [List.zip_cons_cons, List.zip_nil_right, dragTimingEvents,
        dragTimingEvent_neutral en thr ivl g now e x hn, Bool.and_true]
      refine ⟨?_, hD, hA⟩
      rw [hview, hx]
      rw [hview, hst] at hD
      exact hD
  · -- a press
    rw [hev, hseen]
    simp only [List.zip_cons_cons, List.zip_nil_right, dragTimingEvents, dragTimingEvent,
      Bool.and_true, Bool.not_false, Bool.true_or, true_and]
    rw [hst]
    refine ⟨h1, h2, h3, fun _ => ⟨rfl, ?_⟩, fun hc => (by cases hc)⟩
    exact ((h5 ht).1).symm
  · -- a release
    have hq : dragTimingEvents en thr ivl g now
        ((update s now tp).events.zip (update s now tp).seen) = (true, {}) := by
      rcases hev with hev | hev <;> rw [hev, hseen] <;> rfl
    rw [hq, hst]
    exact ⟨rfl, rfl, h1, h2, h3, (fun hc => by cases hc), fun _ => ⟨rfl, rfl⟩⟩
  · -- DRAGGED
    have ht' : s.touched = true := ht
    obtain ⟨g1, g2⟩ := h4 ht'
    rw [hev, hseen]
    simp only [List.zip_cons_cons, List.zip_nil_right, dragTimingEvents, dragTimingEvent,
      Bool.and_true, Bool.not_true, Bool.false_or]
    rw [hview, hview, hx, hst, g1]
    refine ⟨?_, rfl, h1, h2, h3, fun _ => ⟨rfl, rfl⟩, fun hc => ?_⟩
    · have hen' : en = true := by rw [← h1]; exact hen
      have hg : (if g.dragged = true then ivl else thr) < sub32 now s.lastDragMs := by
        rw [g2, ← h2, ← h3]; exact hgate
      simp only [hen', Bool.true_and, decide_eq_true_eq]
      exact hg
    · have hc' : s.touched = false := hc
      rw [ht'] at hc'; cases hc'

/-- Every trace passes the observer of the drag timing. -/
theorem dragTiming_run (en : Bool) (thr ivl : Nat) (tr : List Tick) (g : DragClock)
    (s : EventTouchScreen) (h : g.Agrees en thr ivl (dragView s)) :
    dragTiming en thr ivl g (runResults s tr) = true := by
  induction tr generalizing g s with
  | nil => rfl
  | cons k ks ih =>
    obtain ⟨a, b, c⟩ := dragTiming_step en thr ivl g s k.now k.tp h
    simp only [runResults, dragTiming, a, b, Bool.true_and]
    exact ih _ _ c

/-- DRAGGED is emitted only with dragging enabled. -/
theorem update_dragged_enabled (s : EventTouchScreen) (now : Nat) (tp : TouchPoint_s)
    (h : InputEventType.DRAGGED ∈ (update s now tp).events) : s.dragEnabled = true := by
  rcases (update_dragStep s now tp).1 with ⟨hev, _⟩ | ⟨hev, _⟩ | ⟨hev, _⟩ | ⟨_, _, _, hen, _⟩
  · rcases hev with ⟨he, _⟩ | ⟨e, x, he, hn, _⟩
    · rw [he] at h; cases h
    · rw [he] at h
      simp only [List.mem_singleton] at h
      rw [← h] at hn; cases hn
  · rw [hev] at h; simp at h
  · rcases hev with hev | hev <;> rw [hev] at h <;> simp at h
  · exact hen

/-- No trace of an engine with dragging disabled emits DRAGGED. -/
theorem runEvents_no_dragged (tr : List Tick) (s : EventTouchScreen)
    (h : s.dragEnabled = false) : InputEventType.DRAGGED ∉ runEvents s tr := by
  induction tr generalizing s with
  | nil => simp [runEvents]
  | cons k ks ih =>
    simp only [runEvents, List.mem_append, not_or]
    refine ⟨fun hm => ?_, ih _ ?_⟩
    · rw [update_dragged_enabled s k.now k.tp hm] at h; cases h
    · have := congrArg Config.dragEnabled (update_config s k.now k.tp)
      exact this.trans h

/-- Claim C22. An engine that is untouched with no drag engaged, as it is
constructed, is driven by any trace of calls of `update()`. If dragging is
not enabled, DRAGGED is never emitted. The trace passes the observer
`dragTiming`: every DRAGGED is emitted with dragging enabled; the first
DRAGGED after an accepted press comes more than `dragThresholdMs` after the
press, every later one of the same press more than `dragIntervalMs` after
the DRAGGED before it (elapsed time on the 32-bit clock); and
`isDragging()` is true at the first DRAGGED and at every invocation and
after every call of `update()` from then until the release is accepted. -/
theorem drag_timing (s : EventTouchScreen) (tr : List Tick)
    (ht : s.touched = false) (hd : s.dragging = false) :
    (s.dragEnabled = false → InputEventType.DRAGGED ∉ runEvents s tr)
    ∧ dragTiming s.dragEnabled s.dragThresholdMs s.dragIntervalMs {} (runResults s tr) = true :=
  ⟨runEvents_no_dragged tr s,
   dragTiming_run _ _ _ tr {} s
    ⟨rfl, rfl, rfl,
      (fun h => by rw [show (dragView s).touched = s.touched from rfl, ht] at h; cases h),
      fun _ => ⟨hd, rfl⟩⟩⟩

/-- The trace `slowDrag` on a fresh engine with dragging enabled: the press
is accepted at 30 ms, DRAGGED is emitted at 240 ms, 345 ms, 450 ms and
555 ms; it passes the observer by `drag_timing`. -/
theorem drag_timing_witness :
    runTimed exDragEnabled slowDrag
      = [(30, .PRESSED), (240, .DRAGGED), (345, .DRAGGED), (450, .DRAGGED), (555, .DRAGGED)]
    ∧ dragTiming true 200 100 {} (runResults exDragEnabled slowDrag) = true :=
  ⟨by decide, (drag_timing exDragEnabled slowDrag rfl rfl).2⟩

/-! ## The points of a drag -/

theorem dragDeltaEvent_other (g : DragPoints) (e : InputEventType) (x : EventTouchScreen)
    (h1 : e ≠ .PRESSED) (h2 : e ≠ .DRAGGED) :
    dragDeltaEvent g e x = (decide (g.start = none ∨ g.start = some (getStartTouchPoint x)), g) := by
  cases e <;> first | rfl | exact absurd rfl h1 | exact absurd rfl h2

theorem getTouchPoint_touched (x : EventTouchScreen) (h : x.touchPoint.z ≠ 0) :
    (getTouchPoint x).2 = x.touchPoint := by
  simp [getTouchPoint, h]

/-- One call of `update()` read by the observer of the drag points. -/
theorem dragDeltas_step (g : DragPoints) (s : EventTouchScreen) (now : Nat) (tp : TouchPoint_s)
    (h : g.Agrees (dragView s)) :
    (dragDeltaEvents
        (if (update s now tp).stable then { g with current := some tp } else g)
        ((update s now tp).events.zip (update s now tp).seen)).1 = true
    ∧ (InputEventType.DRAGGED ∈ (update s now tp).events →
        getPreviousTouchPoint (update s now tp).st = (getTouchPoint (update s now tp).st).2)
    ∧ (dragDeltaEvents
        (if (update s now tp).stable then { g with current := some tp } else g)
        ((update s now tp).events.zip (update s now tp).seen)).2.Agrees
        (dragView (update s now tp).st) := by
  obtain ⟨hs1, hs2⟩ := h
  obtain ⟨hstep, hpress⟩ := update_dragStep s now tp
  -- the observer once the sample of the tick is taken
  have hcur : (sampledView s tp (update s now tp).stable).touched = true →
      (if (update s now tp).stable then { g with current := some tp } else g).current
        = some (sampledView s tp (update s now tp).stable).touchPoint := by
    intro ht
    cases hst : (update s now tp).stable with
    | true => rfl
    | false => exact (hs2 ht).2.2
  have hstart : (if (update s now tp).stable then { g with current := some tp } else g).start
      = g.start := by
    split_ifs <;> rfl
  have hprev : (if (update s now tp).stable then { g with current := some tp } else g).previous
      = g.previous := by
    split_ifs <;> rfl
  have hcurS : (update s now tp).stable = true →
      (if (update s now tp).stable then { g with current := some tp } else g).current
        = some (sampledView s tp (update s now tp).stable).touchPoint := by
    intro hst
    rw [hst]
    rfl
  generalize (if (update s now tp).stable then { g with current := some tp } else g) = g1
    at hcur hcurS hstart hprev ⊢
  have hsv : ∀ p, g1.start = some p →
      (sampledView s tp (update s now tp).stable).startTouchPoint = p := by
    intro p hp; rw [hstart] at hp; exact hs1 p hp
  have hchk : ∀ x : EventTouchScreen,
      (dragView x).startTouchPoint = (sampledView s tp (update s now tp).stable).startTouchPoint →
      decide (g1.start = none ∨ g1.start = some (getStartTouchPoint x)) = true := by
    intro x hx
    rw [decide_eq_true_eq]
    cases hg : g1.start with
    | none => exact Or.inl rfl
    | some p =>
      right
      rw [← hsv p hg, ← hx]
      rfl
  rcases hstep with ⟨hev, hst⟩ | ⟨hev, hseen, ht, hz, hst⟩
      | ⟨hev, hseen, ht, hst⟩ | ⟨hev, ht, hz, hen, hgate, ⟨x, hseen, hx⟩, hst⟩
  · -- nothing that concerns a drag
    have hA : g1.Agrees (dragView (update s now tp).st) := by
      rw [hst]
      refine ⟨hsv, fun ht => ⟨?_, ?_, hcur ht⟩⟩
      · rw [hstart]; exact (hs2 ht).1
      · rw [hprev]; exact (hs2 ht).2.1
    rcases hev with ⟨he, hs⟩ | ⟨e, x, he, hn, hs, hx⟩
    · rw [he, hs]
      exact ⟨rfl, (fun hm => by cases hm), hA⟩
    · rw [he, hs]
      have hne1 : e ≠ .PRESSED := by intro h; rw [h] at hn; cases hn
      have hne2 : e ≠ .DRAGGED := by intro h; rw [h] at hn; cases hn
      simp only [List.zip_cons_cons, List.zip_nil_right, dragDeltaEvents,
        dragDeltaEvent_other g1 e x hne1 hne2, Bool.and_true]
      refine ⟨hchk x (by rw [hx]), fun hm => ?_, hA⟩
      simp only [List.mem_singleton] at hm
      exact absurd hm.symm hne2
  · -- a press
    have hstable := hpress hev
    have hz' : (update s now tp).st.touchPoint.z ≠ 0 := by
      have : (dragView (update s now tp).st).touchPoint.z ≠ 0 := by rw [hst]; exact hz
      exact this
    have htp : (update s now tp).st.touchPoint
        = (sampledView s tp (update s now tp).stable).touchPoint := by
      have : (dragView (update s now tp).st).touchPoint
          = (sampledView s tp (update s now tp).stable).touchPoint := by rw [hst]
      exact this
    have hsp : (update s now tp).st.startTouchPoint
        = (sampledView s tp (update s now tp).stable).touchPoint := by
      have : (dragView (update s now tp).st).startTouchPoint
          = (sampledView s tp (update s now tp).stable).touchPoint := by rw [hst]
      exact this
    have hpp : (update s now tp).st.previousTouchPoint
        = (sampledView s tp (update s now tp).stable).touchPoint := by
      have : (dragView (update s now tp).st).previousTouchPoint
          = (sampledView s tp (update s now tp).stable).touchPoint := by rw [hst]
      exact this
    have hc1 : g1.current = some (update s now tp).st.touchPoint := by
      rw [htp]; exact hcurS hstable
    have hgt := getTouchPoint_touched (update s now tp).st hz'
    rw [hev, hseen]
    simp only [List.zip_cons_cons, List.zip_nil_right, dragDeltaEvents, dragDeltaEvent,
      Bool.and_true, hgt, getStartTouchPoint, hc1, hsp, htp, decide_True, true_and]
    refine ⟨fun hm => by simp at hm, ?_⟩
    rw [hst]
    refine ⟨fun p hp => ?_, fun _ => ⟨rfl, rfl, ?_⟩⟩
    · simp only [Option.some.injEq] at hp
      exact hp
    · rfl
  · -- a release
    have hne : ∀ e, (update s now tp).events = [e] →
        (e = .RELEASED ∨ e = .DRAGGED_RELEASED) := by
      intro e he
      rcases hev with h | h <;> rw [h] at he <;> simp only [List.cons.injEq, and_true] at he
      · exact Or.inl he.symm
      · exact Or.inr he.symm
    have hA : g1.Agrees (dragView (update s now tp).st) := by
      rw [hst]
      exact ⟨hsv, fun hc => by cases hc⟩
    have hck := hchk (update s now tp).st (by rw [hst])
    rcases hev with hev | hev <;> rw [hev, hseen] <;>
      simp only [List.zip_cons_cons, List.zip_nil_right, dragDeltaEvents, dragDeltaEvent,
        Bool.and_true, hck, true_and] <;>
      exact ⟨fun hm => by simp at hm, hA⟩
  · -- DRAGGED
    obtain ⟨a1, a2, a3⟩ := hs2 ht
    have hxz : x.touchPoint.z ≠ 0 := by
      have : (dragView x).touchPoint.z ≠ 0 := by rw [hx]; exact hz
      exact this
    have hxt : x.touchPoint = (sampledView s tp (update s now tp).stable).touchPoint := by
      have : (dragView x).touchPoint
          = (sampledView s tp (update s now tp).stable).touchPoint := by rw [hx]
      exact this
    have hxp : x.previousTouchPoint
        = (sampledView s tp (update s now tp).stable).previousTouchPoint := by
      have : (dragView x).previousTouchPoint
          = (sampledView s tp (update s now tp).stable).previousTouchPoint := by rw [hx]
      exact this
    have hxs : x.startTouchPoint
        = (sampledView s tp (update s now tp).stable).startTouchPoint := by
      have : (dragView x).startTouchPoint
          = (sampledView s tp (update s now tp).stable).startTouchPoint := by rw [hx]
      exact this
    have hsz : (update s now tp).st.touchPoint.z ≠ 0 := by
      have : (dragView (update s now tp).st).touchPoint.z ≠ 0 := by rw [hst]; exact hz
      exact this
    have hstp : (update s now tp).st.touchPoint
        = (sampledView s tp (update s now tp).stable).touchPoint := by
      have : (dragView (update s now tp).st).touchPoint
          = (sampledView s tp (update s now tp).stable).touchPoint := by rw [hst]
      exact this
    have hspp : (update s now tp).st.previousTouchPoint
        = (sampledView s tp (update s now tp).stable).touchPoint := by
      have : (dragView (update s now tp).st).previousTouchPoint
          = (sampledView s tp (update s now tp).stable).touchPoint := by rw [hst]
      exact this
    have e1 : g1.previous = some x.previousTouchPoint := by
      rw [hprev, hxp]; exact a2
    have e2 : g1.current = some x.touchPoint := by
      rw [hxt]; exact hcur ht
    have e3 : g1.start = some x.startTouchPoint := by
      rw [hstart, hxs]; exact a1
    rw [hev, hseen]
    simp only [List.zip_cons_cons, List.zip_nil_right, dragDeltaEvents, dragDeltaEvent,
      Bool.and_true, getTouchPoint_touched x hxz, getStartTouchPoint, getPreviousTouchPoint,
      e1, e2, e3, decide_True, true_and]
    refine ⟨fun _ => ?_, ?_⟩
    · rw [getTouchPoint_touched _ hsz, hspp, hstp]
    · rw [hst]
      refine ⟨fun p hp => ?_, fun _ => ⟨?_, ?_, ?_⟩⟩
      · exact hsv p (by rw [e3]; exact hp)
      · show some x.startTouchPoint = _
        rw [hxs]
      · show some x.touchPoint = _
        rw [hxt]
      · show some x.touchPoint = _
        rw [hxt]

/-- Every trace passes the observer of the drag points. -/
theorem dragDeltas_run (tr : List Tick) (g : DragPoints) (s : EventTouchScreen)
    (h : g.Agrees (dragView s)) : dragDeltas g (runResults s tr) = true := by
  induction tr generalizing g s with
  | nil => rfl
  | cons k ks ih =>
    obtain ⟨a, b, c⟩ := dragDeltas_step g s k.now k.tp h
    have hstart : decide ((dragDeltaEvents
          (if (update s k.now k.tp).stable then { g with current := some k.tp } else g)
          ((update s k.now k.tp).events.zip (update s k.now k.tp).seen)).2.start = none
        ∨ (dragDeltaEvents
          (if (update s k.now k.tp).stable then { g with current := some k.tp } else g)
          ((update s k.now k.tp).events.zip (update s k.now k.tp).seen)).2.start
            = some (getStartTouchPoint (update s k.now k.tp).st)) = true := by
      rw [decide_eq_true_eq]
      cases hg : (dragDeltaEvents
          (if (update s k.now k.tp).stable then { g with current := some k.tp } else g)
          ((update s k.now k.tp).events.zip (update s k.now k.tp).seen)).2.start with
      | none => exact Or.inl rfl
      | some p => right; rw [← c.1 p hg]; rfl
    simp only [runResults, dragDeltas, a, hstart, decide_eq_true b, Bool.true_and]
    exact ih _ _ c

/-- Claim C21. An untouched engine, as it is constructed, is driven by any
trace of calls of `update()`. The trace passes the observer `dragDeltas`:
whenever the subscriber is invoked with DRAGGED, `getPreviousTouchPoint()`
is what `getTouchPoint()` returned at the DRAGGED before it of the same
press, or the start point if there was none, and `getTouchPoint()` is the
last sample that `debounced()` accepted; after a call of `update()` that
emitted DRAGGED, `getPreviousTouchPoint()` equals `getTouchPoint()`; and
from the accepted press on, at every invocation and after every call,
`getStartTouchPoint()` is the point of that press. -/
theorem drag_delta (s : EventTouchScreen) (tr : List Tick) (ht : s.touched = false) :
    dragDeltas {} (runResults s tr) = true :=
  dragDeltas_run tr {} s
    ⟨(fun p hp => by cases hp),
     (fun h => by rw [show (dragView s).touched = s.touched from rfl, ht] at h; cases h)⟩

/-- The trace `slowDrag` on a fresh engine with dragging enabled: at the
four DRAGGED events the previous point is (0, 0), (40, 0), (40, 0),
(80, 30) and the current point (40, 0), (40, 0), (80, 30), (80, 30); the
start point is (0, 0) throughout; it passes the observer by `drag_delta`. -/
theorem drag_delta_witness :
    (runInvoked exDragEnabled slowDrag).map
        (fun x => (x.1, getStartTouchPoint x.2, getPreviousTouchPoint x.2, (getTouchPoint x.2).2))
      = [(.PRESSED, ⟨0, 0, 1⟩, ⟨0, 0, 1⟩, ⟨0, 0, 1⟩),
         (.DRAGGED, ⟨0, 0, 1⟩, ⟨0, 0, 1⟩, ⟨40, 0, 1⟩),
         (.DRAGGED, ⟨0, 0, 1⟩, ⟨40, 0, 1⟩, ⟨40, 0, 1⟩),
         (.DRAGGED, ⟨0, 0, 1⟩, ⟨40, 0, 1⟩, ⟨80, 30, 1⟩),
         (.DRAGGED, ⟨0, 0, 1⟩, ⟨80, 30, 1⟩, ⟨80, 30, 1⟩)]
    ∧ dragDeltas {} (runResults exDragEnabled slowDrag) = true :=
  ⟨by decide, drag_delta exDragEnabled slowDrag rfl⟩

/-! ## Reachable states of the screen manager -/

/-- No call leaves a previous screen without a current one. -/
theorem EventScreenManager.call_inv (m n : EventScreenManager) (c : ManagerCall)
    (h : m.Inv) (hc : m.call c = some n) : n.Inv := by
  cases c with
  | begin => cases hc; exact h
  | update millis => cases hc; exact EventScreenManager.update_inv m millis h
  | registerScreen screen id =>
    cases hc
    have f := EventScreenManager.add_frame m (.registerScreen screen id)
    intro hn
    have e : (m.registerScreen screen id).1 = (m.add (.registerScreen screen id)).1 := rfl
    rw [e] at hn ⊢
    rw [f.2.1] at hn
    rw [f.2.2]
    exact h hn
  | overwriteScreen screen id =>
    cases hc
    have f := EventScreenManager.add_frame m (.overwriteScreen screen id)
    intro hn
    have e : (m.overwriteScreen screen id).1 = (m.add (.overwriteScreen screen id)).1 := rfl
    rw [e] at hn ⊢
    rw [f.2.1] at hn
    rw [f.2.2]
    exact h hn
  | addRouter router => cases hc; exact h
  | requestScreen intent => cases hc; exact h
  | setFps fps =>
    simp only [EventScreenManager.call, EventScreenManager.setFps] at hc
    cases hq : idiv 1000 fps with
    | none => rw [hq] at hc; cases hc
    | some q => rw [hq] at hc; cases hc; exact h

/-- Every manager reached from a new one by calls of its public functions
has no previous screen without a current one. -/
theorem EventScreenManager.run_inv (calls : List ManagerCall) (m n : EventScreenManager)
    (h : m.Inv) (hr : m.run calls = some n) : n.Inv := by
  induction calls generalizing m with
  | nil => cases hr; exact h
  | cons c rest ih =>
    simp only [EventScreenManager.run] at hr
    cases hc : m.call c with
    | none => rw [hc] at hr; cases hr
    | some k =>
      rw [hc] at hr
      exact ih k (EventScreenManager.call_inv m k c h hc) hr

/-! ## The observers reject what they should -/

/-- The observer of the drag timing rejects a first DRAGGED that comes
exactly `dragThresholdMs` after the press, a DRAGGED without a press, and a
DRAGGED with dragging not enabled. -/
theorem dragTimingEvent_rejects :
    (dragTimingEvent true 200 100 { last := some 30, dragged := false } 230 .DRAGGED
      exDragging).1 = false
    ∧ (dragTimingEvent true 200 100 {} 500 .DRAGGED exDragging).1 = false
    ∧ (dragTimingEvent false 200 100 { last := some 30, dragged := false } 500 .DRAGGED
      exDragging).1 = false
    ∧ (dragTimingEvent true 200 100 { last := some 30, dragged := false } 231 .DRAGGED
      exDragging).1 = true := by
  decide

/-- The observer of the drag points rejects a DRAGGED whose previous point
is not the one kept. -/
theorem dragDeltaEvent_rejects :
    (dragDeltaEvent exKept .DRAGGED exDragging).1 = false := by
  decide

/-! ## Region: intersection -/

/-- The inclusive test of `intersects`, without wrap-around: the two
column ranges meet and the two row ranges meet. -/
theorem Region.intersects_iff (a b : Region) (ha : a.Fits) (hb : b.Fits) :
    a.intersects b true = true ↔
      (a.x ≤ b.x + b.w - 1 ∧ b.x ≤ a.x + a.w - 1
        ∧ a.y ≤ b.y + b.h - 1 ∧ b.y ≤ a.y + a.h - 1) := by
  obtain ⟨a1, a2, a3, a4⟩ := ha
  obtain ⟨b1, b2, b3, b4⟩ := hb
  simp only [Region.intersects, if_true, Region.r_eq a a1 a3, Region.b_eq a a2 a4,
    Region.r_eq b b1 b3, Region.b_eq b b2 b4, Bool.not_eq_true', Bool.or_eq_false_iff,
    decide_eq_false_iff_not, not_lt, gt_iff_lt, and_assoc]

/-- Claim C35. For two regions with `w, h >= 1`, `x + w <= 65536` and
`y + h <= 65536`: `a.intersects(b, true)` is true exactly when some pixel is
contained in both; so it is symmetric, reflexive, and implied by
`a.contains(b)`. -/
theorem region_intersects (a b : Region) (ha : a.Fits) (hb : b.Fits) :
    (a.intersects b true = true ↔
      ∃ px py, a.contains px py = true ∧ b.contains px py = true)
    ∧ a.intersects b true = b.intersects a true
    ∧ a.intersects a true = true
    ∧ (a.containsRegion b = true → a.intersects b true = true) := by
  have hab := Region.intersects_iff a b ha hb
  have hba := Region.intersects_iff b a hb ha
  have haa := Region.intersects_iff a a ha ha
  have ca := fun px py => Region.contains_iff a px py ha.1 ha.2.1 ha.2.2.1 ha.2.2.2
  have cb := fun px py => Region.contains_iff b px py hb.1 hb.2.1 hb.2.2.1 hb.2.2.2
  obtain ⟨a1, a2, a3, a4⟩ := ha
  obtain ⟨b1, b2, b3, b4⟩ := hb
  refine ⟨?_, ?_, ?_, ?_⟩
  · rw [hab]
    constructor
    · rintro ⟨h1, h2, h3, h4⟩
      refine ⟨max a.x b.x, max a.y b.y, (ca _ _).2 ?_, (cb _ _).2 ?_⟩
      · refine ⟨le_max_left _ _, ?_, le_max_left _ _, ?_⟩
        · exact max_le (by omega) h2
        · exact max_le (by omega) h4
      · refine ⟨le_max_right _ _, ?_, le_max_right _ _, ?_⟩
        · exact max_le h1 (by omega)
        · exact max_le h3 (by omega)
    · rintro ⟨px, py, hpa, hpb⟩
      have := (ca px py).1 hpa
      have := (cb px py).1 hpb
      omega
  · rw [Bool.eq_iff_iff, hab, hba]
    omega
  · rw [haa]
    omega
  · intro hc
    simp only [Region.containsRegion, Bool.and_eq_true] at hc
    have h1 := (ca _ _).1 hc.1
    have h2 := (ca _ _).1 hc.2
    rw [Region.r_eq b b1 b3, Region.b_eq b b2 b4] at h2
    rw [hab]
    omega

/-- The regions `exRegion` (100 by 50 at (10, 20)) and a region of 30 by 30
at (100, 60) share the pixel (105, 65), by `region_intersects`. -/
theorem region_intersects_witness :
    exRegion.intersects (Region.make 100 60 30 30) true = true
    ∧ (Region.make 100 60 30 30).intersects exRegion true = true
    ∧ exRegion.intersects (Region.make 110 60 30 30) true = false := by
  have h := region_intersects exRegion (Region.make 100 60 30 30) (by decide) (by decide)
  refine ⟨h.1.2 ⟨105, 65, by decide, by decide⟩, ?_, by decide⟩
  rw [← h.2.1]
  exact h.1.2 ⟨105, 65, by decide, by decide⟩


/-! ## WidgetRowContainer -/

/-- The divisions of a row position have a result. -/
theorem WidgetRowContainer.slot_isSome (maxWidgets : Nat) (c : WidgetRowContainer)
    (position : Nat) : ∃ S, c.slot maxWidgets position = some S := by
  have hd : (if u8 maxWidgets = 0 then 1 else u8 maxWidgets) ≠ 0 := by split_ifs <;> omega
  simp [WidgetRowContainer.slot, Region.xDiv, Region.wDiv, idiv, hd]

/-- The overload of `setWidgetRegion` that takes the widget: the widget
gets the region computed for the position, except that `setW` and `setH`
ignore a value of 0; no other widget changes. -/
theorem WidgetRowContainer.setWidgetRegionPtr_slot (maxWidgets : Nat) (c : WidgetRowContainer)
    (regions : Nat → Region) (widget position : Nat) (hw : widget ≠ 0)
    (hp : position < maxWidgets) :
    ∃ S, c.slot maxWidgets position = some S
      ∧ c.setWidgetRegionPtr maxWidgets regions widget position
        = some (Function.update regions widget
            { x := S.x, y := S.y,
              w := if S.w = 0 then (regions widget).w else S.w,
              h := if S.h = 0 then (regions widget).h else S.h }) := by
  have hd : (if u8 maxWidgets = 0 then 1 else u8 maxWidgets) ≠ 0 := by split_ifs <;> omega
  have hp' : ¬ position ≥ maxWidgets := by omega
  have hwd : c.region.wDiv (u8 maxWidgets)
      = some (u16 (c.region.w / (if u8 maxWidgets = 0 then 1 else u8 maxWidgets))) := by
    simp only [Region.wDiv, idiv, if_neg hd, Option.map_some']
  have hx : c.region.xDiv (u8 maxWidgets) position
      = some (u16 (c.region.x
          + position * u16 (c.region.w / (if u8 maxWidgets = 0 then 1 else u8 maxWidgets)))) := by
    simp only [Region.xDiv, hwd, Option.map_some']
  generalize u16 (c.region.w / (if u8 maxWidgets = 0 then 1 else u8 maxWidgets)) = W at hwd hx
  generalize u16 (c.region.x + position * W) = X at hx
  by_cases hl : c.widenLast = true ∧ position = maxWidgets - 1
  · refine ⟨{ x := X, y := c.region.y, w := u16 (c.region.r + 65536 + 1 - X), h := c.region.h },
      ?_, ?_⟩
    · simp only [WidgetRowContainer.slot, hx, hwd, Option.some_bind, Option.map_some', if_pos hl]
    · simp only [WidgetRowContainer.setWidgetRegionPtr, if_neg hw, if_neg hp', hx, hwd,
        Option.some_bind, Option.map_some', if_pos hl, Region.setX, Region.setY, Region.setW,
        Region.setH]
      congr 2
      split_ifs <;> rfl
  · refine ⟨{ x := X, y := c.region.y, w := W, h := c.region.h }, ?_, ?_⟩
    · simp only [WidgetRowContainer.slot, hx, hwd, Option.some_bind, Option.map_some', if_neg hl]
    · simp only [WidgetRowContainer.setWidgetRegionPtr, if_neg hw, if_neg hp', hx, hwd,
        Option.some_bind, Option.map_some', if_neg hl, Region.setX, Region.setY, Region.setW,
        Region.setH]
      congr 2
      split_ifs <;> rfl

/-- Claim C31 fails on the code. For `index < size()` and
`position < maxWidgets`, `setWidgetRegion(index, position)` tests the cell
numbered `position`, not the cell numbered `index`, for `nullptr`: if the
cell `position` holds `nullptr` the call changes nothing, although a widget
is stored at `index`; if it holds a widget, the call is that of the
overload taking `widgets[index]`, which gives the widget at `index` the
region computed for the position (`setW` and `setH` ignoring a 0). -/
theorem setWidgetRegion_tests_position_cell (maxWidgets : Nat) (c : WidgetRowContainer)
    (regions : Nat → Region) (index position : Nat)
    (hi : index < c.base.size) (hw : c.base.widgets.getD index 0 ≠ 0)
    (hp : position < maxWidgets) :
    (c.base.widgets.getD position 0 = 0 →
      c.setWidgetRegion maxWidgets regions index position = some regions)
    ∧ (c.base.widgets.getD position 0 ≠ 0 →
      ∃ S, c.slot maxWidgets position = some S
        ∧ c.setWidgetRegion maxWidgets regions index position
          = some (Function.update regions (c.base.widgets.getD index 0)
              { x := S.x, y := S.y,
                w := if S.w = 0 then (regions (c.base.widgets.getD index 0)).w else S.w,
                h := if S.h = 0 then (regions (c.base.widgets.getD index 0)).h else S.h })) := by
  have hi' : ¬ index ≥ c.base.count := by
    simp only [WidgetContainer.size] at hi; omega
  have hp' : ¬ position ≥ maxWidgets := by omega
  refine ⟨fun h0 => ?_, fun h1 => ?_⟩
  · simp only [WidgetRowContainer.setWidgetRegion, if_neg hi', if_neg hp', h0, if_true]
  · obtain ⟨S, hS, hr⟩ := WidgetRowContainer.setWidgetRegionPtr_slot maxWidgets c regions
      (c.base.widgets.getD index 0) position hw hp
    refine ⟨S, hS, ?_⟩
    simp only [WidgetRowContainer.setWidgetRegion, if_neg hi', if_neg hp', if_neg h1]
    exact hr

/-- The row `exRow` holds the widget 11 at index 0 and `nullptr` in the
cell 2. `setWidgetRegion(0, 2)` should move the widget 11 to the position
2, the region 100 by 40 at (200, 100); by `setWidgetRegion_tests_position_cell`
it leaves the regions as they are, and the widget 11 stays at (0, 100). -/
theorem setWidgetRegion_tests_position_cell_witness :
    exRow.base.size = 2 ∧ exRow.base.widgets = [11, 12, 0]
    ∧ exRow.slot 3 2 = some { x := 200, y := 100, w := 100, h := 40 }
    ∧ exRow.setWidgetRegion 3 exRowRegions 0 2 = some exRowRegions
    ∧ exRowRegions 11 = { x := 0, y := 100, w := 100, h := 40 } :=
  ⟨by decide, by decide, by decide,
   (setWidgetRegion_tests_position_cell 3 exRow exRowRegions 0 2 (by decide) (by decide)
      (by decide)).1 (by decide),
   by decide⟩

/-- With a widget in the cell 1, `setWidgetRegion(0, 1)` does move the
widget 11 to the position 1. -/
theorem setWidgetRegion_moves :
    (exRow.setWidgetRegion 3 exRowRegions 0 1).map (fun g => g 11)
      = some { x := 100, y := 100, w := 100, h := 40 } := by
  decide

/-! ## BaseTouchKeypadWidget -/

/-- The loops of `draw` and `onTouchEvent` pass on, and change, only what
the body does: if the body leaves `keyRemoved` alone and passes no removed
key, so does the run, however far it gets. -/
theorem gridLoop_passed {ρ : Type} (NumRows NumCols : Nat)
    (body : Nat → Nat → BaseTouchKeypadWidget →
      BaseTouchKeypadWidget × Option (Nat × Nat) × Option ρ)
    (done : BaseTouchKeypadWidget → BaseTouchKeypadWidget × ρ)
    (removed : Nat → Nat → Bool)
    (hb : ∀ r c k, k.keyRemoved = removed →
      (body r c k).1.keyRemoved = removed
      ∧ ∀ p, (body r c k).2.1 = some p → removed p.1 p.2 = false)
    (hd : ∀ k, k.keyRemoved = removed → (done k).1.keyRemoved = removed)
    (fuel : Nat) :
    ∀ (r c : Nat) (s : KeypadRun ρ), s.keypad.keyRemoved = removed →
      (∀ p ∈ s.passed, removed p.1 p.2 = false) →
      (gridLoop NumRows NumCols body done fuel r c s).keypad.keyRemoved = removed
      ∧ ∀ p ∈ (gridLoop NumRows NumCols body done fuel r c s).passed,
          removed p.1 p.2 = false := by
  induction fuel with
  | zero => intro r c s h1 h2; exact ⟨h1, h2⟩
  | succ fuel ih =>
    intro r c s h1 h2
    simp only [gridLoop]
    by_cases hr : r < NumRows
    · rw [if_pos hr]
      by_cases hc : c < NumCols
      · rw [if_pos hc]
        obtain ⟨b1, b2⟩ := hb r c s.keypad h1
        have hp : ∀ p ∈ s.passed ++ (body r c s.keypad).2.1.toList,
            removed p.1 p.2 = false := by
          intro p hp
          rw [List.mem_append] at hp
          rcases hp with hp | hp
          · exact h2 p hp
          · exact b2 p (by simpa [Option.mem_toList] using hp)
        split_ifs
        · exact ⟨b1, hp⟩
        · exact ih _ _ _ b1 hp
      · rw [if_neg hc]
        exact ih _ _ _ h1 h2
    · rw [if_neg hr]
      exact ⟨hd _ h1, h2⟩

namespace BaseTouchKeypadWidget

/-- The body of `draw` leaves `keyRemoved` alone and passes no removed key
to `drawKey`. -/
theorem drawBody_removed (r c : Nat) (k : BaseTouchKeypadWidget) :
    (drawBody r c k).1.keyRemoved = k.keyRemoved
    ∧ ∀ p, (drawBody r c k).2.1 = some p → k.keyRemoved p.1 p.2 = false := by
  unfold drawBody
  split_ifs with h
  · refine ⟨rfl, fun p hp => ?_⟩
    cases hp
    exact h.1
  · exact ⟨rfl, fun p hp => by cases hp⟩

/-- The body of `onTouchEvent` leaves `keyRemoved` alone and passes no
removed key to `onTouchKeyEvent`. -/
theorem touchBody_removed (et : InputEventType) (start : TouchPoint_s)
    (f : Nat → Nat → InputEventType → Bool) (r c : Nat) (k : BaseTouchKeypadWidget) :
    (touchBody et start f r c k).1.keyRemoved = k.keyRemoved
    ∧ ∀ p, (touchBody et start f r c k).2.1 = some p → k.keyRemoved p.1 p.2 = false := by
  unfold touchBody
  by_cases h : k.keyRemoved r c = false
  · rw [if_pos h]
    simp only
    split_ifs <;> first
      | exact ⟨rfl, fun p hp => by cases hp; exact h⟩
      | exact ⟨rfl, fun p hp => by cases hp⟩
  · rw [if_neg h]
    exact ⟨rfl, fun p hp => by cases hp⟩

/-- However far `draw` gets, it leaves `keyRemoved` alone and passes no
removed key to `drawKey`. -/
theorem draw_removed (NumRows NumCols : Nat) (k : BaseTouchKeypadWidget) (fuel : Nat) :
    (draw NumRows NumCols k fuel).keypad.keyRemoved = k.keyRemoved
    ∧ ∀ p ∈ (draw NumRows NumCols k fuel).passed, k.keyRemoved p.1 p.2 = false :=
  gridLoop_passed NumRows NumCols drawBody _ k.keyRemoved
    (fun r c k1 h => by rw [← h]; exact drawBody_removed r c k1)
    (fun _ h => h) fuel 0 0 { keypad := k } rfl (fun p hp => by cases hp)

/-- However far `onTouchEvent` gets, it leaves `keyRemoved` alone and
passes no removed key to `onTouchKeyEvent`. -/
theorem onTouchEvent_removed (NumRows NumCols : Nat) (k : BaseTouchKeypadWidget)
    (et : InputEventType) (start : TouchPoint_s) (f : Nat → Nat → InputEventType → Bool)
    (fuel : Nat) :
    (onTouchEvent NumRows NumCols k et start f fuel).keypad.keyRemoved = k.keyRemoved
    ∧ ∀ p ∈ (onTouchEvent NumRows NumCols k et start f fuel).passed,
        k.keyRemoved p.1 p.2 = false := by
  unfold onTouchEvent
  split_ifs
  · exact ⟨rfl, fun p hp => by cases hp⟩
  · exact gridLoop_passed NumRows NumCols (touchBody et start f) _ k.keyRemoved
      (fun r c k1 h => by rw [← h]; exact touchBody_removed et start f r c k1)
      (fun _ h => h) fuel 0 0 { keypad := k } rfl (fun p hp => by cases hp)

end BaseTouchKeypadWidget


/-- With at most 255 rows and 255 columns the `uint8_t` counters reach the
bounds, and the loops of `draw` and `onTouchEvent` return: from the cell
`(r, c)` a run of more than `(NumRows - r) * (NumCols + 1) + (NumCols - c)`
steps has a result. -/
theorem gridLoop_returns {ρ : Type} (NumRows NumCols : Nat)
    (body : Nat → Nat → BaseTouchKeypadWidget →
      BaseTouchKeypadWidget × Option (Nat × Nat) × Option ρ)
    (done : BaseTouchKeypadWidget → BaseTouchKeypadWidget × ρ)
    (hR : NumRows ≤ 255) (hC : NumCols ≤ 255) (fuel : Nat) :
    ∀ (r c : Nat) (s : KeypadRun ρ), r ≤ NumRows → c ≤ NumCols →
      (NumRows - r) * (NumCols + 1) + (NumCols - c) < fuel →
      (gridLoop NumRows NumCols body done fuel r c s).result.isSome = true := by
  induction fuel with
  | zero => intro r c s _ _ h; omega
  | succ fuel ih =>
    intro r c s hr hc hf
    simp only [gridLoop]
    by_cases hr1 : r < NumRows
    · rw [if_pos hr1]
      by_cases hc1 : c < NumCols
      · rw [if_pos hc1]
        by_cases hb : (body r c s.keypad).2.2.isSome = true
        · rw [if_pos hb]
          exact hb
        · rw [if_neg hb]
          have hu : u8 (c + 1) = c + 1 := by
            unfold u8
            omega
          rw [hu]
          exact ih r (c + 1) _ hr (by omega) (by omega)
      · rw [if_neg hc1]
        have hu : u8 (r + 1) = r + 1 := by
          unfold u8
          omega
        rw [hu]
        have hm : (NumRows - r) * (NumCols + 1)
            = (NumRows - (r + 1)) * (NumCols + 1) + (NumCols + 1) := by
          have : NumRows - r = (NumRows - (r + 1)) + 1 := by omega
          rw [this, Nat.add_mul, Nat.one_mul]
        exact ih (r + 1) 0 s (by omega) (by omega) (by omega)
    · rw [if_neg hr1]
      rfl

/-- A keypad of at most 255 rows and 255 columns: `draw` and `onTouchEvent`
return after at most `NumRows * (NumCols + 1) + 1` steps of their loops. -/
theorem keypad_loops_return (NumRows NumCols : Nat) (k : BaseTouchKeypadWidget)
    (hR : NumRows ≤ 255) (hC : NumCols ≤ 255) (fuel : Nat)
    (hf : NumRows * (NumCols + 1) + NumCols < fuel) :
    (k.draw NumRows NumCols fuel).result.isSome = true
    ∧ ∀ et start f, (k.onTouchEvent NumRows NumCols et start f fuel).result.isSome = true := by
  refine ⟨?_, fun et start f => ?_⟩
  · unfold BaseTouchKeypadWidget.draw
    exact gridLoop_returns NumRows NumCols _ _ hR hC fuel 0 0 _ (by omega) (by omega)
      (by simpa using hf)
  · unfold BaseTouchKeypadWidget.onTouchEvent
    split
    · rfl
    · exact gridLoop_returns NumRows NumCols _ _ hR hC fuel 0 0 _ (by omega) (by omega)
        (by simpa using hf)

/-- Claim C32. In a keypad of `NumRows` by `NumCols` keys, for every
in-range `(row, col)`: `removeKey(row, col)` sets the removed flag of the
key; while the flag is set, `onTouchEvent` never passes the key to
`onTouchKeyEvent` and `draw` never passes it to `drawKey`, however far
their loops get, both leave the flag set, and `getKey(row, col)` returns
null. `getKey` returns non-null exactly for the in-range keys that are not
removed. `removeKey(row, col, false)` makes `getKey` return the key again.
`removeKey` with an out-of-range row or column changes nothing. -/
theorem removed_key (NumRows NumCols : Nat) (k : BaseTouchKeypadWidget) (row col : Nat)
    (hr : row < NumRows) (hc : col < NumCols) :
    (k.removeKey NumRows NumCols row col true).keyRemoved row col = true
    ∧ (∀ j : BaseTouchKeypadWidget, j.keyRemoved row col = true →
        (∀ et start f fuel,
          (row, col) ∉ (j.onTouchEvent NumRows NumCols et start f fuel).passed
          ∧ (j.onTouchEvent NumRows NumCols et start f fuel).keypad.keyRemoved row col = true)
        ∧ (∀ fuel,
          (row, col) ∉ (j.draw NumRows NumCols fuel).passed
          ∧ (j.draw NumRows NumCols fuel).keypad.keyRemoved row col = true)
        ∧ j.getKey NumRows NumCols row col = none)
    ∧ (∀ (j : BaseTouchKeypadWidget) (r c : Nat),
        (j.getKey NumRows NumCols r c).isSome = true ↔
          (r < NumRows ∧ c < NumCols ∧ j.keyRemoved r c = false))
    ∧ ((k.removeKey NumRows NumCols row col true).removeKey NumRows NumCols row col
          false).getKey NumRows NumCols row col = some (row, col)
    ∧ (∀ (r c : Nat) (b : Bool), (NumRows ≤ r ∨ NumCols ≤ c) →
        k.removeKey NumRows NumCols r c b = k) := by
  have hin : ¬ (row ≥ NumRows ∨ col ≥ NumCols) := by omega
  refine ⟨?_, fun j hj => ⟨fun et start f fuel => ?_, fun fuel => ?_, ?_⟩, fun j r c => ?_, ?_,
    fun r c b ho => ?_⟩
  · simp [BaseTouchKeypadWidget.removeKey, hin, setCell]
  · obtain ⟨h1, h2⟩ := BaseTouchKeypadWidget.onTouchEvent_removed NumRows NumCols j et start f fuel
    refine ⟨fun hm => ?_, by rw [h1]; exact hj⟩
    have := h2 _ hm
    rw [hj] at this
    cases this
  · obtain ⟨h1, h2⟩ := BaseTouchKeypadWidget.draw_removed NumRows NumCols j fuel
    refine ⟨fun hm => ?_, by rw [h1]; exact hj⟩
    have := h2 _ hm
    rw [hj] at this
    cases this
  · simp [BaseTouchKeypadWidget.getKey, hin, hj]
  · unfold BaseTouchKeypadWidget.getKey
    by_cases ho : r ≥ NumRows ∨ c ≥ NumCols
    · rw [if_pos ho]
      simp only [Option.isSome_none, Bool.false_eq_true, false_iff]
      omega
    · rw [if_neg ho]
      have h1 : r < NumRows ∧ c < NumCols := by omega
      cases hk : j.keyRemoved r c <;> simp [h1]
  · simp [BaseTouchKeypadWidget.getKey, BaseTouchKeypadWidget.removeKey, hin, setCell]
  · have ho' : r ≥ NumRows ∨ c ≥ NumCols := ho
    simp only [BaseTouchKeypadWidget.removeKey, if_pos ho']

/-- The keypad `exKeypad` of two rows and three columns with the key
(0, 1) removed: `draw` passes the five other keys to `drawKey` and returns;
a press at (150, 20), inside the removed key, is passed to no key and
`onTouchEvent` returns false; a press at (250, 20) is passed to the key
(0, 2); `getKey(0, 1)` is null; by `removed_key`. -/
theorem removed_key_witness :
    (exKeypad.draw 2 3 20).passed = [(0, 0), (0, 2), (1, 0), (1, 1), (1, 2)]
    ∧ (exKeypad.draw 2 3 20).result = some ()
    ∧ (exKeypad.onTouchEvent 2 3 .PRESSED ⟨150, 20, 1⟩ (fun _ _ _ => true) 20).passed = []
    ∧ (exKeypad.onTouchEvent 2 3 .PRESSED ⟨150, 20, 1⟩ (fun _ _ _ => true) 20).result
        = some false
    ∧ (exKeypad.onTouchEvent 2 3 .PRESSED ⟨250, 20, 1⟩ (fun _ _ _ => true) 20).passed
        = [(0, 2)]
    ∧ (0, 1) ∉ (exKeypad.draw 2 3 20).passed
    ∧ exKeypad.getKey 2 3 0 1 = none :=
  have h := (removed_key 2 3 (BaseTouchKeypadWidget.initKeys 2 3 (Region.make 0 0 300 100)) 0 1
    (by decide) (by decide)).2.1 exKeypad (by decide)
  ⟨by decide, by decide, by decide, by decide, by decide, (h.2.1 20).1, h.2.2⟩

/-- A processed tick is the edge step, the held stage on its state, and
click finalization. -/
theorem updateTick_edgeStep (s : EventTouchScreen) (now : Nat) (tp : TouchPoint_s) :
    updateTick s now tp =
      { st := (updateClicks (updateHeld (edgeStep s now tp).st now).st now).st
        events := (edgeStep s now tp).events ++ (updateHeld (edgeStep s now tp).st now).events
          ++ (updateClicks (updateHeld (edgeStep s now tp).st now).st now).events
        seen := (edgeStep s now tp).seen ++ (updateHeld (edgeStep s now tp).st now).seen
          ++ (updateClicks (updateHeld (edgeStep s now tp).st now).st now).seen
        polled := (debounced { s with rateLimitCounter := now } now tp).polled
        stable := (debounced { s with rateLimitCounter := now } now tp).stable } := rfl

/-- The edge step keeps the agreement of the touched flag with the pressure
of the working touch point. -/
theorem edgeStep_touched (s : EventTouchScreen) (now : Nat) (tp : TouchPoint_s)
    (h : s.touched = true ↔ s.touchPoint.z ≠ 0) :
    (edgeStep s now tp).st.touched = true ↔ (edgeStep s now tp).st.touchPoint.z ≠ 0 := by
  by_cases hs : (debounced { s with rateLimitCounter := now } now tp).stable = true
  · have hd := debounced_stable _ now tp hs
    have he := updateEdge_points (debounced { s with rateLimitCounter := now } now tp).st now
    simp only [edgeStep, hs, if_true]
    rw [he.1]
    exact he.2.2
  · have hs' : (debounced { s with rateLimitCounter := now } now tp).stable = false := by
      simpa using hs
    have ha := afterUnstable_points s now tp hs'
    have e : (edgeStep s now tp).st = afterUnstable s now tp := by
      simp [edgeStep, hs', afterUnstable]
    rw [e, ha.1, ha.2.2]
    exact h

/-- Claim C36. In every state reached from the constructed engine by calls
of `update()`, `getTouchPoint()`, `begin()`, the setters and `enable`, the
touched flag is set exactly when the pressure of the working touch point is
not 0.  On a tick from such a state the same holds where line 64 evaluates
its guard, so `touched && touchPoint.z != 0` is there equivalent to
`touched`; a processed tick is the edge step, the held stage and the click
finalization; and if the engine is touched at line 64 the held stage is
the drag evaluation followed by the long-press evaluation. -/
theorem touched_matches_pressure (acts : List Action) :
    ((runActions fresh acts).touched = true ↔ (runActions fresh acts).touchPoint.z ≠ 0)
    ∧ ∀ (now : Nat) (tp : TouchPoint_s),
        (((edgeStep (runActions fresh acts) now tp).st.touched = true
            ∧ (edgeStep (runActions fresh acts) now tp).st.touchPoint.z ≠ 0)
          ↔ (edgeStep (runActions fresh acts) now tp).st.touched = true)
        ∧ (processed (runActions fresh acts) now = true →
            (update (runActions fresh acts) now tp).st
                = (updateClicks (updateHeld (edgeStep (runActions fresh acts) now tp).st
                    now).st now).st
            ∧ (update (runActions fresh acts) now tp).events
                = (edgeStep (runActions fresh acts) now tp).events
                  ++ (updateHeld (edgeStep (runActions fresh acts) now tp).st now).events
                  ++ (updateClicks (updateHeld (edgeStep (runActions fresh acts) now tp).st
                        now).st now).events)
        ∧ ((edgeStep (runActions fresh acts) now tp).st.touched = true →
            updateHeld (edgeStep (runActions fresh acts) now tp).st now =
              { st := (updateLongPress
                  (updateDrag (edgeStep (runActions fresh acts) now tp).st now).st now).st
                events := (updateDrag (edgeStep (runActions fresh acts) now tp).st now).events
                  ++ (updateLongPress
                    (updateDrag (edgeStep (runActions fresh acts) now tp).st now).st now).events
                seen := (updateDrag (edgeStep (runActions fresh acts) now tp).st now).seen
                  ++ (updateLongPress
                    (updateDrag (edgeStep (runActions fresh acts) now tp).st now).st now).seen })
    := by
  have hinv := (runActions_touchInv acts fresh {} ⟨rfl, by decide⟩).touched
  refine ⟨hinv, fun now tp => ?_⟩
  have he := edgeStep_touched (runActions fresh acts) now tp hinv
  refine ⟨⟨fun h => h.1, fun h => ⟨h, he.1 h⟩⟩, fun hp => ?_, fun ht => ?_⟩
  · rw [update_processed _ now tp hp, updateTick_edgeStep]
    exact ⟨rfl, rfl⟩
  · exact updateHeld_touched _ now ht (he.1 ht)

/-- The press `exPressActions`: the engine ends touched with pressure 1; a
tick at 800 ms with the finger still down is processed, the engine is
touched at line 64, and the held stage emits LONG_PRESS. -/
theorem touched_matches_pressure_witness :
    (runActions fresh exPressActions).touched = true
    ∧ (runActions fresh exPressActions).touchPoint.z = 1
    ∧ processed (runActions fresh exPressActions) 800 = true
    ∧ (edgeStep (runActions fresh exPressActions) 800 ⟨6, 6, 1⟩).st.touched = true
    ∧ (updateHeld (edgeStep (runActions fresh exPressActions) 800 ⟨6, 6, 1⟩).st 800).events
        = [.LONG_PRESS]
    ∧ ((runActions fresh exPressActions).touched = true
        ↔ (runActions fresh exPressActions).touchPoint.z ≠ 0)
    ∧ (((edgeStep (runActions fresh exPressActions) 800 ⟨6, 6, 1⟩).st.touched = true
          ∧ (edgeStep (runActions fresh exPressActions) 800 ⟨6, 6, 1⟩).st.touchPoint.z ≠ 0)
        ↔ (edgeStep (runActions fresh exPressActions) 800 ⟨6, 6, 1⟩).st.touched = true) :=
  ⟨by decide, by decide, by decide, by decide, by decide,
    (touched_matches_pressure exPressActions).1,
    ((touched_matches_pressure exPressActions).2 800 ⟨6, 6, 1⟩).1⟩

/-! ## The hold view of a tick -/

/-- The drag and long-press evaluation followed by click finalization, with
dragging disabled and long-press repeat enabled. -/
theorem heldClicks_holdStep (a : EventTouchScreen) (now : Nat)
    (hd : a.dragEnabled = false) (hr : a.repeatLongPress = true) :
    HoldStepOn a.longClickDuration a.longPressInterval (holdView a) now
      ((updateHeld a now).events ++ (updateClicks (updateHeld a now).st now).events)
      ((updateHeld a now).seen ++ (updateClicks (updateHeld a now).st now).seen)
      (updateClicks (updateHeld a now).st now).st := by
  by_cases ht : a.touched = true
  · have hc : ∀ b : EventTouchScreen, b.touched = true → updateClicks b now = { st := b } :=
      fun b hb => updateClicks_none b now (Or.inl hb)
    by_cases hz : a.touchPoint.z = 0
    · rw [updateHeld_noSample a now hz, hc a ht]
      exact Or.inl ⟨Or.inl ⟨rfl, rfl⟩, fun _ => rfl⟩
    · rw [updateHeld_touched a now ht hz, updateDrag_disabled a now hd]
      by_cases h1 : currentDuration a now > longPressThreshold a
      · rw [updateLongPress_late a now h1, if_pos ⟨hd, Or.inl hr⟩]
        simp only [invoke, List.nil_append]
        rw [hc { a with longPressCounter := u16 (a.longPressCounter + 1) } ht]
        right; right; right
        exact ⟨rfl, rfl, ht, h1, rfl⟩
      · rw [updateLongPress_early a now h1]
        simp only [List.nil_append]
        rw [hc a ht]
        exact Or.inl ⟨Or.inl ⟨rfl, rfl⟩, fun _ => rfl⟩
  · have ht' : a.touched = false := by simpa using ht
    have hv : (holdView a).touched = true → False := by
      intro h
      rw [show (holdView a).touched = a.touched from rfl, ht'] at h
      cases h
    rw [updateHeld_untouched a now ht']
    simp only [List.nil_append]
    left
    by_cases h : a.clickFired = false ∧ a.touched = false
        ∧ currentDuration a now > a.multiClickInterval
    · by_cases hl : a.prevDuration > a.longClickDuration ∨ a.longPressCounter > 0
      · rw [updateClicks_long a now h hl]
        exact ⟨Or.inr ⟨_, _, rfl, rfl, rfl⟩, fun h => (hv h).elim⟩
      · rw [updateClicks_short a now h hl]
        refine ⟨Or.inr ⟨_, _, rfl, ?_, rfl⟩, fun h => (hv h).elim⟩
        unfold classify
        split_ifs <;> rfl
    · have : updateClicks a now = { st := a } := by
        simp only [updateClicks, if_neg h]
      rw [this]
      exact ⟨Or.inl ⟨rfl, rfl⟩, fun _ => rfl⟩

/-- The three stages of a tick with a stable sample, from the engine `a`
that holds the sample, with dragging disabled and long-press repeat
enabled. -/
theorem edgeHeldClicks_holdStep (a : EventTouchScreen) (now : Nat)
    (hd : a.dragEnabled = false) (hr : a.repeatLongPress = true) :
    HoldStepOn a.longClickDuration a.longPressInterval (holdView a) now
      ((updateEdge a now).events ++ (updateHeld (updateEdge a now).st now).events
        ++ (updateClicks (updateHeld (updateEdge a now).st now).st now).events)
      ((updateEdge a now).seen ++ (updateHeld (updateEdge a now).st now).seen
        ++ (updateClicks (updateHeld (updateEdge a now).st now).st now).seen)
      (updateClicks (updateHeld (updateEdge a now).st now).st now).st := by
  by_cases ht : a.touched = true
  · by_cases hz : a.touchPoint.z = 0
    · by_cases hdr : a.dragging = true
      · have he := updateEdge_dragRelease a now ht hz hdr
        rw [he]
        simp only [invoke]
        rw [updateHeld_untouched _ now rfl, updateClicks_at_change _ now rfl]
        right; right; left
        exact ⟨Or.inr rfl, rfl⟩
      · have hdr' : a.dragging = false := by simpa using hdr
        have he := updateEdge_release a now ht hz hdr'
        rw [he]
        simp only [invoke]
        rw [updateHeld_untouched _ now rfl, updateClicks_at_change _ now rfl]
        right; right; left
        exact ⟨Or.inl rfl, rfl⟩
    · have he := updateEdge_touched a now ht hz
      rw [he]
      simp only [List.nil_append]
      exact heldClicks_holdStep { a with lastTouchedPoint := a.touchPoint } now hd hr
  · have ht' : a.touched = false := by simpa using ht
    by_cases hz : a.touchPoint.z = 0
    · have he := updateEdge_untouched a now ht' hz
      rw [he]
      simp only [List.nil_append]
      exact heldClicks_holdStep a now hd hr
    · have he := updateEdge_press a now ht' hz
      rw [he]
      simp only [invoke]
      rw [updateHeld_at_press _ now rfl rfl, updateClicks_none _ now (Or.inl rfl)]
      right; left
      exact ⟨rfl, rfl, rfl⟩

/-- What a call of `update()` does to the hold view of an engine with
dragging disabled and long-press repeat enabled. -/
theorem update_holdStep (s : EventTouchScreen) (now : Nat) (tp : TouchPoint_s)
    (hd : s.dragEnabled = false) (hr : s.repeatLongPress = true) :
    HoldStepOn s.longClickDuration s.longPressInterval (holdView s) now
      (update s now tp).events (update s now tp).seen (update s now tp).st := by
  by_cases hp : processed s now = true
  · rw [update_processed s now tp hp]
    by_cases hs : (debounced { s with rateLimitCounter := now } now tp).stable = true
    · rw [updateTick_stable s now tp hs]
      exact edgeHeldClicks_holdStep (afterStable s now tp) now hd hr
    · have hs' : (debounced { s with rateLimitCounter := now } now tp).stable = false := by
        simpa using hs
      rw [updateTick_unstable s now tp hs']
      have e := afterUnstable_eq s now tp hs'
      have hv : holdView (afterUnstable s now tp) = holdView s := by
        rw [e]
        rfl
      have hd' : (afterUnstable s now tp).dragEnabled = false := by
        rw [e]
        exact hd
      have hr' : (afterUnstable s now tp).repeatLongPress = true := by
        rw [e]
        exact hr
      have hL : (afterUnstable s now tp).longClickDuration = s.longClickDuration := by
        rw [e]
      have hI : (afterUnstable s now tp).longPressInterval = s.longPressInterval := by
        rw [e]
      have h := heldClicks_holdStep (afterUnstable s now tp) now hd' hr'
      rw [hv, hL, hI] at h
      exact h
  · have hp' : processed s now = false := by simpa using hp
    rw [update_not_processed s now tp hp']
    exact Or.inl ⟨Or.inl ⟨rfl, rfl⟩, fun _ => rfl⟩

/-! ## Long-press repeat -/

/-- The threshold of line 72 and the duration it is compared with, without
wrap-around: if the counter is `n` as a `uint16_t` and `L + n * I` is below
65536, a duration that exceeds the threshold as computed exceeds
`L + n * I`. -/
theorem threshold_exact (L I n d : Nat) (h : u16 (L + u16 n * I) < u16 d)
    (hb : L + n * I < 65536) : L + n * I < d := by
  have hd : u16 d ≤ d := Nat.mod_le _ _
  rcases Nat.eq_zero_or_pos I with hI | hI
  · subst hI
    simp only [Nat.mul_zero, Nat.add_zero] at h hb ⊢
    unfold u16 at h hd
    omega
  · have hn : n ≤ n * I := Nat.le_mul_of_pos_right n hI
    have hn' : u16 n = n := Nat.mod_eq_of_lt (by omega)
    rw [hn'] at h
    have ht : u16 (L + n * I) = L + n * I := Nat.mod_eq_of_lt hb
    rw [ht] at h
    omega

theorem longPressEvent_classification (wrap : Bool) (L I : Nat) (g : HoldClock) (now : Nat)
    (e : InputEventType) (x : EventTouchScreen) (h : e.isClassification = true) :
    longPressEvent wrap L I g now e x = (true, g) := by
  cases e <;> first | rfl | cases h

/-- One call of `update()` read by the observer of the long-press
repeat. -/
theorem longPressTiming_step (L I : Nat) (g : HoldClock) (s : EventTouchScreen)
    (now : Nat) (tp : TouchPoint_s) (hd : s.dragEnabled = false)
    (hr : s.repeatLongPress = true) (hL : s.longClickDuration = L)
    (hI : s.longPressInterval = I) (h : g.Agrees (holdView s)) :
    (longPressEvents true L I g now
        ((update s now tp).events.zip (update s now tp).seen)).1 = true
    ∧ (update s now tp).events.count .LONG_PRESS ≤ 1
    ∧ (longPressEvents true L I g now
        ((update s now tp).events.zip (update s now tp).seen)).2.Agrees
          (holdView (update s now tp).st) := by
  have hstep := update_holdStep s now tp hd hr
  rw [hL, hI] at hstep
  generalize (update s now tp).events = ev at hstep ⊢
  generalize (update s now tp).seen = sn at hstep ⊢
  generalize (update s now tp).st = st at hstep ⊢
  rcases hstep with ⟨h1, h2⟩ | ⟨h1, h2, h3⟩ | ⟨h1, h2⟩ | ⟨h1, h2, h3, h4, h5⟩
  · have hag : g.Agrees (holdView st) := by
      intro p hp
      have hq := h p hp
      rw [h2 hq.1]
      exact hq
    rcases h1 with ⟨e1, e2⟩ | ⟨e, x, e1, e2, e3⟩
    · subst e1 e2
      exact ⟨rfl, by simp, hag⟩
    · subst e1 e3
      have hne : e ≠ .LONG_PRESS := by
        intro hc
        rw [hc] at e2
        cases e2
      simp only [List.zip_cons_cons, List.zip_nil_right, longPressEvents,
        longPressEvent_classification true L I g now e x e2, Bool.and_self]
      refine ⟨trivial, ?_, hag⟩
      rw [List.count_singleton]
      split_ifs <;> omega
  · subst h1 h2
    simp only [List.zip_cons_cons, List.zip_nil_right, longPressEvents, longPressEvent,
      Bool.and_self]
    refine ⟨trivial, by decide, ?_⟩
    intro p hp
    by_cases hc : st.longPressCounter = 0
    · rw [if_pos hc] at hp
      simp only [Option.some.injEq] at hp
      rw [if_pos hc, h3]
      refine ⟨rfl, ?_, ?_⟩
      · exact hp
      · have : (holdView st).longPressCounter = 0 := hc
        rw [h3] at this
        exact this
    · rw [if_neg hc] at hp
      cases hp
  · have hnil : ∀ e : InputEventType, (e = .RELEASED ∨ e = .DRAGGED_RELEASED) →
        longPressEvent true L I g now e st = (true, {}) := by
      intro e he
      rcases he with he | he <;> subst he <;> rfl
    have hcnt : ev.count .LONG_PRESS ≤ 1 := by
      rcases h1 with h1 | h1 <;> rw [h1] <;> decide
    have hev : ∃ e, ev = [e] ∧ (e = .RELEASED ∨ e = .DRAGGED_RELEASED) := by
      rcases h1 with h1 | h1
      · exact ⟨_, h1, Or.inl rfl⟩
      · exact ⟨_, h1, Or.inr rfl⟩
    obtain ⟨e, he1, he2⟩ := hev
    subst he1 h2
    simp only [List.zip_cons_cons, List.zip_nil_right, longPressEvents, hnil e he2,
      Bool.and_self]
    refine ⟨trivial, hcnt, ?_⟩
    intro p hp
    cases hp
  · subst h1 h2
    simp only [List.zip_cons_cons, List.zip_nil_right, longPressEvents, longPressEvent]
    cases hg : g.start with
    | none =>
      simp only [Bool.and_self]
      refine ⟨trivial, by decide, ?_⟩
      intro p hp
      rw [hg] at hp
      cases hp
    | some p =>
      obtain ⟨-, q2, q3⟩ := h p hg
      have q2' : s.lastStateChange = p := q2
      have q3' : s.longPressCounter = u16 g.fired := q3
      have h4' : u16 (L + u16 g.fired * I) < u16 (sub32 now p) := by
        have := h4
        rw [show (holdView s).longPressCounter = s.longPressCounter from rfl,
          show (holdView s).lastStateChange = s.lastStateChange from rfl, q2', q3'] at this
        exact this
      have hcount : st.longPressCounter = u16 (u16 g.fired + 1) := by
        have : (holdView st).longPressCounter = st.longPressCounter := rfl
        rw [← this, h5]
        show u16 (s.longPressCounter + 1) = _
        rw [q3']
      have hlsc : st.lastStateChange = p := by
        have : (holdView st).lastStateChange = st.lastStateChange := rfl
        rw [← this, h5]
        exact q2'
      have htch : st.touched = true := by
        have : (holdView st).touched = st.touched := rfl
        rw [← this, h5]
        exact h3
      refine ⟨?_, by decide, ?_⟩
      · simp only [Bool.and_true, Bool.and_eq_true, decide_eq_true_eq]
        refine ⟨fun hb => threshold_exact L I g.fired _ h4' hb, ?_⟩
        unfold longPressCount expectedCount
        rw [hcount, if_pos rfl]
        unfold u8 u16
        omega
      · intro p' hp'
        simp only [Option.some.injEq] at hp'
        subst hp'
        refine ⟨htch, hlsc, ?_⟩
        show st.longPressCounter = u16 (g.fired + 1)
        rw [hcount]
        unfold u16
        omega

/-- The observer of the long-press repeat accepts every trace, from every
engine with dragging disabled and long-press repeat enabled that it agrees
with. -/
theorem longPressTiming_run (L I : Nat) (tr : List Tick) :
    ∀ (g : HoldClock) (s : EventTouchScreen), s.dragEnabled = false →
      s.repeatLongPress = true → s.longClickDuration = L → s.longPressInterval = I →
      g.Agrees (holdView s) → longPressTiming true L I g (runResults s tr) = true := by
  induction tr with
  | nil => intro g s _ _ _ _ _; rfl
  | cons k ks ih =>
    intro g s hd hr hL hI h
    obtain ⟨a1, a2, a3⟩ := longPressTiming_step L I g s k.now k.tp hd hr hL hI h
    have hc := update_config s k.now k.tp
    have hd1 : (update s k.now k.tp).st.dragEnabled = false := by
      have := congrArg Config.dragEnabled hc
      exact this.trans hd
    have hr1 : (update s k.now k.tp).st.repeatLongPress = true := by
      have := congrArg Config.repeatLongPress hc
      exact this.trans hr
    have hL1 : (update s k.now k.tp).st.longClickDuration = L := by
      have := congrArg Config.longClickDuration hc
      exact this.trans hL
    have hI1 : (update s k.now k.tp).st.longPressInterval = I := by
      have := congrArg Config.longPressInterval hc
      exact this.trans hI
    simp only [runResults, longPressTiming, Bool.and_eq_true, decide_eq_true_eq]
    exact ⟨⟨a1, a2⟩, ih _ _ hd1 hr1 hL1 hI1 a3⟩

/-- Claim C33, amended. With dragging disabled and long-press repeat
enabled, over every trace from every engine state: at the `k`-th LONG_PRESS
of a press that was accepted with the long-press counter at 0, if the
threshold `longClickDuration + (k - 1) * longPressInterval` is below 65536
the press has lasted more than that many ms (on the 32-bit clock), and
`longPressCount()` returns `k` as a `uint8_t`, that is `k` for `k ≤ 255`;
and no call of `update()` emits more than one LONG_PRESS. -/
theorem long_press_repeat (tr : List Tick) (s : EventTouchScreen)
    (hd : s.dragEnabled = false) (hr : s.repeatLongPress = true) :
    longPressTiming true s.longClickDuration s.longPressInterval {} (runResults s tr) = true :=
  longPressTiming_run s.longClickDuration s.longPressInterval tr {} s hd hr rfl rfl
    (fun _ hp => by cases hp)

/-- A fresh engine, the finger held from 30 ms with a call of `update()`
every 15 ms, the release accepted at 1920 ms: LONG_PRESS is emitted at
795 ms, 1290 ms and 1785 ms, the first calls at which the press has lasted
more than 750, 1250 and 1750 ms, with `longPressCount()` 1, 2 and 3; the
observer accepts the trace, by `long_press_repeat`, and here also with the
count compared to `k` itself. -/
theorem long_press_repeat_witness :
    fresh.dragEnabled = false ∧ fresh.repeatLongPress = true
    ∧ runTimed fresh repeatHold
        = [(30, .PRESSED), (795, .LONG_PRESS), (1290, .LONG_PRESS), (1785, .LONG_PRESS),
           (1920, .RELEASED)]
    ∧ ((runInvoked fresh repeatHold).map fun x => longPressCount x.2) = [0, 1, 2, 3, 3]
    ∧ longPressTiming false 750 500 {} (runResults fresh repeatHold) = true
    ∧ longPressTiming true fresh.longClickDuration fresh.longPressInterval {}
        (runResults fresh repeatHold) = true :=
  ⟨rfl, rfl, by decide, by decide, by decide, long_press_repeat repeatHold fresh rfl rfl⟩

/-- Claim C33, the counterexample. A fresh engine after
`setLongPressInterval(0)` (dragging disabled, long-press repeat enabled,
every threshold 750), a press accepted at 30 ms with the counter at 0 and
held, `update()` called every 11 ms from 800 ms to 3605 ms, all below
65536 ms: every one of these 256 calls emits LONG_PRESS, and at the 256th
`longPressCount()` returns 0, not 256; the observer that compares the
count with `k` itself rejects the trace. -/
theorem long_press_count_wraps :
    exNoInterval.dragEnabled = false ∧ exNoInterval.repeatLongPress = true
    ∧ exNoInterval.longClickDuration = 750 ∧ exNoInterval.longPressInterval = 0
    ∧ (∀ k ∈ rapidHold, k.now < 65536)
    ∧ runEvents exNoInterval rapidHold = .PRESSED :: List.replicate 256 .LONG_PRESS
    ∧ ((runInvoked exNoInterval rapidHold).map fun x => longPressCount x.2).getLast? = some 0
    ∧ longPressTiming false 750 0 {} (runResults exNoInterval rapidHold) = false := by
  refine ⟨rfl, rfl, rfl, rfl, by decide!, by decide!, by decide!, by decide!⟩

/-! ## The long-press counter at a press -/

/-- A call of `update()` that emits PRESSED emits nothing else, leaves the
engine as the subscriber saw it, and has not assigned the long-press
counter. -/
theorem update_pressed_counter (s : EventTouchScreen) (now : Nat) (tp : TouchPoint_s)
    (h : InputEventType.PRESSED ∈ (update s now tp).events) :
    (update s now tp).events = [.PRESSED]
    ∧ (update s now tp).seen = [(update s now tp).st]
    ∧ (update s now tp).st.longPressCounter = s.longPressCounter := by
  have hp : processed s now = true := by
    by_contra hc
    have hc' : processed s now = false := by simpa using hc
    rw [update_not_processed s now tp hc'] at h
    cases h
  obtain ⟨hstep, hst⟩ := update_dragStep s now tp
  rcases hstep with ⟨h1, -⟩ | ⟨h1, h2, h3, h4, -⟩ | ⟨h1, -⟩ | ⟨h1, -⟩
  · exfalso
    rcases h1 with ⟨h1, -⟩ | ⟨e, x, h1, h2, -⟩
    · rw [h1] at h
      cases h
    · rw [h1, List.mem_singleton] at h
      rw [← h] at h2
      cases h2
  · have hs := hst h1
    have ht : s.touched = false := h3
    have hz : tp.z ≠ 0 := by
      have : (sampledView s tp (update s now tp).stable).touchPoint = tp := by
        simp only [sampledView, hs, if_true]
      rw [this] at h4
      exact h4
    rw [update_processed s now tp hp] at hs ⊢
    have hs' : (debounced { s with rateLimitCounter := now } now tp).stable = true := hs
    obtain ⟨-, e2⟩ := updateTick_press s now tp hs' ht hz
    have h2' := h2
    rw [update_processed s now tp hp] at h2' h1
    refine ⟨h1, h2', ?_⟩
    rw [e2]
    rfl
  · exfalso
    rcases h1 with h1 | h1 <;> rw [h1] at h <;> simp at h
  · exfalso
    rw [h1] at h
    simp at h

/-- The trace `pressAgain` on a fresh engine: the events with their times,
and what `longPressCount()` returns at each invocation. -/
theorem pressAgain_invoked :
    runTimed fresh pressAgain
      = [(30, .PRESSED), (795, .LONG_PRESS), (825, .RELEASED), (915, .PRESSED),
         (2175, .LONG_PRESS)]
    ∧ ((runInvoked fresh pressAgain).map fun x => longPressCount x.2) = [0, 1, 1, 1, 2] := by
  refine ⟨by decide!, by decide!⟩

/-- Claim C34. The press edge does not reset the long-press counter: a call
of `update()` that emits PRESSED emits only that, and at the invocation
and afterwards the long-press counter is what it was before the call. So
at a PRESSED the counter is 0 only if it was 0 before. -/
theorem pressed_keeps_long_press_counter (s : EventTouchScreen) (now : Nat) (tp : TouchPoint_s)
    (h : InputEventType.PRESSED ∈ (update s now tp).events) :
    (update s now tp).events = [.PRESSED]
    ∧ (update s now tp).seen = [(update s now tp).st]
    ∧ (update s now tp).st.longPressCounter = s.longPressCounter
    ∧ (((update s now tp).seen.map longPressCount) = [0] ↔ longPressCount s = 0) := by
  obtain ⟨h1, h2, h3⟩ := update_pressed_counter s now tp h
  refine ⟨h1, h2, h3, ?_⟩
  rw [h2]
  simp only [List.map_cons, List.map_nil, List.cons.injEq, and_true]
  unfold longPressCount
  rw [h3]

/-- A fresh engine, `update()` called every 15 ms: a press accepted at
30 ms emits LONG_PRESS at 795 ms, its release is accepted at 825 ms, and
the next press is accepted at 915 ms, before the click has been
classified: at this PRESSED `longPressCount()` returns 1, the count of the
press before, and the first LONG_PRESS of the new press comes 1260 ms into
it with `longPressCount()` 2. The same on the engine `exReleasedLong`, by
`pressed_keeps_long_press_counter`. -/
theorem pressed_keeps_long_press_counter_witness :
    runTimed fresh pressAgain
      = [(30, .PRESSED), (795, .LONG_PRESS), (825, .RELEASED), (915, .PRESSED),
         (2175, .LONG_PRESS)]
    ∧ ((runInvoked fresh pressAgain).map fun x => longPressCount x.2) = [0, 1, 1, 1, 2]
    ∧ longPressCount exReleasedLong = 1
    ∧ (update exReleasedLong 915 ⟨10, 10, 1⟩).events = [.PRESSED]
    ∧ (update exReleasedLong 915 ⟨10, 10, 1⟩).st.longPressCounter
        = exReleasedLong.longPressCounter
    ∧ ¬ ((update exReleasedLong 915 ⟨10, 10, 1⟩).seen.map longPressCount) = [0] :=
  have h := pressed_keeps_long_press_counter exReleasedLong 915 ⟨10, 10, 1⟩ (by decide)
  ⟨pressAgain_invoked.1, pressAgain_invoked.2, by decide, h.1, h.2.2.1,
    fun hc => absurd (h.2.2.2.1 hc) (by decide)⟩

end input_events
